import Mathlib

/-!
# NTFSKFC: the offline NTFS checker `ntfsck`

A shallow embedding of the bitmap engine (`libntfs/fsck.c`), the problem
engine (`libntfs/problem.c`) and parts of the pass driver (`src/ntfsck.c`).

Conventions of the embedding.

* `s64` values are `Int`, `u64` values are `Nat`; a conversion `s64 → u64`
  is `u64_of` and a store into a `u32` is `u32_of` (reduction modulo `2^32`).
* A bitmap page is a buffer of `NTFS_BUF_SIZE` bytes, `Page = Nat → Nat`
  (offset to byte).  An access outside `0 .. NTFS_BUF_SIZE-1`, and an access
  to a page-pointer array outside its length, is undefined behaviour in C; the
  operation that performs it returns `none`.
* `ntfs_calloc` is taken to succeed (the out-of-memory returns are not
  modelled).
-/

namespace NTFSKFC

/-! ## Constants and integer helpers -/

/-- Size of one fsck bitmap page in bytes (8 KiB). -/
def NTFS_BUF_SIZE : Nat := 8192

/-- `NTFS_BUF_SIZE_BITS` of `include/fsck.h`. -/
def NTFS_BUF_SIZE_BITS : Nat := 13

/-- `NTFSCK_BYTE_TO_BITS` of `include/fsck.h`. -/
def NTFSCK_BYTE_TO_BITS : Nat := 3

/-- Errno value `EINVAL`. -/
def EINVAL : Int := 22

/-- Status value `STATUS_OK`. -/
def STATUS_OK : Int := 0

/-- Status value `STATUS_ERROR`. -/
def STATUS_ERROR : Int := -1

/-- Arithmetic right shift of a signed value, the C `x >> n`. -/
def asr (x : Int) (n : Nat) : Int := Int.shiftRight x n

/-- Left shift of a signed value, the C `x << n` (no overflow modelled). -/
def shl (x : Int) (n : Nat) : Int := x * 2 ^ n

/-- Conversion of a signed 64-bit value to `u64`. -/
def u64_of (x : Int) : Nat := (x % 2 ^ 64).toNat

/-- Store of a value into a `u32` variable. -/
def u32_of (x : Int) : Nat := (x % 2 ^ 32).toNat

/-- A value brought into the range of `s64`: the result of an `s64` operation
that wraps around. -/
def s64_of (x : Int) : Int := (x + 2 ^ 63) % 2 ^ 64 - 2 ^ 63

/-- The macro `FB_ROUND_DOWN(x)`:
`(((x) & ~(NTFS_BUF_SIZE - 1)) >> NTFS_BUF_SIZE_BITS)`. -/
def FB_ROUND_DOWN (x : Int) : Int :=
  asr (Int.land x (~~~((NTFS_BUF_SIZE : Int) - 1))) NTFS_BUF_SIZE_BITS

/-! ## Bitmap pages -/

/-- One bitmap page: byte at each offset.  Only offsets below
`NTFS_BUF_SIZE` belong to the buffer. -/
abbrev Page := Nat → Nat

/-- A page as `ntfs_calloc(NTFS_BUF_SIZE)` returns it. -/
def zero_page : Page := fun _ => 0

/-- Bit `b` of a page (bit `b % 8` of byte `b / 8`). -/
def page_bit (p : Page) (b : Nat) : Bool := (p (b / 8)).testBit (b % 8)

/-- Modelled from the spec: `ntfs_bit_get` of `bitmap.h`, which is not among
the sources; it reads one bit of a bitmap,
`(bitmap[bit >> 3] >> (bit & 7)) & 1`. -/
def ntfs_bit_get (bitmap : Page) (bit : Nat) : Option Nat :=
  if bit >>> 3 < NTFS_BUF_SIZE then
    some ((bitmap (bit >>> 3) >>> (bit &&& 7)) &&& 1)
  else none

/-- Modelled from the spec: `ntfs_bit_set` of `bitmap.h`, which is not among
the sources; it clears the bit and then stores `new_value` there.  A value
other than 0 and 1 leaves the bitmap as it is. -/
def ntfs_bit_set (bitmap : Page) (bit : Nat) (new_value : Nat) : Option Page :=
  if 1 < new_value then some bitmap
  else if bit >>> 3 < NTFS_BUF_SIZE then
    if new_value = 0 then
      some (Function.update bitmap (bit >>> 3)
        ((bitmap (bit >>> 3) &&& (255 ^^^ (1 <<< (bit &&& 7)))) % 256))
    else
      some (Function.update bitmap (bit >>> 3)
        ((bitmap (bit >>> 3) ||| (1 <<< (bit &&& 7))) % 256))
  else none

/-- Modelled from the spec: `ntfs_bit_get_and_set` of `bitmap.h`, which is not
among the sources; test-and-set of one bit: it returns the old bit and flips
the stored bit when it differs from `new_value`.  A value other than 0 and 1
leaves the bitmap as it is and returns -1. -/
def ntfs_bit_get_and_set (bitmap : Page) (bit : Nat) (new_value : Nat) :
    Option (Int × Page) :=
  if 1 < new_value then some (-1, bitmap)
  else if bit >>> 3 < NTFS_BUF_SIZE then
    let shift := bit &&& 7
    let old_bit := (bitmap (bit >>> 3) >>> shift) &&& 1
    if new_value ≠ old_bit then
      some ((old_bit : Int),
        Function.update bitmap (bit >>> 3) ((bitmap (bit >>> 3) ^^^ (1 <<< shift)) % 256))
    else some ((old_bit : Int), bitmap)
  else none

/-! ## The volume -/

/-- Modelled from the spec: the mount flags (`ntfs_mount_flags` of `volume.h`,
which is not among the sources), each flag of the set on its own:
`NTFS_MNT_RDONLY`, `NTFS_MNT_FSCK`, `NTFS_MNT_IGNORE_HIBERFILE` and the repair
modes `NTFS_MNT_FS_AUTO_REPAIR`, `NTFS_MNT_FS_PREEN_REPAIR`,
`NTFS_MNT_FS_NO_REPAIR`, `NTFS_MNT_FS_ASK_REPAIR`, `NTFS_MNT_FS_YES_REPAIR`.
`flags & F` is the field, `flags |= F` sets it, `flags &= ~F` clears it. -/
structure MountFlags where
  rdonly : Bool
  fsck : Bool
  ignore_hiberfile : Bool
  auto_repair : Bool
  preen_repair : Bool
  no_repair : Bool
  ask_repair : Bool
  yes_repair : Bool
deriving DecidableEq, Repr

/-- The empty flag set `NTFS_MNT_NONE`. -/
def NTFS_MNT_NONE : MountFlags :=
  { rdonly := false, fsck := false, ignore_hiberfile := false, auto_repair := false,
    preen_repair := false, no_repair := false, ask_repair := false, yes_repair := false }

/-- The part of `ntfs_volume` the checker's bitmap engine uses. -/
structure Volume where
  /-- Number of clusters of the volume. -/
  nr_clusters : Int
  /-- Length of the array `fsck_lcn_bitmap`. -/
  max_flb_cnt : Nat
  /-- Pages of the fsck cluster bitmap (FCB); `none` is a NULL pointer. -/
  fsck_lcn_bitmap : Nat → Option Page
  /-- Length of the array `fsck_mft_bitmap`. -/
  max_fmb_cnt : Nat
  /-- Pages of the fsck MFT bitmap (FMB); `none` is a NULL pointer. -/
  fsck_mft_bitmap : Nat → Option Page
  /-- Mount flags the volume was opened with. -/
  option_flags : MountFlags

/-- Value of cluster `c` in the FCB: 0 when its page was never allocated. -/
def fcb_bit (vol : Volume) (c : Nat) : Bool :=
  match vol.fsck_lcn_bitmap (c / 65536) with
  | none => false
  | some p => page_bit p (c % 65536)

/-! ## FMB: `ntfs_fsck_set_mftbmp_value`, `ntfs_fsck_mftbmp_get` -/

/-- `ntfs_fsck_set_mftbmp_value` (fsck.c:59). -/
def ntfs_fsck_set_mftbmp_value (vol : Volume) (mft_no : Nat) (value : Nat) :
    Option (Int × Volume) :=
  let bm_i : Nat := u32_of (FB_ROUND_DOWN ((mft_no >>> NTFSCK_BYTE_TO_BITS : Nat) : Int))
  let bm_pos : Int := shl (bm_i : Int) (NTFS_BUF_SIZE_BITS + NTFSCK_BYTE_TO_BITS)
  let mft_diff : Int := (mft_no : Int) - bm_pos
  if bm_i ≥ vol.max_fmb_cnt then some (-EINVAL, vol)
  else
    let page : Page :=
      match vol.fsck_mft_bitmap bm_i with
      | none => zero_page
      | some p => p
    match ntfs_bit_set page (u64_of mft_diff) value with
    | none => none
    | some page' =>
      some (0, { vol with fsck_mft_bitmap := Function.update vol.fsck_mft_bitmap bm_i (some page') })

/-- `ntfs_fsck_mftbmp_get` (fsck.c:82). -/
def ntfs_fsck_mftbmp_get (vol : Volume) (mft_no : Nat) : Option Nat :=
  let bm_i : Nat := u32_of (FB_ROUND_DOWN ((mft_no >>> NTFSCK_BYTE_TO_BITS : Nat) : Int))
  let bm_pos : Int := shl (bm_i : Int) (NTFS_BUF_SIZE_BITS + NTFSCK_BYTE_TO_BITS)
  if bm_i ≥ vol.max_fmb_cnt then some 0
  else
    match vol.fsck_mft_bitmap bm_i with
    | none => some 0
    | some p => ntfs_bit_get p (u64_of ((mft_no : Int) - bm_pos))

/-- `ntfs_fsck_mftbmp_clear` (fsck.c:94). -/
def ntfs_fsck_mftbmp_clear (vol : Volume) (mft_no : Nat) : Option (Int × Volume) :=
  ntfs_fsck_set_mftbmp_value vol mft_no 0

/-- `ntfs_fsck_mftbmp_set` (fsck.c:100). -/
def ntfs_fsck_mftbmp_set (vol : Volume) (mft_no : Nat) : Option (Int × Volume) :=
  ntfs_fsck_set_mftbmp_value vol mft_no 1

/-- `ntfs_fsck_mount` (fsck.c:484): the fsck fields set up after `ntfs_mount`
has produced the volume geometry (`nr_clusters`, the initialized size of
`$MFT` and the MFT record size); both page arrays start all NULL. -/
def ntfs_fsck_mount (nr_clusters mft_initialized_size : Int) (mft_record_size_bits : Nat)
    (flags : MountFlags) : Volume :=
  { nr_clusters := nr_clusters
    max_flb_cnt := u64_of (FB_ROUND_DOWN (asr (nr_clusters - 1) NTFSCK_BYTE_TO_BITS) + 1)
    fsck_lcn_bitmap := fun _ => none
    max_fmb_cnt :=
      u64_of (FB_ROUND_DOWN (asr (asr mft_initialized_size mft_record_size_bits)
        NTFSCK_BYTE_TO_BITS) + 1)
    fsck_mft_bitmap := fun _ => none
    option_flags := flags }

/-- A run of FMB updates one after the other: `(true, m)` is
`ntfs_fsck_mftbmp_set m` and `(false, m)` is `ntfs_fsck_mftbmp_clear m`. -/
def fmb_run : List (Bool × Nat) → Volume → Option Volume
  | [], vol => some vol
  | (true, m) :: rest, vol =>
    match ntfs_fsck_mftbmp_set vol m with
    | none => none
    | some (_, vol') => fmb_run rest vol'
  | (false, m) :: rest, vol =>
    match ntfs_fsck_mftbmp_clear vol m with
    | none => none
    | some (_, vol') => fmb_run rest vol'

/-! ## FCB: `ntfs_fsck_set_lcnbmp_range` -/

/-- Read of the pointer `vol->fsck_lcn_bitmap[idx]`; `none` when `idx` is
outside the array of `max_flb_cnt` pointers. -/
def lcn_bitmap_at (vol : Volume) (idx : Int) : Option (Option Page) :=
  if 0 ≤ idx ∧ idx < (vol.max_flb_cnt : Int) then some (vol.fsck_lcn_bitmap idx.toNat)
  else none

/-- The volume after the buffer of FCB page `idx` has become `p`. -/
def set_lcn_page (vol : Volume) (idx : Int) (p : Page) : Volume :=
  { vol with fsck_lcn_bitmap := Function.update vol.fsck_lcn_bitmap idx.toNat (some p) }

/-- Inner loop of `ntfs_fsck_set_lcnbmp_range` (fsck.c:338),
`for (i = 0; i < rel_length; i++) ntfs_bit_get_and_set(buf, rel_slcn + i, bit)`,
with `n` iterations left from index `i`. -/
def set_lcnbmp_bits (rel_slcn : Int) (bit : Nat) : Nat → Int → Page → Option Page
  | 0, _, buf => some buf
  | n + 1, i, buf =>
    match ntfs_bit_get_and_set buf (u64_of (rel_slcn + i)) bit with
    | none => none
    | some (_, buf') => set_lcnbmp_bits rel_slcn bit n (i + 1) buf'

/-- Page loop of `ntfs_fsck_set_lcnbmp_range` (fsck.c:321),
`for (idx = s_idx; idx <= e_idx; idx++)`, with `n = e_idx - idx + 1` iterations
left. -/
def set_lcnbmp_pages (bit : Nat) : Nat → Int → Int → Int → Volume → Option (Int × Volume)
  | 0, _, _, _, vol => some (0, vol)
  | n + 1, idx, rel_slcn, remain_length, vol =>
    match lcn_bitmap_at vol idx with
    | none => none
    | some slot =>
      let buf : Page :=
        match slot with
        | none => zero_page
        | some p => p
      let idx_slcn := shl idx (NTFS_BUF_SIZE_BITS + NTFSCK_BYTE_TO_BITS)
      let rel_slcn := if rel_slcn ≠ 0 then rel_slcn - idx_slcn else rel_slcn
      let rel_length0 := shl 1 (NTFS_BUF_SIZE_BITS + NTFSCK_BYTE_TO_BITS) - rel_slcn
      let rel_length := if remain_length < rel_length0 then remain_length else rel_length0
      match set_lcnbmp_bits rel_slcn bit rel_length.toNat 0 buf with
      | none => none
      | some buf' =>
        let vol' := set_lcn_page vol idx buf'
        let remain_length := remain_length - rel_length
        if remain_length ≤ 0 then some (0, vol')
        else set_lcnbmp_pages bit n (idx + 1) 0 remain_length vol'

/-- `ntfs_fsck_set_lcnbmp_range` (fsck.c:299). -/
def ntfs_fsck_set_lcnbmp_range (vol : Volume) (lcn length : Int) (bit : Nat) :
    Option (Int × Volume) :=
  let last_lcn := lcn + length - 1
  let s_idx := FB_ROUND_DOWN (asr lcn NTFSCK_BYTE_TO_BITS)
  let e_idx := FB_ROUND_DOWN (asr last_lcn NTFSCK_BYTE_TO_BITS)
  if length ≤ 0 then some (-EINVAL, vol)
  else set_lcnbmp_pages bit (e_idx - s_idx + 1).toNat s_idx lcn length vol

/-! ## FCB and FMB pages for the comparison with the disk -/

/-- The C `memset(buf + off, c, n)` on a page; `n` is a `size_t`. -/
def memset (buf : Page) (off : Int) (c : Nat) (n : Int) : Option Page :=
  if 0 ≤ off ∧ 0 ≤ n ∧ off + n ≤ (NTFS_BUF_SIZE : Int) then
    some (fun o => if off ≤ (o : Int) ∧ (o : Int) < off + n then c else buf o)
  else none

/-- `ntfs_fsck_fill_unused_lcnbmp` (fsck.c:260). -/
def ntfs_fsck_fill_unused_lcnbmp (vol : Volume) (last_idx : Int) (last_bm : Page) :
    Option Page :=
  let start_pos := last_idx * (NTFS_BUF_SIZE : Int)
  let last_bit_offset := vol.nr_clusters - shl start_pos 3
  let last_byte_offset := asr last_bit_offset 3
  let filled : Option Page :=
    if last_byte_offset + 1 < (NTFS_BUF_SIZE : Int) then
      memset last_bm (last_byte_offset + 1) 0xff ((NTFS_BUF_SIZE : Int) - (last_byte_offset + 1))
    else some last_bm
  match filled with
  | none => none
  | some bm =>
    let last_bit := last_bit_offset - shl last_byte_offset 3
    if 0 ≤ last_byte_offset ∧ last_byte_offset < (NTFS_BUF_SIZE : Int) then
      some (Function.update bm last_byte_offset.toNat
        ((bm last_byte_offset.toNat ||| (0xff <<< last_bit.toNat)) % 256))
    else none

/-- `ntfs_fsck_find_lcnbmp_block` (fsck.c:126); the result is the page and the
volume, whose last FCB page the call may have filled. -/
def ntfs_fsck_find_lcnbmp_block (vol : Volume) (pos : Int) : Option (Page × Volume) :=
  let bm_i : Nat := u32_of (FB_ROUND_DOWN pos)
  let last_idx : Nat := u32_of (FB_ROUND_DOWN (asr (vol.nr_clusters - 1) NTFSCK_BYTE_TO_BITS))
  let slot : Option Page := if bm_i ≥ vol.max_flb_cnt then none else vol.fsck_lcn_bitmap bm_i
  match slot with
  | none =>
    if bm_i = last_idx then
      match ntfs_fsck_fill_unused_lcnbmp vol (last_idx : Int) zero_page with
      | none => none
      | some bm => some (bm, vol)
    else some (zero_page, vol)
  | some p =>
    if bm_i = last_idx then
      match ntfs_fsck_fill_unused_lcnbmp vol (last_idx : Int) p with
      | none => none
      | some bm => some (bm, set_lcn_page vol (bm_i : Int) bm)
    else some (p, vol)

/-- `ntfs_fsck_find_mftbmp_block` (fsck.c:105). -/
def ntfs_fsck_find_mftbmp_block (vol : Volume) (pos : Int) : Option (Page × Volume) :=
  let bm_i : Nat := u32_of (FB_ROUND_DOWN pos)
  let slot : Option Page := if bm_i ≥ vol.max_fmb_cnt then none else vol.fsck_mft_bitmap bm_i
  match slot with
  | none => some (zero_page, vol)
  | some p => some (p, vol)

/-! ## FCB: `ntfs_fsck_check_and_set_lcnbmp` -/

/-- One element `(vcn, lcn, length)` of a runlist. -/
structure runlist_element where
  vcn : Int
  lcn : Int
  length : Int
deriving DecidableEq, Repr

/-- LCN code of a sparse run. -/
def LCN_HOLE : Int := -1

/-- LCN code of a run that is not mapped yet. -/
def LCN_RL_NOT_MAPPED : Int := -2

/-- LCN code of the runlist terminator. -/
def LCN_ENOENT : Int := -3

/-- The part of `ntfs_attr` the bitmap engine reads: the attribute type and the
decoded runlist `na->rl` (an array; `none` is NULL). -/
structure ntfs_attr where
  type : Nat
  rl : Option (List runlist_element)

/-- The loop `for (i = 0; rl[i].length; i++) ;`: the number of elements in
front of the first element of length 0.  A duplicate runlist lives in the
zero-filled 4 KiB block `ntfs_fsck_make_dup_runlist` allocates, so the memory
behind the elements written so far reads as an element of length 0. -/
def rl_count : List runlist_element → Nat
  | [] => 0
  | e :: rest => if e.length ≠ 0 then rl_count rest + 1 else 0

/-- The elements of a runlist in front of its terminator. -/
def rl_entries (rl : List runlist_element) : List runlist_element := rl.take (rl_count rl)

/-- The elements of a duplicate runlist that may be NULL. -/
def dup_entries : Option (List runlist_element) → List runlist_element
  | none => []
  | some rl => rl_entries rl

/-- Modelled from the spec: `ntfs_rl_replace` of `runlist.c`, which is not among
the sources.  It puts the `ssize` elements of `src` in the place of element
`loc` of the `dsize` elements of `dst`; the spec says of the duplicate runlist
that the collisions are accumulated in it, and the caller logs the result as
the appended runlist.  A coalescing of adjacent extents is not modelled. -/
def ntfs_rl_replace (dst : List runlist_element) (dsize : Nat) (src : List runlist_element)
    (ssize : Nat) (loc : Nat) : List runlist_element :=
  dst.take loc ++ src.take ssize ++ (dst.take dsize).drop (loc + 1)

/-- The number of runlist elements (of 24 bytes) that lie inside the block of
`(2 + 0xfff) & ~0xfff = 4096` bytes which `ntfs_fsck_make_dup_runlist`
allocates for a duplicate runlist (fsck.c:233). -/
def DUP_RL_SLOTS : Nat := 170

/-- `ntfs_fsck_make_dup_runlist` (fsck.c:221); the result is never NULL.  The
block of 4096 bytes of the first call is the block of every later call:
`ntfs_rl_replace` puts one element in the place of one element and is handed
no larger size.  The loop `for (i = 0; orig_dup_rl[i].length; i++)` ends at
the first element of length 0; when the `DUP_RL_SLOTS` elements of the block
all have a length other than 0 it reads `orig_dup_rl[170].length` behind the
block, and `ntfs_rl_replace` then writes there: that is the result `none`. -/
def ntfs_fsck_make_dup_runlist (orig_dup_rl : Option (List runlist_element))
    (new_dup_rl : runlist_element) : Option (List runlist_element) :=
  match orig_dup_rl with
  | none =>
    some
      [ { vcn := new_dup_rl.vcn, lcn := new_dup_rl.lcn, length := new_dup_rl.length },
        { vcn := new_dup_rl.vcn + new_dup_rl.length, lcn := LCN_ENOENT, length := 0 } ]
  | some orig =>
    if rl_count orig < DUP_RL_SLOTS then
      let orig_size := rl_count orig + 1
      some (ntfs_rl_replace orig orig_size [new_dup_rl] 1 (orig_size - 1))
    else none

/-- The runlist `ntfs_fsck_make_dup_runlist` returns when it stays inside the
block. -/
def dup_rl_append (orig_dup_rl : Option (List runlist_element))
    (new_dup_rl : runlist_element) : List runlist_element :=
  match orig_dup_rl with
  | none =>
    [ { vcn := new_dup_rl.vcn, lcn := new_dup_rl.lcn, length := new_dup_rl.length },
      { vcn := new_dup_rl.vcn + new_dup_rl.length, lcn := LCN_ENOENT, length := 0 } ]
  | some orig =>
    ntfs_rl_replace orig (rl_count orig + 1) [new_dup_rl] 1 (rl_count orig)

/-- The number of elements in use of a duplicate runlist that may be NULL. -/
def dup_len : Option (List runlist_element) → Nat
  | none => 0
  | some rl => rl_count rl

/-- How a run of the bitmap engine ends when it has made no access outside the
FCB pages: with its result, or in `ntfs_fsck_make_dup_runlist` behind the block
of the duplicate runlist. -/
inductive Run (α : Type) where
  | done (a : α)
  | dup_overrun

/-- Inner loop of `ntfs_fsck_check_and_set_lcnbmp` (fsck.c:425) with `n`
iterations left from index `i`; the state is the page, `tmp_rl[0]` and
`dup_rl`.  `TRUNCATE_DATA` is not defined. -/
def check_lcnbmp_bits (bit : Nat) (vcn checked_vcn idx_slcn rel_slcn : Int) :
    Nat → Int → Page → runlist_element → Option (List runlist_element) →
      Option (Run (Page × runlist_element × Option (List runlist_element)))
  | 0, _, buf, tmp, dup_rl => some (Run.done (buf, tmp, dup_rl))
  | n + 1, i, buf, tmp, dup_rl =>
    match ntfs_bit_get_and_set buf (u64_of (rel_slcn + i)) bit with
    | none => none
    | some (old, buf') =>
      if old = 0 then
        check_lcnbmp_bits bit vcn checked_vcn idx_slcn rel_slcn n (i + 1) buf' tmp dup_rl
      else if bit = 0 then
        check_lcnbmp_bits bit vcn checked_vcn idx_slcn rel_slcn n (i + 1) buf' tmp dup_rl
      else if tmp.lcn = -1 then
        check_lcnbmp_bits bit vcn checked_vcn idx_slcn rel_slcn n (i + 1) buf'
          { vcn := vcn + checked_vcn + i, lcn := idx_slcn + rel_slcn + i, length := 1 } dup_rl
      else if tmp.lcn + tmp.length = idx_slcn + rel_slcn + i then
        check_lcnbmp_bits bit vcn checked_vcn idx_slcn rel_slcn n (i + 1) buf'
          { tmp with length := tmp.length + 1 } dup_rl
      else
        match ntfs_fsck_make_dup_runlist dup_rl tmp with
        | none => some Run.dup_overrun
        | some dup_rl' =>
          check_lcnbmp_bits bit vcn checked_vcn idx_slcn rel_slcn n (i + 1) buf'
            { vcn := vcn + checked_vcn + i, lcn := idx_slcn + rel_slcn + i, length := 1 }
            (some dup_rl')

/-- Page loop of `ntfs_fsck_check_and_set_lcnbmp` (fsck.c:405) with
`n = e_idx - idx + 1` iterations left. -/
def check_lcnbmp_pages (bit : Nat) (vcn : Int) :
    Nat → Int → Int → Int → Int → Volume → runlist_element → Option (List runlist_element) →
      Option (Run (Volume × runlist_element × Option (List runlist_element)))
  | 0, _, _, _, _, vol, tmp, dup_rl => some (Run.done (vol, tmp, dup_rl))
  | n + 1, idx, rel_slcn, remain_length, checked_vcn, vol, tmp, dup_rl =>
    match lcn_bitmap_at vol idx with
    | none => none
    | some slot =>
      let buf : Page :=
        match slot with
        | none => zero_page
        | some p => p
      let idx_slcn := shl idx (NTFS_BUF_SIZE_BITS + NTFSCK_BYTE_TO_BITS)
      let rel_slcn := if rel_slcn ≠ 0 then rel_slcn - idx_slcn else rel_slcn
      let rel_length0 := shl 1 (NTFS_BUF_SIZE_BITS + NTFSCK_BYTE_TO_BITS) - rel_slcn
      let rel_length := if remain_length < rel_length0 then remain_length else rel_length0
      match check_lcnbmp_bits bit vcn checked_vcn idx_slcn rel_slcn rel_length.toNat 0 buf
          tmp dup_rl with
      | none => none
      | some Run.dup_overrun => some Run.dup_overrun
      | some (Run.done (buf', tmp', dup_rl')) =>
        let vol' := set_lcn_page vol idx buf'
        let remain_length := remain_length - rel_length
        let checked_vcn := checked_vcn + rel_length
        if remain_length ≤ 0 then some (Run.done (vol', tmp', dup_rl'))
        else check_lcnbmp_pages bit vcn n (idx + 1) 0 remain_length checked_vcn vol' tmp' dup_rl'

/-- `ntfs_fsck_check_and_set_lcnbmp` (fsck.c:362); the result is the returned
duplicate runlist (`none` is NULL) and the volume.  The result `none` is an
access outside the array of FCB pages or outside a page.  `last_lcn` is an
`s64`: for an entry that reaches `2^63` the sum wraps. -/
def ntfs_fsck_check_and_set_lcnbmp (vol : Volume) (na : Option ntfs_attr) (rl_idx : Int)
    (bit : Nat) (dup_rl : Option (List runlist_element)) :
    Option (Run (Option (List runlist_element) × Volume)) :=
  match na with
  | none => some (Run.done (none, vol))
  | some attr =>
    match attr.rl with
    | none => some (Run.done (none, vol))
    | some rl =>
      if rl_idx < 0 then some (Run.done (none, vol))
      else
        match rl.get? rl_idx.toNat with
        | none => none
        | some e =>
          let lcn := e.lcn
          let vcn := e.vcn
          let length := e.length
          if length ≤ 0 then some (Run.done (none, vol))
          else
            let last_lcn := s64_of (lcn + length - 1)
            let s_idx := FB_ROUND_DOWN (asr lcn NTFSCK_BYTE_TO_BITS)
            let e_idx := FB_ROUND_DOWN (asr last_lcn NTFSCK_BYTE_TO_BITS)
            match check_lcnbmp_pages bit vcn (e_idx - s_idx + 1).toNat s_idx lcn length 0 vol
                { vcn := 0, lcn := -1, length := 0 } dup_rl with
            | none => none
            | some Run.dup_overrun => some Run.dup_overrun
            | some (Run.done (vol', tmp, dup_rl')) =>
              if tmp.lcn ≥ 0 then
                match ntfs_fsck_make_dup_runlist dup_rl' tmp with
                | none => some Run.dup_overrun
                | some dup_rl'' => some (Run.done (some dup_rl'', vol'))
              else some (Run.done (dup_rl', vol'))

/-- What one colliding cluster `c` does to `tmp_rl[0]` and `dup_rl` when the
runlist entry scanned is `(vcn, lcn, _)` and the block of the duplicate runlist
has room. -/
def dup_step (vcn lcn : Int) (st : runlist_element × Option (List runlist_element)) (c : Int) :
    runlist_element × Option (List runlist_element) :=
  if st.1.lcn = -1 then ({ vcn := vcn + (c - lcn), lcn := c, length := 1 }, st.2)
  else if st.1.lcn + st.1.length = c then ({ st.1 with length := st.1.length + 1 }, st.2)
  else ({ vcn := vcn + (c - lcn), lcn := c, length := 1 },
    some (dup_rl_append st.2 st.1))

/-- The scan of `n` clusters from cluster `c` on, `old` telling which clusters
collide. -/
def dup_scan (vcn lcn : Int) (old : Nat → Bool) :
    Nat → Nat → runlist_element × Option (List runlist_element) →
      runlist_element × Option (List runlist_element)
  | 0, _, st => st
  | n + 1, c, st =>
    dup_scan vcn lcn old n (c + 1) (if old c then dup_step vcn lcn st (c : Int) else st)

/-- The runlist element `e` describes a maximal contiguous group of colliding
clusters of the entry `(vcn, lcn, length)`: it lies inside the entry, keeps the
entry's offset between vcn and lcn, every cluster of it collides (`old`), and
the clusters next to it on either side, when they belong to the entry, do
not. -/
def is_dup_group (old : Nat → Bool) (vcn lcn length : Int) (e : runlist_element) : Prop :=
  0 < e.length ∧ lcn ≤ e.lcn ∧ e.lcn + e.length ≤ lcn + length ∧
  e.vcn - vcn = e.lcn - lcn ∧
  (∀ c : Nat, e.lcn ≤ (c : Int) → (c : Int) < e.lcn + e.length → old c = true) ∧
  (e.lcn = lcn ∨ ∀ c : Nat, (c : Int) = e.lcn - 1 → old c = false) ∧
  (e.lcn + e.length = lcn + length ∨ ∀ c : Nat, (c : Int) = e.lcn + e.length → old c = false)

/-- A group of colliding clusters that the scan, now at cluster `cur`, has
closed: `is_dup_group` with the group ending in front of `cur - 1`. -/
def dup_closed (old : Nat → Bool) (vcn lcn : Int) (cur : Nat) (e : runlist_element) : Prop :=
  0 < e.length ∧ lcn ≤ e.lcn ∧ e.lcn + e.length < (cur : Int) ∧
  e.vcn - vcn = e.lcn - lcn ∧
  (∀ c : Nat, e.lcn ≤ (c : Int) → (c : Int) < e.lcn + e.length → old c = true) ∧
  (e.lcn = lcn ∨ ∀ c : Nat, (c : Int) = e.lcn - 1 → old c = false) ∧
  (∀ c : Nat, (c : Int) = e.lcn + e.length → old c = false)

/-- The group held in `tmp_rl[0]` while the scan is at cluster `cur`: no
colliding cluster lies between its end and `cur`. -/
def dup_open (old : Nat → Bool) (vcn lcn : Int) (cur : Nat) (e : runlist_element) : Prop :=
  0 < e.length ∧ lcn ≤ e.lcn ∧ e.lcn + e.length ≤ (cur : Int) ∧
  e.vcn - vcn = e.lcn - lcn ∧
  (∀ c : Nat, e.lcn ≤ (c : Int) → (c : Int) < e.lcn + e.length → old c = true) ∧
  (e.lcn = lcn ∨ ∀ c : Nat, (c : Int) = e.lcn - 1 → old c = false) ∧
  (∀ c : Nat, e.lcn + e.length ≤ (c : Int) → c < cur → old c = false)

/-- Invariant of the scan at cluster `cur`: `G` are the groups appended to the
duplicate runlist so far. -/
def dup_inv (old : Nat → Bool) (vcn lcn : Int) (dup_in : Option (List runlist_element))
    (cur : Nat) (st : runlist_element × Option (List runlist_element))
    (G : List runlist_element) : Prop :=
  st.2 = G.foldl (fun d e => some (dup_rl_append d e)) dup_in ∧
  List.Pairwise (fun e1 e2 => e1.lcn + e1.length < e2.lcn) G ∧
  (∀ e ∈ G, dup_closed old vcn lcn cur e) ∧
  (st.1.lcn = -1 → G = [] ∧ ∀ c : Nat, lcn ≤ (c : Int) → c < cur → old c = false) ∧
  (st.1.lcn ≠ -1 → dup_open old vcn lcn cur st.1 ∧ ∀ e ∈ G, e.lcn + e.length < st.1.lcn) ∧
  (∀ c : Nat, lcn ≤ (c : Int) → c < cur → old c = true →
    (∃ e ∈ G, e.lcn ≤ (c : Int) ∧ (c : Int) < e.lcn + e.length) ∨
    (st.1.lcn ≠ -1 ∧ st.1.lcn ≤ (c : Int) ∧ (c : Int) < st.1.lcn + st.1.length))

/-- The number of iterations `e_idx - s_idx + 1` of the page loop of
`ntfs_fsck_check_and_set_lcnbmp` for the clusters `lcn .. lcn+length-1`, with
`last_lcn` an `s64`. -/
def engine_pages (lcn length : Int) : Nat :=
  (FB_ROUND_DOWN (asr (s64_of (lcn + length - 1)) NTFSCK_BYTE_TO_BITS) -
    FB_ROUND_DOWN (asr lcn NTFSCK_BYTE_TO_BITS) + 1).toNat

/-- The clusters `ntfs_fsck_check_and_set_lcnbmp` visits for a runlist entry
`(lcn, length)`: the clusters `lcn .. lcn+length-1` that lie on one of the
`engine_pages` pages the page loop comes to.  For an entry that ends below
`2^63` these are all the clusters of the entry. -/
def engine_cover (lcn length : Int) (c : Nat) : Bool :=
  decide (lcn ≤ (c : Int) ∧ (c : Int) < lcn + length ∧
    (c : Int) / 65536 < lcn / 65536 + (engine_pages lcn length : Int))

/-- A condition under which `ntfs_fsck_check_and_set_lcnbmp` comes to its end on
the entry `(lcn, length)`, on a volume with `pages` FCB pages and with `k`
elements in the duplicate runlist: the length is not positive, or the pages of
the entry exist, the entry ends at or below `2^63`, and the block of the
duplicate runlist has room for one element per cluster. -/
def engine_ok (pages k : Nat) (lcn length : Int) : Bool :=
  decide (length ≤ 0 ∨ ((lcn + length - 1) / 65536 < (pages : Int) ∧ lcn + length ≤ 2 ^ 63 ∧
    (k : Int) + length < (DUP_RL_SLOTS : Int)))

/-! ## Pass 5: `ntfsck_apply_bitmap` -/

/-- `FSCK_BMP_INITIAL` of `include/fsck.h`. -/
def FSCK_BMP_INITIAL : Int := 1

/-- `FSCK_BMP_FINAL` of `include/fsck.h`. -/
def FSCK_BMP_FINAL : Int := 0

/-- A bitmap attribute on the disk (`$Bitmap` of the volume, `$BITMAP` of
`$MFT`): its `data_size` and its bytes. -/
structure BitmapAttr where
  data_size : Int
  bytes : Nat → Nat

/-- The error counters of the run. -/
structure Counters where
  fsck_errors : Int
  fsck_fixes : Int

/-- Modelled from the spec: `fsck_err_found` (not among the sources) counts one
more error found. -/
def fsck_err_found (c : Counters) : Counters := { c with fsck_errors := c.fsck_errors + 1 }

/-- Modelled from the spec: `fsck_err_fixed` (not among the sources) counts one
more error fixed (`Fixed` problems are counted in `fsck_fixes`). -/
def fsck_err_fixed (c : Counters) : Counters := { c with fsck_fixes := c.fsck_fixes + 1 }

/-- What the collaborators answer during one `ntfsck_apply_bitmap`, by the byte
position of the chunk: whether `ntfs_attr_pread` delivers the chunk, what
`ntfs_fix_problem(PR_CLUSTER_BITMAP_MISMATCH)` returns, and whether
`ntfs_attr_pwrite` writes the chunk. -/
structure ApplyEnv where
  read_ok : Int → Bool
  fix : Int → Bool
  write_ok : Int → Bool

/-- The buffer `disk_bm` after `memset(disk_bm, 0, NTFS_BUF_SIZE)` and a read of
`count` bytes from position `pos` of the attribute. -/
def read_chunk (attr : BitmapAttr) (pos count : Int) : Page :=
  fun o => if (o : Int) < count then attr.bytes (pos + (o : Int)).toNat else 0

/-- The attribute after `ntfs_attr_pwrite(na, pos, count, buf)` has written
`count` bytes. -/
def write_chunk (attr : BitmapAttr) (pos count : Int) (buf : Page) : BitmapAttr :=
  { attr with bytes := fun o =>
      if pos ≤ (o : Int) ∧ (o : Int) < pos + count then buf ((o : Int) - pos).toNat
      else attr.bytes o }

/-- The test `memcmp(fsck_bm, disk_bm, count) != 0`. -/
def bytes_differ (fsck_bm disk_bm : Page) (count : Nat) : Bool :=
  (List.range count).any (fun o => fsck_bm o != disk_bm o)

/-- `sizeof(unsigned long)` (LP64). -/
def SIZEOF_ULONG : Nat := 8

/-- The test `*dbml != *fbml` on the `unsigned long` number `i` of both
buffers. -/
def word_differs (disk_bm fsck_bm : Page) (i : Nat) : Bool :=
  (List.range SIZEOF_ULONG).any
    (fun k => disk_bm (SIZEOF_ULONG * i + k) != fsck_bm (SIZEOF_ULONG * i + k))

/-- The store `*dbml |= *fbml` on the `unsigned long` number `i`. -/
def or_word (disk_bm fsck_bm : Page) (i : Nat) : Page :=
  fun o => if o / SIZEOF_ULONG = i then disk_bm o ||| fsck_bm o else disk_bm o

/-- The loop `for (i = 0; i < (count / sizeof(unsigned long)); i++)` of
`ntfsck_apply_bitmap` (ntfsck.c:4311) with `n` iterations left from `i`. -/
def or_words (fsck_bm : Page) : Nat → Nat → Page → Page
  | 0, _, disk_bm => disk_bm
  | n + 1, i, disk_bm =>
    or_words fsck_bm n (i + 1)
      (if word_differs disk_bm fsck_bm i then or_word disk_bm fsck_bm i else disk_bm)

/-- The loop `while (1)` of `ntfsck_apply_bitmap` (ntfsck.c:4297).  `fuel`
bounds the number of rounds; `none` stands for undefined behaviour (a page
finder that leaves its page, a negative `memcmp` size, an unset `wcnt`) and for
a loop that has not ended within `fuel` rounds. -/
def apply_bitmap_loop (func : Volume → Int → Option (Page × Volume)) (wtype : Int)
    (env : ApplyEnv) :
    Nat → Int → Int → Int → Volume → BitmapAttr → Counters →
      Option (Int × Volume × BitmapAttr × Counters)
  | 0, _, _, _, _, _, _ => none
  | fuel + 1, pos, count, remain, vol, attr, ctr =>
    if ¬ env.read_ok pos then some (STATUS_OK, vol, attr, ctr)
    else if count < 0 then none
    else
      let disk_bm := read_chunk attr pos count
      match func vol pos with
      | none => none
      | some (fsck_bm, vol1) =>
        let next (attr1 : BitmapAttr) (ctr1 : Counters) :
            Option (Int × Volume × BitmapAttr × Counters) :=
          let pos1 := pos + count
          let remain1 := remain - count
          let count1 :=
            if remain1 ≠ 0 ∧ remain1 < (NTFS_BUF_SIZE : Int) then remain1 else count
          if remain1 = 0 then some (STATUS_OK, vol1, attr1, ctr1)
          else apply_bitmap_loop func wtype env fuel pos1 count1 remain1 vol1 attr1 ctr1
        if ¬ bytes_differ fsck_bm disk_bm count.toNat then next attr ctr
        else
          let disk_bm1 := or_words fsck_bm (count.toNat / SIZEOF_ULONG) 0 disk_bm
          let ctr1 := if wtype = FSCK_BMP_FINAL then fsck_err_found ctr else ctr
          if env.fix pos then
            if wtype = FSCK_BMP_INITIAL then
              if env.write_ok pos then next (write_chunk attr pos count disk_bm1) ctr1
              else some (STATUS_ERROR, vol1, attr, ctr1)
            else if wtype = FSCK_BMP_FINAL then
              if env.write_ok pos then
                next (write_chunk attr pos count fsck_bm) (fsck_err_fixed ctr1)
              else some (STATUS_ERROR, vol1, attr, fsck_err_fixed ctr1)
            else none
          else next attr ctr1

/-- `ntfsck_apply_bitmap` (ntfsck.c:4271).  `na_is_bitmap` is the outcome of the
test that `na` is `vol->lcnbmp_na` or `vol->mftbmp_na`. -/
def ntfsck_apply_bitmap (func : Volume → Int → Option (Page × Volume)) (wtype : Int)
    (env : ApplyEnv) (na_is_bitmap : Bool) (vol : Volume) (attr : BitmapAttr) (ctr : Counters) :
    Option (Int × Volume × BitmapAttr × Counters) :=
  if ¬ na_is_bitmap then some (STATUS_ERROR, vol, attr, ctr)
  else
    let total := attr.data_size
    let count := if total < (NTFS_BUF_SIZE : Int) then total else (NTFS_BUF_SIZE : Int)
    apply_bitmap_loop func wtype env (total / (NTFS_BUF_SIZE : Int) + 1).toNat 0 count total
      vol attr ctr

/-- A volume whose FMB holds MFT number 64 only, as after
`ntfs_fsck_mftbmp_set(vol, 64)` on a fresh mount with one FMB page: byte 8 of
page 0 is 1. -/
def vol_mft64 : Volume :=
  { nr_clusters := 100000
    max_flb_cnt := 2
    fsck_lcn_bitmap := fun _ => none
    max_fmb_cnt := 1
    fsck_mft_bitmap := fun i => if i = 0 then some (fun o => if o = 8 then 1 else 0) else none
    option_flags := NTFS_MNT_NONE }

/-- An on-disk MFT bitmap attribute of 12 bytes, all zero. -/
def attr_12_zero : BitmapAttr := { data_size := 12, bytes := fun _ => 0 }

/-- Collaborators that grant every read, fix and write. -/
def env_all_ok : ApplyEnv := { read_ok := fun _ => true, fix := fun _ => true, write_ok := fun _ => true }

/-! ## The problem engine (`libntfs/problem.c`) -/

/-- `PR_PREEN_NOMSG` of `problem_flag_t`. -/
def PR_PREEN_NOMSG : Nat := 1

/-- `PR_NO_NOMSG` of `problem_flag_t`. -/
def PR_NO_NOMSG : Nat := 2

/-- First code of `problem_code_t`. -/
def PR_PRE_SCAN_MFT : Nat := 1

/-- Code `PR_RESET_LOG_FILE` of `problem_code_t`. -/
def PR_RESET_LOG_FILE : Nat := 2

/-- Code `PR_LOG_APPLY_RUNLIST_TO_DISK` of `problem_code_t`. -/
def PR_LOG_APPLY_RUNLIST_TO_DISK : Nat := 34

/-- Code `PR_DIR_HAVE_RESIDENT_IA` of `problem_code_t`. -/
def PR_DIR_HAVE_RESIDENT_IA : Nat := 35

/-- Code `PR_ATTRLIST_LENGTH_CORRUPTED` of `problem_code_t`. -/
def PR_ATTRLIST_LENGTH_CORRUPTED : Nat := 36

/-- Code `PR_CLUSTER_BITMAP_MISMATCH` of `problem_code_t`. -/
def PR_CLUSTER_BITMAP_MISMATCH : Nat := 40

/-- Code `PR_ORPHANED_MFT_REPAIR` of `problem_code_t`. -/
def PR_ORPHANED_MFT_REPAIR : Nat := 41

/-- Code `PR_CLUSTER_DUPLICATION_FOUND` of `problem_code_t`. -/
def PR_CLUSTER_DUPLICATION_FOUND : Nat := 45

/-- Code `PR_ORPHANED_MFT_OPEN_FAILURE` of `problem_code_t`. -/
def PR_ORPHANED_MFT_OPEN_FAILURE : Nat := 46

/-- Last code of `problem_code_t`. -/
def PR_ORPHANED_MFT_CHECK_FAILURE : Nat := 47

/-- One entry of `problem_table`: the code and the suppression flags (the
message text goes to stderr only and is left out). -/
structure ntfs_problem where
  code : Nat
  flags : Nat
deriving DecidableEq, Repr

/-- The array `problem_table` (problem.c:7) in front of its `{ 0, }` end mark,
in the order of the source; an entry written without flags has flags 0. -/
def problem_table : List ntfs_problem :=
  [ ⟨1, PR_PREEN_NOMSG ||| PR_NO_NOMSG⟩, ⟨2, PR_PREEN_NOMSG ||| PR_NO_NOMSG⟩,
    ⟨3, 0⟩, ⟨4, 0⟩, ⟨5, 0⟩, ⟨6, 0⟩, ⟨7, 0⟩, ⟨8, 0⟩, ⟨9, 0⟩, ⟨10, 0⟩,
    ⟨11, 0⟩, ⟨12, 0⟩, ⟨13, 0⟩, ⟨14, 0⟩, ⟨15, 0⟩, ⟨16, 0⟩, ⟨17, 0⟩, ⟨18, 0⟩, ⟨19, 0⟩, ⟨20, 0⟩,
    ⟨21, 0⟩, ⟨22, 0⟩, ⟨23, 0⟩, ⟨24, 0⟩, ⟨25, 0⟩, ⟨26, 0⟩, ⟨27, 0⟩, ⟨28, 0⟩, ⟨29, 0⟩, ⟨30, 0⟩,
    ⟨31, 0⟩, ⟨32, 0⟩, ⟨33, 0⟩, ⟨34, PR_PREEN_NOMSG⟩, ⟨35, 0⟩, ⟨36, 0⟩, ⟨37, 0⟩, ⟨38, 0⟩,
    ⟨39, 0⟩, ⟨40, 0⟩, ⟨41, 0⟩, ⟨42, 0⟩, ⟨43, 0⟩, ⟨44, 0⟩, ⟨45, 0⟩,
    ⟨46, PR_PREEN_NOMSG⟩, ⟨47, PR_PREEN_NOMSG⟩ ]

/-- `find_problem` (problem.c:158): the first entry with the code, in front of
the end mark (whose code 0 ends the loop). -/
def find_problem (code : Nat) : Option ntfs_problem :=
  problem_table.find? (fun p => p.code == code)

/-- The part of `problem_context_t` the engine writes. -/
structure problem_context where
  err_code : Nat
deriving DecidableEq, Repr

/-- What the problem engine sends to stderr. -/
inductive Ev where
  /-- "Unhandled error code" for a code without a table entry. -/
  | unhandled (code : Nat)
  /-- The description of a problem. -/
  | message (code : Nat)
  /-- The text " Fix it? ". -/
  | fix_it
  /-- The answer "No". -/
  | no
  /-- The answer "Yes". -/
  | yes
  /-- The prompt " (y/N) ". -/
  | prompt
deriving DecidableEq, Repr

/-- Modelled from the spec: the macros `NVolFsNoRepair`, `NVolFsYesRepair`,
`NVolFsAutoRepair`, `NVolFsAskRepair` and `NVolFsck` of `volume.h` (not among
the sources) test the repair-mode flags and `NTFS_MNT_FSCK` of
`vol->option_flags`. -/
def NVolFsNoRepair (vol : Volume) : Bool := vol.option_flags.no_repair

/-- See `NVolFsNoRepair`. -/
def NVolFsYesRepair (vol : Volume) : Bool := vol.option_flags.yes_repair

/-- See `NVolFsNoRepair`. -/
def NVolFsAutoRepair (vol : Volume) : Bool := vol.option_flags.auto_repair

/-- See `NVolFsNoRepair`. -/
def NVolFsAskRepair (vol : Volume) : Bool := vol.option_flags.ask_repair

/-- See `NVolFsNoRepair`. -/
def NVolFsck (vol : Volume) : Bool := vol.option_flags.fsck

/-- The result of `strcasecmp(answer, s) == 0`: both strings agree character by
character once each character is put in lower case. -/
def strcasecmp_eq (answer s : String) : Bool :=
  answer.data.map Char.toLower == s.data.map Char.toLower

/-- One call of `fgets(answer, 8, stdin)` on the characters waiting on standard
input, with `n` characters of room left in `answer`: the characters read and
the characters left.  The read ends behind a newline, or when the room (7
characters at the start) is used up. -/
def fgets_take : Nat → List Char → List Char × List Char
  | 0, cs => ([], cs)
  | _ + 1, [] => ([], [])
  | n + 1, c :: cs =>
    if c = Char.ofNat 10 then ([c], cs)
    else ((c :: (fgets_take n cs).1), (fgets_take n cs).2)

/-- What the successive calls of `fgets(answer, 8, stdin)` deliver for the
characters on standard input, at most `fuel` of them. -/
def stdin_reads : Nat → List Char → List String
  | 0, _ => []
  | _ + 1, [] => []
  | fuel + 1, c :: cs =>
    String.mk (fgets_take 7 (c :: cs)).1 :: stdin_reads fuel (fgets_take 7 (c :: cs)).2

/-- The reads of `fgets(answer, 8, stdin)` on the text `input`: a line of at
most 7 characters (its newline included) is one read, a longer line comes in
pieces of 7 characters. -/
def reads (input : String) : List String := stdin_reads input.length input.data

/-- The `do ... while (1)` loop of `ntfs_ask_repair` (problem.c:359).  Standard
input is the list of the strings that the calls of `fgets(answer, 8, stdin)`
deliver (see `reads`), followed by the end of the input, where `fgets` fails for
ever; the loop then never ends, which is the result `none`. -/
def ask_loop : List String → List Ev → Option (Bool × List String × List Ev)
  | [], _ => none
  | answer :: rest, out =>
    if strcasecmp_eq answer "Y\n" then some (true, rest, out ++ [Ev.prompt])
    else if strcasecmp_eq answer "\n" || strcasecmp_eq answer "N\n" then
      some (false, rest, out ++ [Ev.prompt])
    else ask_loop rest (out ++ [Ev.prompt])

/-- `ntfs_ask_repair` (problem.c:347): the answer, the rest of standard input
and the output. -/
def ntfs_ask_repair (vol : Volume) (stdin : List String) (out : List Ev) :
    Option (Bool × List String × List Ev) :=
  if NVolFsNoRepair vol || !NVolFsck vol then some (false, stdin, out ++ [Ev.no])
  else if NVolFsYesRepair vol || NVolFsAutoRepair vol then some (true, stdin, out ++ [Ev.yes])
  else if NVolFsAskRepair vol then ask_loop stdin out
  else some (false, stdin, out)

/-- `ntfs_fix_problem` (problem.c:421): the answer, the problem context, the
rest of standard input and the output; `none` when the call never returns.
The description of the problem is printed by `print_param_message`, which
returns at once when `pctx` is NULL (problem.c:298); every entry of the table
has a description that is not empty. -/
def ntfs_fix_problem (vol : Volume) (code : Nat) (pctx : Option problem_context)
    (stdin : List String) :
    Option (Bool × Option problem_context × List String × List Ev) :=
  match find_problem code with
  | none => some (false, pctx, stdin, [Ev.unhandled code])
  | some p =>
    let s1 : Nat × Bool :=
      if p.flags &&& PR_PREEN_NOMSG ≠ 0 ∧ vol.option_flags.preen_repair = true then (1, true)
      else (0, false)
    let s2 : Nat × Bool :=
      if p.flags &&& PR_NO_NOMSG ≠ 0 ∧ vol.option_flags.no_repair = true then (s1.1 + 1, false)
      else s1
    if s2.1 ≠ 0 then some (s2.2, pctx, stdin, [])
    else
      let pctx' := pctx.map (fun c => { c with err_code := code })
      match ntfs_ask_repair vol stdin
          ((if pctx.isSome then [Ev.message code] else []) ++ [Ev.fix_it]) with
      | none => none
      | some (repair, stdin', out) => some (repair, pctx', stdin', out)

/-- The global repair mode is No: of the repair-mode flags only
`NTFS_MNT_FS_NO_REPAIR` is set. -/
def mode_no (f : MountFlags) : Prop :=
  f.no_repair = true ∧ f.auto_repair = false ∧ f.preen_repair = false ∧
    f.ask_repair = false ∧ f.yes_repair = false

/-- The global repair mode is Yes on an fsck mount: `NTFS_MNT_FSCK` is set and,
of the repair-mode flags, only `NTFS_MNT_FS_YES_REPAIR`. -/
def mode_yes (f : MountFlags) : Prop :=
  f.fsck = true ∧ f.yes_repair = true ∧ f.auto_repair = false ∧ f.preen_repair = false ∧
    f.no_repair = false ∧ f.ask_repair = false

/-- The global repair mode is Ask on an fsck mount. -/
def mode_ask (f : MountFlags) : Prop :=
  f.fsck = true ∧ f.ask_repair = true ∧ f.auto_repair = false ∧ f.preen_repair = false ∧
    f.no_repair = false ∧ f.yes_repair = false

/-- The flags `ntfsck -n` mounts with (ntfsck.c:4598, 4637). -/
def flags_n : MountFlags :=
  { rdonly := true, fsck := true, ignore_hiberfile := true, auto_repair := false,
    preen_repair := false, no_repair := true, ask_repair := false, yes_repair := false }

/-- The flags `ntfsck -y` mounts with (ntfsck.c:4598, 4660). -/
def flags_y : MountFlags :=
  { rdonly := false, fsck := true, ignore_hiberfile := true, auto_repair := false,
    preen_repair := false, no_repair := false, ask_repair := false, yes_repair := true }

/-- The flags `ntfsck -r` mounts with (ntfsck.c:4598, 4650). -/
def flags_r : MountFlags :=
  { rdonly := false, fsck := true, ignore_hiberfile := true, auto_repair := false,
    preen_repair := false, no_repair := false, ask_repair := true, yes_repair := false }

/-! ## The command line and the exit status of `main` (ntfsck.c:4583) -/

/-- Exit statuses of `ntfsck` (ntfsck.c:42-50). -/
def RETURN_FS_NO_ERRORS : Nat := 0
def RETURN_FS_ERRORS_CORRECTED : Nat := 1
def RETURN_FS_ERRORS_LEFT_UNCORRECTED : Nat := 4
def RETURN_OPERATIONAL_ERROR : Nat := 8
def RETURN_USAGE_OR_SYNTAX_ERROR : Nat := 16

/-- What `getopt_long(argc, argv, "aCnpqryhvV", opts, NULL)` returns for one
option of the command line; `unknown` is its answer `?`. -/
inductive Opt where
  | a | C | n | p | q | r | y | h | v | V | unknown
deriving DecidableEq, Repr

/-- The variables the option loop of `main` writes: `option.flags` and
`check_dirty_only`. -/
structure OptState where
  flags : MountFlags
  check_dirty_only : Bool
deriving DecidableEq, Repr

/-- Outcome of the option loop: `exit(status)` or the state after the loop. -/
inductive Parsed where
  | exit (status : Nat)
  | ok (st : OptState)
deriving DecidableEq, Repr

/-- Exit by `usage(error)` (ntfsck.c:158-177). -/
def usage (error : Bool) : Nat := if error then RETURN_USAGE_OR_SYNTAX_ERROR else 0

/-- One turn of the `switch (c)` of `main` (ntfsck.c:4601-4677). -/
def parse_option (st : OptState) : Opt → Parsed
  | Opt.a | Opt.p =>
    if (st.flags.no_repair || st.flags.ask_repair || st.flags.yes_repair)
        || st.check_dirty_only == true then
      Parsed.exit RETURN_USAGE_OR_SYNTAX_ERROR
    else Parsed.ok { st with flags := { st.flags with auto_repair := true } }
  | Opt.C =>
    if st.flags.auto_repair || st.flags.ask_repair || st.flags.yes_repair then
      Parsed.exit RETURN_USAGE_OR_SYNTAX_ERROR
    else
      Parsed.ok { flags := { st.flags with fsck := false, no_repair := true },
                  check_dirty_only := true }
  | Opt.n =>
    if (st.flags.auto_repair || st.flags.ask_repair || st.flags.yes_repair)
        || st.check_dirty_only == true then
      Parsed.exit RETURN_USAGE_OR_SYNTAX_ERROR
    else Parsed.ok { st with flags := { st.flags with no_repair := true, rdonly := true } }
  | Opt.q => Parsed.ok st
  | Opt.r =>
    if (st.flags.auto_repair || st.flags.no_repair || st.flags.yes_repair)
        || st.check_dirty_only == true then
      Parsed.exit RETURN_USAGE_OR_SYNTAX_ERROR
    else Parsed.ok { st with flags := { st.flags with ask_repair := true } }
  | Opt.y =>
    if (st.flags.auto_repair || st.flags.no_repair || st.flags.ask_repair)
        || st.check_dirty_only == true then
      Parsed.exit RETURN_USAGE_OR_SYNTAX_ERROR
    else Parsed.ok { st with flags := { st.flags with yes_repair := true } }
  | Opt.h => Parsed.exit (usage false)
  | Opt.unknown => Parsed.exit (usage true)
  | Opt.v => Parsed.ok st
  | Opt.V => Parsed.exit 0

/-- The option loop `while ((c = getopt_long(...)) != EOF)` (ntfsck.c:4600). -/
def parse_options : OptState → List Opt → Parsed
  | st, [] => Parsed.ok st
  | st, c :: cs =>
    match parse_option st c with
    | Parsed.exit s => Parsed.exit s
    | Parsed.ok st1 => parse_options st1 cs

/-- The start of `main`: `option.flags = NTFS_MNT_FSCK | NTFS_MNT_IGNORE_HIBERFILE`
(ntfsck.c:4598) and `check_dirty_only = FALSE`. -/
def opt_init : OptState :=
  { flags := { NTFS_MNT_NONE with fsck := true, ignore_hiberfile := true },
    check_dirty_only := false }

/-- The default after the loop: Ask when no repair mode is set (ntfsck.c:4681). -/
def default_mode (flags : MountFlags) : MountFlags :=
  if !(flags.auto_repair || flags.no_repair || flags.ask_repair || flags.yes_repair) then
    { flags with ask_repair := true }
  else flags

/-- Option parsing of `main` as a whole (ntfsck.c:4598-4686). -/
def parse_command_line (args : List Opt) : Parsed :=
  match parse_options opt_init args with
  | Parsed.exit s => Parsed.exit s
  | Parsed.ok st => Parsed.ok { st with flags := default_mode st.flags }

/-- The flag word `NTFS_MNT_FS_NO_REPAIR | NTFS_MNT_RDONLY`. -/
def NO_REPAIR_RDONLY : MountFlags := { NTFS_MNT_NONE with no_repair := true, rdonly := true }

/-- Operations that write the volume, as the passes and `main` invoke them. -/
inductive DevOp where
  | attr_rm | attr_add | index_change | bitmap_write | mft_record_write
  | logfile_reset | volume_write_flags
deriving DecidableEq, Repr

/-- The state a run of the passes carries: the counters `fsck_errors` and
`fsck_fixes`, `vol->flags & VOLUME_IS_DIRTY`, and the write operations invoked
so far. -/
structure RunState where
  ctr : Counters
  dirty : Bool
  ops : List DevOp

/-- Result of `ntfs_fsck_mount(path, option.flags)` as `main` looks at it: NULL
with `errno` being `EOPNOTSUPP` or not, or a volume with its dirty flag. -/
inductive MountResult where
  | failed (eopnotsupp : Bool)
  | mounted (dirty : Bool)

/-- What surrounds `main`: the number of arguments left after the options, the
answer of `ntfs_check_if_mounted` (`none` when it fails, else the bits
`NTFS_MF_MOUNTED` and `NTFS_MF_READONLY` of `mnt_flags`), the mount, and the
passes, each as what it does to the run state (with its return value where
`main` tests it). -/
structure MainEnv where
  nonopt_args : Nat
  check_if_mounted : Option (Bool × Bool)
  mount : MountFlags → MountResult
  check_backup_boot : MountFlags → RunState → RunState
  scan_mft_records : MountFlags → RunState → RunState
  check_system_files : MountFlags → RunState → Int × RunState
  replay_log : MountFlags → RunState → Int × RunState
  malloc_ok : Bool
  scan_index_entries : MountFlags → RunState → Int × RunState
  check_mft_records : MountFlags → RunState → RunState
  check_orphaned_mft : MountFlags → RunState → RunState

/-- Result of `main`: the exit status, the counters at `err_out` when the run
gets there (`none` when it leaves through `exit` before), the write
operations invoked, and whether `ntfs_fsck_mount` was called. -/
structure MainResult where
  status : Nat
  final : Option Counters
  ops : List DevOp
  mount_called : Bool

/-- `ntfsck_reset_dirty` (ntfsck.c:3957): on a dirty volume it calls
`ntfs_volume_write_flags`. -/
def ntfsck_reset_dirty (rs : RunState) : RunState :=
  if !rs.dirty then rs
  else { rs with ops := rs.ops ++ [DevOp.volume_write_flags] }

/-- The label `err_out` of `main` (ntfsck.c:4777-4798); `vol` tells whether the
volume pointer is not NULL. -/
def err_out (rs : RunState) (vol : Bool) : MainResult :=
  let errors := rs.ctr.fsck_errors - rs.ctr.fsck_fixes
  let ret :=
    if errors ≠ 0 then RETURN_FS_ERRORS_LEFT_UNCORRECTED
    else if rs.ctr.fsck_fixes ≠ 0 then RETURN_FS_ERRORS_CORRECTED
    else RETURN_FS_NO_ERRORS
  let rs1 := if errors = 0 ∧ vol = true then ntfsck_reset_dirty rs else rs
  { status := ret, final := some rs.ctr, ops := rs1.ops, mount_called := true }

/-- The passes of `main` (ntfsck.c:4744-4775), up to the jump to `err_out`. -/
def run_passes (env : MainEnv) (flags : MountFlags) (rs : RunState) : RunState :=
  let rs0 := env.check_backup_boot flags rs
  let rs1 := env.scan_mft_records flags rs0
  let r2 := env.check_system_files flags rs1
  if r2.1 ≠ 0 then r2.2
  else
    let r3 := env.replay_log flags r2.2
    if r3.1 ≠ 0 then r3.2
    else if !env.malloc_ok then r3.2
    else
      let r4 := env.scan_index_entries flags r3.2
      if r4.1 ≠ 0 then r4.2
      else env.check_orphaned_mft flags (env.check_mft_records flags r4.2)

/-- The test of `main` on a device that is mounted elsewhere
(ntfsck.c:4692-4708): whether `main` leaves with `exit(1)`. -/
def refuse_mounted (env : MainEnv) (flags : MountFlags) : Bool :=
  match env.check_if_mounted with
  | some (true, readonly) => !readonly || decide (flags ≠ NO_REPAIR_RDONLY)
  | _ => false

/-- The part of `main` from `ntfs_fsck_mount` on (ntfsck.c:4710-4798). -/
def main_mount (env : MainEnv) (st : OptState) : MainResult :=
  match env.mount st.flags with
  | MountResult.failed eopnotsupp =>
    if eopnotsupp then
      { status := RETURN_OPERATIONAL_ERROR, final := none, ops := [], mount_called := true }
    else if st.check_dirty_only then
      { status := RETURN_FS_ERRORS_LEFT_UNCORRECTED, final := none, ops := [],
        mount_called := true }
    else err_out { ctr := fsck_err_found ⟨0, 0⟩, dirty := false, ops := [] } false
  | MountResult.mounted dirty =>
    if st.check_dirty_only then
      { status := if dirty then RETURN_FS_ERRORS_LEFT_UNCORRECTED else RETURN_FS_NO_ERRORS,
        final := none, ops := [], mount_called := true }
    else
      err_out (run_passes env st.flags { ctr := ⟨0, 0⟩, dirty := dirty, ops := [] }) true

/-- `main` (ntfsck.c:4583-4799) on the options `args`. -/
def main (env : MainEnv) (args : List Opt) : MainResult :=
  match parse_command_line args with
  | Parsed.exit s => { status := s, final := none, ops := [], mount_called := false }
  | Parsed.ok st =>
    if env.nonopt_args ≠ 1 then
      { status := usage true, final := none, ops := [], mount_called := false }
    else if refuse_mounted env st.flags then
      { status := 1, final := none, ops := [], mount_called := false }
    else main_mount env st

/-- A run in which nothing fails and nothing is found: the device is not
mounted, the mount gives a dirty volume, and every pass leaves the run state
as it is. -/
def env_quiet : MainEnv :=
  { nonopt_args := 1, check_if_mounted := some (false, false),
    mount := fun _ => MountResult.mounted true,
    check_backup_boot := fun _ rs => rs, scan_mft_records := fun _ rs => rs,
    check_system_files := fun _ rs => (0, rs), replay_log := fun _ rs => (0, rs),
    malloc_ok := true, scan_index_entries := fun _ rs => (0, rs),
    check_mft_records := fun _ rs => rs, check_orphaned_mft := fun _ rs => rs }

/-- The run of `env_quiet` on a device that is mounted read-only elsewhere. -/
def env_ro_mounted : MainEnv := { env_quiet with check_if_mounted := some (true, true) }

/-- Number of repair-mode flags (auto, no, ask, yes) set in a flag word. -/
def mode_count (f : MountFlags) : Nat :=
  f.auto_repair.toNat + f.no_repair.toNat + f.ask_repair.toNat + f.yes_repair.toNat

/-! ## Pass 1: `ntfsck_scan_mft_records` (ntfsck.c:4544) -/

/-- Modelled from the spec: the value of the on-disk cluster bitmap `$Bitmap`
(the attribute `vol->lcnbmp_na`), one bit per cluster number. -/
def DiskBitmap : Type := Int → Bool

/-- Modelled from the spec: `ntfs_bitmap_set_run` (bitmap.c, which is not among
the sources) sets the `count` bits of the bitmap attribute from `start_bit` on. -/
def ntfs_bitmap_set_run (d : DiskBitmap) (start_bit count : Int) : DiskBitmap :=
  fun c => if start_bit ≤ c ∧ c < start_bit + count then true else d c

/-- An attribute as `ntfsck_update_lcn_bitmap` meets it on its walk: the flag
`non_resident` and what `ntfs_decompress_cluster_run` gives for it (`none` is
NULL). -/
structure ScanAttr where
  non_resident : Bool
  rl : Option (List runlist_element)

/-- An MFT record as `ntfsck_scan_mft_record` meets it: the answer of
`check_mftrec_in_use`, whether `ntfsck_open_inode` opens it, whether it has an
attribute list and that list passes `ntfsck_check_attr_list` and
`ntfs_inode_attach_all_extents` (`none`: no attribute list), and the attributes
of the inode. -/
structure ScanRecord where
  is_used : Int
  opens : Bool
  attr_list : Option Bool
  attrs : List ScanAttr

/-- The loop `while (rl[i].length)` of `ntfsck_update_lcn_bitmap`
(ntfsck.c:304-327); `none` when it reads behind the end of the array. -/
def update_lcn_run (nr_clusters : Int) : List runlist_element → DiskBitmap → Option DiskBitmap
  | [], _ => none
  | e :: rest, d =>
    if e.length = 0 then some d
    else if e.lcn ≥ nr_clusters then some d
    else
      let length := if e.lcn + e.length ≥ nr_clusters then nr_clusters - e.lcn else e.length
      let d1 := if e.lcn > LCN_HOLE then ntfs_bitmap_set_run d e.lcn length else d
      update_lcn_run nr_clusters rest d1

/-- `ntfsck_update_lcn_bitmap` (ntfsck.c:273): the walk over the attributes of
the inode; it writes the on-disk bitmap only. -/
def ntfsck_update_lcn_bitmap (nr_clusters : Int) : List ScanAttr → DiskBitmap → Option DiskBitmap
  | [], d => some d
  | a :: rest, d =>
    if !a.non_resident then ntfsck_update_lcn_bitmap nr_clusters rest d
    else
      match a.rl with
      | none => ntfsck_update_lcn_bitmap nr_clusters rest d
      | some rl =>
        match update_lcn_run nr_clusters rl d with
        | none => none
        | some d1 => ntfsck_update_lcn_bitmap nr_clusters rest d1

/-- `ntfsck_scan_mft_record` (ntfsck.c:4492): status, volume and on-disk
cluster bitmap afterwards. -/
def ntfsck_scan_mft_record (vol : Volume) (d : DiskBitmap) (mft_num : Nat) (r : ScanRecord) :
    Option (Int × Volume × DiskBitmap) :=
  if r.is_used < 0 then some (STATUS_ERROR, vol, d)
  else if r.is_used = 0 then some (STATUS_ERROR, vol, d)
  else if !r.opens then some (STATUS_ERROR, vol, d)
  else
    match r.attr_list with
    | some false =>
      match ntfs_fsck_mftbmp_clear vol mft_num with
      | none => none
      | some (_, vol1) => some (STATUS_ERROR, vol1, d)
    | _ =>
      match ntfsck_update_lcn_bitmap vol.nr_clusters r.attrs d with
      | none => none
      | some d1 => some (STATUS_OK, vol, d1)

/-- The loop `for (mft_num = FILE_MFT; mft_num < nr_mft_records; mft_num++)` of
`ntfsck_scan_mft_records`, with `count` records still to go. -/
def scan_mft_loop (records : Nat → ScanRecord) :
    Nat → Nat → Volume → DiskBitmap → Option (Volume × DiskBitmap)
  | 0, _, vol, d => some (vol, d)
  | count + 1, mft_num, vol, d =>
    match ntfsck_scan_mft_record vol d mft_num (records mft_num) with
    | none => none
    | some (_, vol1, d1) => scan_mft_loop records count (mft_num + 1) vol1 d1

/-- `ntfsck_scan_mft_records` (ntfsck.c:4544): the volume, the on-disk cluster
bitmap and the rest of standard input at the end of Pass 1. -/
def ntfsck_scan_mft_records (records : Nat → ScanRecord) (mft_initialized_size : Int)
    (mft_record_size_bits : Nat) (vol : Volume) (d : DiskBitmap) (stdin : List String) :
    Option (Volume × DiskBitmap × List String) :=
  let nr_mft_records := asr mft_initialized_size mft_record_size_bits
  match ntfs_fix_problem vol PR_PRE_SCAN_MFT (some ⟨0⟩) stdin with
  | none => none
  | some (false, _, stdin1, _) => some (vol, d, stdin1)
  | some (true, _, stdin1, _) =>
    match scan_mft_loop records nr_mft_records.toNat 0 vol d with
    | none => none
    | some (vol1, d1) => some (vol1, d1, stdin1)

/-- A record in use with one non-resident attribute whose runlist is the extent
of clusters 10..14 and the terminator. -/
def record_10_14 : ScanRecord :=
  { is_used := 1, opens := true, attr_list := none,
    attrs := [{ non_resident := true, rl := some [⟨0, 10, 5⟩, ⟨5, LCN_ENOENT, 0⟩] }] }

/-! ## `ntfsck_check_runlist` (ntfsck.c:425) -/

/-- The sizes `struct rl_size` returns: allocated size (holes included) and
real size of a runlist, in bytes. -/
structure rl_size where
  alloc_size : Int
  real_size : Int
deriving DecidableEq, Repr

/-- State of the walk of `ntfsck_check_runlist`: the volume, the array `na->rl`,
`dup_rl`, `rl_alloc_size` and `rl_data_size`. -/
structure WalkState where
  vol : Volume
  rl : List runlist_element
  dup_rl : Option (List runlist_element)
  rl_alloc_size : Int
  rl_data_size : Int

/-- The loop `while (rl && rl[i].length)` of `ntfsck_check_runlist`
(ntfsck.c:447-486).  The array is `pre ++ rest` and the index `i` is the length
of `pre`; `none` when the loop reads behind the array, or the bitmap engine
leaves its pages or the block of the duplicate runlist.  The sum
`rl[i].lcn + rl[i].length`, the shift `rl[i].length << cluster_size_bits` and
the two sizes are `s64` and wrap. -/
def check_runlist_walk (set_bit : Nat) (type : Nat) (cluster_size_bits : Nat) :
    List runlist_element → List runlist_element → Volume → Option (List runlist_element) →
      Int → Int → Option WalkState
  | _, [], _, _, _, _ => none
  | pre, e :: rest, vol, dup_rl, rl_alloc_size, rl_data_size =>
    if e.length = 0 then
      some { vol := vol, rl := pre ++ e :: rest, dup_rl := dup_rl,
             rl_alloc_size := rl_alloc_size, rl_data_size := rl_data_size }
    else if e.lcn > LCN_HOLE then
      if e.lcn ≥ vol.nr_clusters then
        some { vol := vol, rl := pre ++ { e with lcn := LCN_ENOENT, length := 0 } :: rest,
               dup_rl := dup_rl, rl_alloc_size := rl_alloc_size, rl_data_size := rl_data_size }
      else
        let e1 : runlist_element :=
          if s64_of (e.lcn + e.length) ≥ vol.nr_clusters then
            { e with length := vol.nr_clusters - e.lcn }
          else e
        match ntfs_fsck_check_and_set_lcnbmp vol (some { type := type, rl := some (pre ++ e1 :: rest) })
            (pre.length : Int) set_bit dup_rl with
        | none => none
        | some Run.dup_overrun => none
        | some (Run.done (dup1, vol1)) =>
          let rsize := s64_of (shl e1.length cluster_size_bits)
          check_runlist_walk set_bit type cluster_size_bits (pre ++ [e1]) rest vol1 dup1
            (s64_of (rl_alloc_size + rsize)) (s64_of (rl_data_size + rsize))
    else if e.lcn = LCN_HOLE then
      let rsize := s64_of (shl e.length cluster_size_bits)
      check_runlist_walk set_bit type cluster_size_bits (pre ++ [e]) rest vol dup_rl
        (s64_of (rl_alloc_size + rsize)) rl_data_size
    else
      some { vol := vol, rl := pre ++ { e with lcn := LCN_ENOENT, length := 0 } :: rest,
             dup_rl := dup_rl, rl_alloc_size := rl_alloc_size, rl_data_size := rl_data_size }

/-- What `ntfsck_check_runlist` leaves: the status, the volume, `na->rl`, `*rls`
and `*need_fix` (when the pointers are given), the rest of standard input, what
its calls of `ntfs_fix_problem` have sent to stderr, and the duplicate runlist
the walk built (before it is freed). -/
structure CheckRunlistResult where
  status : Int
  vol : Volume
  rl : Option (List runlist_element)
  rls : Option rl_size
  need_fix : Option Bool
  stdin : List String
  out : List Ev
  dup_rl : Option (List runlist_element)

/-- `ntfsck_check_runlist` (ntfsck.c:425).  `repair rl dup_rl` is `na->rl` after
`ntfs_fsck_repair_cluster_dup(na, dup_rl)`, whose allocation and merge helpers
are not among the sources. -/
def ntfsck_check_runlist
    (repair : List runlist_element → List runlist_element → List runlist_element)
    (vol : Volume) (cluster_size_bits : Nat) (na : Option ntfs_attr) (set_bit : Nat)
    (rls : Option rl_size) (need_fix : Option Bool) (stdin : List String) :
    Option CheckRunlistResult :=
  match na with
  | none =>
    some { status := STATUS_ERROR, vol := vol, rl := none, rls := rls, need_fix := need_fix,
           stdin := stdin, out := [], dup_rl := none }
  | some attr =>
    match attr.rl with
    | none =>
      some { status := STATUS_ERROR, vol := vol, rl := none, rls := rls, need_fix := need_fix,
             stdin := stdin, out := [], dup_rl := none }
    | some rl =>
      match check_runlist_walk set_bit attr.type cluster_size_bits [] rl vol none 0 0 with
      | none => none
      | some st =>
        let rls1 : Option rl_size :=
          rls.map (fun _ => { alloc_size := st.rl_alloc_size, real_size := st.rl_data_size })
        match st.dup_rl with
        | none =>
          some { status := STATUS_OK, vol := st.vol, rl := some st.rl, rls := rls1,
                 need_fix := need_fix, stdin := stdin, out := [], dup_rl := none }
        | some dup =>
          match ntfs_fix_problem st.vol PR_CLUSTER_DUPLICATION_FOUND (some ⟨0⟩) stdin with
          | none => none
          | some (fix, _, stdin1, out) =>
            some { status := STATUS_OK, vol := st.vol,
                   rl := some (if fix then repair st.rl dup else st.rl), rls := rls1,
                   need_fix := need_fix.map (fun _ => true), stdin := stdin1, out := out,
                   dup_rl := some dup }

/-- The entry lies inside a volume of `nr` clusters, or is a hole: its `lcn` is
not below `LCN_HOLE`, and when it is above, `0 <= lcn < nr` and
`lcn + length <= nr`. -/
def entry_inside (nr : Int) (e : runlist_element) : Prop :=
  LCN_HOLE ≤ e.lcn ∧ (e.lcn > LCN_HOLE → 0 ≤ e.lcn ∧ e.lcn < nr ∧ e.lcn + e.length ≤ nr)

/-- Every entry in front of the first zero-length entry is `entry_inside`. -/
def rl_inside (nr : Int) (rl : List runlist_element) : Prop :=
  ∀ e ∈ rl_entries rl, entry_inside nr e

/-- A volume of 1000 clusters with one FCB page, in which the clusters 10 and 12
are claimed; mounted as by `ntfsck -y`. -/
def vol_10_12 : Volume :=
  { nr_clusters := 1000, max_flb_cnt := 1,
    fsck_lcn_bitmap := fun k => if k = 0 then some (fun o => if o = 1 then 20 else 0) else none,
    max_fmb_cnt := 1, fsck_mft_bitmap := fun _ => none, option_flags := flags_y }

/-- Fragment `k` of a file that lies in fragments of one cluster, no two of
them adjacent: vcn `k` is cluster `1000 + 2 * k`. -/
def frag (k : Nat) : runlist_element := ⟨(k : Int), ((1000 + 2 * k : Nat) : Int), 1⟩

/-- The runlist of a file of 171 such fragments. -/
def rl_frag : List runlist_element := (List.range 171).map frag ++ [⟨171, LCN_ENOENT, 0⟩]

/-- The `$DATA` attribute with the runlist `rl_frag`. -/
def attr_frag : ntfs_attr := { type := 0x80, rl := some rl_frag }

/-- An FCB page in which the clusters 1000, 1002, ..., 1340 are set and no
other. -/
def page_frag : Page :=
  fun o => if 125 ≤ o ∧ o < 167 then 0x55 else if o = 167 then 0x15 else 0

/-- A volume of 4096 clusters with one FCB page, in which the 171 clusters of
`rl_frag` are claimed, as after the check of another file with the same
runlist. -/
def vol_frag : Volume :=
  { nr_clusters := 4096, max_flb_cnt := 1,
    fsck_lcn_bitmap := fun k => if k = 0 then some page_frag else none,
    max_fmb_cnt := 1, fsck_mft_bitmap := fun _ => none, option_flags := flags_y }

/-- The duplicate runlist `ntfs_fsck_make_dup_runlist` has built when the first
`k` fragments of `rl_frag` have collided: NULL, then the first fragment and the
end mark, then the end mark and the zero bytes behind it replaced one by
one. -/
def dup_frag : Nat → Option (List runlist_element)
  | 0 => none
  | 1 => some [frag 0, ⟨1, LCN_ENOENT, 0⟩]
  | k + 2 => some ((List.range (k + 2)).map frag)

/-! ## Kernel runlists (kernel_runlist.c) -/

/-- Error numbers and the LCN code `LCN_EINVAL` (kernel_types.h:276). -/
def EIO : Int := 5
def LCN_EINVAL : Int := -4

/-- The loop `for (i = 0; rl[i].length; i++)` of `ntfs_rl_vcn_to_lcn` with the
code behind it (kernel_runlist.c:223-239), on the array from `rl[i]` on; `none`
when it reads behind the array. -/
def rl_vcn_loop (vcn : Int) : List runlist_element → Option Int
  | [] => none
  | e :: rest =>
    if e.length ≠ 0 then
      match rest.head? with
      | none => none
      | some n =>
        if vcn < n.vcn then some (if e.lcn ≥ 0 then e.lcn + (vcn - e.vcn) else e.lcn)
        else rl_vcn_loop vcn rest
    else some (if e.lcn < 0 then e.lcn else LCN_ENOENT)

/-- `ntfs_rl_vcn_to_lcn` (kernel_runlist.c:204). -/
def ntfs_rl_vcn_to_lcn (rl : Option (List runlist_element)) (vcn : Int) : Option Int :=
  if vcn < 0 then some LCN_EINVAL
  else
    match rl with
    | none => some LCN_RL_NOT_MAPPED
    | some l =>
      match l.head? with
      | none => none
      | some e0 => if vcn < e0.vcn then some LCN_ENOENT else rl_vcn_loop vcn l

/-- The search loop of `ntfs_rl_truncate` and the cut behind it
(kernel_runlist.c:600-622); the array is `pre ++ rest`, `rl` points at the head
of `rest`. -/
def rl_truncate_loop (start_vcn : Int) :
    List runlist_element → List runlist_element → Option (Int × List runlist_element)
  | _, [] => none
  | pre, e :: rest =>
    if e.length ≠ 0 then
      match rest with
      | [] => none
      | n :: rest1 =>
        if start_vcn < n.vcn then
          let length := start_vcn - e.vcn
          if length ≠ 0 then
            some (0, pre ++ { e with length := length }
              :: { vcn := start_vcn, lcn := LCN_ENOENT, length := 0 } :: rest1)
          else some (0, pre ++ { e with lcn := LCN_ENOENT, length := 0 } :: n :: rest1)
        else rl_truncate_loop start_vcn (pre ++ [e]) rest
    else some (- EIO, pre ++ e :: rest)

/-- `ntfs_rl_truncate` (kernel_runlist.c:583) on `*arl` (`none` is NULL): the
return value and the runlist afterwards. -/
def ntfs_rl_truncate (arl : Option (List runlist_element)) (start_vcn : Int) :
    Option (Int × Option (List runlist_element)) :=
  match arl with
  | none => some (-EINVAL, none)
  | some rl =>
    match rl.head? with
    | none => none
    | some e0 =>
      if start_vcn < e0.vcn then some (-EINVAL, some rl)
      else
        match rl_truncate_loop start_vcn [] rl with
        | none => none
        | some (ret, rl1) => some (ret, some rl1)

/-- `ntfs_runlists_merge` (kernel_runlist.c:86): the returned runlist (`none`
inside is NULL); the outer `none` is a read behind an array.  The scans for the
sizes only feed `krealloc`, which is taken to succeed and keeps the elements. -/
def ntfs_runlists_merge (drl srl : Option (List runlist_element)) :
    Option (Option (List runlist_element)) :=
  match srl with
  | none => some drl
  | some s =>
    match drl with
    | none =>
      match s.head? with
      | none => none
      | some e0 =>
        if e0.vcn ≠ 0 then
          some (some ({ vcn := 0, lcn := LCN_RL_NOT_MAPPED, length := e0.vcn } :: s))
        else some (some s)
    | some d =>
      match (s.dropWhile (fun e => decide (e.length ≠ 0) && decide (e.lcn < LCN_HOLE))).head? with
      | none => none
      | some se =>
        if se.length = 0 then some none
        else
          match (d.dropWhile (fun e => decide (e.length ≠ 0) &&
              !decide (e.vcn + e.length > se.vcn))).head? with
          | none => none
          | some de =>
            if de.vcn = se.vcn ∧ de.lcn ≥ 0 ∧ se.lcn ≥ 0 then some none
            else some (some d)

/-- A well-formed runlist: runs of positive length with contiguous vcns, up to a
terminator of length 0 that carries a negative LCN code; what lies behind the
terminator in the array does not count. -/
def rl_wf : List runlist_element → Bool
  | [] => false
  | e :: rest =>
    if e.length = 0 then decide (e.lcn < 0)
    else
      decide (0 < e.length) &&
      (match rest.head? with
       | none => false
       | some n => decide (e.vcn + e.length = n.vcn)) &&
      rl_wf rest

/-- The do-while loop of `ntfs_get_nr_significant_bytes` (kernel_runlist.c:525),
with `fuel` turns left. -/
def nr_significant_loop : Nat → Nat → Int → Option Int
  | 0, _, _ => none
  | fuel + 1, l, i =>
    let i1 := i + 1
    let l1 := l >>> 8
    if l1 ≠ 0 then nr_significant_loop fuel l1 i1 else some i1

/-- `ntfs_get_nr_significant_bytes` (kernel_runlist.c:518); `~n` of an `s64` is
`-n - 1`. -/
def ntfs_get_nr_significant_bytes (n : Int) : Option Int :=
  let l : Nat := u64_of (if n < 0 then -n - 1 else n)
  if l ≥ 128 then nr_significant_loop 8 (l >>> 7) 1 else some 1

/-- A well-formed runlist: a run of 3 clusters at lcn 100, a hole of 2 clusters
and the terminator. -/
def rl_run_hole : List runlist_element :=
  [⟨0, 100, 3⟩, ⟨3, LCN_HOLE, 2⟩, ⟨5, LCN_ENOENT, 0⟩]

/-! ## `ntfs_mapping_pairs_decompress` (kernel_runlist.c:243) -/

/-- How `ntfs_mapping_pairs_decompress` ends: it reads a byte at an offset that
is not below the attribute's length, or reads through a NULL `attr` (`fault`);
it returns NULL through `io_error` or the check in front of the loop
(`corrupt`), for a length it refuses (`invalid`) or for an LCN below -1
(`invalid_lcn`); or it returns a runlist.  The exit `invalid_attr` behind the
test `!attr` is never taken: `attr->type` has been read for
`ntfsplus_log_enter` before. -/
inductive DecodeResult where
  | fault
  | invalid_attr
  | corrupt
  | invalid
  | invalid_lcn
  | ok (rl : List runlist_element)
deriving DecidableEq, Repr

/-- Size of the packed `ATTR_RECORD` (kernel_types.h:158-184). -/
def SIZEOF_ATTR_RECORD : Nat := 72

/-- The conversion `(s8)` of a byte. -/
def s8_of (b : Nat) : Int := if b % 256 ≥ 128 then ((b % 256 : Nat) : Int) - 256 else ((b % 256 : Nat) : Int)

/-- The loop `for (...; b > lo; b--) deltaxcn = (deltaxcn << 8) + buf[b]` with
`cnt = b - lo` turns left; `p` is the offset of `buf` in the attribute. -/
def delta_loop (data : List Nat) (p lo : Nat) : Nat → Int → Option Int
  | 0, acc => some acc
  | cnt + 1, acc =>
    match data.get? (p + lo + (cnt + 1)) with
    | none => none
    | some v => delta_loop data p lo cnt (s64_of (shl acc 8 + (v : Int)))

/-- The statement `for (deltaxcn = (s8)buf[b--]; b > lo; b--) ...` entered with
`b = hi`; `none` when a byte outside the attribute is read. -/
def read_delta (data : List Nat) (p lo hi : Nat) : Option Int :=
  match data.get? (p + hi) with
  | none => none
  | some v => delta_loop data p lo (hi - 1 - lo) (s8_of v)

/-- The statement `if (rl[rlpos].length) rlpos++` for an element of length not
0, `acc` being the elements `rl[0 .. rlpos-1]`.  `rlpos` is a `u16`: behind
65535 it is 0 again, the elements entered so far come to lie behind the
elements and the terminator that follow, and are no longer part of the
runlist. -/
def rl_enter (acc : List runlist_element) (e : runlist_element) : List runlist_element :=
  if acc.length + 1 < 65536 then acc ++ [e] else []

/-- The loop `while (buf < attr_end && *buf)` of `ntfs_mapping_pairs_decompress`
with the code behind it (kernel_runlist.c:292-373); `data` holds the bytes of
the attribute, `p` is the offset of `buf`, `acc` the runlist elements
`rl[0 .. rlpos-1]`; `vcn` and `lcn` are `s64` and wrap around. -/
def mp_loop (data : List Nat) :
    Nat → Nat → Int → Int → List runlist_element → DecodeResult
  | 0, _, _, _, _ => DecodeResult.fault
  | fuel + 1, p, vcn, lcn, acc =>
    if p < data.length then
      match data.get? p with
      | none => DecodeResult.fault
      | some hb =>
        if hb = 0 then DecodeResult.ok (acc ++ [{ vcn := vcn, lcn := LCN_ENOENT, length := 0 }])
        else
          let b := hb &&& 0xf
          if b ≠ 0 ∧ p + b > data.length then DecodeResult.corrupt
          else
            match (if b ≠ 0 then read_delta data p 0 b else some (-1)) with
            | none => DecodeResult.fault
            | some deltaxcn =>
              if deltaxcn < 0 then DecodeResult.invalid
              else
                let vcn1 := s64_of (vcn + deltaxcn)
                let p1 := p + (hb &&& 0xf) + ((hb >>> 4) &&& 0xf) + 1
                if hb &&& 0xf0 = 0 then
                  mp_loop data fuel p1 vcn1 lcn
                    (if deltaxcn ≠ 0 then
                       rl_enter acc { vcn := vcn, lcn := LCN_HOLE, length := deltaxcn }
                     else acc)
                else
                  let b2 := hb &&& 0xf
                  if b2 = 0 then DecodeResult.invalid
                  else
                    let bb := b2 + ((hb >>> 4) &&& 0xf)
                    if p + bb > data.length then DecodeResult.corrupt
                    else
                      match read_delta data p b2 bb with
                      | none => DecodeResult.fault
                      | some d =>
                        let lcn1 := s64_of (lcn + d)
                        if lcn1 < -1 then DecodeResult.invalid_lcn
                        else
                          mp_loop data fuel p1 vcn1 lcn1
                            (if deltaxcn ≠ 0 then
                               rl_enter acc { vcn := vcn, lcn := lcn1, length := deltaxcn }
                             else acc)
    else DecodeResult.corrupt

/-- `ntfs_mapping_pairs_decompress` (kernel_runlist.c:243) on the bytes of the
attribute (`attr->length` of them; `none` is a NULL `attr`, whose `type` the
function reads for `ntfsplus_log_enter` before it tests the pointer).  The old
runlist is not merged in (a TODO in the source), so it has no part in the
result. -/
def ntfs_mapping_pairs_decompress (attr : Option (List Nat)) : DecodeResult :=
  match attr with
  | none => DecodeResult.fault
  | some data =>
    if SIZEOF_ATTR_RECORD > data.length then DecodeResult.corrupt
    else mp_loop data (data.length + 1) SIZEOF_ATTR_RECORD 0 0 []

/-! ## `_ntfsck_check_attr_list_type` (ntfsck.c:2755) -/

/-- The fields of an `ATTR_LIST_ENTRY` the check reads: `type` and the 16-bit
`length`. -/
structure ATTR_LIST_ENTRY where
  type : Nat
  length : Nat
deriving DecidableEq, Repr

/-- The attribute types the check accepts (ntfsck.c:2782-2796):
`AT_STANDARD_INFORMATION`, `AT_FILE_NAME`, ..., `AT_LOGGED_UTILITY_STREAM`;
`AT_ATTRIBUTE_LIST` (0x20) is not among them. -/
def al_known_type (type : Nat) : Bool :=
  type ∈ [0x10, 0x30, 0x40, 0x50, 0x60, 0x70, 0x80, 0x90, 0xA0, 0xB0, 0xC0, 0xD0, 0xE0, 0xF0,
    0x100]

/-- The `do ... while (1)` loop of `_ntfsck_check_attr_list_type`
(ntfsck.c:2779-2821).  The buffer is read as the chain of its entries, each
entry lying `length` bytes behind its predecessor; `off` is the offset of
`al_entry`, `al_end` is `attr_list_size`, and `real` is the `u16`
`al_real_length`.  The result is `ret` and `al_real_length`; `none` when an
entry behind the chain is read. -/
def al_loop : List ATTR_LIST_ENTRY → Nat → Nat → Nat → Option (Int × Nat)
  | [], _, _, _ => none
  | e :: rest, off, al_end, real =>
    if !al_known_type e.type then some (STATUS_ERROR, real)
    else if e.length = 0 ∨ e.length &&& 7 ≠ 0 then some (STATUS_ERROR, real)
    else
      let real1 := (real + e.length) % 65536
      let next := off + e.length
      if next ≥ al_end then some (STATUS_OK, real1)
      else
        match rest.head? with
        | none => none
        | some n =>
          if next + n.length > al_end then some (STATUS_OK, real1)
          else al_loop rest next al_end real1

/-- What `_ntfsck_check_attr_list_type` leaves: the return value,
`ni->attr_list_size`, the counters, the rest of standard input, and whether
`PR_ATTRLIST_LENGTH_CORRUPTED` was raised. -/
structure AttrListResult where
  ret : Int
  attr_list_size : Nat
  ctr : Counters
  stdin : List String
  raised : Bool

/-- `_ntfsck_check_attr_list_type` (ntfsck.c:2755) on the entries of
`ni->attr_list`; `is_extent` says that `ctx->base_ntfs_ino` is set and differs
from `ni`, and `errno` is the value of `errno` behind
`ntfs_set_attribute_value_length`. -/
def _ntfsck_check_attr_list_type (vol : Volume) (is_extent : Bool)
    (entries : List ATTR_LIST_ENTRY) (attr_list_size : Nat) (errno : Int) (ctr : Counters)
    (stdin : List String) : Option AttrListResult :=
  if is_extent then
    some { ret := STATUS_ERROR, attr_list_size := attr_list_size, ctr := ctr, stdin := stdin,
           raised := false }
  else
    match al_loop entries 0 attr_list_size 0 with
    | none => none
    | some (ret, al_real_length) =>
      if attr_list_size ≠ al_real_length then
        match ntfs_fix_problem vol PR_ATTRLIST_LENGTH_CORRUPTED (some ⟨0⟩) stdin with
        | none => none
        | some (fix, _, stdin1, _) =>
          if fix then
            some { ret := ret, attr_list_size := al_real_length,
                   ctr := if errno = 0 then fsck_err_fixed (fsck_err_found ctr)
                          else fsck_err_found ctr,
                   stdin := stdin1, raised := true }
          else
            some { ret := ret, attr_list_size := attr_list_size, ctr := fsck_err_found ctr,
                   stdin := stdin1, raised := true }
      else
        some { ret := ret, attr_list_size := attr_list_size, ctr := ctr, stdin := stdin,
               raised := false }

/-! ## `ntfsck_add_index_entry_orphaned_file` (ntfsck.c:1018) -/

/-- What the helpers do for one `$FILE_NAME` attribute whose parent is set in
the FMB: the inode was added to the parent; or the parent's sequence number
differs and the attribute record is removed; or the parent cannot be opened or
the adding fails, which leads to lost+found. -/
inductive ParentOutcome where
  | added
  | seq_mismatch
  | failed
deriving DecidableEq, Repr

/-- The collaborators of the orphan traversal: whether `ntfsck_open_inode` opens
the record, whether `ntfs_attr_get_search_ctx` gives a context, whether
`mrec_temp_buf` is allocated, what happens with a parent that is set in the FMB,
and whether `ntfsck_add_inode_to_lostfound` succeeds. -/
structure OrphanEnv where
  opens : Nat → Bool
  ctx_ok : Nat → Bool
  mrec_temp_buf : Bool
  parent : Nat → Nat → ParentOutcome
  lostfound_ok : Nat → Nat → Bool

/-- The state of the traversal: the candidate list `oc_list_head` and the stack
`ot_list_head` as the MFT numbers of their entries (head first), the value of
`ntfs_fsck_mftbmp_get` per MFT number, the parents named by the `$FILE_NAME`
attributes of each inode, and the record of the moves from the candidate list
to the stack. -/
structure OrphanState where
  oc : List Nat
  ot : List Nat
  fmb : Nat → Bool
  fns : Nat → List Nat
  pushed : List Nat

/-- How the walk over the `$FILE_NAME` attributes of one inode ends: with
`goto stack_of` for a parent found in the candidate list, or at the end of the
attributes with `nlink`; `kept` are the attributes the inode still has. -/
inductive FnWalk where
  | push (p : Nat) (kept : List Nat)
  | done (nlink : Nat) (kept : List Nat)

/-- The loop `while (!ntfs_attr_lookup(AT_FILE_NAME, ...))` of
`ntfsck_add_index_entry_orphaned_file` (ntfsck.c:1060-1166) for the inode
`ino`. -/
def fn_walk (env : OrphanEnv) (fmb : Nat → Bool) (oc : List Nat) (ino : Nat) :
    List Nat → List Nat → Nat → FnWalk
  | [], kept, nlink => FnWalk.done nlink kept
  | p :: todo, kept, nlink =>
    let lostfound : FnWalk :=
      if env.lostfound_ok ino p then fn_walk env fmb oc ino todo (kept ++ [p]) (nlink + 1)
      else fn_walk env fmb oc ino todo kept nlink
    if !fmb p then
      if p ∈ oc then FnWalk.push p (kept ++ p :: todo)
      else lostfound
    else
      match env.parent ino p with
      | ParentOutcome.added => fn_walk env fmb oc ino todo (kept ++ [p]) (nlink + 1)
      | ParentOutcome.seq_mismatch => fn_walk env fmb oc ino todo kept nlink
      | ParentOutcome.failed => lostfound

/-- `FILE_first_user`, the first MFT record that is not a system file. -/
def FILE_first_user : Nat := 24

/-- `ntfsck_delete_orphaned_mft` (ntfsck.c:833) as far as the FMB goes: a system
record or a missing `mrec_temp_buf` leaves it alone, otherwise the bit of the
record is cleared. -/
def ntfsck_delete_orphaned_mft (env : OrphanEnv) (fmb : Nat → Bool) (mft_no : Nat) : Nat → Bool :=
  if mft_no < FILE_first_user then fmb
  else if env.mrec_temp_buf = false then fmb
  else Function.update fmb mft_no false

/-- The loop `while (!ntfs_list_empty(&ot_list_head))` of
`ntfsck_add_index_entry_orphaned_file` with the jump to `stack_of`
(ntfsck.c:1035-1194), with `fuel` turns left. -/
def orphan_loop (env : OrphanEnv) : Nat → OrphanState → Option OrphanState
  | 0, _ => none
  | fuel + 1, st =>
    match st.ot with
    | [] => some st
    | entry :: rest =>
      if !env.opens entry then
        orphan_loop env fuel { st with ot := rest, fmb := ntfsck_delete_orphaned_mft env st.fmb entry }
      else if !env.ctx_ok entry then orphan_loop env fuel { st with ot := rest }
      else
        match fn_walk env st.fmb st.oc entry (st.fns entry) [] 0 with
        | FnWalk.push p kept =>
          orphan_loop env fuel
            { st with oc := st.oc.erase p, ot := p :: entry :: rest,
                      fns := Function.update st.fns entry kept, pushed := st.pushed ++ [p] }
        | FnWalk.done nlink kept =>
          orphan_loop env fuel
            { st with ot := rest, fmb := Function.update st.fmb entry (decide (nlink ≠ 0)),
                      fns := Function.update st.fns entry kept }

/-- `ntfsck_add_index_entry_orphaned_file` (ntfsck.c:1018) for the candidate
`e` (`none` is NULL); the stack `ot_list_head` is local and starts empty. -/
def ntfsck_add_index_entry_orphaned_file (env : OrphanEnv) (e : Option Nat) (st : OrphanState) :
    Option (Int × OrphanState) :=
  match e with
  | none => some (-EINVAL, st)
  | some entry =>
    match orphan_loop env (2 * st.oc.length + 2)
        { st with oc := st.oc.erase entry, ot := [entry], pushed := [entry] } with
    | none => none
    | some st1 => some (STATUS_OK, st1)

/-- Two candidates that name each other as parent, and a third that is its own
parent; no MFT bit is set, every inode opens, nothing can be added. -/
def orphan_cycle : OrphanState :=
  { oc := [30, 31, 32], ot := [], fmb := fun _ => false,
    fns := fun i => if i = 30 then [31] else if i = 31 then [30] else [i], pushed := [] }

/-- Collaborators that open every inode and fail every adding. -/
def orphan_env : OrphanEnv :=
  { opens := fun _ => true, ctx_ok := fun _ => true, mrec_temp_buf := true,
    parent := fun _ _ => ParentOutcome.failed, lostfound_ok := fun _ _ => false }

/-! ## Non-resident attributes of an inode (ntfsck.c:337-378, 2308-2483, 2690-2753, 2864-2915) -/

/-- Code `PR_ATTR_NON_RESIDENT_SIZES_MISMATCH` of `problem_code_t`. -/
def PR_ATTR_NON_RESIDENT_SIZES_MISMATCH : Nat := 14

/-- Attribute types `AT_INDEX_ALLOCATION` and `AT_FIRST_USER_DEFINED_ATTRIBUTE`
(kernel_types.h). -/
def AT_INDEX_ALLOCATION : Nat := 0xA0
def AT_FIRST_USER_DEFINED_ATTRIBUTE : Nat := 0x1000

/-- One attribute record of an inode as the walk of
`ntfsck_check_inode_non_resident` meets it: the fields of the record, whether
`ntfs_attr_open` opens it, and what `ntfsck_decompose_runlist` delivers for it
(the runlist, `none` being NULL, and `*need_fix`). -/
structure InoAttr where
  non_resident : Bool
  type : Nat
  lowest_vcn : Int
  opens : Bool
  data_size : Int
  allocated_size : Int
  rl : Option (List runlist_element)
  need_fix : Bool
deriving DecidableEq

/-- What the checks behind the first `ntfsck_check_inode_non_resident` of
`ntfsck_check_inode` leave (ntfsck.c:2874-2910): whether all of them succeeded,
the volume, the attribute records, the counters and the rest of standard
input. -/
structure LaterResult where
  ok : Bool
  vol : Volume
  attrs : List InoAttr
  ctr : Counters
  stdin : List String

/-- The collaborators of the checks of non-resident attributes, none of which
is among the sources: the repair of duplicates, `vol->cluster_size` (a `u32`,
kernel_types.h:326) and `vol->cluster_size_bits`, `utils_is_metadata(ni)`,
`ntfsck_update_runlist` (`none` is `STATUS_ERROR`, otherwise the attribute
record afterwards), `ntfsck_initialize_index_attr`,
`ntfs_non_resident_attr_shrink`, whether `ntfs_attr_get_search_ctx` succeeds,
whether `ntfs_attrs_walk` ends with `ENOENT`, and the later checks of
`ntfsck_check_inode`. -/
structure NrEnv where
  repair : List runlist_element → List runlist_element → List runlist_element
  cluster_size : Nat
  cluster_size_bits : Nat
  is_metadata : Bool
  update_runlist : InoAttr → List runlist_element → Int → Option InoAttr
  initialize_index_attr : Volume → InoAttr → Volume × InoAttr
  shrink : Volume → InoAttr → Int → Volume × InoAttr
  ctx_ok : Bool
  walk_enoent : Bool
  later : Volume → List InoAttr → Counters → List String → LaterResult

/-- `ntfsck_check_attr_runlist` (ntfsck.c:2308) for an attribute that is not
NULL; a status other than `STATUS_OK` is `STATUS_ERROR`. -/
def ntfsck_check_attr_runlist (env : NrEnv) (vol : Volume) (a : InoAttr) (rls : rl_size)
    (set_bit : Nat) (stdin : List String) : Option CheckRunlistResult :=
  match a.rl with
  | none =>
    some { status := STATUS_ERROR, vol := vol, rl := none, rls := some rls,
           need_fix := some a.need_fix, stdin := stdin, out := [], dup_rl := none }
  | some rl =>
    match ntfsck_check_runlist env.repair vol env.cluster_size_bits
        (some { type := a.type, rl := some rl }) set_bit (some rls) (some a.need_fix) stdin with
    | none => none
    | some r => some (if r.status ≠ STATUS_OK then { r with status := STATUS_ERROR } else r)

/-- What `__ntfsck_check_non_resident_attr` leaves: the return value, the
volume, the attribute record, `*rls`, the counters and the rest of standard
input. -/
structure AttrRunResult where
  ret : Int
  vol : Volume
  attr : InoAttr
  rls : rl_size
  ctr : Counters
  stdin : List String

/-- `__ntfsck_check_non_resident_attr` (ntfsck.c:337). -/
def __ntfsck_check_non_resident_attr (env : NrEnv) (vol : Volume) (a : InoAttr) (rls : rl_size)
    (set_bit : Nat) (ctr : Counters) (stdin : List String) : Option AttrRunResult :=
  match ntfsck_check_attr_runlist env vol a rls set_bit stdin with
  | none => none
  | some r =>
    let rls1 := r.rls.getD rls
    if r.status ≠ STATUS_OK then
      some { ret := STATUS_ERROR, vol := r.vol, attr := a, rls := rls1, ctr := ctr,
             stdin := r.stdin }
    else if r.need_fix = some true then
      match ntfs_fix_problem r.vol PR_LOG_APPLY_RUNLIST_TO_DISK (some ⟨0⟩) r.stdin with
      | none => none
      | some (fix, _, stdin1, _) =>
        if fix then
          match env.update_runlist a (r.rl.getD []) rls1.alloc_size with
          | none =>
            some { ret := STATUS_ERROR, vol := r.vol, attr := a, rls := rls1,
                   ctr := fsck_err_fixed (fsck_err_found ctr), stdin := stdin1 }
          | some a1 =>
            some { ret := STATUS_OK, vol := r.vol, attr := a1, rls := rls1,
                   ctr := fsck_err_fixed (fsck_err_found ctr), stdin := stdin1 }
        else
          some { ret := STATUS_OK, vol := r.vol, attr := a, rls := rls1,
                 ctr := fsck_err_found ctr, stdin := stdin1 }
    else
      some { ret := STATUS_OK, vol := r.vol, attr := a, rls := rls1, ctr := ctr,
             stdin := r.stdin }

/-- The C expression
`(data_size + vol->cluster_size - 1) & ~(vol->cluster_size - 1)` with `s64
data_size` and `u32 cluster_size`: the sum is a 64-bit value, the mask is
computed in 32 bits and widened without sign, and the result, below `2^32`, is
stored in an `s64`. -/
def aligned_data_size (data_size : Int) (cluster_size : Nat) : Int :=
  ((u64_of (data_size + (cluster_size : Int) - 1) &&&
    (2 ^ 32 - 1 - u32_of ((cluster_size : Int) - 1)) : Nat) : Int)

/-- What `ntfsck_check_non_resident_attr` leaves: the return value, the volume,
the attribute record, `rls`, the counters, the rest of standard input, whether
`PR_ATTR_NON_RESIDENT_SIZES_MISMATCH` was raised, and `new_size` where the
function came to `fsck_err_found` (ntfsck.c:2467). -/
structure NrResult where
  ret : Int
  vol : Volume
  attr : InoAttr
  rls : rl_size
  ctr : Counters
  stdin : List String
  raised : Bool
  new_size : Option Int

/-- `ntfsck_check_non_resident_attr` (ntfsck.c:2399) for pointers that are not
NULL. -/
def ntfsck_check_non_resident_attr (env : NrEnv) (vol : Volume) (a : InoAttr) (set_bit : Nat)
    (ctr : Counters) (stdin : List String) : Option NrResult :=
  if !a.non_resident then
    some { ret := STATUS_ERROR, vol := vol, attr := a, rls := ⟨0, 0⟩, ctr := ctr, stdin := stdin,
           raised := false, new_size := none }
  else
    match __ntfsck_check_non_resident_attr env vol a ⟨0, 0⟩ set_bit ctr stdin with
    | none => none
    | some r =>
      let out : NrResult :=
        { ret := STATUS_OK, vol := r.vol, attr := r.attr, rls := r.rls, ctr := r.ctr,
          stdin := r.stdin, raised := false, new_size := none }
      if r.ret ≠ STATUS_OK then some out
      else if env.is_metadata then some out
      else if r.attr.lowest_vcn ≠ 0 then some out
      else
        let data_size := r.attr.data_size
        let alloc_size := r.attr.allocated_size
        let new_size : Option Int :=
          if alloc_size ≠ r.rls.alloc_size ∨ data_size > alloc_size then some 0
          else if aligned_data_size data_size env.cluster_size ≤ alloc_size then none
          else some alloc_size
        match new_size with
        | none => some out
        | some n =>
          match ntfs_fix_problem r.vol PR_ATTR_NON_RESIDENT_SIZES_MISMATCH (some ⟨0⟩) r.stdin with
          | none => none
          | some (fix, _, stdin1, _) =>
            if !fix then
              some { out with ctr := fsck_err_found r.ctr, stdin := stdin1, raised := true,
                              new_size := some n }
            else
              let va : Volume × InoAttr :=
                if r.attr.type = AT_INDEX_ALLOCATION then env.initialize_index_attr r.vol r.attr
                else env.shrink r.vol r.attr n
              some { out with vol := va.1, attr := va.2,
                              ctr := fsck_err_fixed (fsck_err_found r.ctr), stdin := stdin1,
                              raised := true, new_size := some n }

/-- What `ntfsck_check_inode_non_resident` and `ntfsck_check_inode` leave: the
return value, the volume, the attribute records, the counters and the rest of
standard input. -/
structure InodeResult where
  ret : Int
  vol : Volume
  attrs : List InoAttr
  ctr : Counters
  stdin : List String

/-- The loop `while (!(ret = ntfs_attrs_walk(ctx)))` of
`ntfsck_check_inode_non_resident` (ntfsck.c:2702-2746) with the code behind it;
`seen` are the records the walk has passed. -/
def inr_walk (env : NrEnv) (set_bit : Nat) :
    List InoAttr → List InoAttr → Volume → Counters → List String → Option InodeResult
  | [], seen, vol, ctr, stdin =>
    some { ret := if env.walk_enoent then STATUS_OK else -1, vol := vol, attrs := seen,
           ctr := ctr, stdin := stdin }
  | a :: rest, seen, vol, ctr, stdin =>
    if !a.non_resident then inr_walk env set_bit rest (seen ++ [a]) vol ctr stdin
    else if a.type ≥ AT_FIRST_USER_DEFINED_ATTRIBUTE then
      inr_walk env set_bit rest (seen ++ [a]) vol ctr stdin
    else if a.lowest_vcn ≠ 0 then inr_walk env set_bit rest (seen ++ [a]) vol ctr stdin
    else if !a.opens then
      some { ret := STATUS_ERROR, vol := vol, attrs := seen ++ a :: rest, ctr := ctr,
             stdin := stdin }
    else
      match ntfsck_check_non_resident_attr env vol a set_bit ctr stdin with
      | none => none
      | some r =>
        if r.ret ≠ 0 then
          some { ret := STATUS_ERROR, vol := r.vol, attrs := seen ++ r.attr :: rest, ctr := r.ctr,
                 stdin := r.stdin }
        else inr_walk env set_bit rest (seen ++ [r.attr]) r.vol r.ctr r.stdin

/-- `ntfsck_check_inode_non_resident` (ntfsck.c:2690) on the attribute records
of the inode. -/
def ntfsck_check_inode_non_resident (env : NrEnv) (vol : Volume) (attrs : List InoAttr)
    (set_bit : Nat) (ctr : Counters) (stdin : List String) : Option InodeResult :=
  if !env.ctx_ok then
    some { ret := STATUS_ERROR, vol := vol, attrs := attrs, ctr := ctr, stdin := stdin }
  else inr_walk env set_bit attrs [] vol ctr stdin

/-- The label `err_out` of `ntfsck_check_inode` (ntfsck.c:2912). -/
def check_inode_err_out (env : NrEnv) (vol : Volume) (attrs : List InoAttr) (ctr : Counters)
    (stdin : List String) : Option InodeResult :=
  match ntfsck_check_inode_non_resident env vol attrs 0 ctr stdin with
  | none => none
  | some r => some { r with ret := STATUS_ERROR }

/-- `ntfsck_check_inode` (ntfsck.c:2864); the checks between the first
`ntfsck_check_inode_non_resident` and the return are `env.later`. -/
def ntfsck_check_inode (env : NrEnv) (vol : Volume) (attrs : List InoAttr) (ctr : Counters)
    (stdin : List String) : Option InodeResult :=
  match ntfsck_check_inode_non_resident env vol attrs 1 ctr stdin with
  | none => none
  | some r1 =>
    if r1.ret ≠ 0 then check_inode_err_out env r1.vol r1.attrs r1.ctr r1.stdin
    else
      let l := env.later r1.vol r1.attrs r1.ctr r1.stdin
      if l.ok then
        some { ret := STATUS_OK, vol := l.vol, attrs := l.attrs, ctr := l.ctr, stdin := l.stdin }
      else check_inode_err_out env l.vol l.attrs l.ctr l.stdin

/-- The clusters the bitmap engine visits for the entries the walk of
`ntfsck_check_runlist` hands to it on a volume of `nr` clusters: for each entry
with `LCN_HOLE < lcn < nr` in front of the end of the walk, the clusters of
`engine_cover` for the entry with its length as the walk has adjusted it. -/
def walk_cover (nr : Int) : List runlist_element → Nat → Bool
  | [], _ => false
  | e :: rest, c =>
    if e.length = 0 then false
    else if e.lcn > LCN_HOLE then
      if e.lcn ≥ nr then false
      else
        engine_cover e.lcn (if s64_of (e.lcn + e.length) ≥ nr then nr - e.lcn else e.length) c
          || walk_cover nr rest c
    else if e.lcn = LCN_HOLE then walk_cover nr rest c
    else false

/-- A condition under which the walk of `ntfsck_check_runlist` comes to its end,
on a volume of `nr` clusters with `pages` FCB pages and with at most `k`
elements in the duplicate runlist: the walk ends inside the array, and
`engine_ok` holds for every entry it hands to the bitmap engine. -/
def walk_ok (nr : Int) (pages : Nat) : Nat → List runlist_element → Bool
  | _, [] => false
  | k, e :: rest =>
    if e.length = 0 then true
    else if e.lcn > LCN_HOLE then
      if e.lcn ≥ nr then true
      else
        engine_ok pages k e.lcn
            (if s64_of (e.lcn + e.length) ≥ nr then nr - e.lcn else e.length) &&
          walk_ok nr pages
            (k + (if s64_of (e.lcn + e.length) ≥ nr then nr - e.lcn else e.length).toNat + 1)
            rest
    else if e.lcn = LCN_HOLE then walk_ok nr pages k rest
    else true

/-- The clusters of the runlists that `ntfsck_check_inode_non_resident` hands
to the bitmap engine: those of the records it does not skip, up to the first
record that does not open. -/
def inode_cover (nr : Int) : List InoAttr → Nat → Bool
  | [], _ => false
  | a :: rest, c =>
    if !a.non_resident then inode_cover nr rest c
    else if a.type ≥ AT_FIRST_USER_DEFINED_ATTRIBUTE then inode_cover nr rest c
    else if a.lowest_vcn ≠ 0 then inode_cover nr rest c
    else if !a.opens then false
    else
      (match a.rl with
       | none => false
       | some rl => walk_cover nr rl c) || inode_cover nr rest c

/-- A condition under which every walk of a runlist in
`ntfsck_check_inode_non_resident` comes to its end: `walk_ok` for every runlist
the pass walks. -/
def inode_ok (nr : Int) (pages : Nat) : List InoAttr → Bool
  | [] => true
  | a :: rest =>
    if !a.non_resident then inode_ok nr pages rest
    else if a.type ≥ AT_FIRST_USER_DEFINED_ATTRIBUTE then inode_ok nr pages rest
    else if a.lowest_vcn ≠ 0 then inode_ok nr pages rest
    else if !a.opens then true
    else
      (match a.rl with
       | none => true
       | some rl => walk_ok nr pages 0 rl) && inode_ok nr pages rest

/-- The volume `vol_10_12` mounted as by `ntfsck -n`. -/
def vol_10_12_n : Volume := { vol_10_12 with option_flags := flags_n }

/-- Collaborators of a volume with clusters of 4096 bytes; the later checks of
`ntfsck_check_inode` fail and change nothing. -/
def env_4096 : NrEnv :=
  { repair := fun l _ => l, cluster_size := 4096, cluster_size_bits := 12, is_metadata := false,
    update_runlist := fun a _ _ => some a, initialize_index_attr := fun v a => (v, a),
    shrink := fun v a _ => (v, a), ctx_ok := true, walk_enoent := true,
    later := fun v as c s => { ok := false, vol := v, attrs := as, ctr := c, stdin := s } }

/-- An unnamed `$DATA` attribute of one cluster, cluster `lcn`, with the sizes
`data_size` and `allocated_size`. -/
def data_attr (lcn data_size allocated_size : Int) : InoAttr :=
  { non_resident := true, type := 0x80, lowest_vcn := 0, opens := true, data_size := data_size,
    allocated_size := allocated_size, rl := some [⟨0, lcn, 1⟩, ⟨1, LCN_ENOENT, 0⟩],
    need_fix := false }

/-- Attribute type `AT_BITMAP` (kernel_types.h). -/
def AT_BITMAP : Nat := 0xB0

/-- A non-resident `$BITMAP` attribute of one cluster, cluster `lcn`. -/
def bitmap_attr (lcn : Int) : InoAttr :=
  { non_resident := true, type := AT_BITMAP, lowest_vcn := 0, opens := true, data_size := 4096,
    allocated_size := 4096, rl := some [⟨0, lcn, 1⟩, ⟨1, LCN_ENOENT, 0⟩], need_fix := false }

/-- Collaborators as `env_4096`, with `ntfs_non_resident_attr_shrink(na, 0)`
leaving the attribute with the empty runlist and the sizes 0. -/
def env_shrink : NrEnv :=
  { env_4096 with
    shrink := fun v a n =>
      (v, { a with rl := some [⟨0, LCN_ENOENT, 0⟩], data_size := n, allocated_size := n }) }

/-- The attribute `data_attr lcn data_size allocated_size` after
`ntfs_non_resident_attr_shrink(na, 0)` as `env_shrink` has it: no cluster, the
sizes 0. -/
def shrunk_attr : InoAttr :=
  { non_resident := true, type := 0x80, lowest_vcn := 0, opens := true, data_size := 0,
    allocated_size := 0, rl := some [⟨0, LCN_ENOENT, 0⟩], need_fix := false }

/-- Collaborators as `env_4096`, for a directory that has `$INDEX_ROOT` and a
`$BITMAP` but no `$INDEX_ALLOCATION`: `ntfsck_check_directory` removes the
`$BITMAP` record with `ntfs_attr_rm(bm_na)` (ntfsck.c:2519), in every repair
mode, and a later check fails. -/
def env_rm_bitmap : NrEnv :=
  { env_4096 with
    later := fun v as c s =>
      { ok := false, vol := v, attrs := as.filter (fun a => a.type != AT_BITMAP), ctr := c,
        stdin := s } }

/-! # Lemmas and theorems -/

/-! ## Integer and byte lemmas -/

theorem asr_eq_div (x : Int) (n : Nat) : asr x n = x / ((2 ^ n : Nat) : Int) := by
  unfold asr
  exact Int.shiftRight_eq_div_pow x n

theorem ldiff_8191_shift (n : Nat) : (Nat.ldiff n 8191) / 8192 = n / 8192 := by
  apply Nat.eq_of_testBit_eq
  intro i
  have h1 : (8192 : Nat) = 2 ^ 13 := by norm_num
  have h2 : (8191 : Nat) = 2 ^ 13 - 1 := by norm_num
  rw [h1, ← Nat.shiftRight_eq_div_pow, ← Nat.shiftRight_eq_div_pow, Nat.testBit_shiftRight,
    Nat.testBit_shiftRight, Nat.testBit_ldiff, h2, Nat.testBit_two_pow_sub_one]
  simp

theorem lor_8191_shift (n : Nat) : (n ||| 8191) / 8192 = n / 8192 := by
  apply Nat.eq_of_testBit_eq
  intro i
  have h1 : (8192 : Nat) = 2 ^ 13 := by norm_num
  have h2 : (8191 : Nat) = 2 ^ 13 - 1 := by norm_num
  rw [h1, ← Nat.shiftRight_eq_div_pow, ← Nat.shiftRight_eq_div_pow, Nat.testBit_shiftRight,
    Nat.testBit_shiftRight, Nat.testBit_or, h2, Nat.testBit_two_pow_sub_one]
  simp

/-- The macro `FB_ROUND_DOWN` is the floor division by the page size. -/
theorem FB_ROUND_DOWN_eq (x : Int) : FB_ROUND_DOWN x = x / 8192 := by
  unfold FB_ROUND_DOWN NTFS_BUF_SIZE NTFS_BUF_SIZE_BITS
  have hc : (~~~(((8192 : Nat) : Int) - 1)) = Int.negSucc 8191 := by decide
  rw [hc, asr_eq_div]
  cases x with
  | ofNat n =>
    show ((Int.ofNat (Nat.ldiff n 8191)) / ((2 ^ 13 : Nat) : Int) : Int) = _
    have := ldiff_8191_shift n
    simp only [Int.ofNat_eq_coe]
    omega
  | negSucc n =>
    show ((Int.negSucc (n ||| 8191)) / ((2 ^ 13 : Nat) : Int) : Int) = _
    have := lor_8191_shift n
    simp only [Int.negSucc_eq]
    omega

theorem page_index_nat (b : Nat) :
    FB_ROUND_DOWN ((b >>> NTFSCK_BYTE_TO_BITS : Nat) : Int) = ((b / 65536 : Nat) : Int) := by
  rw [FB_ROUND_DOWN_eq, Nat.shiftRight_eq_div_pow]
  unfold NTFSCK_BYTE_TO_BITS
  omega

theorem byte_or_bit (x s j : Nat) (hj : j < 8) :
    ((x ||| (1 <<< s)) % 256).testBit j = (x.testBit j || decide (s = j)) := by
  have h : (256 : Nat) = 2 ^ 8 := by norm_num
  rw [h, Nat.testBit_mod_two_pow, Nat.testBit_or, Nat.one_shiftLeft, Nat.testBit_two_pow]
  simp [hj]

theorem byte_clear_bit (x s j : Nat) (hj : j < 8) :
    ((x &&& (255 ^^^ (1 <<< s))) % 256).testBit j = (x.testBit j && !decide (s = j)) := by
  have h : (256 : Nat) = 2 ^ 8 := by norm_num
  have h2 : (255 : Nat) = 2 ^ 8 - 1 := by norm_num
  rw [h, Nat.testBit_mod_two_pow, Nat.testBit_and, Nat.testBit_xor, Nat.one_shiftLeft,
    Nat.testBit_two_pow, h2, Nat.testBit_two_pow_sub_one]
  simp [hj]

theorem byte_xor_bit (x s j : Nat) (hj : j < 8) :
    ((x ^^^ (1 <<< s)) % 256).testBit j = (x.testBit j ^^ decide (s = j)) := by
  have h : (256 : Nat) = 2 ^ 8 := by norm_num
  rw [h, Nat.testBit_mod_two_pow, Nat.testBit_xor, Nat.one_shiftLeft, Nat.testBit_two_pow]
  simp [hj]

theorem shift_and_one (x s : Nat) : (x >>> s) &&& 1 = if x.testBit s then 1 else 0 := by
  rw [Nat.and_one_is_mod, Nat.testBit_to_div_mod, Nat.shiftRight_eq_div_pow]
  by_cases h : x / 2 ^ s % 2 = 1
  · simp [h]
  · simp [h]; omega

theorem bit_split (b : Nat) : b >>> 3 = b / 8 ∧ b &&& 7 = b % 8 := by
  constructor
  · rw [Nat.shiftRight_eq_div_pow]
  · exact Nat.and_pow_two_sub_one_eq_mod b 3

/-! ## Bit helpers on a page -/

theorem ntfs_bit_get_spec (p : Page) (b : Nat) (hb : b < 65536) :
    ntfs_bit_get p b = some (if page_bit p b then 1 else 0) := by
  unfold ntfs_bit_get page_bit NTFS_BUF_SIZE
  obtain ⟨h1, h2⟩ := bit_split b
  rw [h1, h2, shift_and_one]
  have : b / 8 < 8192 := by omega
  simp [this]

theorem ntfs_bit_get_far (p : Page) (b : Nat) (hb : 65536 ≤ b) : ntfs_bit_get p b = none := by
  unfold ntfs_bit_get NTFS_BUF_SIZE
  obtain ⟨h1, _⟩ := bit_split b
  rw [h1]
  have : ¬ b / 8 < 8192 := by omega
  simp [this]

theorem ntfs_bit_set_spec (p : Page) (b v : Nat) (hb : b < 65536) (hv : v ≤ 1) :
    ∃ q, ntfs_bit_set p b v = some q ∧ page_bit q b = decide (v = 1) ∧
      ∀ b', b' ≠ b → page_bit q b' = page_bit p b' := by
  unfold ntfs_bit_set NTFS_BUF_SIZE
  obtain ⟨h1, h2⟩ := bit_split b
  rw [h1, h2]
  have hlt : b / 8 < 8192 := by omega
  have hv' : ¬ 1 < v := by omega
  have hmod : b % 8 < 8 := Nat.mod_lt _ (by norm_num)
  simp only [hv', if_false, hlt, if_true]
  by_cases h0 : v = 0
  · simp only [h0, if_true]
    refine ⟨_, rfl, ?_, ?_⟩
    · unfold page_bit
      simp [Function.update_same, byte_clear_bit _ _ _ hmod]
    · intro b' hb'
      unfold page_bit
      by_cases hq : b' / 8 = b / 8
      · rw [hq, Function.update_same, byte_clear_bit _ _ _ (Nat.mod_lt _ (by norm_num))]
        have : b % 8 ≠ b' % 8 := by omega
        simp [this]
      · rw [Function.update_noteq hq]
  · simp only [h0, if_false]
    have h1' : v = 1 := by omega
    refine ⟨_, rfl, ?_, ?_⟩
    · unfold page_bit
      simp [Function.update_same, byte_or_bit _ _ _ hmod, h1']
    · intro b' hb'
      unfold page_bit
      by_cases hq : b' / 8 = b / 8
      · rw [hq, Function.update_same, byte_or_bit _ _ _ (Nat.mod_lt _ (by norm_num))]
        have : b % 8 ≠ b' % 8 := by omega
        simp [this]
      · rw [Function.update_noteq hq]

/-! ## FMB laws -/

theorem fmb_index (m : Nat) (hm : m < 2 ^ 48) :
    u32_of (FB_ROUND_DOWN ((m >>> NTFSCK_BYTE_TO_BITS : Nat) : Int)) = m / 65536 := by
  rw [page_index_nat]
  unfold u32_of
  have : (2 : Int) ^ 32 = 4294967296 := by norm_num
  rw [this]
  have h2 : (2 : Nat) ^ 48 = 281474976710656 := by norm_num
  omega

theorem fmb_offset (m : Nat) :
    u64_of ((m : Int) - shl ((m / 65536 : Nat) : Int) (NTFS_BUF_SIZE_BITS + NTFSCK_BYTE_TO_BITS))
      = m % 65536 := by
  unfold u64_of shl NTFS_BUF_SIZE_BITS NTFSCK_BYTE_TO_BITS
  have : (2 : Int) ^ 64 = 18446744073709551616 := by norm_num
  rw [this]
  have : (2 : Int) ^ (13 + 3) = 65536 := by norm_num
  rw [this]
  omega

/-- Reading a number below `2^48`: the stored bit, 0 for a page that is out of
range or not allocated. -/
theorem ntfs_fsck_mftbmp_get_eq (vol : Volume) (m : Nat) (hm : m < 2 ^ 48) :
    ntfs_fsck_mftbmp_get vol m =
      some (if m / 65536 < vol.max_fmb_cnt then
        match vol.fsck_mft_bitmap (m / 65536) with
        | none => 0
        | some p => if page_bit p (m % 65536) then 1 else 0
      else 0) := by
  unfold ntfs_fsck_mftbmp_get
  simp only [fmb_index m hm, fmb_offset]
  by_cases h : m / 65536 < vol.max_fmb_cnt
  · have h' : ¬ (m / 65536 ≥ vol.max_fmb_cnt) := by omega
    simp only [h', if_false, h, if_true]
    cases hp : vol.fsck_mft_bitmap (m / 65536) with
    | none => rfl
    | some p => exact ntfs_bit_get_spec p _ (Nat.mod_lt _ (by norm_num))
  · have h' : m / 65536 ≥ vol.max_fmb_cnt := by omega
    simp only [h', if_true, h, if_false]

theorem zero_page_bit (b : Nat) : page_bit zero_page b = false := by
  unfold page_bit zero_page
  simp

/-- Writing a number below `2^48` whose page is in range. -/
theorem ntfs_fsck_set_mftbmp_value_spec (vol : Volume) (m v : Nat) (hm : m < 2 ^ 48)
    (hpage : m / 65536 < vol.max_fmb_cnt) (hv : v ≤ 1) :
    ∃ v1, ntfs_fsck_set_mftbmp_value vol m v = some (0, v1) ∧
      ntfs_fsck_mftbmp_get v1 m = some v ∧
      v1.max_fmb_cnt = vol.max_fmb_cnt ∧
      ∀ m', m' < 2 ^ 48 → m' ≠ m → ntfs_fsck_mftbmp_get v1 m' = ntfs_fsck_mftbmp_get vol m' := by
  unfold ntfs_fsck_set_mftbmp_value
  simp only [fmb_index m hm, fmb_offset]
  have h' : ¬ (m / 65536 ≥ vol.max_fmb_cnt) := by omega
  simp only [h', if_false]
  obtain ⟨q, hq, hqb, hqo⟩ := ntfs_bit_set_spec
    (match vol.fsck_mft_bitmap (m / 65536) with
      | none => zero_page
      | some p => p) (m % 65536) v (Nat.mod_lt _ (by norm_num)) hv
  rw [hq]
  refine ⟨_, rfl, ?_, rfl, ?_⟩
  · rw [ntfs_fsck_mftbmp_get_eq _ m hm]
    simp only [hpage, if_true, Function.update_same, hqb]
    by_cases h1 : v = 1
    · simp [h1]
    · have : v = 0 := by omega
      simp [this]
  · intro m' hm' hne
    rw [ntfs_fsck_mftbmp_get_eq _ m' hm', ntfs_fsck_mftbmp_get_eq _ m' hm']
    by_cases hpg : m' / 65536 = m / 65536
    · have hb : m' % 65536 ≠ m % 65536 := by omega
      dsimp only
      rw [Function.update_apply, if_pos hpg, hpg]
      simp only [hpage, if_true]
      rw [hqo _ hb]
      cases hp : vol.fsck_mft_bitmap (m / 65536) with
      | none => simp [zero_page_bit]
      | some p => rfl
    · dsimp only
      rw [Function.update_apply, if_neg hpg]

theorem ntfs_fsck_set_mftbmp_value_range (vol : Volume) (m v : Nat) (hm : m < 2 ^ 48)
    (hpage : vol.max_fmb_cnt ≤ m / 65536) :
    ntfs_fsck_set_mftbmp_value vol m v = some (-EINVAL, vol) := by
  unfold ntfs_fsck_set_mftbmp_value
  simp only [fmb_index m hm]
  have h' : m / 65536 ≥ vol.max_fmb_cnt := hpage
  simp only [h', if_true]

/-- One FMB update on `m` keeps a clear bit `m'` clear, unless it sets `m'`. -/
theorem fmb_step_keeps_clear (vol : Volume) (m m' v : Nat) (hm : m < 2 ^ 48) (hm' : m' < 2 ^ 48)
    (hv : v ≤ 1) (hns : v = 1 → m ≠ m') (h0 : ntfs_fsck_mftbmp_get vol m' = some 0) :
    ∃ r v1, ntfs_fsck_set_mftbmp_value vol m v = some (r, v1) ∧
      ntfs_fsck_mftbmp_get v1 m' = some 0 := by
  by_cases hpage : m / 65536 < vol.max_fmb_cnt
  · obtain ⟨v1, h1, h2, _, h3⟩ := ntfs_fsck_set_mftbmp_value_spec vol m v hm hpage hv
    refine ⟨0, v1, h1, ?_⟩
    by_cases hmm : m' = m
    · subst hmm
      rw [h2]
      have : v = 0 := by
        by_contra hc
        exact hns (by omega) rfl
      rw [this]
    · rw [h3 m' hm' hmm, h0]
  · exact ⟨-EINVAL, vol, ntfs_fsck_set_mftbmp_value_range vol m v hm (by omega), h0⟩

theorem fmb_run_never_set (ops : List (Bool × Nat)) (m' : Nat) (hm' : m' < 2 ^ 48) :
    ∀ vol : Volume, (∀ op ∈ ops, op.2 < 2 ^ 48) → (∀ op ∈ ops, op.1 = true → op.2 ≠ m') →
      ntfs_fsck_mftbmp_get vol m' = some 0 →
      ∃ v, fmb_run ops vol = some v ∧ ntfs_fsck_mftbmp_get v m' = some 0 := by
  induction ops with
  | nil => intro vol _ _ h0; exact ⟨vol, rfl, h0⟩
  | cons op rest ih =>
    intro vol hlt hns h0
    obtain ⟨s, m⟩ := op
    have hm : m < 2 ^ 48 := hlt (s, m) (List.mem_cons_self _ _)
    have hrest1 : ∀ op ∈ rest, op.2 < 2 ^ 48 := fun op h => hlt op (List.mem_cons_of_mem _ h)
    have hrest2 : ∀ op ∈ rest, op.1 = true → op.2 ≠ m' :=
      fun op h => hns op (List.mem_cons_of_mem _ h)
    cases s with
    | true =>
      have hne : m ≠ m' := hns (true, m) (List.mem_cons_self _ _) rfl
      obtain ⟨r, v1, h1, h2⟩ := fmb_step_keeps_clear vol m m' 1 hm hm' (le_refl 1)
        (fun _ => hne) h0
      obtain ⟨v, hv, hg⟩ := ih v1 hrest1 hrest2 h2
      refine ⟨v, ?_, hg⟩
      simp only [fmb_run, ntfs_fsck_mftbmp_set, h1, hv]
    | false =>
      obtain ⟨r, v1, h1, h2⟩ := fmb_step_keeps_clear vol m m' 0 hm hm' (by norm_num)
        (fun h => absurd h (by norm_num)) h0
      obtain ⟨v, hv, hg⟩ := ih v1 hrest1 hrest2 h2
      refine ⟨v, ?_, hg⟩
      simp only [fmb_run, ntfs_fsck_mftbmp_clear, h1, hv]

theorem mount_max_fmb_cnt (c sz : Int) (bits : Nat) (flags : MountFlags) :
    (ntfs_fsck_mount c sz bits flags).max_fmb_cnt =
      ((sz / ((2 ^ bits : Nat) : Int) / 8 / 8192 + 1) % 18446744073709551616).toNat := by
  unfold ntfs_fsck_mount u64_of NTFSCK_BYTE_TO_BITS
  simp only [FB_ROUND_DOWN_eq, asr_eq_div]
  norm_num

theorem ntfs_fsck_set_mftbmp_value_page (vol : Volume) (m v : Nat) (hm : m < 2 ^ 48)
    (hpage : m / 65536 < vol.max_fmb_cnt) (hv : v ≤ 1) :
    ∃ v1 q, ntfs_fsck_set_mftbmp_value vol m v = some (0, v1) ∧
      v1.fsck_mft_bitmap (m / 65536) = some q ∧ v1.max_fmb_cnt = vol.max_fmb_cnt := by
  unfold ntfs_fsck_set_mftbmp_value
  simp only [fmb_index m hm, fmb_offset]
  have h' : ¬ (m / 65536 ≥ vol.max_fmb_cnt) := by omega
  simp only [h', if_false]
  obtain ⟨q, hq, _, _⟩ := ntfs_bit_set_spec
    (match vol.fsck_mft_bitmap (m / 65536) with
      | none => zero_page
      | some p => p) (m % 65536) v (Nat.mod_lt _ (by norm_num)) hv
  rw [hq]
  exact ⟨_, q, rfl, by simp, rfl⟩

/-- Reading `2^48` when page 0 is allocated: the `u32` page index wraps to 0
and the bit offset is `2^48`, outside the page. -/
theorem ntfs_fsck_mftbmp_get_wrapped (vol : Volume) (p : Page)
    (hp : vol.fsck_mft_bitmap 0 = some p) (hmax : 0 < vol.max_fmb_cnt) :
    ntfs_fsck_mftbmp_get vol (2 ^ 48) = none := by
  unfold ntfs_fsck_mftbmp_get
  have hi : u32_of (FB_ROUND_DOWN (((2 ^ 48 : Nat) >>> NTFSCK_BYTE_TO_BITS : Nat) : Int)) = 0 := by
    rw [page_index_nat]
    unfold u32_of
    norm_num
  simp only [hi]
  have h' : ¬ (0 ≥ vol.max_fmb_cnt) := by omega
  simp only [h', if_false, hp]
  apply ntfs_bit_get_far
  unfold u64_of shl
  norm_num

/-- C5 (as stated, refuted): after `ntfs_fsck_mftbmp_set(0)` on a freshly mounted volume
with one FMB page, reading the number `2^48`, which was never set, does not
return 0: the `u32` page index wraps to 0 and the read leaves the page. -/
theorem fmb_get_beyond_48_bits :
    ∃ v1, ntfs_fsck_mftbmp_set (ntfs_fsck_mount 1 1024 10 NTFS_MNT_NONE) 0 = some (0, v1) ∧
      ntfs_fsck_mftbmp_get v1 (2 ^ 48) = none := by
  have hmax : (ntfs_fsck_mount 1 1024 10 NTFS_MNT_NONE).max_fmb_cnt = 1 := by
    rw [mount_max_fmb_cnt]; norm_num
  obtain ⟨v1, q, h1, h2, h3⟩ := ntfs_fsck_set_mftbmp_value_page (ntfs_fsck_mount 1 1024 10 NTFS_MNT_NONE) 0 1
    (by norm_num) (by rw [hmax]; norm_num) (le_refl 1)
  exact ⟨v1, h1, ntfs_fsck_mftbmp_get_wrapped v1 q h2 (by rw [h3, hmax]; norm_num)⟩

/-- C5 (amended): for MFT numbers below `2^48` the FMB obeys the set/get/clear
law. For `m` whose page index `m / 65536` is below `max_fmb_cnt`, set and clear
return 0, afterwards get returns 1 resp. 0 for `m`, and get is unchanged for
every other number `m'`; and after any run of sets and clears from the freshly
mounted (all-NULL) FMB, get returns 0 for every number that was never set,
whether its page is allocated, unallocated or out of range. -/
theorem fmb_set_get_clear_law (vol : Volume) (m : Nat) (hm : m < 2 ^ 48)
    (hpage : m / 65536 < vol.max_fmb_cnt) :
    (∃ v1, ntfs_fsck_mftbmp_set vol m = some (0, v1) ∧ ntfs_fsck_mftbmp_get v1 m = some 1 ∧
      ∀ m', m' < 2 ^ 48 → m' ≠ m →
        ntfs_fsck_mftbmp_get v1 m' = ntfs_fsck_mftbmp_get vol m') ∧
    (∃ v0, ntfs_fsck_mftbmp_clear vol m = some (0, v0) ∧ ntfs_fsck_mftbmp_get v0 m = some 0 ∧
      ∀ m', m' < 2 ^ 48 → m' ≠ m →
        ntfs_fsck_mftbmp_get v0 m' = ntfs_fsck_mftbmp_get vol m') ∧
    (∀ (ops : List (Bool × Nat)) (m' : Nat), (∀ i, vol.fsck_mft_bitmap i = none) →
      (∀ op ∈ ops, op.2 < 2 ^ 48) → m' < 2 ^ 48 → (∀ op ∈ ops, op.1 = true → op.2 ≠ m') →
      ∃ v, fmb_run ops vol = some v ∧ ntfs_fsck_mftbmp_get v m' = some 0) := by
  refine ⟨?_, ?_, ?_⟩
  · obtain ⟨v1, h1, h2, _, h3⟩ := ntfs_fsck_set_mftbmp_value_spec vol m 1 hm hpage (le_refl 1)
    exact ⟨v1, h1, h2, h3⟩
  · obtain ⟨v1, h1, h2, _, h3⟩ := ntfs_fsck_set_mftbmp_value_spec vol m 0 hm hpage (by norm_num)
    exact ⟨v1, h1, h2, h3⟩
  · intro ops m' hempty hlt hm' hns
    apply fmb_run_never_set ops m' hm' vol hlt hns
    rw [ntfs_fsck_mftbmp_get_eq vol m' hm', hempty]
    simp

/-- Witness of `fmb_set_get_clear_law`: MFT number 70000 on a volume with three
FMB pages. -/
theorem fmb_set_get_clear_law_witness :
    (∃ v1, ntfs_fsck_mftbmp_set (ntfs_fsck_mount 100 134217728 10 NTFS_MNT_NONE) 70000 = some (0, v1) ∧
      ntfs_fsck_mftbmp_get v1 70000 = some 1 ∧
      ∀ m', m' < 2 ^ 48 → m' ≠ 70000 →
        ntfs_fsck_mftbmp_get v1 m' =
          ntfs_fsck_mftbmp_get (ntfs_fsck_mount 100 134217728 10 NTFS_MNT_NONE) m') ∧
    (∃ v0, ntfs_fsck_mftbmp_clear (ntfs_fsck_mount 100 134217728 10 NTFS_MNT_NONE) 70000 = some (0, v0) ∧
      ntfs_fsck_mftbmp_get v0 70000 = some 0 ∧
      ∀ m', m' < 2 ^ 48 → m' ≠ 70000 →
        ntfs_fsck_mftbmp_get v0 m' =
          ntfs_fsck_mftbmp_get (ntfs_fsck_mount 100 134217728 10 NTFS_MNT_NONE) m') ∧
    (∀ (ops : List (Bool × Nat)) (m' : Nat),
      (∀ i, (ntfs_fsck_mount 100 134217728 10 NTFS_MNT_NONE).fsck_mft_bitmap i = none) →
      (∀ op ∈ ops, op.2 < 2 ^ 48) → m' < 2 ^ 48 → (∀ op ∈ ops, op.1 = true → op.2 ≠ m') →
      ∃ v, fmb_run ops (ntfs_fsck_mount 100 134217728 10 NTFS_MNT_NONE) = some v ∧
        ntfs_fsck_mftbmp_get v m' = some 0) :=
  fmb_set_get_clear_law (ntfs_fsck_mount 100 134217728 10 NTFS_MNT_NONE) 70000 (by norm_num)
    (by rw [mount_max_fmb_cnt]; norm_num)

/-! ## FCB: setting a range -/

theorem ntfs_bit_get_and_set_spec (p : Page) (b v : Nat) (hb : b < 65536) (hv : v ≤ 1) :
    ∃ q, ntfs_bit_get_and_set p b v = some ((if page_bit p b then 1 else 0 : Int), q) ∧
      page_bit q b = decide (v = 1) ∧ ∀ b', b' ≠ b → page_bit q b' = page_bit p b' := by
  unfold ntfs_bit_get_and_set NTFS_BUF_SIZE
  obtain ⟨h1, h2⟩ := bit_split b
  rw [h1, h2]
  have hlt : b / 8 < 8192 := by omega
  have hv' : ¬ 1 < v := by omega
  have hmod : b % 8 < 8 := Nat.mod_lt _ (by norm_num)
  simp only [hv', if_false, hlt, if_true, shift_and_one]
  have hold : (((if (p (b / 8)).testBit (b % 8) = true then 1 else 0 : Nat) : Nat) : Int)
      = (if page_bit p b then 1 else 0 : Int) := by
    unfold page_bit
    split <;> simp
  by_cases hne : v ≠ if (p (b / 8)).testBit (b % 8) = true then 1 else 0
  · rw [if_pos hne, hold]
    refine ⟨_, rfl, ?_, ?_⟩
    · unfold page_bit
      rw [Function.update_same, byte_xor_bit _ _ _ hmod]
      by_cases ht : (p (b / 8)).testBit (b % 8) = true
      · simp only [ht, if_true] at hne
        have : v = 0 := by omega
        simp [ht, this]
      · simp only [ht] at hne
        have : v = 1 := by
          simp at hne
          omega
        simp [ht, this]
    · intro b' hb'
      unfold page_bit
      by_cases hq : b' / 8 = b / 8
      · rw [hq, Function.update_same, byte_xor_bit _ _ _ (Nat.mod_lt _ (by norm_num))]
        have : b % 8 ≠ b' % 8 := by omega
        simp [this]
      · rw [Function.update_noteq hq]
  · rw [if_neg hne, hold]
    refine ⟨_, rfl, ?_, fun _ _ => rfl⟩
    unfold page_bit
    by_cases ht : (p (b / 8)).testBit (b % 8) = true
    · simp only [ht, if_true] at hne
      have : v = 1 := by omega
      simp [ht, this]
    · simp only [ht] at hne
      have : v = 0 := by
        simp at hne
        omega
      simp [ht, this]

theorem s64_of_id (x : Int) (h0 : -(2 : Int) ^ 63 ≤ x) (h1 : x < 2 ^ 63) : s64_of x = x := by
  unfold s64_of
  have e63 : (2 : Int) ^ 63 = 9223372036854775808 := by norm_num
  have e64 : (2 : Int) ^ 64 = 18446744073709551616 := by norm_num
  rw [e63] at h0 h1
  rw [e63, e64]
  omega

theorem s64_of_range (x : Int) : -(2 : Int) ^ 63 ≤ s64_of x ∧ s64_of x < 2 ^ 63 := by
  unfold s64_of
  have e63 : (2 : Int) ^ 63 = 9223372036854775808 := by norm_num
  have e64 : (2 : Int) ^ 64 = 18446744073709551616 := by norm_num
  rw [e63, e64]
  omega

theorem s64_of_le (x : Int) (h0 : -(2 : Int) ^ 63 ≤ x) : s64_of x ≤ x := by
  unfold s64_of
  have e63 : (2 : Int) ^ 63 = 9223372036854775808 := by norm_num
  have e64 : (2 : Int) ^ 64 = 18446744073709551616 := by norm_num
  rw [e63] at h0
  rw [e63, e64]
  omega

theorem u64_of_small (x : Int) (h0 : 0 ≤ x) (h1 : x < 65536) : u64_of x = x.toNat := by
  unfold u64_of
  have : (2 : Int) ^ 64 = 18446744073709551616 := by norm_num
  rw [this]
  omega

theorem set_lcnbmp_bits_spec (rel : Int) (v : Nat) (hv : v ≤ 1) :
    ∀ (n : Nat) (i : Int) (buf : Page), 0 ≤ rel + i → rel + i + n ≤ 65536 →
      ∃ q, set_lcnbmp_bits rel v n i buf = some q ∧
        ∀ b : Nat, page_bit q b =
          if rel + i ≤ (b : Int) ∧ (b : Int) < rel + i + n then decide (v = 1) else page_bit buf b := by
  intro n
  induction n with
  | zero =>
    intro i buf _ _
    refine ⟨buf, rfl, ?_⟩
    intro b
    have : ¬ (rel + i ≤ (b : Int) ∧ (b : Int) < rel + i + ((0 : Nat) : Int)) := by omega
    rw [if_neg this]
  | succ n ih =>
    intro i buf h0 h1
    have hsm : u64_of (rel + i) = (rel + i).toNat := u64_of_small _ h0 (by omega)
    obtain ⟨q, hq, hqb, hqo⟩ := ntfs_bit_get_and_set_spec buf (rel + i).toNat v (by omega) hv
    obtain ⟨q2, hq2, hq2b⟩ := ih (i + 1) q (by omega) (by push_cast at h1 ⊢; omega)
    refine ⟨q2, ?_, ?_⟩
    · simp only [set_lcnbmp_bits, hsm, hq]
      exact hq2
    · intro b
      rw [hq2b b]
      by_cases hb : (b : Int) = rel + i
      · have hbn : b = (rel + i).toNat := by omega
        have c1 : ¬ (rel + (i + 1) ≤ (b : Int) ∧ (b : Int) < rel + (i + 1) + (n : Int)) := by omega
        have c2 : rel + i ≤ (b : Int) ∧ (b : Int) < rel + i + ((n + 1 : Nat) : Int) := by
          push_cast; omega
        rw [if_neg c1, if_pos c2, hbn]
        exact hqb
      · have hbn : b ≠ (rel + i).toNat := by omega
        rw [hqo b hbn]
        by_cases c1 : rel + (i + 1) ≤ (b : Int) ∧ (b : Int) < rel + (i + 1) + (n : Int)
        · have c2 : rel + i ≤ (b : Int) ∧ (b : Int) < rel + i + ((n + 1 : Nat) : Int) := by
            push_cast; omega
          rw [if_pos c1, if_pos c2]
        · have c2 : ¬ (rel + i ≤ (b : Int) ∧ (b : Int) < rel + i + ((n + 1 : Nat) : Int)) := by
            push_cast; omega
          rw [if_neg c1, if_neg c2]

theorem fcb_bit_set_lcn_page (vol : Volume) (k : Nat) (q : Page) (c : Nat) :
    fcb_bit (set_lcn_page vol (k : Int) q) c =
      if c / 65536 = k then page_bit q (c % 65536) else fcb_bit vol c := by
  unfold fcb_bit set_lcn_page
  dsimp only
  rw [Function.update_apply]
  simp only [Int.toNat_ofNat]
  by_cases h : c / 65536 = k
  · simp [h]
  · simp [h]

theorem shl_16 (x : Int) : shl x (NTFS_BUF_SIZE_BITS + NTFSCK_BYTE_TO_BITS) = x * 65536 := by
  unfold shl NTFS_BUF_SIZE_BITS NTFSCK_BYTE_TO_BITS
  norm_num

theorem lcn_bitmap_at_in (vol : Volume) (k : Nat) (h : k < vol.max_flb_cnt) :
    lcn_bitmap_at vol (k : Int) = some (vol.fsck_lcn_bitmap k) := by
  unfold lcn_bitmap_at
  have : 0 ≤ (k : Int) ∧ (k : Int) < (vol.max_flb_cnt : Int) := by omega
  rw [if_pos this, Int.toNat_ofNat]

/-- The page loop of `ntfs_fsck_set_lcnbmp_range`, started at cluster `a` with
`r` clusters to go, stores `v` in the clusters `a .. a+r-1` and nothing else. -/
theorem set_lcnbmp_pages_spec (v : Nat) (hv : v ≤ 1) :
    ∀ (n a r : Nat) (idx rel_in remain : Int) (vol : Volume),
      0 < r → idx = ((a / 65536 : Nat) : Int) → remain = (r : Int) →
      (rel_in = (a : Int) ∨ (rel_in = 0 ∧ a % 65536 = 0)) →
      n = (a + r - 1) / 65536 - a / 65536 + 1 →
      (a + r - 1) / 65536 < vol.max_flb_cnt →
      ∃ vol', set_lcnbmp_pages v n idx rel_in remain vol = some (0, vol') ∧
        vol'.max_flb_cnt = vol.max_flb_cnt ∧ vol'.nr_clusters = vol.nr_clusters ∧
        vol'.fsck_mft_bitmap = vol.fsck_mft_bitmap ∧ vol'.max_fmb_cnt = vol.max_fmb_cnt ∧
        vol'.option_flags = vol.option_flags ∧
        ∀ c : Nat, fcb_bit vol' c =
          if a ≤ c ∧ c < a + r then decide (v = 1) else fcb_bit vol c := by
  intro n
  induction n with
  | zero => intro a r idx rel_in remain vol _ _ _ _ hn _; omega
  | succ k ih =>
    intro a r idx rel_in remain vol hr hidx hrem hrel hn hmax
    subst hidx hrem
    have hin : a / 65536 < vol.max_flb_cnt := by
      have : a / 65536 ≤ (a + r - 1) / 65536 := Nat.div_le_div_right (by omega)
      omega
    -- the relative start inside the page
    have hrel' : (if rel_in ≠ 0 then rel_in - shl ((a / 65536 : Nat) : Int)
        (NTFS_BUF_SIZE_BITS + NTFSCK_BYTE_TO_BITS) else rel_in) = ((a % 65536 : Nat) : Int) := by
      rw [shl_16]
      by_cases h0 : rel_in ≠ 0
      · rw [if_pos h0]
        rcases hrel with h | ⟨h, _⟩
        · omega
        · exact absurd h h0
      · rw [if_neg h0]
        rcases hrel with h | ⟨_, h⟩
        · omega
        · omega
    have hone : shl 1 (NTFS_BUF_SIZE_BITS + NTFSCK_BYTE_TO_BITS) = 65536 := by
      rw [shl_16]; norm_num
    -- the number of clusters handled in this page
    obtain ⟨L, hL, hLdef⟩ : ∃ L : Nat, (L : Int) =
        (if (r : Int) < 65536 - ((a % 65536 : Nat) : Int) then (r : Int)
          else 65536 - ((a % 65536 : Nat) : Int)) ∧ L = min r (65536 - a % 65536) := by
      refine ⟨min r (65536 - a % 65536), ?_, rfl⟩
      split <;> omega
    obtain ⟨q, hq, hqb⟩ := set_lcnbmp_bits_spec ((a % 65536 : Nat) : Int) v hv L 0
      (match vol.fsck_lcn_bitmap (a / 65536) with
        | none => zero_page
        | some p => p) (by omega) (by omega)
    have hbuf : ∀ c : Nat, c / 65536 = a / 65536 →
        page_bit (match vol.fsck_lcn_bitmap (a / 65536) with
          | none => zero_page
          | some p => p) (c % 65536) = fcb_bit vol c := by
      intro c hc
      unfold fcb_bit
      rw [hc]
      cases vol.fsck_lcn_bitmap (a / 65536) with
      | none => exact zero_page_bit _
      | some p => rfl
    simp only [set_lcnbmp_pages, lcn_bitmap_at_in vol _ hin, hrel', hone, ← hL, Int.toNat_ofNat, hq]
    by_cases hdone : (r : Int) - (L : Int) ≤ 0
    · rw [if_pos hdone]
      refine ⟨_, rfl, rfl, rfl, rfl, rfl, rfl, ?_⟩
      intro c
      rw [fcb_bit_set_lcn_page, hqb]
      by_cases hc : c / 65536 = a / 65536
      · rw [if_pos hc, hbuf c hc]
        by_cases hcr : a ≤ c ∧ c < a + r
        · rw [if_pos hcr, if_pos (by omega)]
        · rw [if_neg hcr, if_neg (by omega)]
      · rw [if_neg hc, if_neg (by omega)]
    · rw [if_neg hdone]
      have hLeq : L = 65536 - a % 65536 := by omega
      obtain ⟨vol', h1, h2, h3, h4, h5, h6, h7⟩ := ih ((a / 65536 + 1) * 65536) (r - L)
        (((a / 65536 : Nat) : Int) + 1) 0 ((r : Int) - (L : Int))
        (set_lcn_page vol ((a / 65536 : Nat) : Int) q)
        (by omega) (by omega) (by omega) (Or.inr ⟨rfl, by omega⟩)
        (by
          have e1 : (a / 65536 + 1) * 65536 + (r - L) - 1 = a + r - 1 := by omega
          have e2 : (a / 65536 + 1) * 65536 / 65536 = a / 65536 + 1 := by omega
          rw [e1, e2]
          have : a / 65536 + 1 ≤ (a + r - 1) / 65536 := by omega
          omega)
        (by
          have e1 : (a / 65536 + 1) * 65536 + (r - L) - 1 = a + r - 1 := by omega
          rw [e1]
          exact hmax)
      refine ⟨vol', h1, h2, h3, h4, h5, h6, ?_⟩
      intro c
      rw [h7 c, fcb_bit_set_lcn_page, hqb]
      by_cases hc : c / 65536 = a / 65536
      · rw [if_pos hc, hbuf c hc, if_neg (by omega)]
        by_cases hcr : a ≤ c ∧ c < a + r
        · rw [if_pos hcr, if_pos (by omega)]
        · rw [if_neg hcr, if_neg (by omega)]
      · rw [if_neg hc]
        by_cases hcr : a ≤ c ∧ c < a + r
        · rw [if_pos hcr, if_pos (by omega)]
        · rw [if_neg hcr, if_neg (by omega)]

theorem lcn_page_index (x : Int) :
    FB_ROUND_DOWN (asr x NTFSCK_BYTE_TO_BITS) = x / 65536 := by
  rw [FB_ROUND_DOWN_eq, asr_eq_div]
  unfold NTFSCK_BYTE_TO_BITS
  norm_num
  omega

theorem mount_max_flb_cnt (c sz : Int) (bits : Nat) (flags : MountFlags) (hc : 1 ≤ c) (hc2 : c < 2 ^ 63) :
    ((ntfs_fsck_mount c sz bits flags).max_flb_cnt : Int) =
      FB_ROUND_DOWN (asr ((ntfs_fsck_mount c sz bits flags).nr_clusters - 1)
        NTFSCK_BYTE_TO_BITS) + 1 := by
  unfold ntfs_fsck_mount u64_of
  dsimp only
  rw [lcn_page_index]
  have : (2 : Int) ^ 64 = 18446744073709551616 := by norm_num
  rw [this]
  have h63 : (2 : Int) ^ 63 = 9223372036854775808 := by norm_num
  rw [h63] at hc2
  omega

/-- C4: `ntfs_fsck_set_lcnbmp_range(vol, lcn, length, bit)`.  For `length <= 0`
it returns `-EINVAL` and leaves the volume as it is.  For `lcn >= 0`,
`length > 0` and a range inside the volume (whose page array has the length
`ntfs_fsck_mount` gives it) it returns 0, afterwards every FCB bit in
`[lcn, lcn+length)` equals `bit` and every FCB bit outside has its previous
value (an unallocated page reads as zero), whatever pages the range starts in
or spans. -/
theorem set_lcnbmp_range_spec (vol : Volume) (lcn length : Int) (bit : Nat) :
    (length ≤ 0 → ntfs_fsck_set_lcnbmp_range vol lcn length bit = some (-EINVAL, vol)) ∧
    (0 ≤ lcn → 0 < length → lcn + length ≤ vol.nr_clusters →
      (vol.max_flb_cnt : Int) =
        FB_ROUND_DOWN (asr (vol.nr_clusters - 1) NTFSCK_BYTE_TO_BITS) + 1 →
      bit ≤ 1 →
      ∃ vol', ntfs_fsck_set_lcnbmp_range vol lcn length bit = some (0, vol') ∧
        (∀ c : Nat, lcn ≤ (c : Int) → (c : Int) < lcn + length →
          fcb_bit vol' c = decide (bit = 1)) ∧
        (∀ c : Nat, ((c : Int) < lcn ∨ lcn + length ≤ (c : Int)) →
          fcb_bit vol' c = fcb_bit vol c)) := by
  constructor
  · intro h
    unfold ntfs_fsck_set_lcnbmp_range
    simp only [h, if_true]
  · intro h0 hlen hin hmax hbit
    unfold ntfs_fsck_set_lcnbmp_range
    have hnl : ¬ length ≤ 0 := by omega
    simp only [hnl, if_false, lcn_page_index]
    rw [lcn_page_index] at hmax
    obtain ⟨a, ha⟩ : ∃ a : Nat, (a : Int) = lcn := ⟨lcn.toNat, by omega⟩
    obtain ⟨r, hr⟩ : ∃ r : Nat, (r : Int) = length := ⟨length.toNat, by omega⟩
    subst ha hr
    obtain ⟨vol', h1, _, _, _, _, _, h7⟩ := set_lcnbmp_pages_spec bit hbit
      (((a : Int) + (r : Int) - 1) / 65536 - (a : Int) / 65536 + 1).toNat a r
      ((a : Int) / 65536) (a : Int) (r : Int) vol (by omega) (by omega) rfl (Or.inl rfl)
      (by
        have : a / 65536 ≤ (a + r - 1) / 65536 := Nat.div_le_div_right (by omega)
        omega)
      (by omega)
    refine ⟨vol', h1, ?_, ?_⟩
    · intro c hc1 hc2
      rw [h7 c, if_pos (by omega)]
    · intro c hc
      rw [h7 c, if_neg (by omega)]

/-- Witness of `set_lcnbmp_range_spec`: a range of 131100 clusters that starts 6
bits before a page boundary and reaches into a third page, on a volume of
200000 clusters. -/
theorem set_lcnbmp_range_spec_witness :
    ∃ vol', ntfs_fsck_set_lcnbmp_range (ntfs_fsck_mount 200000 1024 10 NTFS_MNT_NONE) 65530 131100 1
        = some (0, vol') ∧
      (∀ c : Nat, (65530 : Int) ≤ (c : Int) → (c : Int) < 65530 + 131100 →
        fcb_bit vol' c = decide (1 = 1)) ∧
      (∀ c : Nat, ((c : Int) < 65530 ∨ (65530 : Int) + 131100 ≤ (c : Int)) →
        fcb_bit vol' c = fcb_bit (ntfs_fsck_mount 200000 1024 10 NTFS_MNT_NONE) c) :=
  (set_lcnbmp_range_spec (ntfs_fsck_mount 200000 1024 10 NTFS_MNT_NONE) 65530 131100 1).2
    (by norm_num) (by norm_num) (by simp [ntfs_fsck_mount])
    (mount_max_flb_cnt 200000 1024 10 NTFS_MNT_NONE (by norm_num) (by norm_num)) (le_refl 1)

/-! ## FCB: the last page -/

theorem byte_or_high (x k j : Nat) (hj : j < 8) :
    ((x ||| (0xff <<< k)) % 256).testBit j = (x.testBit j || decide (k ≤ j)) := by
  have h : (256 : Nat) = 2 ^ 8 := by norm_num
  have h2 : (0xff : Nat) = 2 ^ 8 - 1 := by norm_num
  rw [h, Nat.testBit_mod_two_pow, Nat.testBit_or, Nat.testBit_shiftLeft, h2,
    Nat.testBit_two_pow_sub_one]
  have : j - k < 8 := by omega
  simp [hj, this]

theorem byte_ff_bit (j : Nat) (hj : j < 8) : (0xff : Nat).testBit j = true := by
  have h2 : (0xff : Nat) = 2 ^ 8 - 1 := by norm_num
  rw [h2, Nat.testBit_two_pow_sub_one]
  simp [hj]

theorem NTFS_BUF_SIZE_int : ((NTFS_BUF_SIZE : Nat) : Int) = 8192 := by
  unfold NTFS_BUF_SIZE; norm_num

/-- `ntfs_fsck_fill_unused_lcnbmp` on page `k` of a volume whose cluster count
ends `o` bits into that page, `0 < o < 65536`: the bits from `o` on become 1,
the bits in front of `o` keep their value. -/
theorem ntfs_fsck_fill_unused_lcnbmp_spec (vol : Volume) (k o : Nat) (p : Page)
    (hn : vol.nr_clusters = (k : Int) * 65536 + (o : Int)) (h1 : 1 ≤ o) (h2 : o < 65536) :
    ∃ q, ntfs_fsck_fill_unused_lcnbmp vol (k : Int) p = some q ∧
      ∀ b : Nat, b < 65536 → page_bit q b = if o ≤ b then true else page_bit p b := by
  unfold ntfs_fsck_fill_unused_lcnbmp memset
  simp only [NTFS_BUF_SIZE_int]
  have e1 : vol.nr_clusters - shl ((k : Int) * (8192 : Int)) 3 = (o : Int) := by
    unfold shl; rw [hn]; ring
  have e2 : asr (o : Int) 3 = ((o / 8 : Nat) : Int) := by
    rw [asr_eq_div]; norm_num
  have e3 : (o : Int) - shl ((o / 8 : Nat) : Int) 3 = ((o % 8 : Nat) : Int) := by
    unfold shl; omega
  simp only [e1, e2, e3, Int.toNat_ofNat]
  have hst : 0 ≤ ((o / 8 : Nat) : Int) ∧ ((o / 8 : Nat) : Int) < (8192 : Int) := by omega
  by_cases hms : ((o / 8 : Nat) : Int) + 1 < (8192 : Int)
  · have hok : 0 ≤ ((o / 8 : Nat) : Int) + 1 ∧
        0 ≤ (8192 : Int) - (((o / 8 : Nat) : Int) + 1) ∧
        ((o / 8 : Nat) : Int) + 1 + ((8192 : Int) - (((o / 8 : Nat) : Int) + 1))
          ≤ (8192 : Int) := by omega
    simp only [hms, if_true, hok, and_self, hst]
    refine ⟨_, rfl, ?_⟩
    intro b hb
    unfold page_bit
    by_cases hq : b / 8 = o / 8
    · rw [hq, Function.update_same, byte_or_high _ _ _ (Nat.mod_lt _ (by norm_num))]
      have hno : ¬ (((o / 8 : Nat) : Int) + 1 ≤ ((o / 8 : Nat) : Int) ∧
        ((o / 8 : Nat) : Int)
          < ((o / 8 : Nat) : Int) + 1 + ((8192 : Int) - (((o / 8 : Nat) : Int) + 1))) := by
        omega
      rw [if_neg hno]
      by_cases hob : o ≤ b
      · have : o % 8 ≤ b % 8 := by omega
        simp [hob, this]
      · have : ¬ o % 8 ≤ b % 8 := by omega
        simp [hob, this]
    · rw [Function.update_noteq hq]
      by_cases hob : o ≤ b
      · have hin : ((o / 8 : Nat) : Int) + 1 ≤ ((b / 8 : Nat) : Int) ∧
          ((b / 8 : Nat) : Int)
            < ((o / 8 : Nat) : Int) + 1 + ((8192 : Int) - (((o / 8 : Nat) : Int) + 1)) := by
          omega
        rw [if_pos hin, if_pos hob]
        exact byte_ff_bit _ (Nat.mod_lt _ (by norm_num))
      · have hin : ¬ (((o / 8 : Nat) : Int) + 1 ≤ ((b / 8 : Nat) : Int) ∧
          ((b / 8 : Nat) : Int)
            < ((o / 8 : Nat) : Int) + 1 + ((8192 : Int) - (((o / 8 : Nat) : Int) + 1))) := by
          omega
        rw [if_neg hin, if_neg hob]
  · simp only [hms, if_false, hst, and_self, if_true]
    refine ⟨_, rfl, ?_⟩
    intro b hb
    unfold page_bit
    by_cases hq : b / 8 = o / 8
    · rw [hq, Function.update_same, byte_or_high _ _ _ (Nat.mod_lt _ (by norm_num))]
      by_cases hob : o ≤ b
      · have : o % 8 ≤ b % 8 := by omega
        simp [hob, this]
      · have : ¬ o % 8 ≤ b % 8 := by omega
        simp [hob, this]
    · rw [Function.update_noteq hq]
      have hob : ¬ o ≤ b := by omega
      rw [if_neg hob]

theorem u32_of_small (k : Nat) (h : k < 2 ^ 32) : u32_of (k : Int) = k := by
  unfold u32_of
  have : (2 : Int) ^ 32 = 4294967296 := by norm_num
  rw [this]
  have h2 : (2 : Nat) ^ 32 = 4294967296 := by norm_num
  omega

theorem find_lcnbmp_block_fill_fails (vol : Volume) (pos : Int)
    (h1 : u32_of (FB_ROUND_DOWN pos) = 0)
    (h2 : u32_of (FB_ROUND_DOWN (asr (vol.nr_clusters - 1) NTFSCK_BYTE_TO_BITS)) = 0)
    (h4 : vol.fsck_lcn_bitmap 0 = none)
    (h5 : ntfs_fsck_fill_unused_lcnbmp vol 0 zero_page = none) :
    ntfs_fsck_find_lcnbmp_block vol pos = none := by
  unfold ntfs_fsck_find_lcnbmp_block
  simp only [h1, h2, h4, ite_self, if_true, Nat.cast_zero, h5]

theorem fill_unused_far (c sz : Int) (bits : Nat) (flags : MountFlags) (hc : 65536 ≤ c) :
    ntfs_fsck_fill_unused_lcnbmp (ntfs_fsck_mount c sz bits flags) 0 zero_page = none := by
  unfold ntfs_fsck_fill_unused_lcnbmp
  simp only [NTFS_BUF_SIZE_int, asr_eq_div]
  unfold ntfs_fsck_mount shl
  dsimp only
  have e : ((2 ^ 3 : Nat) : Int) = 8 := by norm_num
  rw [e]
  have h1 : ¬ ((c - 0 * 8192 * 2 ^ 3) / 8 + 1 < 8192) := by omega
  have h2 : ¬ (0 ≤ (c - 0 * 8192 * 2 ^ 3) / 8 ∧ (c - 0 * 8192 * 2 ^ 3) / 8 < 8192) := by omega
  simp only [h1, if_false, h2]

/-- C6 (as stated, refuted): with `2^48 + 1` clusters the `u32` page indices of
`ntfs_fsck_find_lcnbmp_block` wrap to 0 and the fill stores far outside the
page; with 65536 clusters (a whole number of pages) it stores at offset 8192,
one byte behind the page.  In neither case is a page with the stated bits
produced. -/
theorem find_lcnbmp_block_last_page_fails :
    ntfs_fsck_find_lcnbmp_block (ntfs_fsck_mount 281474976710657 1024 10 NTFS_MNT_NONE) 35184372088832
      = none ∧
    ntfs_fsck_find_lcnbmp_block (ntfs_fsck_mount 65536 1024 10 NTFS_MNT_NONE) 0 = none := by
  constructor
  · apply find_lcnbmp_block_fill_fails
    · rw [FB_ROUND_DOWN_eq]; unfold u32_of; norm_num
    · rw [lcn_page_index]; unfold u32_of ntfs_fsck_mount; norm_num
    · rfl
    · exact fill_unused_far _ _ _ _ (by norm_num)
  · apply find_lcnbmp_block_fill_fails
    · rw [FB_ROUND_DOWN_eq]; unfold u32_of; norm_num
    · rw [lcn_page_index]; unfold u32_of ntfs_fsck_mount; norm_num
    · rfl
    · exact fill_unused_far _ _ _ _ (by norm_num)

/-- C6 (amended): for `1 <= nr_clusters <= 2^48` that is not a multiple of
65536, the page `ntfs_fsck_find_lcnbmp_block` returns for a position in the last
cluster-bitmap page has every bit whose cluster number is `>= nr_clusters` equal
to 1 and every bit whose cluster number is `< nr_clusters` equal to the FCB
value of that cluster (0 when the page was never allocated). -/
theorem find_lcnbmp_block_last_page (vol : Volume) (pos : Int)
    (hn1 : 1 ≤ vol.nr_clusters) (hn2 : vol.nr_clusters ≤ 2 ^ 48)
    (hmul : vol.nr_clusters % 65536 ≠ 0)
    (hmax : (vol.max_flb_cnt : Int) =
      FB_ROUND_DOWN (asr (vol.nr_clusters - 1) NTFSCK_BYTE_TO_BITS) + 1)
    (hpos : FB_ROUND_DOWN pos = FB_ROUND_DOWN (asr (vol.nr_clusters - 1) NTFSCK_BYTE_TO_BITS)) :
    ∃ page vol', ntfs_fsck_find_lcnbmp_block vol pos = some (page, vol') ∧
      ∀ b : Nat, b < 65536 →
        page_bit page b =
          if vol.nr_clusters ≤ ((((vol.nr_clusters - 1) / 65536).toNat * 65536 + b : Nat) : Int)
          then true
          else fcb_bit vol (((vol.nr_clusters - 1) / 65536).toNat * 65536 + b) := by
  have h48 : (2 : Int) ^ 48 = 281474976710656 := by norm_num
  rw [h48] at hn2
  obtain ⟨k, hk⟩ : ∃ k : Nat, (k : Int) = (vol.nr_clusters - 1) / 65536 :=
    ⟨((vol.nr_clusters - 1) / 65536).toNat, by omega⟩
  obtain ⟨o, ho⟩ : ∃ o : Nat, (o : Int) = vol.nr_clusters - (k : Int) * 65536 :=
    ⟨(vol.nr_clusters - (k : Int) * 65536).toNat, by omega⟩
  have hk32 : k < 2 ^ 32 := by
    have : (2 : Nat) ^ 32 = 4294967296 := by norm_num
    omega
  rw [lcn_page_index] at hmax hpos
  unfold ntfs_fsck_find_lcnbmp_block
  rw [hpos, lcn_page_index, ← hk, u32_of_small k hk32]
  have hlt : ¬ (k ≥ vol.max_flb_cnt) := by omega
  simp only [hlt, if_false, if_true, Int.toNat_ofNat]
  have hbitk : ∀ b : Nat, b < 65536 → (k * 65536 + b) / 65536 = k ∧ (k * 65536 + b) % 65536 = b := by
    intro b hb; omega
  cases hp : vol.fsck_lcn_bitmap k with
  | none =>
    obtain ⟨q, hq, hqb⟩ := ntfs_fsck_fill_unused_lcnbmp_spec vol k o zero_page (by omega)
      (by omega) (by omega)
    simp only [hq]
    refine ⟨q, vol, rfl, ?_⟩
    intro b hb
    rw [hqb b hb, zero_page_bit]
    unfold fcb_bit
    rw [(hbitk b hb).1, hp]
    by_cases hob : o ≤ b
    · rw [if_pos hob, if_pos (by push_cast; omega)]
    · rw [if_neg hob, if_neg (by push_cast; omega)]
  | some p =>
    obtain ⟨q, hq, hqb⟩ := ntfs_fsck_fill_unused_lcnbmp_spec vol k o p (by omega)
      (by omega) (by omega)
    simp only [hq]
    refine ⟨q, _, rfl, ?_⟩
    intro b hb
    rw [hqb b hb]
    unfold fcb_bit
    rw [(hbitk b hb).1, (hbitk b hb).2, hp]
    by_cases hob : o ≤ b
    · rw [if_pos hob, if_pos (by push_cast; omega)]
    · rw [if_neg hob, if_neg (by push_cast; omega)]

/-- Witness of `find_lcnbmp_block_last_page`: a volume of 100000 clusters, whose
last page is page 1 (byte positions from 8192 on). -/
theorem find_lcnbmp_block_last_page_witness :
    ∃ page vol', ntfs_fsck_find_lcnbmp_block (ntfs_fsck_mount 100000 1024 10 NTFS_MNT_NONE) 8200
        = some (page, vol') ∧
      ∀ b : Nat, b < 65536 →
        page_bit page b =
          if (ntfs_fsck_mount 100000 1024 10 NTFS_MNT_NONE).nr_clusters
            ≤ (((((ntfs_fsck_mount 100000 1024 10 NTFS_MNT_NONE).nr_clusters - 1) / 65536).toNat * 65536 + b
                : Nat) : Int)
          then true
          else fcb_bit (ntfs_fsck_mount 100000 1024 10 NTFS_MNT_NONE)
            ((((ntfs_fsck_mount 100000 1024 10 NTFS_MNT_NONE).nr_clusters - 1) / 65536).toNat * 65536 + b) :=
  find_lcnbmp_block_last_page (ntfs_fsck_mount 100000 1024 10 NTFS_MNT_NONE) 8200
    (by simp [ntfs_fsck_mount]) (by simp [ntfs_fsck_mount]) (by simp [ntfs_fsck_mount])
    (mount_max_flb_cnt 100000 1024 10 NTFS_MNT_NONE (by norm_num) (by norm_num))
    (by rw [FB_ROUND_DOWN_eq, lcn_page_index]; simp [ntfs_fsck_mount])

/-! ## FCB: check and set -/

theorem rl_count_le (l : List runlist_element) : rl_count l ≤ l.length := by
  induction l with
  | nil => simp [rl_count]
  | cons e rest ih =>
    simp only [rl_count, List.length_cons]
    split <;> omega

theorem rl_count_entries_append (l : List runlist_element) (e : runlist_element)
    (he : e.length ≠ 0) :
    rl_count (l.take (rl_count l) ++ [e]) = rl_count l + 1 := by
  induction l with
  | nil => simp [rl_count, he]
  | cons x rest ih =>
    by_cases hx : x.length ≠ 0
    · simp only [rl_count, hx, if_true, List.take_succ_cons, List.cons_append, ne_eq,
        not_false_eq_true] at ih ⊢
      rw [ih]
    · simp only [rl_count, hx, if_false, List.take_zero, List.nil_append, he, ne_eq,
        not_false_eq_true, if_true]

theorem rl_count_entries_append_le (l : List runlist_element) (e : runlist_element) :
    rl_count (l.take (rl_count l) ++ [e]) ≤ rl_count l + 1 := by
  induction l with
  | nil =>
    simp only [rl_count, List.take_zero, List.nil_append]
    split <;> omega
  | cons x rest ih =>
    by_cases hx : x.length ≠ 0
    · simp only [rl_count, hx, if_true, List.take_succ_cons, List.cons_append, ne_eq,
        not_false_eq_true] at ih ⊢
      omega
    · simp only [rl_count, hx, if_false, List.take_zero, List.nil_append]
      split <;> omega

/-- What `ntfs_rl_replace` makes of the block: the elements in use followed by
the new element. -/
theorem dup_rl_append_some (orig : List runlist_element) (e : runlist_element) :
    dup_rl_append (some orig) e = orig.take (rl_count orig) ++ [e] := by
  unfold dup_rl_append ntfs_rl_replace
  have hdrop : (orig.take (rl_count orig + 1)).drop (rl_count orig + 1) = [] := by
    apply List.drop_eq_nil_of_le
    rw [List.length_take]
    omega
  dsimp only
  rw [hdrop, List.append_nil]
  rfl

/-- With room in the block `ntfs_fsck_make_dup_runlist` returns the runlist
`dup_rl_append`. -/
theorem make_dup_runlist_room (d : Option (List runlist_element)) (e : runlist_element)
    (h : dup_len d < DUP_RL_SLOTS) :
    ntfs_fsck_make_dup_runlist d e = some (dup_rl_append d e) := by
  cases d with
  | none => rfl
  | some orig =>
    have h' : rl_count orig < DUP_RL_SLOTS := h
    unfold ntfs_fsck_make_dup_runlist dup_rl_append
    simp only [h', if_true, Nat.add_sub_cancel]

/-- When the block is full, `ntfs_fsck_make_dup_runlist` leaves it. -/
theorem make_dup_runlist_full (orig : List runlist_element) (e : runlist_element)
    (h : DUP_RL_SLOTS ≤ rl_count orig) :
    ntfs_fsck_make_dup_runlist (some orig) e = none := by
  unfold ntfs_fsck_make_dup_runlist
  dsimp only
  rw [if_neg (by omega)]

theorem make_dup_runlist_some (d : Option (List runlist_element)) (e : runlist_element)
    (d1 : List runlist_element) (h : ntfs_fsck_make_dup_runlist d e = some d1) :
    d1 = dup_rl_append d e ∧ dup_len d < DUP_RL_SLOTS := by
  cases d with
  | none =>
    cases h
    exact ⟨rfl, by decide⟩
  | some orig =>
    unfold ntfs_fsck_make_dup_runlist at h
    dsimp only at h
    by_cases hc : rl_count orig < DUP_RL_SLOTS
    · rw [if_pos hc] at h
      cases h
      exact ⟨by unfold dup_rl_append; simp only [Nat.add_sub_cancel], hc⟩
    · rw [if_neg hc] at h
      cases h

theorem dup_len_append_le (d : Option (List runlist_element)) (e : runlist_element) :
    dup_len (some (dup_rl_append d e)) ≤ dup_len d + 1 := by
  cases d with
  | none =>
    show rl_count _ ≤ 0 + 1
    simp only [dup_rl_append, rl_count]
    split <;> simp
  | some orig =>
    show rl_count _ ≤ rl_count orig + 1
    rw [dup_rl_append_some]
    exact rl_count_entries_append_le orig e

theorem dup_step_len (vcn lcn : Int) (st : runlist_element × Option (List runlist_element))
    (c : Int) : dup_len (dup_step vcn lcn st c).2 ≤ dup_len st.2 + 1 := by
  unfold dup_step
  split_ifs
  · exact Nat.le_succ _
  · exact Nat.le_succ _
  · exact dup_len_append_le _ _

/-- The scan of `n` clusters adds at most `n` elements to the duplicate
runlist. -/
theorem dup_scan_len (vcn lcn : Int) (old : Nat → Bool) :
    ∀ (n c : Nat) (st : runlist_element × Option (List runlist_element)),
      dup_len (dup_scan vcn lcn old n c st).2 ≤ dup_len st.2 + n := by
  intro n
  induction n with
  | zero => intro c st; exact le_refl _
  | succ n ih =>
    intro c st
    simp only [dup_scan]
    have h1 := ih (c + 1) (if old c then dup_step vcn lcn st (c : Int) else st)
    have h2 : dup_len (if old c then dup_step vcn lcn st (c : Int) else st).2 ≤ dup_len st.2 + 1 := by
      split_ifs
      · exact dup_step_len vcn lcn st _
      · exact Nat.le_succ _
    omega

theorem dup_scan_congr (vcn lcn : Int) (old old' : Nat → Bool) :
    ∀ (n c : Nat) (st : runlist_element × Option (List runlist_element)),
      (∀ j, j < n → old (c + j) = old' (c + j)) →
      dup_scan vcn lcn old n c st = dup_scan vcn lcn old' n c st := by
  intro n
  induction n with
  | zero => intro c st _; rfl
  | succ n ih =>
    intro c st h
    simp only [dup_scan]
    have h0 : old c = old' c := by simpa using h 0 (by omega)
    rw [h0]
    apply ih
    intro j hj
    have := h (j + 1) (by omega)
    rw [show c + (j + 1) = c + 1 + j by omega] at this
    exact this

theorem dup_scan_add (vcn lcn : Int) (old : Nat → Bool) :
    ∀ (n m c : Nat) (st : runlist_element × Option (List runlist_element)),
      dup_scan vcn lcn old (n + m) c st =
        dup_scan vcn lcn old m (c + n) (dup_scan vcn lcn old n c st) := by
  intro n
  induction n with
  | zero => intro m c st; simp [dup_scan]
  | succ n ih =>
    intro m c st
    rw [show n + 1 + m = (n + m) + 1 by omega]
    simp only [dup_scan]
    rw [ih, show c + 1 + n = c + (n + 1) by omega]

/-- The bit loop of `ntfs_fsck_check_and_set_lcnbmp` with `bit = 1`, with room
in the block of the duplicate runlist for one element per cluster, is the scan
`dup_scan` of the old bits, and it sets every bit it visits. -/
theorem check_lcnbmp_bits_spec (vcn lcn checked idx_slcn rel : Int) (old : Nat → Bool)
    (hck : idx_slcn + rel - lcn = checked) :
    ∀ (n : Nat) (i : Int) (buf : Page) (tmp : runlist_element)
      (dup : Option (List runlist_element)) (c : Nat),
      0 ≤ rel + i → rel + i + n ≤ 65536 → (c : Int) = idx_slcn + rel + i →
      (∀ j : Nat, j < n → page_bit buf ((rel + i).toNat + j) = old (c + j)) →
      dup_len dup + n < DUP_RL_SLOTS →
      ∃ q, check_lcnbmp_bits 1 vcn checked idx_slcn rel n i buf tmp dup
          = some (Run.done (q, dup_scan vcn lcn old n c (tmp, dup))) ∧
        ∀ b : Nat, page_bit q b =
          if rel + i ≤ (b : Int) ∧ (b : Int) < rel + i + n then true else page_bit buf b := by
  intro n
  induction n with
  | zero =>
    intro i buf tmp dup c _ _ _ _ _
    refine ⟨buf, rfl, ?_⟩
    intro b
    have : ¬ (rel + i ≤ (b : Int) ∧ (b : Int) < rel + i + ((0 : Nat) : Int)) := by omega
    rw [if_neg this]
  | succ n ih =>
    intro i buf tmp dup c h0 h1 hc hold hcap
    have hsm : u64_of (rel + i) = (rel + i).toNat := u64_of_small _ h0 (by omega)
    have hmk := make_dup_runlist_room dup tmp (by omega)
    have hcap1 := dup_len_append_le dup tmp
    obtain ⟨q, hq, hqb, hqo⟩ :=
      ntfs_bit_get_and_set_spec buf (rel + i).toNat 1 (by omega) (le_refl 1)
    have hold0 : page_bit buf (rel + i).toNat = old c := by simpa using hold 0 (by omega)
    have hnext : ∀ j : Nat, j < n → page_bit q ((rel + (i + 1)).toNat + j) = old (c + 1 + j) := by
      intro j hj
      rw [hqo _ (by omega)]
      have := hold (j + 1) (by omega)
      rw [show (rel + (i + 1)).toNat + j = (rel + i).toNat + (j + 1) by omega,
        show c + 1 + j = c + (j + 1) by omega]
      exact this
    have hbits : ∀ (q2 : Page),
        (∀ b : Nat, page_bit q2 b =
          if rel + (i + 1) ≤ (b : Int) ∧ (b : Int) < rel + (i + 1) + n then true
          else page_bit q b) →
        ∀ b : Nat, page_bit q2 b =
          if rel + i ≤ (b : Int) ∧ (b : Int) < rel + i + ((n + 1 : Nat) : Int) then true
          else page_bit buf b := by
      intro q2 hq2 b
      rw [hq2 b]
      by_cases hb : (b : Int) = rel + i
      · have hbn : b = (rel + i).toNat := by omega
        have c1 : ¬ (rel + (i + 1) ≤ (b : Int) ∧ (b : Int) < rel + (i + 1) + (n : Int)) := by
          omega
        have c2 : rel + i ≤ (b : Int) ∧ (b : Int) < rel + i + ((n + 1 : Nat) : Int) := by
          push_cast; omega
        rw [if_neg c1, if_pos c2, hbn, hqb]
        simp
      · rw [hqo b (by omega)]
        by_cases c1 : rel + (i + 1) ≤ (b : Int) ∧ (b : Int) < rel + (i + 1) + (n : Int)
        · rw [if_pos c1, if_pos (by push_cast; omega)]
        · rw [if_neg c1, if_neg (by push_cast; omega)]
    have hc1 : ((c + 1 : Nat) : Int) = idx_slcn + rel + (i + 1) := by push_cast; omega
    have hvc : vcn + checked + i = vcn + ((c : Int) - lcn) := by omega
    have hlc : idx_slcn + rel + i = (c : Int) := by omega
    simp only [check_lcnbmp_bits, hsm, hq, dup_scan, hold0]
    by_cases ho : old c = true
    · simp only [ho, if_true]
      have hne : ¬ ((1 : Int) = 0) := by norm_num
      have hne1 : ¬ ((1 : Nat) = 0) := by norm_num
      simp only [hne, hne1, if_false, dup_step, hvc, hlc]
      by_cases ht : tmp.lcn = -1
      · simp only [ht, if_true]
        obtain ⟨q2, hq2, hq2b⟩ := ih (i + 1) q _ dup (c + 1) (by omega)
          (by push_cast at h1 ⊢; omega) hc1 hnext (by omega)
        exact ⟨q2, hq2, hbits q2 hq2b⟩
      · simp only [ht, if_false]
        by_cases hcont : tmp.lcn + tmp.length = (c : Int)
        · simp only [hcont, if_true]
          obtain ⟨q2, hq2, hq2b⟩ := ih (i + 1) q _ dup (c + 1) (by omega)
            (by push_cast at h1 ⊢; omega) hc1 hnext (by omega)
          exact ⟨q2, hq2, hbits q2 hq2b⟩
        · simp only [hcont, if_false, hmk]
          obtain ⟨q2, hq2, hq2b⟩ := ih (i + 1) q _ (some (dup_rl_append dup tmp)) (c + 1)
            (by omega) (by push_cast at h1 ⊢; omega) hc1 hnext (by omega)
          exact ⟨q2, hq2, hbits q2 hq2b⟩
    · have ho' : old c = false := by simpa using ho
      simp only [ho', if_true, Bool.false_eq_true, if_false]
      obtain ⟨q2, hq2, hq2b⟩ := ih (i + 1) q tmp dup (c + 1) (by omega)
        (by push_cast at h1 ⊢; omega) hc1 hnext (by omega)
      exact ⟨q2, hq2, hbits q2 hq2b⟩

/-- The page loop of `ntfs_fsck_check_and_set_lcnbmp` with `bit = 1`, started at
cluster `a` with `r` clusters to go and with room in the block of the duplicate
runlist for one element per cluster: the scan `dup_scan` of the FCB bits as
they were, and every cluster of `a .. a+r-1` set afterwards. -/
theorem check_lcnbmp_pages_spec (vcn lcn : Int) :
    ∀ (n a r : Nat) (idx rel_in remain checked : Int) (vol : Volume) (tmp : runlist_element)
      (dup : Option (List runlist_element)),
      0 < r → idx = ((a / 65536 : Nat) : Int) → remain = (r : Int) →
      (rel_in = (a : Int) ∨ (rel_in = 0 ∧ a % 65536 = 0)) →
      n = (a + r - 1) / 65536 - a / 65536 + 1 →
      (a + r - 1) / 65536 < vol.max_flb_cnt →
      checked = (a : Int) - lcn →
      dup_len dup + r < DUP_RL_SLOTS →
      ∃ vol', check_lcnbmp_pages 1 vcn n idx rel_in remain checked vol tmp dup
          = some (Run.done (vol', dup_scan vcn lcn (fcb_bit vol) r a (tmp, dup))) ∧
        vol'.max_flb_cnt = vol.max_flb_cnt ∧
        ∀ c : Nat, fcb_bit vol' c = if a ≤ c ∧ c < a + r then true else fcb_bit vol c := by
  intro n
  induction n with
  | zero => intro a r idx rel_in remain checked vol tmp dup _ _ _ _ hn _ _ _; omega
  | succ k ih =>
    intro a r idx rel_in remain checked vol tmp dup hr hidx hrem hrel hn hmax hck hcap
    subst hidx hrem
    have hin : a / 65536 < vol.max_flb_cnt := by
      have : a / 65536 ≤ (a + r - 1) / 65536 := Nat.div_le_div_right (by omega)
      omega
    have hrel' : (if rel_in ≠ 0 then rel_in - shl ((a / 65536 : Nat) : Int)
        (NTFS_BUF_SIZE_BITS + NTFSCK_BYTE_TO_BITS) else rel_in) = ((a % 65536 : Nat) : Int) := by
      rw [shl_16]
      by_cases h0 : rel_in ≠ 0
      · rw [if_pos h0]
        rcases hrel with h | ⟨h, _⟩
        · omega
        · exact absurd h h0
      · rw [if_neg h0]
        rcases hrel with h | ⟨_, h⟩
        · omega
        · omega
    have hone : shl 1 (NTFS_BUF_SIZE_BITS + NTFSCK_BYTE_TO_BITS) = 65536 := by
      rw [shl_16]; norm_num
    obtain ⟨L, hL, hLdef⟩ : ∃ L : Nat, (L : Int) =
        (if (r : Int) < 65536 - ((a % 65536 : Nat) : Int) then (r : Int)
          else 65536 - ((a % 65536 : Nat) : Int)) ∧ L = min r (65536 - a % 65536) := by
      refine ⟨min r (65536 - a % 65536), ?_, rfl⟩
      split <;> omega
    have hbuf : ∀ c : Nat, c / 65536 = a / 65536 →
        page_bit (match vol.fsck_lcn_bitmap (a / 65536) with
          | none => zero_page
          | some p => p) (c % 65536) = fcb_bit vol c := by
      intro c hc
      unfold fcb_bit
      rw [hc]
      cases vol.fsck_lcn_bitmap (a / 65536) with
      | none => exact zero_page_bit _
      | some p => rfl
    obtain ⟨q, hq, hqb⟩ := check_lcnbmp_bits_spec vcn lcn checked
      (shl ((a / 65536 : Nat) : Int) (NTFS_BUF_SIZE_BITS + NTFSCK_BYTE_TO_BITS))
      ((a % 65536 : Nat) : Int) (fcb_bit vol) (by rw [shl_16]; omega) L 0
      (match vol.fsck_lcn_bitmap (a / 65536) with
        | none => zero_page
        | some p => p) tmp dup a (by omega) (by omega) (by rw [shl_16]; omega)
      (by
        intro j hj
        have e : (((a % 65536 : Nat) : Int) + 0).toNat + j = (a + j) % 65536 := by omega
        rw [e]
        exact hbuf (a + j) (by omega))
      (by omega)
    have hgrow := dup_scan_len vcn lcn (fcb_bit vol) L a (tmp, dup)
    simp only [check_lcnbmp_pages, lcn_bitmap_at_in vol _ hin, hrel', hone, ← hL,
      Int.toNat_ofNat, hq]
    by_cases hdone : (r : Int) - (L : Int) ≤ 0
    · rw [if_pos hdone]
      have hLr : L = r := by omega
      refine ⟨set_lcn_page vol ((a / 65536 : Nat) : Int) q, by rw [hLr], rfl, ?_⟩
      intro c
      rw [fcb_bit_set_lcn_page, hqb]
      by_cases hc : c / 65536 = a / 65536
      · rw [if_pos hc, hbuf c hc]
        by_cases hcr : a ≤ c ∧ c < a + r
        · rw [if_pos hcr, if_pos (by omega)]
        · rw [if_neg hcr, if_neg (by omega)]
      · rw [if_neg hc, if_neg (by omega)]
    · rw [if_neg hdone]
      have hLeq : L = 65536 - a % 65536 := by omega
      have hbits1 : ∀ c : Nat, fcb_bit (set_lcn_page vol ((a / 65536 : Nat) : Int) q) c =
          if a ≤ c ∧ c < a + L then true else fcb_bit vol c := by
        intro c
        rw [fcb_bit_set_lcn_page, hqb]
        by_cases hc : c / 65536 = a / 65536
        · rw [if_pos hc, hbuf c hc]
          by_cases hcr : a ≤ c ∧ c < a + L
          · rw [if_pos hcr, if_pos (by omega)]
          · rw [if_neg hcr, if_neg (by omega)]
        · rw [if_neg hc, if_neg (by omega)]
      obtain ⟨vol', h1, h2, h7⟩ := ih ((a / 65536 + 1) * 65536) (r - L)
        (((a / 65536 : Nat) : Int) + 1) 0 ((r : Int) - (L : Int)) (checked + (L : Int))
        (set_lcn_page vol ((a / 65536 : Nat) : Int) q)
        (dup_scan vcn lcn (fcb_bit vol) L a (tmp, dup)).1
        (dup_scan vcn lcn (fcb_bit vol) L a (tmp, dup)).2
        (by omega) (by omega) (by omega) (Or.inr ⟨rfl, by omega⟩)
        (by
          have e1 : (a / 65536 + 1) * 65536 + (r - L) - 1 = a + r - 1 := by omega
          have e2 : (a / 65536 + 1) * 65536 / 65536 = a / 65536 + 1 := by omega
          rw [e1, e2]
          have : a / 65536 + 1 ≤ (a + r - 1) / 65536 := by omega
          omega)
        (by
          have e1 : (a / 65536 + 1) * 65536 + (r - L) - 1 = a + r - 1 := by omega
          rw [e1]
          exact hmax)
        (by push_cast; omega)
        (by dsimp only at hgrow; omega)
      have ea : (a / 65536 + 1) * 65536 = a + L := by omega
      refine ⟨vol', ?_, h2, ?_⟩
      · rw [h1, ea]
        have hsplit := dup_scan_add vcn lcn (fcb_bit vol) L (r - L) a (tmp, dup)
        rw [show L + (r - L) = r by omega] at hsplit
        rw [hsplit]
        have hcg := dup_scan_congr vcn lcn (fcb_bit (set_lcn_page vol ((a / 65536 : Nat) : Int) q))
          (fcb_bit vol) (r - L) (a + L) (dup_scan vcn lcn (fcb_bit vol) L a (tmp, dup))
          (by
            intro j hj
            rw [hbits1, if_neg (by omega)])
        rw [← hcg]
      · intro c
        rw [h7 c, hbits1, ea]
        by_cases hcr : a ≤ c ∧ c < a + r
        · rw [if_pos hcr]
          by_cases hc2 : a + L ≤ c ∧ c < a + L + (r - L)
          · rw [if_pos hc2]
          · rw [if_neg hc2, if_pos (by omega)]
        · rw [if_neg hcr, if_neg (by omega), if_neg (by omega)]

/-- Appending through `ntfs_fsck_make_dup_runlist` adds the one element to the
elements of the duplicate runlist. -/
theorem dup_entries_make (d : Option (List runlist_element)) (e : runlist_element)
    (he : e.length ≠ 0) :
    dup_entries (some (dup_rl_append d e)) = dup_entries d ++ [e] := by
  cases d with
  | none =>
    simp [dup_entries, dup_rl_append, rl_entries, rl_count, he]
  | some orig =>
    rw [dup_rl_append_some]
    unfold dup_entries rl_entries
    dsimp only
    rw [rl_count_entries_append orig e he]
    rw [List.take_of_length_le]
    rw [List.length_append, List.length_take]
    simp

theorem dup_entries_foldl (G : List runlist_element) :
    ∀ d : Option (List runlist_element), (∀ e ∈ G, e.length ≠ 0) →
      dup_entries (G.foldl (fun d e => some (dup_rl_append d e)) d)
        = dup_entries d ++ G := by
  induction G with
  | nil => intro d _; simp
  | cons g rest ih =>
    intro d h
    rw [List.foldl_cons, ih _ (fun e he => h e (List.mem_cons_of_mem _ he)),
      dup_entries_make d g (h g (List.mem_cons_self _ _))]
    simp

theorem dup_closed_mono (old : Nat → Bool) (vcn lcn : Int) (cur cur' : Nat) (h : cur ≤ cur')
    (e : runlist_element) (he : dup_closed old vcn lcn cur e) : dup_closed old vcn lcn cur' e := by
  obtain ⟨h1, h2, h3, h4, h5, h6, h7⟩ := he
  exact ⟨h1, h2, by omega, h4, h5, h6, h7⟩

/-- One step of the scan keeps the invariant. -/
theorem dup_inv_step (old : Nat → Bool) (vcn lcn : Int) (dup_in : Option (List runlist_element))
    (cur : Nat) (st : runlist_element × Option (List runlist_element))
    (G : List runlist_element) (hlo : lcn ≤ (cur : Int))
    (h : dup_inv old vcn lcn dup_in cur st G) :
    ∃ G', dup_inv old vcn lcn dup_in (cur + 1)
      (if old cur then dup_step vcn lcn st (cur : Int) else st) G' := by
  obtain ⟨hd, hpw, hcl, hnone, hsome, hcov⟩ := h
  by_cases ho : old cur = true
  · rw [if_pos ho]
    unfold dup_step
    by_cases ht : st.1.lcn = -1
    · rw [if_pos ht]
      obtain ⟨hG, hno⟩ := hnone ht
      refine ⟨G, hd, hpw, fun e he => dup_closed_mono old vcn lcn cur _ (by omega) e (hcl e he),
        ?_, ?_, ?_⟩
      · intro hc
        dsimp only at hc
        omega
      · intro _
        refine ⟨⟨by norm_num, hlo, by dsimp only; push_cast; omega, by dsimp only; omega,
          ?_, ?_, ?_⟩, ?_⟩
        · intro c hc1 hc2
          dsimp only at hc1 hc2
          have : c = cur := by omega
          rw [this]; exact ho
        · dsimp only
          by_cases hcl' : (cur : Int) = lcn
          · exact Or.inl hcl'
          · exact Or.inr (fun c hc => hno c (by omega) (by omega))
        · intro c hc1 hc2
          dsimp only at hc1
          omega
        · intro e he
          rw [hG] at he
          exact absurd he (List.not_mem_nil e)
      · intro c hc1 hc2 hc3
        by_cases hcc : c = cur
        · right
          dsimp only
          exact ⟨by omega, by omega, by omega⟩
        · have := hno c hc1 (by omega)
          rw [this] at hc3
          exact absurd hc3 (by simp)
    · rw [if_neg ht]
      obtain ⟨⟨o1, o2, o3, o4, o5, o6, o7⟩, hlt⟩ := hsome ht
      by_cases hcont : st.1.lcn + st.1.length = (cur : Int)
      · rw [if_pos hcont]
        refine ⟨G, hd, hpw,
          fun e he => dup_closed_mono old vcn lcn cur _ (by omega) e (hcl e he), ?_, ?_, ?_⟩
        · intro hc
          exact absurd hc ht
        · intro _
          refine ⟨⟨by dsimp only; omega, o2, by dsimp only; push_cast; omega, o4, ?_, o6, ?_⟩,
            hlt⟩
          · intro c hc1 hc2
            dsimp only at hc1 hc2
            by_cases hcc : c = cur
            · rw [hcc]; exact ho
            · exact o5 c hc1 (by omega)
          · intro c hc1 hc2
            dsimp only at hc1
            omega
        · intro c hc1 hc2 hc3
          by_cases hcc : c = cur
          · right
            dsimp only
            exact ⟨ht, by omega, by omega⟩
          · rcases hcov c hc1 (by omega) hc3 with hl | ⟨_, hr1, hr2⟩
            · exact Or.inl hl
            · right
              dsimp only
              exact ⟨ht, hr1, by omega⟩
      · rw [if_neg hcont]
        have hend : st.1.lcn + st.1.length < (cur : Int) := by omega
        refine ⟨G ++ [st.1], ?_, ?_, ?_, ?_, ?_, ?_⟩
        · dsimp only
          rw [List.foldl_append, ← hd]
          rfl
        · rw [List.pairwise_append]
          refine ⟨hpw, List.pairwise_singleton _ _, ?_⟩
          intro a ha b hb
          rw [List.mem_singleton] at hb
          rw [hb]
          exact hlt a ha
        · intro e he
          rw [List.mem_append, List.mem_singleton] at he
          rcases he with he | he
          · exact dup_closed_mono old vcn lcn cur _ (by omega) e (hcl e he)
          · rw [he]
            exact ⟨o1, o2, by omega, o4, o5, o6, fun c hc => o7 c (by omega) (by omega)⟩
        · intro hc
          dsimp only at hc
          omega
        · intro _
          refine ⟨⟨by norm_num, hlo, by dsimp only; push_cast; omega, by dsimp only; omega,
            ?_, ?_, ?_⟩, ?_⟩
          · intro c hc1 hc2
            dsimp only at hc1 hc2
            have : c = cur := by omega
            rw [this]; exact ho
          · dsimp only
            exact Or.inr (fun c hc => o7 c (by omega) (by omega))
          · intro c hc1 hc2
            dsimp only at hc1
            omega
          · intro e he
            dsimp only
            rw [List.mem_append, List.mem_singleton] at he
            rcases he with he | he
            · obtain ⟨_, _, c3, _⟩ := hcl e he
              exact c3
            · rw [he]; exact hend
        · intro c hc1 hc2 hc3
          by_cases hcc : c = cur
          · right
            dsimp only
            exact ⟨by omega, by omega, by omega⟩
          · left
            rcases hcov c hc1 (by omega) hc3 with ⟨e, he, hr⟩ | ⟨_, hr1, hr2⟩
            · exact ⟨e, List.mem_append_left _ he, hr⟩
            · exact ⟨st.1, List.mem_append_right _ (List.mem_singleton_self _), hr1, hr2⟩
  · have ho' : old cur = false := by simpa using ho
    rw [if_neg ho]
    refine ⟨G, hd, hpw, fun e he => dup_closed_mono old vcn lcn cur _ (by omega) e (hcl e he),
      ?_, ?_, ?_⟩
    · intro ht
      obtain ⟨hG, hno⟩ := hnone ht
      refine ⟨hG, ?_⟩
      intro c hc1 hc2
      by_cases hcc : c = cur
      · rw [hcc]; exact ho'
      · exact hno c hc1 (by omega)
    · intro ht
      obtain ⟨⟨o1, o2, o3, o4, o5, o6, o7⟩, hlt⟩ := hsome ht
      refine ⟨⟨o1, o2, by push_cast; omega, o4, o5, o6, ?_⟩, hlt⟩
      intro c hc1 hc2
      by_cases hcc : c = cur
      · rw [hcc]; exact ho'
      · exact o7 c hc1 (by omega)
    · intro c hc1 hc2 hc3
      have hcc : c ≠ cur := by
        intro hcc
        rw [hcc, ho'] at hc3
        exact absurd hc3 (by simp)
      exact hcov c hc1 (by omega) hc3

/-- The scan of `n` clusters keeps the invariant. -/
theorem dup_inv_scan (old : Nat → Bool) (vcn lcn : Int) (dup_in : Option (List runlist_element)) :
    ∀ (n cur : Nat) (st : runlist_element × Option (List runlist_element))
      (G : List runlist_element), lcn ≤ (cur : Int) →
      dup_inv old vcn lcn dup_in cur st G →
      ∃ G', dup_inv old vcn lcn dup_in (cur + n) (dup_scan vcn lcn old n cur st) G' := by
  intro n
  induction n with
  | zero => intro cur st G _ h; exact ⟨G, h⟩
  | succ n ih =>
    intro cur st G hlo h
    obtain ⟨G1, h1⟩ := dup_inv_step old vcn lcn dup_in cur st G hlo h
    obtain ⟨G2, h2⟩ := ih (cur + 1) _ G1 (by push_cast; omega) h1
    refine ⟨G2, ?_⟩
    rw [show cur + (n + 1) = cur + 1 + n by omega]
    exact h2

/-- What `ntfs_fsck_check_and_set_lcnbmp` with `bit = 1` does on the runlist
entry `e = rl[rl_idx]` with `length > 0` lying inside the volume, when the
block of the duplicate runlist has room for one element per cluster of the
entry.  The returned duplicate runlist consists of the elements of the incoming
one followed by `added`: ascending, separated elements, each a maximal
contiguous group of clusters of the entry whose FCB bit was set before the call
(with `vcn' - vcn = lcn' - lcn`), and every such cluster lies in one of them.
Without a collision the incoming runlist (NULL included) is returned as it is.
Afterwards every cluster of the entry is set in the FCB and every other FCB bit
is unchanged. -/
theorem check_and_set_lcnbmp_groups (vol : Volume) (na : ntfs_attr) (rl : List runlist_element)
    (rl_idx : Int) (e : runlist_element) (dup_rl : Option (List runlist_element))
    (hrl : na.rl = some rl) (hidx : 0 ≤ rl_idx) (he : rl.get? rl_idx.toNat = some e)
    (hlen : 0 < e.length) (hlcn : 0 ≤ e.lcn) (hin : e.lcn + e.length ≤ vol.nr_clusters)
    (hnr : vol.nr_clusters ≤ 2 ^ 63)
    (hmax : (vol.max_flb_cnt : Int) =
      FB_ROUND_DOWN (asr (vol.nr_clusters - 1) NTFSCK_BYTE_TO_BITS) + 1)
    (hcap : (dup_len dup_rl : Int) + e.length < DUP_RL_SLOTS) :
    ∃ dup' vol' added,
      ntfs_fsck_check_and_set_lcnbmp vol (some na) rl_idx 1 dup_rl
        = some (Run.done (dup', vol')) ∧
      dup_entries dup' = dup_entries dup_rl ++ added ∧
      List.Pairwise (fun e1 e2 => e1.lcn + e1.length < e2.lcn) added ∧
      (∀ g ∈ added, is_dup_group (fcb_bit vol) e.vcn e.lcn e.length g) ∧
      (∀ c : Nat, e.lcn ≤ (c : Int) → (c : Int) < e.lcn + e.length → fcb_bit vol c = true →
        ∃ g ∈ added, g.lcn ≤ (c : Int) ∧ (c : Int) < g.lcn + g.length) ∧
      ((∀ c : Nat, e.lcn ≤ (c : Int) → (c : Int) < e.lcn + e.length → fcb_bit vol c = false) →
        dup' = dup_rl) ∧
      (∀ c : Nat, e.lcn ≤ (c : Int) → (c : Int) < e.lcn + e.length → fcb_bit vol' c = true) ∧
      (∀ c : Nat, ((c : Int) < e.lcn ∨ e.lcn + e.length ≤ (c : Int)) →
        fcb_bit vol' c = fcb_bit vol c) := by
  obtain ⟨vcn, lcn, length⟩ := e
  dsimp only at hlen hlcn hin hcap ⊢
  rw [lcn_page_index] at hmax
  obtain ⟨a, ha⟩ : ∃ a : Nat, (a : Int) = lcn := ⟨lcn.toNat, by omega⟩
  obtain ⟨r, hr⟩ : ∃ r : Nat, (r : Int) = length := ⟨length.toNat, by omega⟩
  subst ha hr
  have hs64 : s64_of ((a : Int) + (r : Int) - 1) = (a : Int) + (r : Int) - 1 :=
    s64_of_id _ (by have : (0 : Int) < 2 ^ 63 := by norm_num
                    omega) (by omega)
  obtain ⟨vol', h1, _, h7⟩ := check_lcnbmp_pages_spec vcn (a : Int)
    (((a : Int) + (r : Int) - 1) / 65536 - (a : Int) / 65536 + 1).toNat a r
    ((a : Int) / 65536) (a : Int) (r : Int) 0 vol { vcn := 0, lcn := -1, length := 0 } dup_rl
    (by omega) (by omega) rfl (Or.inl rfl)
    (by
      have : a / 65536 ≤ (a + r - 1) / 65536 := Nat.div_le_div_right (by omega)
      omega)
    (by omega) (by omega) (by omega)
  have hgrow := dup_scan_len vcn (a : Int) (fcb_bit vol) r a
    ({ vcn := 0, lcn := -1, length := 0 }, dup_rl)
  have hroom := make_dup_runlist_room
    (dup_scan vcn (a : Int) (fcb_bit vol) r a ({ vcn := 0, lcn := -1, length := 0 }, dup_rl)).2
    (dup_scan vcn (a : Int) (fcb_bit vol) r a ({ vcn := 0, lcn := -1, length := 0 }, dup_rl)).1
    (by dsimp only at hgrow; omega)
  have hinit : dup_inv (fcb_bit vol) vcn (a : Int) dup_rl a
      ({ vcn := 0, lcn := -1, length := 0 }, dup_rl) [] := by
    refine ⟨rfl, List.Pairwise.nil, ?_, ?_, ?_, ?_⟩
    · intro g hg; exact absurd hg (List.not_mem_nil g)
    · intro _
      exact ⟨rfl, fun c hc1 hc2 => by omega⟩
    · intro hc
      exact absurd rfl hc
    · intro c hc1 hc2
      omega
  obtain ⟨G, hd, hpw, hcl, hnone, hsome, hcov⟩ :=
    dup_inv_scan (fcb_bit vol) vcn (a : Int) dup_rl r a _ [] (le_refl _) hinit
  have hnl : ¬ ((r : Int) ≤ 0) := by omega
  have hni : ¬ (rl_idx < 0) := by omega
  simp only [ntfs_fsck_check_and_set_lcnbmp, hrl, hni, if_false, he, hnl, hs64, lcn_page_index,
    h1]
  have hfinal : ∀ c : Nat, (a : Int) ≤ (c : Int) → (c : Int) < (a : Int) + (r : Int) →
      fcb_bit vol' c = true := by
    intro c hc1 hc2
    rw [h7 c, if_pos (by omega)]
  have hother : ∀ c : Nat, ((c : Int) < (a : Int) ∨ (a : Int) + (r : Int) ≤ (c : Int)) →
      fcb_bit vol' c = fcb_bit vol c := by
    intro c hc
    rw [h7 c, if_neg (by omega)]
  have hclosed : ∀ g ∈ G, is_dup_group (fcb_bit vol) vcn (a : Int) (r : Int) g := by
    intro g hg
    obtain ⟨c1, c2, c3, c4, c5, c6, c7⟩ := hcl g hg
    exact ⟨c1, c2, by push_cast at c3; omega, c4, c5, c6, Or.inr c7⟩
  have hGlen : ∀ g ∈ G, g.length ≠ 0 := by
    intro g hg
    obtain ⟨c1, _⟩ := hcl g hg
    omega
  by_cases ht : (dup_scan vcn (a : Int) (fcb_bit vol) r a
      ({ vcn := 0, lcn := -1, length := 0 }, dup_rl)).1.lcn ≥ 0
  · rw [if_pos ht, hroom]
    have htn : (dup_scan vcn (a : Int) (fcb_bit vol) r a
      ({ vcn := 0, lcn := -1, length := 0 }, dup_rl)).1.lcn ≠ -1 := by omega
    obtain ⟨⟨o1, o2, o3, o4, o5, o6, o7⟩, hlt⟩ := hsome htn
    refine ⟨_, vol', G ++ [(dup_scan vcn (a : Int) (fcb_bit vol) r a
      ({ vcn := 0, lcn := -1, length := 0 }, dup_rl)).1], rfl, ?_, ?_, ?_, ?_, ?_, hfinal, hother⟩
    · rw [dup_entries_make _ _ (by omega), hd, dup_entries_foldl G dup_rl hGlen,
        List.append_assoc]
    · rw [List.pairwise_append]
      refine ⟨hpw, List.pairwise_singleton _ _, ?_⟩
      intro x hx y hy
      rw [List.mem_singleton] at hy
      rw [hy]
      exact hlt x hx
    · intro g hg
      rw [List.mem_append, List.mem_singleton] at hg
      rcases hg with hg | hg
      · exact hclosed g hg
      · rw [hg]
        refine ⟨o1, o2, by push_cast at o3; omega, o4, o5, o6, ?_⟩
        by_cases hend : (dup_scan vcn (a : Int) (fcb_bit vol) r a
            ({ vcn := 0, lcn := -1, length := 0 }, dup_rl)).1.lcn +
            (dup_scan vcn (a : Int) (fcb_bit vol) r a
            ({ vcn := 0, lcn := -1, length := 0 }, dup_rl)).1.length = (a : Int) + (r : Int)
        · exact Or.inl hend
        · exact Or.inr (fun c hc => o7 c (by omega) (by push_cast at o3; omega))
    · intro c hc1 hc2 hc3
      rcases hcov c hc1 (by omega) hc3 with ⟨g, hg, hr⟩ | ⟨_, hr1, hr2⟩
      · exact ⟨g, List.mem_append_left _ hg, hr⟩
      · exact ⟨_, List.mem_append_right _ (List.mem_singleton_self _), hr1, hr2⟩
    · intro hno
      exfalso
      have h5 := o5 (dup_scan vcn (a : Int) (fcb_bit vol) r a
        ({ vcn := 0, lcn := -1, length := 0 }, dup_rl)).1.lcn.toNat (by omega) (by omega)
      have h6 := hno (dup_scan vcn (a : Int) (fcb_bit vol) r a
        ({ vcn := 0, lcn := -1, length := 0 }, dup_rl)).1.lcn.toNat (by omega)
        (by push_cast at o3; omega)
      rw [h5] at h6
      exact absurd h6 (by simp)
  · rw [if_neg ht]
    have htn : (dup_scan vcn (a : Int) (fcb_bit vol) r a
      ({ vcn := 0, lcn := -1, length := 0 }, dup_rl)).1.lcn = -1 := by
      by_contra hc
      obtain ⟨⟨_, o2, _⟩, _⟩ := hsome hc
      omega
    obtain ⟨hG, hno⟩ := hnone htn
    rw [hG] at hd
    refine ⟨_, vol', [], rfl, ?_, List.Pairwise.nil, ?_, ?_, ?_, hfinal, hother⟩
    · rw [hd]; simp
    · intro g hg; exact absurd hg (List.not_mem_nil g)
    · intro c hc1 hc2 hc3
      have := hno c hc1 (by omega)
      rw [this] at hc3
      exact absurd hc3 (by simp)
    · intro _
      rw [hd]; rfl

/-- The page loop of `ntfs_fsck_check_and_set_lcnbmp` writes FCB pages only. -/
theorem check_lcnbmp_pages_frame (bit : Nat) (vcn : Int) :
    ∀ (n : Nat) (idx rel_in remain checked : Int) (vol vol' : Volume)
      (tmp tmp' : runlist_element) (dup dup' : Option (List runlist_element)),
      check_lcnbmp_pages bit vcn n idx rel_in remain checked vol tmp dup
        = some (Run.done (vol', tmp', dup')) →
      vol'.nr_clusters = vol.nr_clusters ∧ vol'.max_flb_cnt = vol.max_flb_cnt ∧
      vol'.option_flags = vol.option_flags ∧ vol'.fsck_mft_bitmap = vol.fsck_mft_bitmap ∧
      vol'.max_fmb_cnt = vol.max_fmb_cnt := by
  intro n
  induction n with
  | zero =>
    intro idx rel_in remain checked vol vol' tmp tmp' dup dup' h
    simp only [check_lcnbmp_pages] at h
    cases h
    exact ⟨rfl, rfl, rfl, rfl, rfl⟩
  | succ k ih =>
    intro idx rel_in remain checked vol vol' tmp tmp' dup dup' h
    simp only [check_lcnbmp_pages] at h
    cases hs : lcn_bitmap_at vol idx with
    | none => rw [hs] at h; cases h
    | some slot =>
      rw [hs] at h
      dsimp only at h
      split at h
      · cases h
      · cases h
      · rename_i buf1 tmp1 dup1 hb
        split_ifs at h <;> first
          | (cases h; exact ⟨rfl, rfl, rfl, rfl, rfl⟩)
          | (obtain ⟨a1, a2, a3, a4, a5⟩ := ih _ _ _ _ _ _ _ _ _ _ h
             exact ⟨a1, a2, a3, a4, a5⟩)

/-- `ntfs_fsck_check_and_set_lcnbmp` writes FCB pages only. -/
theorem check_and_set_frame (vol vol' : Volume) (na : Option ntfs_attr) (rl_idx : Int)
    (bit : Nat) (dup dup' : Option (List runlist_element))
    (h : ntfs_fsck_check_and_set_lcnbmp vol na rl_idx bit dup = some (Run.done (dup', vol'))) :
    vol'.nr_clusters = vol.nr_clusters ∧ vol'.max_flb_cnt = vol.max_flb_cnt ∧
    vol'.option_flags = vol.option_flags ∧ vol'.fsck_mft_bitmap = vol.fsck_mft_bitmap ∧
    vol'.max_fmb_cnt = vol.max_fmb_cnt := by
  unfold ntfs_fsck_check_and_set_lcnbmp at h
  cases na with
  | none => cases h; exact ⟨rfl, rfl, rfl, rfl, rfl⟩
  | some attr =>
    dsimp only at h
    cases hrl : attr.rl with
    | none => rw [hrl] at h; cases h; exact ⟨rfl, rfl, rfl, rfl, rfl⟩
    | some rl =>
      rw [hrl] at h
      dsimp only at h
      split_ifs at h
      · cases h; exact ⟨rfl, rfl, rfl, rfl, rfl⟩
      · cases hg : rl.get? rl_idx.toNat with
        | none => rw [hg] at h; cases h
        | some e =>
          rw [hg] at h
          dsimp only at h
          split_ifs at h
          · cases h; exact ⟨rfl, rfl, rfl, rfl, rfl⟩
          · split at h
            · cases h
            · cases h
            · rename_i v1 t1 d1 hp
              have hf := check_lcnbmp_pages_frame _ _ _ _ _ _ _ _ _ _ _ _ _ hp
              split_ifs at h
              · split at h
                · cases h
                · cases h; exact hf
              · cases h; exact hf

/-- `ntfs_fsck_check_and_set_lcnbmp` with `bit = 1` on an entry whose pages
exist, with room in the block of the duplicate runlist for one element per
cluster: the duplicate runlist it returns is what the scan `dup_scan` of the old
FCB bits gives, and every cluster of the entry is set. -/
theorem check_and_set_scan (vol : Volume) (na : ntfs_attr) (rl : List runlist_element)
    (rl_idx : Int) (e : runlist_element) (dup : Option (List runlist_element))
    (hrl : na.rl = some rl) (hidx : 0 ≤ rl_idx) (he : rl.get? rl_idx.toNat = some e)
    (hlen : 0 < e.length) (hlcn : 0 ≤ e.lcn)
    (hpage : (e.lcn + e.length - 1) / 65536 < (vol.max_flb_cnt : Int))
    (hwrap : e.lcn + e.length ≤ 2 ^ 63)
    (hcap : (dup_len dup : Int) + e.length < DUP_RL_SLOTS) :
    ∃ vol', ntfs_fsck_check_and_set_lcnbmp vol (some na) rl_idx 1 dup
        = some (Run.done ((if (dup_scan e.vcn e.lcn (fcb_bit vol) e.length.toNat e.lcn.toNat
                      ({ vcn := 0, lcn := -1, length := 0 }, dup)).1.lcn ≥ 0 then
                  some (dup_rl_append
                    (dup_scan e.vcn e.lcn (fcb_bit vol) e.length.toNat e.lcn.toNat
                      ({ vcn := 0, lcn := -1, length := 0 }, dup)).2
                    (dup_scan e.vcn e.lcn (fcb_bit vol) e.length.toNat e.lcn.toNat
                      ({ vcn := 0, lcn := -1, length := 0 }, dup)).1)
                else (dup_scan e.vcn e.lcn (fcb_bit vol) e.length.toNat e.lcn.toNat
                      ({ vcn := 0, lcn := -1, length := 0 }, dup)).2), vol')) ∧
      ∀ c : Nat, fcb_bit vol' c =
        if e.lcn ≤ (c : Int) ∧ (c : Int) < e.lcn + e.length then true else fcb_bit vol c := by
  obtain ⟨vcn, lcn, length⟩ := e
  dsimp only at hlen hlcn hpage hwrap hcap ⊢
  obtain ⟨a, ha⟩ : ∃ a : Nat, (a : Int) = lcn := ⟨lcn.toNat, by omega⟩
  obtain ⟨r, hr⟩ : ∃ r : Nat, (r : Int) = length := ⟨length.toNat, by omega⟩
  subst ha hr
  have hs64 : s64_of ((a : Int) + (r : Int) - 1) = (a : Int) + (r : Int) - 1 :=
    s64_of_id _ (by have : (0 : Int) < 2 ^ 63 := by norm_num
                    omega) (by omega)
  obtain ⟨vol', h1, _, h7⟩ := check_lcnbmp_pages_spec vcn (a : Int)
    (((a : Int) + (r : Int) - 1) / 65536 - (a : Int) / 65536 + 1).toNat a r
    ((a : Int) / 65536) (a : Int) (r : Int) 0 vol { vcn := 0, lcn := -1, length := 0 } dup
    (by omega) (by omega) rfl (Or.inl rfl)
    (by
      have : a / 65536 ≤ (a + r - 1) / 65536 := Nat.div_le_div_right (by omega)
      omega)
    (by omega) (by omega) (by omega)
  have hgrow := dup_scan_len vcn (a : Int) (fcb_bit vol) r a
    ({ vcn := 0, lcn := -1, length := 0 }, dup)
  have hroom := make_dup_runlist_room
    (dup_scan vcn (a : Int) (fcb_bit vol) r a ({ vcn := 0, lcn := -1, length := 0 }, dup)).2
    (dup_scan vcn (a : Int) (fcb_bit vol) r a ({ vcn := 0, lcn := -1, length := 0 }, dup)).1
    (by dsimp only at hgrow; omega)
  have hnl : ¬ ((r : Int) ≤ 0) := by omega
  have hni : ¬ (rl_idx < 0) := by omega
  refine ⟨vol', ?_, ?_⟩
  · simp only [ntfs_fsck_check_and_set_lcnbmp, hrl, hni, if_false, he, hnl, hs64, lcn_page_index,
      h1, Int.toNat_ofNat, hroom]
    split_ifs <;> rfl
  · intro c
    rw [h7 c]
    by_cases hc : a ≤ c ∧ c < a + r
    · rw [if_pos hc, if_pos (by omega)]
    · rw [if_neg hc, if_neg (by omega)]

/-- The bit loop of `ntfs_fsck_check_and_set_lcnbmp` does to the page what the
bit loop of `ntfs_fsck_set_lcnbmp_range` does to it. -/
theorem check_lcnbmp_bits_page (bit : Nat) (vcn ck idx_slcn rel : Int) :
    ∀ (n : Nat) (i : Int) (buf q : Page) (tmp t : runlist_element)
      (dup d : Option (List runlist_element)),
      check_lcnbmp_bits bit vcn ck idx_slcn rel n i buf tmp dup = some (Run.done (q, t, d)) →
      set_lcnbmp_bits rel bit n i buf = some q := by
  intro n
  induction n with
  | zero =>
    intro i buf q tmp t dup d h
    simp only [check_lcnbmp_bits] at h
    cases h
    rfl
  | succ n ih =>
    intro i buf q tmp t dup d h
    simp only [check_lcnbmp_bits] at h
    simp only [set_lcnbmp_bits]
    cases hg : ntfs_bit_get_and_set buf (u64_of (rel + i)) bit with
    | none => rw [hg] at h; cases h
    | some r =>
      obtain ⟨old, buf1⟩ := r
      rw [hg] at h
      dsimp only at h ⊢
      split_ifs at h
      · exact ih _ _ _ _ _ _ _ h
      · exact ih _ _ _ _ _ _ _ h
      · exact ih _ _ _ _ _ _ _ h
      · exact ih _ _ _ _ _ _ _ h
      · split at h
        · cases h
        · exact ih _ _ _ _ _ _ _ h

/-- The page loop of `ntfs_fsck_check_and_set_lcnbmp` does to the volume what the
page loop of `ntfs_fsck_set_lcnbmp_range` does to it. -/
theorem check_lcnbmp_pages_vol (bit : Nat) (vcn : Int) :
    ∀ (n : Nat) (idx rel_in remain ck : Int) (vol v : Volume) (tmp t : runlist_element)
      (dup d : Option (List runlist_element)),
      check_lcnbmp_pages bit vcn n idx rel_in remain ck vol tmp dup = some (Run.done (v, t, d)) →
      set_lcnbmp_pages bit n idx rel_in remain vol = some (0, v) := by
  intro n
  induction n with
  | zero =>
    intro idx rel_in remain ck vol v tmp t dup d h
    simp only [check_lcnbmp_pages] at h
    cases h
    rfl
  | succ n ih =>
    intro idx rel_in remain ck vol v tmp t dup d h
    simp only [check_lcnbmp_pages] at h
    simp only [set_lcnbmp_pages]
    cases hs : lcn_bitmap_at vol idx with
    | none => rw [hs] at h; cases h
    | some slot =>
      rw [hs] at h
      dsimp only at h ⊢
      generalize (if rel_in ≠ 0 then
        rel_in - shl idx (NTFS_BUF_SIZE_BITS + NTFSCK_BYTE_TO_BITS) else rel_in) = rel at h ⊢
      generalize (if remain < shl 1 (NTFS_BUF_SIZE_BITS + NTFSCK_BYTE_TO_BITS) - rel then remain
        else shl 1 (NTFS_BUF_SIZE_BITS + NTFSCK_BYTE_TO_BITS) - rel) = len at h ⊢
      split at h
      · cases h
      · cases h
      · rename_i q1 t1 d1 hb
        rw [check_lcnbmp_bits_page _ _ _ _ _ _ _ _ _ _ _ _ _ hb]
        dsimp only
        by_cases hdone : remain - len ≤ 0
        · rw [if_pos hdone] at h
          cases h
          rw [if_pos hdone]
        · rw [if_neg hdone] at h
          rw [if_neg hdone]
          exact ih _ _ _ _ _ _ _ _ _ _ h

/-- The page loop of `ntfs_fsck_set_lcnbmp_range` with any number `n` of
iterations, started at cluster `a` with `r` clusters to go: where it comes to
its end it has stored `v` in the clusters of `a .. a+r-1` that lie on the first
`n` pages from the page of `a` on, and nothing else. -/
theorem set_lcnbmp_pages_prefix (v : Nat) (hv : v ≤ 1) :
    ∀ (n a r : Nat) (idx rel_in remain : Int) (vol vol' : Volume) (ret : Int),
      0 < r → idx = ((a / 65536 : Nat) : Int) → remain = (r : Int) →
      (rel_in = (a : Int) ∨ (rel_in = 0 ∧ a % 65536 = 0)) →
      set_lcnbmp_pages v n idx rel_in remain vol = some (ret, vol') →
      vol'.max_flb_cnt = vol.max_flb_cnt ∧ vol'.nr_clusters = vol.nr_clusters ∧
      vol'.fsck_mft_bitmap = vol.fsck_mft_bitmap ∧ vol'.max_fmb_cnt = vol.max_fmb_cnt ∧
      vol'.option_flags = vol.option_flags ∧
      ∀ c : Nat, fcb_bit vol' c =
        if a ≤ c ∧ c < a + r ∧ c / 65536 < a / 65536 + n then decide (v = 1)
        else fcb_bit vol c := by
  intro n
  induction n with
  | zero =>
    intro a r idx rel_in remain vol vol' ret _ _ _ _ h
    simp only [set_lcnbmp_pages] at h
    cases h
    refine ⟨rfl, rfl, rfl, rfl, rfl, ?_⟩
    intro c
    rw [if_neg (by omega)]
  | succ k ih =>
    intro a r idx rel_in remain vol vol' ret hr hidx hrem hrel h
    subst hidx hrem
    by_cases hin : a / 65536 < vol.max_flb_cnt
    swap
    · have hnone : lcn_bitmap_at vol ((a / 65536 : Nat) : Int) = none := by
        unfold lcn_bitmap_at
        rw [if_neg (by omega)]
      simp only [set_lcnbmp_pages, hnone] at h
      cases h
    have hrel' : (if rel_in ≠ 0 then rel_in - shl ((a / 65536 : Nat) : Int)
        (NTFS_BUF_SIZE_BITS + NTFSCK_BYTE_TO_BITS) else rel_in) = ((a % 65536 : Nat) : Int) := by
      rw [shl_16]
      by_cases h0 : rel_in ≠ 0
      · rw [if_pos h0]
        rcases hrel with h | ⟨h, _⟩
        · omega
        · exact absurd h h0
      · rw [if_neg h0]
        rcases hrel with h | ⟨_, h⟩
        · omega
        · omega
    have hone : shl 1 (NTFS_BUF_SIZE_BITS + NTFSCK_BYTE_TO_BITS) = 65536 := by
      rw [shl_16]; norm_num
    obtain ⟨L, hL, hLdef⟩ : ∃ L : Nat, (L : Int) =
        (if (r : Int) < 65536 - ((a % 65536 : Nat) : Int) then (r : Int)
          else 65536 - ((a % 65536 : Nat) : Int)) ∧ L = min r (65536 - a % 65536) := by
      refine ⟨min r (65536 - a % 65536), ?_, rfl⟩
      split <;> omega
    obtain ⟨q, hq, hqb⟩ := set_lcnbmp_bits_spec ((a % 65536 : Nat) : Int) v hv L 0
      (match vol.fsck_lcn_bitmap (a / 65536) with
        | none => zero_page
        | some p => p) (by omega) (by omega)
    have hbuf : ∀ c : Nat, c / 65536 = a / 65536 →
        page_bit (match vol.fsck_lcn_bitmap (a / 65536) with
          | none => zero_page
          | some p => p) (c % 65536) = fcb_bit vol c := by
      intro c hc
      unfold fcb_bit
      rw [hc]
      cases vol.fsck_lcn_bitmap (a / 65536) with
      | none => exact zero_page_bit _
      | some p => rfl
    have hbits1 : ∀ c : Nat, fcb_bit (set_lcn_page vol ((a / 65536 : Nat) : Int) q) c =
        if a ≤ c ∧ c < a + L then decide (v = 1) else fcb_bit vol c := by
      intro c
      rw [fcb_bit_set_lcn_page, hqb]
      by_cases hc : c / 65536 = a / 65536
      · rw [if_pos hc, hbuf c hc]
        by_cases hcr : a ≤ c ∧ c < a + L
        · rw [if_pos hcr, if_pos (by omega)]
        · rw [if_neg hcr, if_neg (by omega)]
      · rw [if_neg hc, if_neg (by omega)]
    simp only [set_lcnbmp_pages, lcn_bitmap_at_in vol _ hin, hrel', hone, ← hL, Int.toNat_ofNat,
      hq] at h
    by_cases hdone : (r : Int) - (L : Int) ≤ 0
    · rw [if_pos hdone] at h
      cases h
      refine ⟨rfl, rfl, rfl, rfl, rfl, ?_⟩
      intro c
      rw [hbits1 c]
      have hLr : L = r := by omega
      by_cases hcr : a ≤ c ∧ c < a + L
      · rw [if_pos hcr, if_pos (by omega)]
      · rw [if_neg hcr, if_neg (by omega)]
    · rw [if_neg hdone] at h
      have hLeq : L = 65536 - a % 65536 := by omega
      obtain ⟨h2, h3, h4, h5, h6, h7⟩ := ih ((a / 65536 + 1) * 65536) (r - L)
        (((a / 65536 : Nat) : Int) + 1) 0 ((r : Int) - (L : Int))
        (set_lcn_page vol ((a / 65536 : Nat) : Int) q) vol' ret
        (by omega) (by omega) (by omega) (Or.inr ⟨rfl, by omega⟩) h
      refine ⟨h2, h3, h4, h5, h6, ?_⟩
      intro c
      rw [h7 c, hbits1 c]
      have ea : (a / 65536 + 1) * 65536 = a + L := by omega
      by_cases hcr : a ≤ c ∧ c < a + r ∧ c / 65536 < a / 65536 + (k + 1)
      · rw [if_pos hcr]
        by_cases hc2 : (a / 65536 + 1) * 65536 ≤ c ∧ c < (a / 65536 + 1) * 65536 + (r - L) ∧
            c / 65536 < (a / 65536 + 1) * 65536 / 65536 + k
        · rw [if_pos hc2]
        · rw [if_neg hc2, if_pos (by omega)]
      · rw [if_neg hcr, if_neg (by omega), if_neg (by omega)]

/-- With `bit = 0` the bit loop of `ntfs_fsck_check_and_set_lcnbmp` is the bit
loop of `ntfs_fsck_set_lcnbmp_range`; `tmp_rl[0]` and `dup_rl` stay. -/
theorem check_lcnbmp_bits_zero (vcn ck idx_slcn rel : Int) :
    ∀ (n : Nat) (i : Int) (buf : Page) (tmp : runlist_element)
      (dup : Option (List runlist_element)),
      check_lcnbmp_bits 0 vcn ck idx_slcn rel n i buf tmp dup
        = (set_lcnbmp_bits rel 0 n i buf).map (fun q => Run.done (q, tmp, dup)) := by
  intro n
  induction n with
  | zero => intro i buf tmp dup; rfl
  | succ n ih =>
    intro i buf tmp dup
    simp only [check_lcnbmp_bits, set_lcnbmp_bits]
    cases hg : ntfs_bit_get_and_set buf (u64_of (rel + i)) 0 with
    | none => rfl
    | some r =>
      obtain ⟨old, buf1⟩ := r
      dsimp only
      by_cases ho : old = 0
      · rw [if_pos ho]
        exact ih _ _ _ _
      · rw [if_neg ho]
        simp only [if_true]
        exact ih _ _ _ _

/-- With `bit = 0` the page loop of `ntfs_fsck_check_and_set_lcnbmp` is the page
loop of `ntfs_fsck_set_lcnbmp_range`. -/
theorem check_lcnbmp_pages_zero (vcn : Int) :
    ∀ (n : Nat) (idx rel_in remain ck : Int) (vol : Volume) (tmp : runlist_element)
      (dup : Option (List runlist_element)),
      check_lcnbmp_pages 0 vcn n idx rel_in remain ck vol tmp dup
        = (set_lcnbmp_pages 0 n idx rel_in remain vol).map (fun r => Run.done (r.2, tmp, dup)) := by
  intro n
  induction n with
  | zero => intro idx rel_in remain ck vol tmp dup; rfl
  | succ n ih =>
    intro idx rel_in remain ck vol tmp dup
    simp only [check_lcnbmp_pages, set_lcnbmp_pages]
    cases hs : lcn_bitmap_at vol idx with
    | none => rfl
    | some slot =>
      dsimp only
      rw [check_lcnbmp_bits_zero]
      generalize (if rel_in ≠ 0 then
        rel_in - shl idx (NTFS_BUF_SIZE_BITS + NTFSCK_BYTE_TO_BITS) else rel_in) = rel
      generalize (if remain < shl 1 (NTFS_BUF_SIZE_BITS + NTFSCK_BYTE_TO_BITS) - rel then remain
        else shl 1 (NTFS_BUF_SIZE_BITS + NTFSCK_BYTE_TO_BITS) - rel) = len
      generalize set_lcnbmp_bits _ 0 _ 0 _ = sb
      cases sb with
      | none => rfl
      | some q =>
        dsimp only [Option.map]
        by_cases hdone : remain - len ≤ 0
        · rw [if_pos hdone, if_pos hdone]
        · rw [if_neg hdone, if_neg hdone]
          exact ih _ _ _ _ _ _ _

/-- With `bit = 0`, on an entry of positive length, `ntfs_fsck_check_and_set_lcnbmp`
is the page loop of `ntfs_fsck_set_lcnbmp_range` on the clusters of the entry,
and it returns the duplicate runlist it was given. -/
theorem check_and_set_clear (vol : Volume) (na : ntfs_attr) (rl : List runlist_element)
    (rl_idx : Int) (e : runlist_element) (dup : Option (List runlist_element))
    (hrl : na.rl = some rl) (hidx : 0 ≤ rl_idx) (he : rl.get? rl_idx.toNat = some e)
    (hlen : 0 < e.length) :
    ntfs_fsck_check_and_set_lcnbmp vol (some na) rl_idx 0 dup
      = (set_lcnbmp_pages 0 (engine_pages e.lcn e.length)
          (FB_ROUND_DOWN (asr e.lcn NTFSCK_BYTE_TO_BITS)) e.lcn e.length vol).map
            (fun r => Run.done (dup, r.2)) := by
  have hnl : ¬ (e.length ≤ 0) := by omega
  have hni : ¬ (rl_idx < 0) := by omega
  simp only [ntfs_fsck_check_and_set_lcnbmp, hrl, hni, if_false, he, hnl, check_lcnbmp_pages_zero,
    engine_pages]
  cases set_lcnbmp_pages 0
      (FB_ROUND_DOWN (asr (s64_of (e.lcn + e.length - 1)) NTFSCK_BYTE_TO_BITS) -
        FB_ROUND_DOWN (asr e.lcn NTFSCK_BYTE_TO_BITS) + 1).toNat
      (FB_ROUND_DOWN (asr e.lcn NTFSCK_BYTE_TO_BITS)) e.lcn e.length vol with
  | none => rfl
  | some r => rfl

/-- The bit loop of `ntfs_fsck_check_and_set_lcnbmp` inside a page makes no
access outside the page. -/
theorem check_lcnbmp_bits_total (bit : Nat) (hbit : bit ≤ 1) (vcn ck idx_slcn rel : Int) :
    ∀ (n : Nat) (i : Int) (buf : Page) (tmp : runlist_element)
      (dup : Option (List runlist_element)),
      0 ≤ rel + i → rel + i + n ≤ 65536 →
      (check_lcnbmp_bits bit vcn ck idx_slcn rel n i buf tmp dup).isSome = true := by
  intro n
  induction n with
  | zero => intro i buf tmp dup _ _; rfl
  | succ n ih =>
    intro i buf tmp dup h0 h1
    have hsm : u64_of (rel + i) = (rel + i).toNat := u64_of_small _ h0 (by omega)
    obtain ⟨q, hq, _, _⟩ := ntfs_bit_get_and_set_spec buf (rel + i).toNat bit (by omega) hbit
    have hn : 0 ≤ rel + (i + 1) := by omega
    have hm : rel + (i + 1) + (n : Int) ≤ 65536 := by push_cast at h1; omega
    simp only [check_lcnbmp_bits, hsm, hq]
    split_ifs <;> first
      | exact ih _ _ _ _ hn hm
      | (split
         · rfl
         · exact ih _ _ _ _ hn hm)

/-- The page loop of `ntfs_fsck_check_and_set_lcnbmp`, with any number `n` of
iterations, started at cluster `a` with `r` clusters to go: when the page of
the last cluster exists, no access leaves the array of pages or a page. -/
theorem check_lcnbmp_pages_total (bit : Nat) (hbit : bit ≤ 1) (vcn : Int) :
    ∀ (n a r : Nat) (idx rel_in remain ck : Int) (vol : Volume) (tmp : runlist_element)
      (dup : Option (List runlist_element)),
      0 < r → idx = ((a / 65536 : Nat) : Int) → remain = (r : Int) →
      (rel_in = (a : Int) ∨ (rel_in = 0 ∧ a % 65536 = 0)) →
      (a + r - 1) / 65536 < vol.max_flb_cnt →
      (check_lcnbmp_pages bit vcn n idx rel_in remain ck vol tmp dup).isSome = true := by
  intro n
  induction n with
  | zero => intro a r idx rel_in remain ck vol tmp dup _ _ _ _ _; rfl
  | succ k ih =>
    intro a r idx rel_in remain ck vol tmp dup hr hidx hrem hrel hmax
    subst hidx hrem
    have hin : a / 65536 < vol.max_flb_cnt := by
      have : a / 65536 ≤ (a + r - 1) / 65536 := Nat.div_le_div_right (by omega)
      omega
    have hrel' : (if rel_in ≠ 0 then rel_in - shl ((a / 65536 : Nat) : Int)
        (NTFS_BUF_SIZE_BITS + NTFSCK_BYTE_TO_BITS) else rel_in) = ((a % 65536 : Nat) : Int) := by
      rw [shl_16]
      by_cases h0 : rel_in ≠ 0
      · rw [if_pos h0]
        rcases hrel with h | ⟨h, _⟩
        · omega
        · exact absurd h h0
      · rw [if_neg h0]
        rcases hrel with h | ⟨_, h⟩
        · omega
        · omega
    have hone : shl 1 (NTFS_BUF_SIZE_BITS + NTFSCK_BYTE_TO_BITS) = 65536 := by
      rw [shl_16]; norm_num
    obtain ⟨L, hL, hLdef⟩ : ∃ L : Nat, (L : Int) =
        (if (r : Int) < 65536 - ((a % 65536 : Nat) : Int) then (r : Int)
          else 65536 - ((a % 65536 : Nat) : Int)) ∧ L = min r (65536 - a % 65536) := by
      refine ⟨min r (65536 - a % 65536), ?_, rfl⟩
      split <;> omega
    have hb := check_lcnbmp_bits_total bit hbit vcn ck
      (shl ((a / 65536 : Nat) : Int) (NTFS_BUF_SIZE_BITS + NTFSCK_BYTE_TO_BITS))
      ((a % 65536 : Nat) : Int) L 0
      (match vol.fsck_lcn_bitmap (a / 65536) with
        | none => zero_page
        | some p => p) tmp dup (by omega) (by omega)
    simp only [check_lcnbmp_pages, lcn_bitmap_at_in vol _ hin, hrel', hone, ← hL, Int.toNat_ofNat]
    cases hbr : check_lcnbmp_bits bit vcn ck
        (shl ((a / 65536 : Nat) : Int) (NTFS_BUF_SIZE_BITS + NTFSCK_BYTE_TO_BITS))
        ((a % 65536 : Nat) : Int) L 0
        (match vol.fsck_lcn_bitmap (a / 65536) with
          | none => zero_page
          | some p => p) tmp dup with
    | none => rw [hbr] at hb; cases hb
    | some x =>
      cases x with
      | dup_overrun => rfl
      | done y =>
        obtain ⟨q, t1, d1⟩ := y
        dsimp only
        by_cases hdone : (r : Int) - (L : Int) ≤ 0
        · rw [if_pos hdone]
          rfl
        · rw [if_neg hdone]
          have hLeq : L = 65536 - a % 65536 := by omega
          exact ih ((a / 65536 + 1) * 65536) (r - L) (((a / 65536 : Nat) : Int) + 1) 0
            ((r : Int) - (L : Int)) _ (set_lcn_page vol ((a / 65536 : Nat) : Int) q) t1 d1
            (by omega) (by omega) (by omega) (Or.inr ⟨rfl, by omega⟩)
            (by
              have e1 : (a / 65536 + 1) * 65536 + (r - L) - 1 = a + r - 1 := by omega
              rw [e1]
              exact hmax)

/-- `ntfs_fsck_check_and_set_lcnbmp` on an entry whose last cluster has its page
makes no access outside the array of FCB pages or outside a page. -/
theorem check_and_set_total (vol : Volume) (na : ntfs_attr) (rl : List runlist_element)
    (rl_idx : Int) (e : runlist_element) (dup : Option (List runlist_element)) (bit : Nat)
    (hbit : bit ≤ 1) (hrl : na.rl = some rl) (hidx : 0 ≤ rl_idx)
    (he : rl.get? rl_idx.toNat = some e) (hlcn : 0 ≤ e.lcn)
    (hpage : 0 < e.length → (e.lcn + e.length - 1) / 65536 < (vol.max_flb_cnt : Int)) :
    (ntfs_fsck_check_and_set_lcnbmp vol (some na) rl_idx bit dup).isSome = true := by
  have hni : ¬ (rl_idx < 0) := by omega
  simp only [ntfs_fsck_check_and_set_lcnbmp, hrl, hni, if_false, he]
  by_cases hlen : e.length ≤ 0
  · rw [if_pos hlen]
    rfl
  · rw [if_neg hlen]
    obtain ⟨vcn, lcn, length⟩ := e
    dsimp only at hlen hlcn hpage ⊢
    obtain ⟨a, ha⟩ : ∃ a : Nat, (a : Int) = lcn := ⟨lcn.toNat, by omega⟩
    obtain ⟨r, hr⟩ : ∃ r : Nat, (r : Int) = length := ⟨length.toNat, by omega⟩
    subst ha hr
    have hp := hpage (by omega)
    have ht := check_lcnbmp_pages_total bit hbit vcn
      (FB_ROUND_DOWN (asr (s64_of ((a : Int) + (r : Int) - 1)) NTFSCK_BYTE_TO_BITS) -
        FB_ROUND_DOWN (asr (a : Int) NTFSCK_BYTE_TO_BITS) + 1).toNat a r
      (FB_ROUND_DOWN (asr (a : Int) NTFSCK_BYTE_TO_BITS)) (a : Int) (r : Int) 0 vol
      { vcn := 0, lcn := -1, length := 0 } dup (by omega)
      (by rw [lcn_page_index]; omega) rfl (Or.inl rfl) (by omega)
    cases hpr : check_lcnbmp_pages bit vcn
        (FB_ROUND_DOWN (asr (s64_of ((a : Int) + (r : Int) - 1)) NTFSCK_BYTE_TO_BITS) -
          FB_ROUND_DOWN (asr (a : Int) NTFSCK_BYTE_TO_BITS) + 1).toNat
        (FB_ROUND_DOWN (asr (a : Int) NTFSCK_BYTE_TO_BITS)) (a : Int) (r : Int) 0 vol
        { vcn := 0, lcn := -1, length := 0 } dup with
    | none => rw [hpr] at ht; cases ht
    | some x =>
      cases x with
      | dup_overrun => rfl
      | done y =>
        obtain ⟨v1, t1, d1⟩ := y
        dsimp only
        split_ifs
        · split <;> rfl
        · rfl

/-- For an entry that ends at or below `2^63` the page loop of
`ntfs_fsck_check_and_set_lcnbmp` comes to every page of the entry. -/
theorem engine_pages_plain (a r : Nat) (hr : 0 < r) (hw : (a : Int) + (r : Int) ≤ 2 ^ 63) :
    engine_pages (a : Int) (r : Int) = (a + r - 1) / 65536 - a / 65536 + 1 := by
  unfold engine_pages
  rw [s64_of_id _ (by have : (0 : Int) < 2 ^ 63 := by norm_num
                      omega) (by omega), lcn_page_index, lcn_page_index]
  have : a / 65536 ≤ (a + r - 1) / 65536 := Nat.div_le_div_right (by omega)
  omega

/-- For an entry with `lcn >= 0` that ends at or below `2^63`, the clusters the
engine visits are the clusters of the entry. -/
theorem engine_cover_plain (lcn length : Int) (c : Nat) (h0 : 0 ≤ lcn)
    (hw : lcn + length ≤ 2 ^ 63) :
    engine_cover lcn length c = decide (lcn ≤ (c : Int) ∧ (c : Int) < lcn + length) := by
  unfold engine_cover
  by_cases hc : lcn ≤ (c : Int) ∧ (c : Int) < lcn + length
  · obtain ⟨a, ha⟩ : ∃ a : Nat, (a : Int) = lcn := ⟨lcn.toNat, by omega⟩
    obtain ⟨r, hr⟩ : ∃ r : Nat, (r : Int) = length := ⟨length.toNat, by omega⟩
    subst ha hr
    rw [engine_pages_plain a r (by omega) hw]
    have : a / 65536 ≤ (a + r - 1) / 65536 := Nat.div_le_div_right (by omega)
    have h2 : c / 65536 ≤ (a + r - 1) / 65536 := Nat.div_le_div_right (by omega)
    simp only [hc, true_and, decide_eq_decide]
    constructor
    · intro _; trivial
    · intro _; omega
  · simp only [decide_eq_decide]
    constructor
    · intro h; exact absurd ⟨h.1, h.2.1⟩ hc
    · intro h; exact absurd h hc

/-- What one call of `ntfs_fsck_check_and_set_lcnbmp` that comes to its end has
done to the FCB, for either bit: the clusters of `engine_cover` have taken the
bit, the other clusters have kept theirs. -/
theorem check_and_set_cover (vol : Volume) (na : ntfs_attr) (rl : List runlist_element)
    (rl_idx : Int) (e : runlist_element) (dup d : Option (List runlist_element)) (bit : Nat)
    (v : Volume) (hbit : bit ≤ 1) (hrl : na.rl = some rl) (hidx : 0 ≤ rl_idx)
    (he : rl.get? rl_idx.toNat = some e) (hlcn : 0 ≤ e.lcn)
    (h : ntfs_fsck_check_and_set_lcnbmp vol (some na) rl_idx bit dup = some (Run.done (d, v))) :
    v.nr_clusters = vol.nr_clusters ∧ v.max_flb_cnt = vol.max_flb_cnt ∧
    v.option_flags = vol.option_flags ∧
    ∀ c : Nat, fcb_bit v c =
      if engine_cover e.lcn e.length c = true then decide (bit = 1) else fcb_bit vol c := by
  obtain ⟨f1, f2, f3, _, _⟩ := check_and_set_frame _ _ _ _ _ _ _ h
  refine ⟨f1, f2, f3, ?_⟩
  have hni : ¬ (rl_idx < 0) := by omega
  simp only [ntfs_fsck_check_and_set_lcnbmp, hrl, hni, if_false, he] at h
  by_cases hlen : e.length ≤ 0
  · rw [if_pos hlen] at h
    cases h
    intro c
    have : ¬ (engine_cover e.lcn e.length c = true) := by
      unfold engine_cover
      simp only [decide_eq_true_eq]
      omega
    rw [if_neg this]
  · rw [if_neg hlen] at h
    have hn : (FB_ROUND_DOWN (asr (s64_of (e.lcn + e.length - 1)) NTFSCK_BYTE_TO_BITS) -
        FB_ROUND_DOWN (asr e.lcn NTFSCK_BYTE_TO_BITS) + 1).toNat = engine_pages e.lcn e.length := rfl
    rw [hn] at h
    have hv : set_lcnbmp_pages bit (engine_pages e.lcn e.length)
        (FB_ROUND_DOWN (asr e.lcn NTFSCK_BYTE_TO_BITS)) e.lcn e.length vol = some (0, v) := by
      split at h
      · cases h
      · cases h
      · rename_i v1 t1 d1 hp
        have hv1 := check_lcnbmp_pages_vol _ _ _ _ _ _ _ _ _ _ _ _ _ hp
        split_ifs at h
        · split at h
          · cases h
          · cases h
            exact hv1
        · cases h
          exact hv1
    obtain ⟨vcn, lcn, length⟩ := e
    dsimp only at hlen hlcn hv ⊢
    obtain ⟨a, ha⟩ : ∃ a : Nat, (a : Int) = lcn := ⟨lcn.toNat, by omega⟩
    obtain ⟨r, hr⟩ : ∃ r : Nat, (r : Int) = length := ⟨length.toNat, by omega⟩
    subst ha hr
    obtain ⟨_, _, _, _, _, h7⟩ := set_lcnbmp_pages_prefix bit hbit
      (engine_pages (a : Int) (r : Int)) a r (FB_ROUND_DOWN (asr (a : Int) NTFSCK_BYTE_TO_BITS))
      (a : Int) (r : Int) vol v 0 (by omega) (by rw [lcn_page_index]; omega) rfl (Or.inl rfl) hv
    intro c
    rw [h7 c]
    unfold engine_cover
    generalize engine_pages (a : Int) (r : Int) = n
    by_cases hc : a ≤ c ∧ c < a + r ∧ c / 65536 < a / 65536 + n
    · rw [if_pos hc, if_pos (by simp only [decide_eq_true_eq]; omega)]
    · rw [if_neg hc, if_neg (by simp only [decide_eq_true_eq]; omega)]

/-- Under the condition `engine_ok`, `ntfs_fsck_check_and_set_lcnbmp` comes to
its end, for either bit, and it has added at most one element per cluster of
the entry, and one more, to the duplicate runlist. -/
theorem check_and_set_done (vol : Volume) (na : ntfs_attr) (rl : List runlist_element)
    (rl_idx : Int) (e : runlist_element) (dup : Option (List runlist_element)) (bit : Nat)
    (hbit : bit ≤ 1) (hrl : na.rl = some rl) (hidx : 0 ≤ rl_idx)
    (he : rl.get? rl_idx.toNat = some e) (hlcn : 0 ≤ e.lcn)
    (hok : engine_ok vol.max_flb_cnt (dup_len dup) e.lcn e.length = true) :
    ∃ d v, ntfs_fsck_check_and_set_lcnbmp vol (some na) rl_idx bit dup = some (Run.done (d, v)) ∧
      dup_len d ≤ dup_len dup + e.length.toNat + 1 := by
  have hni : ¬ (rl_idx < 0) := by omega
  by_cases hlen : e.length ≤ 0
  · refine ⟨none, vol, ?_, Nat.zero_le _⟩
    simp only [ntfs_fsck_check_and_set_lcnbmp, hrl, hni, if_false, he]
    rw [if_pos hlen]
  · unfold engine_ok at hok
    simp only [decide_eq_true_eq] at hok
    obtain ⟨hp, hw, hcap⟩ : (e.lcn + e.length - 1) / 65536 < (vol.max_flb_cnt : Int) ∧
        e.lcn + e.length ≤ 2 ^ 63 ∧ (dup_len dup : Int) + e.length < (DUP_RL_SLOTS : Int) := by
      rcases hok with h | h
      · exact absurd h hlen
      · exact h
    have hb : bit = 0 ∨ bit = 1 := by omega
    rcases hb with hb | hb
    · subst hb
      rw [check_and_set_clear vol na rl rl_idx e dup hrl hidx he (by omega)]
      obtain ⟨vcn, lcn, length⟩ := e
      dsimp only at hlen hlcn hp hw ⊢
      obtain ⟨a, ha⟩ : ∃ a : Nat, (a : Int) = lcn := ⟨lcn.toNat, by omega⟩
      obtain ⟨r, hr⟩ : ∃ r : Nat, (r : Int) = length := ⟨length.toNat, by omega⟩
      subst ha hr
      obtain ⟨v, hv, _⟩ := set_lcnbmp_pages_spec 0 (by decide)
        (engine_pages (a : Int) (r : Int)) a r (FB_ROUND_DOWN (asr (a : Int) NTFSCK_BYTE_TO_BITS))
        (a : Int) (r : Int) vol (by omega) (by rw [lcn_page_index]; omega) rfl (Or.inl rfl)
        (engine_pages_plain a r (by omega) hw) (by omega)
      rw [hv]
      exact ⟨dup, v, rfl, by omega⟩
    · subst hb
      obtain ⟨v, hv, _⟩ := check_and_set_scan vol na rl rl_idx e dup hrl hidx he (by omega) hlcn
        hp hw hcap
      rw [hv]
      refine ⟨_, v, rfl, ?_⟩
      have hgrow := dup_scan_len e.vcn e.lcn (fcb_bit vol) e.length.toNat e.lcn.toNat
        ({ vcn := 0, lcn := -1, length := 0 }, dup)
      dsimp only at hgrow
      split_ifs
      · have := dup_len_append_le
          (dup_scan e.vcn e.lcn (fcb_bit vol) e.length.toNat e.lcn.toNat
            ({ vcn := 0, lcn := -1, length := 0 }, dup)).2
          (dup_scan e.vcn e.lcn (fcb_bit vol) e.length.toNat e.lcn.toNat
            ({ vcn := 0, lcn := -1, length := 0 }, dup)).1
        omega
      · omega

/-! ## FCB: the block of the duplicate runlist -/

/-- The engine on an entry of one cluster of FCB page 0 that is set in the FCB:
the volume stays as it is and the cluster goes to
`ntfs_fsck_make_dup_runlist`. -/
theorem check_and_set_one_claimed (vol : Volume) (na : ntfs_attr) (rl : List runlist_element)
    (rl_idx : Int) (vcn : Int) (c : Nat) (p : Page) (dup_rl : Option (List runlist_element))
    (hrl : na.rl = some rl) (hidx : 0 ≤ rl_idx)
    (he : rl.get? rl_idx.toNat = some ⟨vcn, (c : Int), 1⟩)
    (hc : c < 65536) (hmax : 0 < vol.max_flb_cnt) (hp : vol.fsck_lcn_bitmap 0 = some p)
    (hold : (p (c >>> 3) >>> (c &&& 7)) &&& 1 = 1) :
    ntfs_fsck_check_and_set_lcnbmp vol (some na) rl_idx 1 dup_rl =
      match ntfs_fsck_make_dup_runlist dup_rl ⟨vcn, (c : Int), 1⟩ with
      | none => some Run.dup_overrun
      | some d => some (Run.done (some d, vol)) := by
  have hni : ¬ (rl_idx < 0) := by omega
  have hnl : ¬ ((1 : Int) ≤ 0) := by decide
  have hs64 : s64_of ((c : Int) + 1 - 1) = (c : Int) := by
    rw [s64_of_id _ (by have : (0 : Int) < 2 ^ 63 := by norm_num
                        omega) (by omega)]
    omega
  have hpage : (c : Int) / 65536 = 0 := by omega
  have hone : ((0 : Int) - 0 + 1).toNat = 1 := rfl
  have hbits : check_lcnbmp_bits 1 vcn 0 0 (c : Int) 1 0 p { vcn := 0, lcn := -1, length := 0 }
      dup_rl = some (Run.done (p, ⟨vcn, (c : Int), 1⟩, dup_rl)) := by
    have hu : u64_of ((c : Int) + 0) = c := by
      unfold u64_of
      omega
    have hin : c >>> 3 < NTFS_BUF_SIZE := by
      rw [Nat.shiftRight_eq_div_pow]
      unfold NTFS_BUF_SIZE
      omega
    have hgs : ntfs_bit_get_and_set p c 1 = some (1, p) := by
      unfold ntfs_bit_get_and_set
      simp [hin, hold]
    simp only [check_lcnbmp_bits, hu, hgs]
    simp
  have hpages : check_lcnbmp_pages 1 vcn 1 0 (c : Int) 1 0 vol { vcn := 0, lcn := -1, length := 0 }
      dup_rl = some (Run.done (vol, ⟨vcn, (c : Int), 1⟩, dup_rl)) := by
    have hat : lcn_bitmap_at vol 0 = some (some p) := by
      unfold lcn_bitmap_at
      rw [if_pos ⟨le_refl _, by omega⟩]
      exact congrArg some hp
    have hsh : shl 0 (NTFS_BUF_SIZE_BITS + NTFSCK_BYTE_TO_BITS) = 0 := by
      unfold shl
      omega
    have hsh1 : shl 1 (NTFS_BUF_SIZE_BITS + NTFSCK_BYTE_TO_BITS) = 65536 := by
      unfold shl
      norm_num [NTFS_BUF_SIZE_BITS, NTFSCK_BYTE_TO_BITS]
    have hself : set_lcn_page vol 0 p = vol := by
      unfold set_lcn_page
      have : Function.update vol.fsck_lcn_bitmap (0 : Int).toNat (some p) = vol.fsck_lcn_bitmap := by
        rw [← hp]
        exact Function.update_eq_self _ _
      rw [this]
    have hlen : (if (1 : Int) < 65536 - (c : Int) then 1 else 65536 - (c : Int)) = 1 := by
      split_ifs <;> omega
    have hnat : (1 : Int).toNat = 1 := rfl
    simp only [check_lcnbmp_pages, hat, hsh, hsh1, sub_zero, ite_self, hlen, hnat, hbits, hself]
  simp only [ntfs_fsck_check_and_set_lcnbmp, hrl, hni, if_false, he, hnl, hs64, lcn_page_index,
    hpage, hone, hpages]
  rw [if_pos (by omega)]

/-- A runlist without an element of length 0 counts in full. -/
theorem rl_count_all (l : List runlist_element) (h : ∀ e ∈ l, e.length ≠ 0) :
    rl_count l = l.length := by
  induction l with
  | nil => rfl
  | cons x rest ih =>
    have hx : x.length ≠ 0 := h x (List.mem_cons_self _ _)
    simp only [rl_count, hx, ne_eq, not_false_eq_true, if_true, List.length_cons]
    rw [ih (fun e he => h e (List.mem_cons_of_mem _ he))]

/-- The first `n` fragments count in full. -/
theorem rl_count_frag (n : Nat) : rl_count ((List.range n).map frag) = n := by
  rw [rl_count_all]
  · simp
  · intro e he
    obtain ⟨k, _, hk⟩ := List.mem_map.mp he
    rw [← hk]
    show (1 : Int) ≠ 0
    decide

/-- The duplicate runlist of `k` fragments has `k` elements in use. -/
theorem dup_len_frag (k : Nat) : dup_len (dup_frag k) = k := by
  match k with
  | 0 => rfl
  | 1 => rfl
  | k + 2 => exact rl_count_frag (k + 2)

/-- With room in the block, the duplicate runlist of `k` fragments and fragment
`k` make the duplicate runlist of `k + 1` fragments. -/
theorem make_dup_runlist_frag (k : Nat) (hk : k < DUP_RL_SLOTS) :
    (match ntfs_fsck_make_dup_runlist (dup_frag k) (frag k) with
      | none => some Run.dup_overrun
      | some d => some (Run.done (some d, vol_frag)))
      = some (Run.done (dup_frag (k + 1), vol_frag)) := by
  rw [make_dup_runlist_room _ _ (by rw [dup_len_frag]; exact hk)]
  match k with
  | 0 => rfl
  | 1 => rfl
  | k + 2 =>
    show some (Run.done (some (dup_rl_append (some ((List.range (k + 2)).map frag))
      (frag (k + 2))), vol_frag)) = some (Run.done (some ((List.range (k + 3)).map frag), vol_frag))
    rw [dup_rl_append_some, rl_count_frag, List.range_succ (k + 2), List.map_append]
    simp

set_option maxRecDepth 100000 in
/-- Every cluster of `rl_frag` is set in `page_frag`. -/
theorem page_frag_claimed : ∀ k : Fin 171,
    (page_frag ((1000 + 2 * k.val) >>> 3) >>> ((1000 + 2 * k.val) &&& 7)) &&& 1 = 1 := by
  decide

/-- C3 (defect of the code): a file of 171 fragments of one cluster, no two
adjacent, all inside the volume and all claimed before.  `ntfsck_check_runlist`
hands the entries of its runlist to `ntfs_fsck_check_and_set_lcnbmp` one after
the other, each call with the duplicate runlist of the call before.  The calls
for the entries 0 to 169 return the duplicate runlist extended by the entry and
leave the FCB as it is; after them the 170 elements of the 4096-byte block are
in use.  The call for entry 170, a collision of one cluster, does not return
the duplicate runlist extended by one entry: `ntfs_fsck_make_dup_runlist` reads
`orig_dup_rl[170].length` behind the block. -/
theorem check_and_set_dup_block_overrun :
    (∀ k : Fin 170,
      ntfs_fsck_check_and_set_lcnbmp vol_frag (some attr_frag) ((k.val : Nat) : Int) 1
          (dup_frag k.val)
        = some (Run.done (dup_frag (k.val + 1), vol_frag))) ∧
    dup_entries (dup_frag 170) = (List.range 170).map frag ∧
    dup_len (dup_frag 170) = DUP_RL_SLOTS ∧
    rl_frag.get? 170 = some ⟨170, 1340, 1⟩ ∧
    (1340 : Int) + 1 ≤ vol_frag.nr_clusters ∧
    fcb_bit vol_frag 1340 = true ∧
    ntfs_fsck_check_and_set_lcnbmp vol_frag (some attr_frag) 170 1 (dup_frag 170)
      = some Run.dup_overrun := by
  have hget : ∀ k : Nat, k < 171 →
      rl_frag.get? ((k : Nat) : Int).toNat = some ⟨(k : Int), ((1000 + 2 * k : Nat) : Int), 1⟩ := by
    intro k hk
    rw [Int.toNat_natCast]
    unfold rl_frag
    rw [List.get?_eq_getElem?, List.getElem?_append_left (by simp; exact hk)]
    simp [hk, frag]
  have hcall : ∀ k : Nat, k < 171 →
      ntfs_fsck_check_and_set_lcnbmp vol_frag (some attr_frag) ((k : Nat) : Int) 1 (dup_frag k) =
        match ntfs_fsck_make_dup_runlist (dup_frag k) (frag k) with
        | none => some Run.dup_overrun
        | some d => some (Run.done (some d, vol_frag)) := by
    intro k hk
    exact check_and_set_one_claimed vol_frag attr_frag rl_frag (k : Int) (k : Int) (1000 + 2 * k)
      page_frag (dup_frag k) rfl (by omega) (hget k hk) (by omega) (by decide) rfl
      (page_frag_claimed ⟨k, hk⟩)
  refine ⟨?_, ?_, dup_len_frag 170, ?_, by decide, ?_, ?_⟩
  · intro k
    rw [hcall k.val (by omega)]
    exact make_dup_runlist_frag k.val k.isLt
  · show ((List.range 170).map frag).take (rl_count ((List.range 170).map frag)) = _
    rw [rl_count_frag]
    apply List.take_of_length_le
    simp
  · exact hget 170 (by decide)
  · decide
  · have h := hcall 170 (by decide)
    have hd : dup_frag 170 = some ((List.range 170).map frag) := rfl
    rw [hd, make_dup_runlist_full _ _ (by rw [rl_count_frag]; exact le_refl _)] at h
    exact h

/-! ## Pass 5: the final write-back -/

/-- The page `ntfs_fsck_find_mftbmp_block` returns for the volume `vol_mft64`. -/
theorem find_mftbmp_block_vol_mft64 :
    ntfs_fsck_find_mftbmp_block vol_mft64 0
      = some ((fun o => if o = 8 then 1 else 0), vol_mft64) := by
  unfold ntfs_fsck_find_mftbmp_block
  have h : u32_of (FB_ROUND_DOWN 0) = 0 := by
    rw [FB_ROUND_DOWN_eq]; unfold u32_of; norm_num
  rw [h]
  rfl

/-- C8 (the code at the failing input): the on-disk MFT bitmap has 12 bytes, all
zero, and the FMB has bit 64 set (byte 8 is 1).  The initial write-back, with
the fix granted and all I/O succeeding, ends with `STATUS_OK`, yet byte 8 on the
disk is still 0, not `0 OR 1`: the word loop merges `12 / 8 = 1` word and the
write stores the 4 bytes behind it as they were read. -/
theorem apply_bitmap_initial_tail_not_merged :
    ∃ vol' attr' ctr',
      ntfsck_apply_bitmap ntfs_fsck_find_mftbmp_block FSCK_BMP_INITIAL env_all_ok true
        vol_mft64 attr_12_zero ⟨0, 0⟩ = some (STATUS_OK, vol', attr', ctr') ∧
      attr'.bytes 8 = 0 ∧
      (∃ p v, ntfs_fsck_find_mftbmp_block vol_mft64 0 = some (p, v) ∧
        attr_12_zero.bytes 8 ||| p 8 = 1) := by
  have hfuel : (attr_12_zero.data_size / (NTFS_BUF_SIZE : Int) + 1).toNat = 1 := by
    rw [NTFS_BUF_SIZE_int]; rfl
  have hcount : (if attr_12_zero.data_size < (NTFS_BUF_SIZE : Int) then attr_12_zero.data_size
      else (NTFS_BUF_SIZE : Int)) = 12 := by
    rw [NTFS_BUF_SIZE_int]; rfl
  have hdiff : bytes_differ (fun o => if o = 8 then 1 else 0)
      (read_chunk attr_12_zero 0 12) (12 : Int).toNat = true := by decide
  have hwords : or_words (fun o => if o = 8 then 1 else 0) ((12 : Int).toNat / SIZEOF_ULONG) 0
      (read_chunk attr_12_zero 0 12) = read_chunk attr_12_zero 0 12 := by
    have hw : word_differs (read_chunk attr_12_zero 0 12) (fun o => if o = 8 then 1 else 0) 0
        = false := by decide
    have hn : (12 : Int).toNat / SIZEOF_ULONG = 1 := by decide
    rw [hn]
    simp only [or_words, hw, Bool.false_eq_true, if_false]
  refine ⟨vol_mft64, write_chunk attr_12_zero 0 12 (read_chunk attr_12_zero 0 12), ⟨0, 0⟩,
    ?_, ?_, ?_⟩
  · unfold ntfsck_apply_bitmap
    simp only [not_true_eq_false, if_false, hfuel, hcount]
    have hIF : ¬ (FSCK_BMP_INITIAL = FSCK_BMP_FINAL) := by decide
    have h12 : ¬ ((12 : Int) < 0) := by norm_num
    simp only [apply_bitmap_loop, env_all_ok, not_true_eq_false, if_false, h12,
      find_mftbmp_block_vol_mft64, hdiff, hwords, hIF, if_true, sub_self, attr_12_zero,
      and_false, if_false]
    rfl
  · unfold write_chunk read_chunk attr_12_zero
    simp
  · exact ⟨_, _, find_mftbmp_block_vol_mft64, by decide⟩

/-! ## The problem engine -/

/-- C1: for every problem code and every problem context, when the global
repair mode is No, `ntfs_fix_problem` returns FALSE (and reads nothing from
standard input). -/
theorem fix_problem_no_mode (vol : Volume) (code : Nat) (pctx : Option problem_context)
    (stdin : List String) (h : mode_no vol.option_flags) :
    ∃ pctx' out, ntfs_fix_problem vol code pctx stdin = some (false, pctx', stdin, out) := by
  obtain ⟨hno, _, hpreen, _, _⟩ := h
  unfold ntfs_fix_problem
  cases find_problem code with
  | none => exact ⟨_, _, rfl⟩
  | some p =>
    simp only [hpreen, hno, Bool.false_eq_true, and_false, if_false, and_true]
    by_cases hf : p.flags &&& PR_NO_NOMSG ≠ 0
    · rw [if_pos hf]
      exact ⟨_, _, rfl⟩
    · rw [if_neg hf]
      simp only [ne_eq, not_true_eq_false, if_false, ntfs_ask_repair, NVolFsNoRepair, hno,
        Bool.true_or, if_true]
      exact ⟨_, _, rfl⟩

/-- Witness of `fix_problem_no_mode`: `ntfsck -n`, the problem
`PR_LOG_APPLY_RUNLIST_TO_DISK`, a reply `y` waiting on standard input. -/
theorem fix_problem_no_mode_witness :
    ∃ pctx' out, ntfs_fix_problem (ntfs_fsck_mount 100000 1024 10 flags_n)
      PR_LOG_APPLY_RUNLIST_TO_DISK (some ⟨0⟩) ["y\n"] = some (false, pctx', ["y\n"], out) :=
  fix_problem_no_mode (ntfs_fsck_mount 100000 1024 10 flags_n) PR_LOG_APPLY_RUNLIST_TO_DISK
    (some ⟨0⟩) ["y\n"] ⟨rfl, rfl, rfl, rfl, rfl⟩

theorem find_problem_closed (code : Nat) (h1 : PR_PRE_SCAN_MFT ≤ code)
    (h2 : code ≤ PR_ORPHANED_MFT_CHECK_FAILURE) :
    ∃ p, find_problem code = some p ∧ p.code = code := by
  unfold PR_PRE_SCAN_MFT at h1
  unfold PR_ORPHANED_MFT_CHECK_FAILURE at h2
  interval_cases code <;> exact ⟨_, rfl, rfl⟩

/-- C11: every problem code of the closed enumeration
(`PR_PRE_SCAN_MFT .. PR_ORPHANED_MFT_CHECK_FAILURE`) has an entry in the problem
table, and in Yes mode on an fsck mount `ntfs_fix_problem` returns TRUE for it
and leaves standard input as it is. -/
theorem fix_problem_yes_mode (vol : Volume) (code : Nat) (pctx : Option problem_context)
    (stdin : List String) (h1 : PR_PRE_SCAN_MFT ≤ code)
    (h2 : code ≤ PR_ORPHANED_MFT_CHECK_FAILURE) (h : mode_yes vol.option_flags) :
    (∃ p, find_problem code = some p ∧ p.code = code) ∧
    ∃ pctx' out, ntfs_fix_problem vol code pctx stdin = some (true, pctx', stdin, out) := by
  obtain ⟨p, hp, hpc⟩ := find_problem_closed code h1 h2
  refine ⟨⟨p, hp, hpc⟩, ?_⟩
  obtain ⟨hfsck, hyes, _, hpreen, hno, _⟩ := h
  unfold ntfs_fix_problem
  rw [hp]
  simp only [hpreen, hno, Bool.false_eq_true, and_false, if_false, ne_eq, not_true_eq_false,
    ntfs_ask_repair, NVolFsNoRepair, NVolFsck, NVolFsYesRepair, hfsck, hyes, Bool.not_true,
    Bool.or_false, Bool.true_or, if_true]
  exact ⟨_, _, rfl⟩

/-- Witness of `fix_problem_yes_mode`: `ntfsck -y` and the problem
`PR_CLUSTER_DUPLICATION_FOUND`. -/
theorem fix_problem_yes_mode_witness :
    (∃ p, find_problem PR_CLUSTER_DUPLICATION_FOUND = some p ∧
      p.code = PR_CLUSTER_DUPLICATION_FOUND) ∧
    ∃ pctx' out, ntfs_fix_problem (ntfs_fsck_mount 100000 1024 10 flags_y)
      PR_CLUSTER_DUPLICATION_FOUND (some ⟨0⟩) ["n\n"] = some (true, pctx', ["n\n"], out) :=
  fix_problem_yes_mode (ntfs_fsck_mount 100000 1024 10 flags_y) PR_CLUSTER_DUPLICATION_FOUND
    (some ⟨0⟩) ["n\n"] (by decide) (by decide) ⟨rfl, rfl, rfl, rfl, rfl, rfl⟩

/-- C12 (as stated, refuted): in Ask mode, with the replies `x` and then `y` on
standard input, `ntfs_fix_problem` for the problem `PR_MFT_FLAG_MISMATCH` does
not return FALSE after the reply `x`: it prompts again, reads `y` and returns
TRUE; when the input ends after the reply `x` it never returns; and a reply
line of more than 7 characters comes in several reads, so that the line
`1234567y` is answered with TRUE at the second prompt. -/
theorem fix_problem_ask_other_reply :
    reads "x\ny\n" = ["x\n", "y\n"] ∧
    ntfs_fix_problem (ntfs_fsck_mount 100000 1024 10 flags_r) 3 (some ⟨0⟩) (reads "x\ny\n")
      = some (true, some ⟨3⟩, [], [Ev.message 3, Ev.fix_it, Ev.prompt, Ev.prompt]) ∧
    ntfs_fix_problem (ntfs_fsck_mount 100000 1024 10 flags_r) 3 none (reads "x\ny\n")
      = some (true, none, [], [Ev.fix_it, Ev.prompt, Ev.prompt]) ∧
    ntfs_fix_problem (ntfs_fsck_mount 100000 1024 10 flags_r) 3 (some ⟨0⟩) (reads "x\n") = none ∧
    reads "1234567y\n" = ["1234567", "y\n"] ∧
    ntfs_fix_problem (ntfs_fsck_mount 100000 1024 10 flags_r) 3 (some ⟨0⟩) (reads "1234567y\n")
      = some (true, some ⟨3⟩, [], [Ev.message 3, Ev.fix_it, Ev.prompt, Ev.prompt]) := by
  refine ⟨?_, ?_, ?_, ?_, ?_, ?_⟩ <;> rfl

theorem ask_loop_spec (junk : List String)
    (hjunk : ∀ j ∈ junk, strcasecmp_eq j "Y\n" = false ∧ strcasecmp_eq j "\n" = false ∧
      strcasecmp_eq j "N\n" = false)
    (r : String) (rest : List String)
    (hr : strcasecmp_eq r "Y\n" = true ∨ strcasecmp_eq r "\n" = true ∨
      strcasecmp_eq r "N\n" = true) :
    ∀ out : List Ev, ask_loop (junk ++ r :: rest) out
      = some (strcasecmp_eq r "Y\n", rest, out ++ List.replicate (junk.length + 1) Ev.prompt) := by
  induction junk with
  | nil =>
    intro out
    simp only [List.nil_append, ask_loop, List.length_nil, Nat.zero_add, List.replicate_one]
    by_cases hy : strcasecmp_eq r "Y\n" = true
    · simp [hy]
    · have hy' : strcasecmp_eq r "Y\n" = false := by simpa using hy
      have hn : (strcasecmp_eq r "\n" || strcasecmp_eq r "N\n") = true := by
        rcases hr with h | h | h
        · exact absurd h hy
        · simp [h]
        · simp [h]
      simp [hy', hn]
  | cons j junk ih =>
    intro out
    obtain ⟨h1, h2, h3⟩ := hjunk j (List.mem_cons_self _ _)
    have hstep : ask_loop ((j :: junk) ++ r :: rest) out
        = ask_loop (junk ++ r :: rest) (out ++ [Ev.prompt]) := by
      show ask_loop (j :: (junk ++ r :: rest)) out = _
      simp only [ask_loop, h1, h2, h3, Bool.false_eq_true, if_false, Bool.or_self]
    rw [hstep, ih (fun x hx => hjunk x (List.mem_cons_of_mem _ hx))]
    simp [List.replicate_succ]

/-- C12 (amended): in Ask mode on an fsck mount, for a problem of the table,
`ntfs_fix_problem` prints the description (when `pctx` is not NULL) and
` Fix it? `, and then prompts and reads with `fgets(answer, 8, stdin)` until a
read is `y`/`Y`, the empty line or `n`/`N` (each with its newline, compared
without case): it returns TRUE for `y`/`Y` and FALSE for the empty line and
`n`/`N`; every other read in front of it is dropped and answered with a new
prompt, and the reads behind it are left on standard input. -/
theorem fix_problem_ask_mode (vol : Volume) (code : Nat) (p : ntfs_problem)
    (pctx : Option problem_context) (junk : List String) (r : String) (rest : List String)
    (hmode : mode_ask vol.option_flags) (hp : find_problem code = some p)
    (hjunk : ∀ j ∈ junk, strcasecmp_eq j "Y\n" = false ∧ strcasecmp_eq j "\n" = false ∧
      strcasecmp_eq j "N\n" = false)
    (hr : strcasecmp_eq r "Y\n" = true ∨ strcasecmp_eq r "\n" = true ∨
      strcasecmp_eq r "N\n" = true) :
    ntfs_fix_problem vol code pctx (junk ++ r :: rest)
      = some (strcasecmp_eq r "Y\n", pctx.map (fun c => { c with err_code := code }), rest,
          (if pctx.isSome then [Ev.message code] else []) ++ [Ev.fix_it]
            ++ List.replicate (junk.length + 1) Ev.prompt) := by
  obtain ⟨hfsck, hask, hauto, hpreen, hno, hyes⟩ := hmode
  unfold ntfs_fix_problem
  rw [hp]
  simp only [hpreen, hno, Bool.false_eq_true, and_false, if_false, ne_eq, not_true_eq_false,
    ntfs_ask_repair, NVolFsNoRepair, NVolFsck, NVolFsYesRepair, NVolFsAutoRepair,
    NVolFsAskRepair, hfsck, hyes, hauto, hask, Bool.not_true, Bool.or_false, if_true]
  rw [ask_loop_spec junk hjunk r rest hr]

/-- Witness of `fix_problem_ask_mode`: `ntfsck -r`, the replies `yes`, `N`
and `y`, of which the third is not read. -/
theorem fix_problem_ask_mode_witness :
    ntfs_fix_problem (ntfs_fsck_mount 100000 1024 10 flags_r) PR_CLUSTER_BITMAP_MISMATCH
        (some ⟨0⟩) (["yes\n"] ++ "N\n" :: ["y\n"])
      = some (strcasecmp_eq "N\n" "Y\n",
          (some (⟨0⟩ : problem_context)).map
            (fun c => { c with err_code := PR_CLUSTER_BITMAP_MISMATCH }),
          ["y\n"],
          (if (some (⟨0⟩ : problem_context)).isSome then [Ev.message PR_CLUSTER_BITMAP_MISMATCH]
           else []) ++ [Ev.fix_it]
            ++ List.replicate (["yes\n"].length + 1) Ev.prompt) :=
  fix_problem_ask_mode (ntfs_fsck_mount 100000 1024 10 flags_r) PR_CLUSTER_BITMAP_MISMATCH
    ⟨40, 0⟩ (some ⟨0⟩) ["yes\n"] "N\n" ["y\n"] ⟨rfl, rfl, rfl, rfl, rfl, rfl⟩ rfl
    (by decide) (by decide)

/-- C13 (failing input): the command line `-n -C` holds options of the two
groups `-n` and `-C`, and option parsing accepts it (with the flags of No mode,
read-only, and `check_dirty_only` set), while the same two options in the
order `-C -n` are rejected with exit status 16. -/
theorem parse_n_then_C_accepted :
    parse_command_line [Opt.n, Opt.C]
      = Parsed.ok
          { flags := { NTFS_MNT_NONE with ignore_hiberfile := true, no_repair := true, rdonly := true },
            check_dirty_only := true } ∧
    parse_command_line [Opt.C, Opt.n] = Parsed.exit 16 := by
  constructor <;> decide

/-- Two different repair-mode options, other than `-a` with `-p` and other than
`-n` followed by `-C`, are rejected with exit status 16. -/
theorem parse_two_groups_rejected (o1 o2 : Opt)
    (h1 : o1 ∈ [Opt.a, Opt.p, Opt.C, Opt.n, Opt.r, Opt.y])
    (h2 : o2 ∈ [Opt.a, Opt.p, Opt.C, Opt.n, Opt.r, Opt.y])
    (hne : o1 ≠ o2) (hap : ¬ (o1 ∈ [Opt.a, Opt.p] ∧ o2 ∈ [Opt.a, Opt.p]))
    (hnc : ¬ (o1 = Opt.n ∧ o2 = Opt.C)) :
    parse_command_line [o1, o2] = Parsed.exit 16 := by
  cases o1 <;> cases o2 <;> first
    | decide
    | (exfalso; revert h1 h2 hne hap hnc; decide)

theorem parse_option_keeps_hiberfile (st st1 : OptState) (c : Opt)
    (h : st.flags.ignore_hiberfile = true) (hp : parse_option st c = Parsed.ok st1) :
    st1.flags.ignore_hiberfile = true := by
  cases c <;> simp only [parse_option] at hp <;> (try split_ifs at hp) <;>
    first
      | (cases hp; exact h)
      | (exact absurd hp (by simp))

theorem parse_options_keeps_hiberfile (args : List Opt) :
    ∀ (st st1 : OptState), st.flags.ignore_hiberfile = true →
      parse_options st args = Parsed.ok st1 → st1.flags.ignore_hiberfile = true := by
  induction args with
  | nil => intro st st1 h hp; simp only [parse_options] at hp; cases hp; exact h
  | cons c cs ih =>
    intro st st1 h hp
    simp only [parse_options] at hp
    cases hc : parse_option st c with
    | exit s => rw [hc] at hp; cases hp
    | ok st2 =>
      rw [hc] at hp
      exact ih st2 st1 (parse_option_keeps_hiberfile st st2 c h hc) hp

theorem parse_command_line_keeps_hiberfile (args : List Opt) (st : OptState)
    (hp : parse_command_line args = Parsed.ok st) : st.flags.ignore_hiberfile = true := by
  unfold parse_command_line at hp
  cases hq : parse_options opt_init args with
  | exit s => rw [hq] at hp; cases hp
  | ok st2 =>
    rw [hq] at hp
    have h2 := parse_options_keeps_hiberfile args opt_init st2 rfl hq
    cases hp
    simp only [default_mode]
    split_ifs <;> exact h2

/-- On a device that is mounted elsewhere, `main` never gets to
`ntfs_fsck_mount`, whatever the options are. -/
theorem main_mounted_never_mounts (env : MainEnv) (args : List Opt) (ro : Bool)
    (h : env.check_if_mounted = some (true, ro)) : (main env args).mount_called = false := by
  unfold main
  cases hp : parse_command_line args with
  | exit s => rfl
  | ok st =>
    dsimp only
    by_cases hn : env.nonopt_args ≠ 1
    · rw [if_pos hn]
    · rw [if_neg hn]
      have hh := parse_command_line_keeps_hiberfile args st hp
      have hr : refuse_mounted env st.flags = true := by
        unfold refuse_mounted
        rw [h]
        have : st.flags ≠ NO_REPAIR_RDONLY := by
          intro heq
          rw [heq] at hh
          exact absurd hh (by decide)
        simp [this]
      rw [if_pos hr]

/-- C14 (failing input): with the device mounted read-only elsewhere and the
command line `-n` (mode No), `main` leaves with exit status 1 before it calls
`ntfs_fsck_mount`. -/
theorem main_ro_mounted_no_mode_refused :
    (main env_ro_mounted [Opt.n]).status = 1 ∧
    (main env_ro_mounted [Opt.n]).mount_called = false ∧
    (main env_ro_mounted [Opt.n]).final = none := by
  refine ⟨?_, ?_, ?_⟩ <;> rfl

/-- C2 (failing input): `ntfsck -n` on a dirty volume on which the passes find
no problem and write nothing: `main` ends with status 0 and has called
`ntfs_volume_write_flags` through `ntfsck_reset_dirty`. -/
theorem main_no_mode_writes_volume_flags :
    parse_command_line [Opt.n] = Parsed.ok { flags := flags_n, check_dirty_only := false } ∧
    (main env_quiet [Opt.n]).status = 0 ∧
    (main env_quiet [Opt.n]).ops = [DevOp.volume_write_flags] := by
  refine ⟨?_, ?_, ?_⟩
  · decide
  · rfl
  · rfl

theorem parse_option_mode_count (st st1 : OptState) (c : Opt)
    (h : mode_count st.flags ≤ 1) (hp : parse_option st c = Parsed.ok st1) :
    mode_count st1.flags ≤ 1 := by
  obtain ⟨⟨rd, fs, ih, au, pr, no, as, ye⟩, cd⟩ := st
  cases c <;> simp only [parse_option] at hp <;> (try split_ifs at hp) <;>
    first
      | (cases hp
         revert h
         cases au <;> cases no <;> cases as <;> cases ye <;> simp_all [mode_count])
      | (exact absurd hp (by simp))

theorem parse_options_mode_count (args : List Opt) :
    ∀ (st st1 : OptState), mode_count st.flags ≤ 1 →
      parse_options st args = Parsed.ok st1 → mode_count st1.flags ≤ 1 := by
  induction args with
  | nil => intro st st1 h hp; simp only [parse_options] at hp; cases hp; exact h
  | cons c cs ih =>
    intro st st1 h hp
    simp only [parse_options] at hp
    cases hc : parse_option st c with
    | exit s => rw [hc] at hp; cases hp
    | ok st2 =>
      rw [hc] at hp
      exact ih st2 st1 (parse_option_mode_count st st2 c h hc) hp

/-- A command line that passes option parsing has exactly one of the four
repair-mode flags set. -/
theorem parse_command_line_one_mode (args : List Opt) (st : OptState)
    (hp : parse_command_line args = Parsed.ok st) : mode_count st.flags = 1 := by
  unfold parse_command_line at hp
  cases hq : parse_options opt_init args with
  | exit s => rw [hq] at hp; cases hp
  | ok st2 =>
    rw [hq] at hp
    have h2 := parse_options_mode_count args opt_init st2 (by decide) hq
    cases hp
    obtain ⟨⟨rd, fs, ih, au, pr, no, as, ye⟩, cd⟩ := st2
    revert h2
    cases au <;> cases no <;> cases as <;> cases ye <;> simp [mode_count, default_mode]

theorem update_lcn_run_mono (nr : Int) (c : Int) :
    ∀ (rl : List runlist_element) (d d' : DiskBitmap),
      update_lcn_run nr rl d = some d' → d c = true → d' c = true := by
  intro rl
  induction rl with
  | nil => intro d d' h; simp [update_lcn_run] at h
  | cons e rest ih =>
    intro d d' h hc
    simp only [update_lcn_run] at h
    split_ifs at h <;> first
      | (cases h; exact hc)
      | exact ih _ _ h hc
      | exact ih _ _ h (by simp [ntfs_bitmap_set_run, hc])

theorem update_lcn_run_sets (nr : Int) (c : Int) (e : runlist_element)
    (post : List runlist_element) (he : 0 ≤ e.lcn) (hc1 : e.lcn ≤ c)
    (hc2 : c < e.lcn + e.length) (hc3 : c < nr) :
    ∀ (pre : List runlist_element) (d d' : DiskBitmap),
      (∀ x ∈ pre, x.length ≠ 0 ∧ x.lcn < nr) →
      update_lcn_run nr (pre ++ e :: post) d = some d' → d' c = true := by
  intro pre
  induction pre with
  | nil =>
    intro d d' _ h
    simp only [List.nil_append, update_lcn_run] at h
    have hl : e.length ≠ 0 := by omega
    have hn : ¬ e.lcn ≥ nr := by omega
    have hh : e.lcn > LCN_HOLE := by unfold LCN_HOLE; omega
    rw [if_neg hl, if_neg hn] at h
    simp only [hh, if_true] at h
    refine update_lcn_run_mono nr c post _ d' h ?_
    simp only [ntfs_bitmap_set_run]
    split_ifs <;> first | rfl | (exfalso; omega)
  | cons x pre ih =>
    intro d d' hpre h
    obtain ⟨hx1, hx2⟩ := hpre x (List.mem_cons_self _ _)
    have hn : ¬ x.lcn ≥ nr := by omega
    simp only [List.cons_append, update_lcn_run] at h
    rw [if_neg hx1, if_neg hn] at h
    exact ih _ d' (fun y hy => hpre y (List.mem_cons_of_mem _ hy)) h

theorem ntfsck_update_lcn_bitmap_mono (nr : Int) (c : Int) :
    ∀ (attrs : List ScanAttr) (d d' : DiskBitmap),
      ntfsck_update_lcn_bitmap nr attrs d = some d' → d c = true → d' c = true := by
  intro attrs
  induction attrs with
  | nil => intro d d' h hc; simp only [ntfsck_update_lcn_bitmap] at h; cases h; exact hc
  | cons a rest ih =>
    intro d d' h hc
    simp only [ntfsck_update_lcn_bitmap] at h
    split_ifs at h
    · exact ih _ _ h hc
    · cases hrl : a.rl with
      | none => rw [hrl] at h; exact ih _ _ h hc
      | some rl =>
        rw [hrl] at h
        dsimp only at h
        cases hu : update_lcn_run nr rl d with
        | none => rw [hu] at h; cases h
        | some d1 =>
          rw [hu] at h
          exact ih _ _ h (update_lcn_run_mono nr c rl d d1 hu hc)

theorem ntfsck_update_lcn_bitmap_sets (nr : Int) (c : Int) (a : ScanAttr)
    (pre post : List runlist_element) (e : runlist_element)
    (hnr : a.non_resident = true) (hrl : a.rl = some (pre ++ e :: post))
    (hpre : ∀ x ∈ pre, x.length ≠ 0 ∧ x.lcn < nr)
    (he : 0 ≤ e.lcn) (hc1 : e.lcn ≤ c) (hc2 : c < e.lcn + e.length) (hc3 : c < nr) :
    ∀ (attrs : List ScanAttr) (d d' : DiskBitmap), a ∈ attrs →
      ntfsck_update_lcn_bitmap nr attrs d = some d' → d' c = true := by
  intro attrs
  induction attrs with
  | nil => intro d d' hmem; cases hmem
  | cons b rest ih =>
    intro d d' hmem h
    simp only [ntfsck_update_lcn_bitmap] at h
    rcases List.mem_cons.mp hmem with hab | hin
    · subst hab
      simp only [hnr, Bool.not_true, Bool.false_eq_true, if_false, hrl] at h
      cases hu : update_lcn_run nr (pre ++ e :: post) d with
      | none => rw [hu] at h; cases h
      | some d1 =>
        rw [hu] at h
        exact ntfsck_update_lcn_bitmap_mono nr c rest d1 d' h
          (update_lcn_run_sets nr c e post he hc1 hc2 hc3 pre d d1 hpre hu)
    · split_ifs at h
      · exact ih _ _ hin h
      · cases hrl2 : b.rl with
        | none => rw [hrl2] at h; exact ih _ _ hin h
        | some rl =>
          rw [hrl2] at h
          dsimp only at h
          cases hu : update_lcn_run nr rl d with
          | none => rw [hu] at h; cases h
          | some d1 => rw [hu] at h; exact ih _ _ hin h

theorem set_mftbmp_value_keeps_fcb (vol vol1 : Volume) (m v : Nat) (r : Int)
    (h : ntfs_fsck_set_mftbmp_value vol m v = some (r, vol1)) :
    vol1.fsck_lcn_bitmap = vol.fsck_lcn_bitmap ∧ vol1.nr_clusters = vol.nr_clusters := by
  unfold ntfs_fsck_set_mftbmp_value at h
  dsimp only at h
  split_ifs at h
  · cases h; exact ⟨rfl, rfl⟩
  · split at h
    · cases h
    · cases h; exact ⟨rfl, rfl⟩

theorem scan_mft_record_frame (vol vol1 : Volume) (d d1 : DiskBitmap) (m : Nat)
    (r : ScanRecord) (st : Int)
    (h : ntfsck_scan_mft_record vol d m r = some (st, vol1, d1)) :
    vol1.fsck_lcn_bitmap = vol.fsck_lcn_bitmap ∧ vol1.nr_clusters = vol.nr_clusters ∧
      ∀ c, d c = true → d1 c = true := by
  unfold ntfsck_scan_mft_record at h
  split_ifs at h
  · cases h; exact ⟨rfl, rfl, fun _ hc => hc⟩
  · cases h; exact ⟨rfl, rfl, fun _ hc => hc⟩
  · cases h; exact ⟨rfl, rfl, fun _ hc => hc⟩
  · split at h
    · split at h
      · cases h
      · rename_i r0 v0 hclr
        cases h
        obtain ⟨h1, h2⟩ := set_mftbmp_value_keeps_fcb vol vol1 m 0 r0 hclr
        exact ⟨h1, h2, fun _ hc => hc⟩
    · split at h
      · cases h
      · rename_i d0 hu
        cases h
        exact ⟨rfl, rfl, fun c hc => ntfsck_update_lcn_bitmap_mono _ c _ _ _ hu hc⟩

theorem scan_mft_record_sets (vol vol1 : Volume) (d d1 : DiskBitmap) (m : Nat)
    (r : ScanRecord) (st : Int) (c : Int) (a : ScanAttr)
    (pre post : List runlist_element) (e : runlist_element)
    (hused : 0 < r.is_used) (hopen : r.opens = true) (hal : r.attr_list ≠ some false)
    (ha : a ∈ r.attrs) (hnr : a.non_resident = true) (hrl : a.rl = some (pre ++ e :: post))
    (hpre : ∀ x ∈ pre, x.length ≠ 0 ∧ x.lcn < vol.nr_clusters)
    (he : 0 ≤ e.lcn) (hc1 : e.lcn ≤ c) (hc2 : c < e.lcn + e.length)
    (hc3 : c < vol.nr_clusters)
    (h : ntfsck_scan_mft_record vol d m r = some (st, vol1, d1)) : d1 c = true := by
  unfold ntfsck_scan_mft_record at h
  have h1 : ¬ r.is_used < 0 := by omega
  have h2 : ¬ r.is_used = 0 := by omega
  rw [if_neg h1, if_neg h2] at h
  simp only [hopen, Bool.not_true, Bool.false_eq_true, if_false] at h
  have hgo : ∀ d0, ntfsck_update_lcn_bitmap vol.nr_clusters r.attrs d = some d0 →
      d0 c = true := fun d0 hu =>
    ntfsck_update_lcn_bitmap_sets _ c a pre post e hnr hrl hpre he hc1 hc2 hc3 _ _ _ ha hu
  cases hral : r.attr_list with
  | none =>
    cases hu : ntfsck_update_lcn_bitmap vol.nr_clusters r.attrs d with
    | none => rw [hu] at h; cases h
    | some d0 => rw [hu] at h; cases h; exact hgo _ hu
  | some b =>
    cases b with
    | false => exact absurd hral hal
    | true =>
      cases hu : ntfsck_update_lcn_bitmap vol.nr_clusters r.attrs d with
      | none => rw [hu] at h; cases h
      | some d0 => rw [hu] at h; cases h; exact hgo _ hu

theorem scan_mft_loop_frame (records : Nat → ScanRecord) :
    ∀ (count m0 : Nat) (vol vol1 : Volume) (d d1 : DiskBitmap),
      scan_mft_loop records count m0 vol d = some (vol1, d1) →
      vol1.fsck_lcn_bitmap = vol.fsck_lcn_bitmap ∧ vol1.nr_clusters = vol.nr_clusters ∧
        ∀ c, d c = true → d1 c = true := by
  intro count
  induction count with
  | zero =>
    intro m0 vol vol1 d d1 h
    simp only [scan_mft_loop] at h
    cases h
    exact ⟨rfl, rfl, fun _ hc => hc⟩
  | succ k ih =>
    intro m0 vol vol1 d d1 h
    simp only [scan_mft_loop] at h
    cases hs : ntfsck_scan_mft_record vol d m0 (records m0) with
    | none => rw [hs] at h; cases h
    | some res =>
      obtain ⟨st, v2, d2⟩ := res
      rw [hs] at h
      obtain ⟨a1, a2, a3⟩ := scan_mft_record_frame vol v2 d d2 m0 _ st hs
      obtain ⟨b1, b2, b3⟩ := ih (m0 + 1) v2 vol1 d2 d1 h
      exact ⟨b1.trans a1, b2.trans a2, fun c hc => b3 c (a3 c hc)⟩

theorem scan_mft_loop_sets (records : Nat → ScanRecord) (c : Int) (m : Nat) (a : ScanAttr)
    (pre post : List runlist_element) (e : runlist_element) (nr : Int)
    (hused : 0 < (records m).is_used) (hopen : (records m).opens = true)
    (hal : (records m).attr_list ≠ some false)
    (ha : a ∈ (records m).attrs) (hnr : a.non_resident = true)
    (hrl : a.rl = some (pre ++ e :: post))
    (hpre : ∀ x ∈ pre, x.length ≠ 0 ∧ x.lcn < nr)
    (he : 0 ≤ e.lcn) (hc1 : e.lcn ≤ c) (hc2 : c < e.lcn + e.length) (hc3 : c < nr) :
    ∀ (count m0 : Nat) (vol vol1 : Volume) (d d1 : DiskBitmap),
      vol.nr_clusters = nr → m0 ≤ m → m < m0 + count →
      scan_mft_loop records count m0 vol d = some (vol1, d1) → d1 c = true := by
  intro count
  induction count with
  | zero => intro m0 vol vol1 d d1 _ h1 h2; omega
  | succ k ih =>
    intro m0 vol vol1 d d1 hn h1 h2 h
    simp only [scan_mft_loop] at h
    cases hs : ntfsck_scan_mft_record vol d m0 (records m0) with
    | none => rw [hs] at h; cases h
    | some res =>
      obtain ⟨st, v2, d2⟩ := res
      rw [hs] at h
      obtain ⟨a1, a2, a3⟩ := scan_mft_record_frame vol v2 d d2 m0 _ st hs
      by_cases hm : m = m0
      · subst hm
        have hd2 : d2 c = true :=
          scan_mft_record_sets vol v2 d d2 m _ st c a pre post e hused hopen hal ha hnr hrl
            (by rw [hn]; exact hpre) he hc1 hc2 (by rw [hn]; exact hc3) hs
        exact (scan_mft_loop_frame records k (m + 1) v2 vol1 d2 d1 h).2.2 c hd2
      · exact ih (m0 + 1) v2 vol1 d2 d1 (a2.trans hn) (by omega) (by omega) h

/-- C9 (as stated, refuted): `ntfsck -y`, one MFT record in use whose only
non-resident attribute has the extent of clusters 10..14, on a volume of 1000
clusters.  At the end of Pass 1 the FCB bit of cluster 10 is still 0; the bit
was set in the on-disk cluster bitmap instead. -/
theorem pass1_leaves_fcb_clear :
    ∃ vol' d' s,
      ntfsck_scan_mft_records (fun _ => record_10_14) 1024 10
        (ntfs_fsck_mount 1000 1024 10 flags_y) (fun _ => false) [] = some (vol', d', s) ∧
      fcb_bit vol' 10 = false ∧ d' 10 = true :=
  ⟨ntfs_fsck_mount 1000 1024 10 flags_y, ntfs_bitmap_set_run (fun _ => false) 10 5, [],
    rfl, rfl, rfl⟩

/-- C9 (amended): when Pass 1 (`ntfsck_scan_mft_records`) runs past its gate
`PR_PRE_SCAN_MFT` and ends, then for every scanned MFT record that is in use and
opens (and whose attribute list, if any, passes its check), every non-resident
attribute of it whose runlist decompresses, and every extent `e` of that
runlist with `lcn >= 0` that no entry with `lcn >= nr_clusters` precedes, every
cluster of `e` inside the volume has its bit set in the on-disk cluster bitmap
(`vol->lcnbmp_na`); the in-memory FCB is left as it was. -/
theorem pass1_sets_disk_bitmap (records : Nat → ScanRecord) (isz : Int) (bits : Nat)
    (vol vol' : Volume) (d d' : DiskBitmap) (stdin stdin1 stdin' : List String)
    (pctx1 : Option problem_context) (out : List Ev)
    (hgate : ntfs_fix_problem vol PR_PRE_SCAN_MFT (some ⟨0⟩) stdin
      = some (true, pctx1, stdin1, out))
    (h : ntfsck_scan_mft_records records isz bits vol d stdin = some (vol', d', stdin'))
    (m : Nat) (hm : (m : Int) < asr isz bits)
    (hused : 0 < (records m).is_used) (hopen : (records m).opens = true)
    (hal : (records m).attr_list ≠ some false)
    (a : ScanAttr) (ha : a ∈ (records m).attrs) (hnr : a.non_resident = true)
    (pre post : List runlist_element) (e : runlist_element)
    (hrl : a.rl = some (pre ++ e :: post))
    (hpre : ∀ x ∈ pre, x.length ≠ 0 ∧ x.lcn < vol.nr_clusters)
    (he : 0 ≤ e.lcn) (c : Int) (hc1 : e.lcn ≤ c) (hc2 : c < e.lcn + e.length)
    (hc3 : c < vol.nr_clusters) :
    d' c = true ∧ ∀ x, fcb_bit vol' x = fcb_bit vol x := by
  unfold ntfsck_scan_mft_records at h
  rw [hgate] at h
  dsimp only at h
  cases hl : scan_mft_loop records (asr isz bits).toNat 0 vol d with
  | none => rw [hl] at h; cases h
  | some res =>
    obtain ⟨v2, d2⟩ := res
    rw [hl] at h
    cases h
    constructor
    · exact scan_mft_loop_sets records c m a pre post e vol.nr_clusters hused hopen hal ha hnr
        hrl hpre he hc1 hc2 hc3 _ 0 vol vol' d d' rfl (Nat.zero_le _) (by omega) hl
    · intro x
      have hf := (scan_mft_loop_frame records _ 0 vol vol' d d' hl).1
      unfold fcb_bit
      rw [hf]

/-- Witness of `pass1_sets_disk_bitmap`: the run of the counterexample, cluster 12. -/
theorem pass1_sets_disk_bitmap_witness :
    ntfs_bitmap_set_run (fun _ => false) 10 5 12 = true ∧
    ∀ x, fcb_bit (ntfs_fsck_mount 1000 1024 10 flags_y) x
      = fcb_bit (ntfs_fsck_mount 1000 1024 10 flags_y) x :=
  pass1_sets_disk_bitmap (fun _ => record_10_14) 1024 10
    (ntfs_fsck_mount 1000 1024 10 flags_y) (ntfs_fsck_mount 1000 1024 10 flags_y)
    (fun _ => false) (ntfs_bitmap_set_run (fun _ => false) 10 5) [] [] []
    (some ⟨PR_PRE_SCAN_MFT⟩) [Ev.message PR_PRE_SCAN_MFT, Ev.fix_it, Ev.yes] rfl rfl
    0 (by decide) (by decide) rfl (by decide)
    { non_resident := true, rl := some [⟨0, 10, 5⟩, ⟨5, LCN_ENOENT, 0⟩] }
    (List.mem_cons_self _ _) rfl [] [⟨5, LCN_ENOENT, 0⟩] ⟨0, 10, 5⟩ rfl
    (fun x hx => absurd hx (List.not_mem_nil x)) (by decide) 12 (by decide) (by decide)
    (by decide)

/-- In Yes mode on an fsck mount `ntfs_fix_problem` answers TRUE for a problem
of the table, prints the message (when `pctx` is not NULL) and reads
nothing. -/
theorem ntfs_fix_problem_yes (vol : Volume) (code : Nat) (p : ntfs_problem)
    (pctx : Option problem_context) (stdin : List String)
    (hp : find_problem code = some p) (h : mode_yes vol.option_flags) :
    ntfs_fix_problem vol code pctx stdin
      = some (true, pctx.map (fun c => { c with err_code := code }), stdin,
          (if pctx.isSome then [Ev.message code] else []) ++ [Ev.fix_it, Ev.yes]) := by
  obtain ⟨hfsck, hyes, _, hpreen, hno, _⟩ := h
  unfold ntfs_fix_problem
  rw [hp]
  simp only [hpreen, hno, Bool.false_eq_true, and_false, if_false, ne_eq, not_true_eq_false,
    ntfs_ask_repair, NVolFsNoRepair, NVolFsck, NVolFsYesRepair, hfsck, hyes, Bool.not_true,
    Bool.or_false, Bool.true_or, if_true]
  rw [List.append_assoc]
  rfl

/-- The loop of `ntfs_ask_repair` prints prompts only. -/
theorem ask_loop_messages (code : Nat) :
    ∀ (stdin : List String) (out : List Ev) (res : Bool × List String × List Ev),
      ask_loop stdin out = some res →
      res.2.2.count (Ev.message code) = out.count (Ev.message code) := by
  intro stdin
  induction stdin with
  | nil => intro out res h; simp [ask_loop] at h
  | cons a rest ih =>
    intro out res h
    simp only [ask_loop] at h
    split_ifs at h
    · cases h
      simp
    · cases h
      simp
    · rw [ih _ _ h]
      simp

/-- `ntfs_ask_repair` prints no description of a problem. -/
theorem ask_repair_messages (code : Nat) (vol : Volume) (stdin : List String) (out : List Ev)
    (res : Bool × List String × List Ev) (h : ntfs_ask_repair vol stdin out = some res) :
    res.2.2.count (Ev.message code) = out.count (Ev.message code) := by
  unfold ntfs_ask_repair at h
  split_ifs at h
  · cases h
    simp
  · cases h
    simp
  · exact ask_loop_messages code _ _ _ h
  · cases h
    rfl

/-- A call of `ntfs_fix_problem` that returns, for a problem of the table
without suppression flags and with a problem context, has printed the
description of the problem exactly once. -/
theorem fix_problem_message_once (vol : Volume) (code : Nat) (p : ntfs_problem)
    (ctx : problem_context) (stdin : List String)
    (res : Bool × Option problem_context × List String × List Ev)
    (hp : find_problem code = some p) (hflags : p.flags = 0)
    (h : ntfs_fix_problem vol code (some ctx) stdin = some res) :
    res.2.2.2.count (Ev.message code) = 1 := by
  unfold ntfs_fix_problem at h
  rw [hp] at h
  simp only [hflags, Nat.zero_and, ne_eq, not_true_eq_false, false_and, if_false,
    Option.isSome_some, if_true] at h
  cases ha : ntfs_ask_repair vol stdin ([Ev.message code] ++ [Ev.fix_it]) with
  | none => rw [ha] at h; cases h
  | some r =>
    rw [ha] at h
    cases h
    have := ask_repair_messages code vol stdin _ r ha
    simp only [this]
    simp

/-- The run of `ntfsck_check_runlist` on the extent of clusters 10..12 when the
clusters 10 and 12 are claimed: one call of `ntfs_fix_problem`, a duplicate
runlist of two entries. -/
theorem check_runlist_10_12_run :
    ∃ r, ntfsck_check_runlist (fun l _ => l) vol_10_12 12
        (some { type := 128, rl := some [⟨0, 10, 3⟩, ⟨3, LCN_ENOENT, 0⟩] }) 1 none none []
        = some r ∧
      r.status = STATUS_OK ∧
      r.out = [Ev.message PR_CLUSTER_DUPLICATION_FOUND, Ev.fix_it, Ev.yes] ∧
      r.dup_rl = some [⟨0, 10, 1⟩, ⟨2, 12, 1⟩] ∧
      r.rl = some [⟨0, 10, 3⟩, ⟨3, LCN_ENOENT, 0⟩] := by
  obtain ⟨vol', hcs, _⟩ := check_and_set_scan vol_10_12
    { type := 128, rl := some [⟨0, 10, 3⟩, ⟨3, LCN_ENOENT, 0⟩] }
    [⟨0, 10, 3⟩, ⟨3, LCN_ENOENT, 0⟩] 0 ⟨0, 10, 3⟩ none rfl (le_refl 0) rfl (by decide)
    (by decide) (by decide) (by norm_num) (by decide)
  have hscan : dup_scan 0 10 (fcb_bit vol_10_12) 3 10 ({ vcn := 0, lcn := -1, length := 0 }, none)
      = (⟨2, 12, 1⟩, some [⟨0, 10, 1⟩, ⟨1, LCN_ENOENT, 0⟩]) := by
    decide
  have hcs' : ntfs_fsck_check_and_set_lcnbmp vol_10_12
      (some { type := 128, rl := some [⟨0, 10, 3⟩, ⟨3, LCN_ENOENT, 0⟩] }) 0 1 none
      = some (Run.done (some [⟨0, 10, 1⟩, ⟨2, 12, 1⟩], vol')) := by
    rw [hcs]
    have e1 : (runlist_element.mk 0 10 3).length.toNat = 3 := rfl
    have e2 : (runlist_element.mk 0 10 3).lcn.toNat = 10 := rfl
    rw [e1, e2]
    dsimp only
    rw [hscan]
    rfl
  obtain ⟨_, _, hfl, _, _⟩ := check_and_set_frame _ _ _ _ _ _ _ hcs'
  have hyes : mode_yes vol'.option_flags := by
    rw [hfl]; exact ⟨rfl, rfl, rfl, rfl, rfl, rfl⟩
  have hwalk : check_runlist_walk 1 128 12 [] [⟨0, 10, 3⟩, ⟨3, LCN_ENOENT, 0⟩] vol_10_12 none 0 0
      = some { vol := vol', rl := [⟨0, 10, 3⟩, ⟨3, LCN_ENOENT, 0⟩],
               dup_rl := some [⟨0, 10, 1⟩, ⟨2, 12, 1⟩],
               rl_alloc_size := 12288, rl_data_size := 12288 } := by
    have c1 : ¬ (runlist_element.mk 0 10 3).length = 0 := by decide
    have c2 : (runlist_element.mk 0 10 3).lcn > LCN_HOLE := by decide
    have c3 : ¬ (runlist_element.mk 0 10 3).lcn ≥ vol_10_12.nr_clusters := by decide
    have c4 : ¬ s64_of ((runlist_element.mk 0 10 3).lcn + (runlist_element.mk 0 10 3).length)
        ≥ vol_10_12.nr_clusters := by decide
    simp only [check_runlist_walk, if_neg c1, if_pos c2, if_neg c3, if_neg c4, List.nil_append,
      List.length_nil, Nat.cast_zero, hcs']
    have c5 : (runlist_element.mk 3 LCN_ENOENT 0).length = 0 := rfl
    have c6 : s64_of (0 + s64_of (shl (runlist_element.mk 0 10 3).length 12)) = 12288 := by decide
    simp only [c5, if_true, c6]
    rfl
  refine ⟨{ status := STATUS_OK, vol := vol', rl := some [⟨0, 10, 3⟩, ⟨3, LCN_ENOENT, 0⟩],
            rls := none, need_fix := none, stdin := [],
            out := [Ev.message PR_CLUSTER_DUPLICATION_FOUND, Ev.fix_it, Ev.yes],
            dup_rl := some [⟨0, 10, 1⟩, ⟨2, 12, 1⟩] }, ?_, rfl, rfl, rfl, rfl⟩
  simp only [ntfsck_check_runlist, hwalk]
  rw [ntfs_fix_problem_yes vol' PR_CLUSTER_DUPLICATION_FOUND ⟨45, 0⟩ _ _ rfl hyes]
  rfl

/-- C15 (failing input): a runlist whose one entry `(vcn 0, lcn 5, length
2^63 - 1)` starts inside a volume of 1000 clusters and reaches far behind its
end.  The sum `lcn + length` wraps to a negative `s64`, so the test
`rl[i].lcn + rl[i].length >= vol->nr_clusters` fails and the length is not
adjusted; in the bitmap engine `last_lcn` wraps as well, the page loop makes no
iteration, and `ntfsck_check_runlist` returns `STATUS_OK` with the entry as it
was, outside the volume, and with an FCB in which none of its clusters is
set. -/
theorem check_runlist_length_overflow :
    ntfsck_check_runlist (fun l _ => l) vol_10_12 12
        (some { type := 128,
                rl := some [⟨0, 5, 2 ^ 63 - 1⟩, ⟨2 ^ 63 - 1, LCN_ENOENT, 0⟩] }) 1
        (some ⟨0, 0⟩) (some false) []
      = some { status := STATUS_OK, vol := vol_10_12,
               rl := some [⟨0, 5, 2 ^ 63 - 1⟩, ⟨2 ^ 63 - 1, LCN_ENOENT, 0⟩],
               rls := some ⟨-4096, -4096⟩, need_fix := some false, stdin := [], out := [],
               dup_rl := none } ∧
    ¬ rl_inside vol_10_12.nr_clusters [⟨0, 5, 2 ^ 63 - 1⟩, ⟨2 ^ 63 - 1, LCN_ENOENT, 0⟩] ∧
    fcb_bit vol_10_12 5 = false := by
  have hpages : engine_pages 5 (2 ^ 63 - 1) = 0 := by
    unfold engine_pages
    rw [lcn_page_index, lcn_page_index]
    decide
  have hcs : ntfs_fsck_check_and_set_lcnbmp vol_10_12
      (some { type := 128, rl := some [⟨0, 5, 2 ^ 63 - 1⟩, ⟨2 ^ 63 - 1, LCN_ENOENT, 0⟩] }) 0 1 none
      = some (Run.done (none, vol_10_12)) := by
    have hn : ¬ ((2 : Int) ^ 63 - 1 ≤ 0) := by norm_num
    have hp : (FB_ROUND_DOWN (asr (s64_of (5 + (2 ^ 63 - 1) - 1)) NTFSCK_BYTE_TO_BITS) -
        FB_ROUND_DOWN (asr 5 NTFSCK_BYTE_TO_BITS) + 1).toNat = 0 := hpages
    simp only [ntfs_fsck_check_and_set_lcnbmp, Int.toNat_zero, List.get?_cons_zero, hn, if_false,
      lt_self_iff_false, hp, check_lcnbmp_pages]
    rfl
  have hwalk : check_runlist_walk 1 128 12 []
      [⟨0, 5, 2 ^ 63 - 1⟩, ⟨2 ^ 63 - 1, LCN_ENOENT, 0⟩] vol_10_12 none 0 0
      = some { vol := vol_10_12, rl := [⟨0, 5, 2 ^ 63 - 1⟩, ⟨2 ^ 63 - 1, LCN_ENOENT, 0⟩],
               dup_rl := none, rl_alloc_size := -4096, rl_data_size := -4096 } := by
    have c1 : ¬ (runlist_element.mk 0 5 (2 ^ 63 - 1)).length = 0 := by decide
    have c2 : (runlist_element.mk 0 5 (2 ^ 63 - 1)).lcn > LCN_HOLE := by decide
    have c3 : ¬ (runlist_element.mk 0 5 (2 ^ 63 - 1)).lcn ≥ vol_10_12.nr_clusters := by decide
    have c4 : ¬ s64_of ((runlist_element.mk 0 5 (2 ^ 63 - 1)).lcn +
        (runlist_element.mk 0 5 (2 ^ 63 - 1)).length) ≥ vol_10_12.nr_clusters := by decide
    simp only [check_runlist_walk, if_neg c1, if_pos c2, if_neg c3, if_neg c4, List.nil_append,
      List.length_nil, Nat.cast_zero, hcs]
    have c5 : (runlist_element.mk (2 ^ 63 - 1) LCN_ENOENT 0).length = 0 := rfl
    have c6 : s64_of (0 + s64_of (shl (runlist_element.mk 0 5 (2 ^ 63 - 1)).length 12))
        = -4096 := by decide
    simp only [c5, if_true, c6]
    rfl
  refine ⟨?_, ?_, by decide⟩
  · simp only [ntfsck_check_runlist, hwalk]
    rfl
  · intro hin
    have h1 := hin ⟨0, 5, 2 ^ 63 - 1⟩ (by
      simp [rl_entries, rl_count, LCN_ENOENT])
    have h2 := h1.2 (by decide)
    have h3 : (5 : Int) + (2 ^ 63 - 1) ≤ 1000 := h2.2.2
    norm_num at h3

/-- C16 (as stated, refuted): the extent of clusters 10..12 of one attribute
collides with the claimed clusters 10 and 12.  The duplicate runlist built by
`ntfs_fsck_check_and_set_lcnbmp` has two entries, and `ntfsck_check_runlist`
raises `PR_CLUSTER_DUPLICATION_FOUND` once: the output of its calls of
`ntfs_fix_problem` holds the description of the problem a single time. -/
theorem check_runlist_one_raise_two_extents :
    ∃ r, ntfsck_check_runlist (fun l _ => l) vol_10_12 12
        (some { type := 128, rl := some [⟨0, 10, 3⟩, ⟨3, LCN_ENOENT, 0⟩] }) 1 none none []
        = some r ∧
      r.out.count (Ev.message PR_CLUSTER_DUPLICATION_FOUND) = 1 ∧
      (dup_entries r.dup_rl).length = 2 := by
  obtain ⟨r, h, _, h2, h3, _⟩ := check_runlist_10_12_run
  refine ⟨r, h, ?_, ?_⟩
  · rw [h2]
    decide
  · rw [h3]
    rfl

/-- C16 (amended): `ntfsck_check_runlist` raises `PR_CLUSTER_DUPLICATION_FOUND`
once per call in which the walk built a duplicate runlist (it is not NULL),
whatever the number of entries of that runlist, and not at all when no
duplicate runlist was built.  A raise is a call of `ntfs_fix_problem` with the
code, which prints the description of the problem once; `r.out` is what the
calls of `ntfs_fix_problem` in `ntfsck_check_runlist` have printed. -/
theorem check_runlist_raises_once
    (repair : List runlist_element → List runlist_element → List runlist_element)
    (vol : Volume) (csb : Nat) (na : Option ntfs_attr) (set_bit : Nat) (rls : Option rl_size)
    (need_fix : Option Bool) (stdin : List String) (r : CheckRunlistResult)
    (h : ntfsck_check_runlist repair vol csb na set_bit rls need_fix stdin = some r) :
    r.out.count (Ev.message PR_CLUSTER_DUPLICATION_FOUND) = if r.dup_rl.isSome then 1 else 0 := by
  unfold ntfsck_check_runlist at h
  cases na with
  | none => cases h; rfl
  | some attr =>
    dsimp only at h
    cases hrl : attr.rl with
    | none => rw [hrl] at h; cases h; rfl
    | some rl =>
      rw [hrl] at h
      dsimp only at h
      cases hw : check_runlist_walk set_bit attr.type csb [] rl vol none 0 0 with
      | none => rw [hw] at h; cases h
      | some st =>
        rw [hw] at h
        dsimp only at h
        cases hd : st.dup_rl with
        | none => rw [hd] at h; cases h; rfl
        | some dup =>
          rw [hd] at h
          dsimp only at h
          cases hf : ntfs_fix_problem st.vol PR_CLUSTER_DUPLICATION_FOUND (some ⟨0⟩) stdin with
          | none => rw [hf] at h; cases h
          | some res =>
            have hone := fix_problem_message_once st.vol PR_CLUSTER_DUPLICATION_FOUND ⟨45, 0⟩
              ⟨0⟩ stdin res rfl rfl hf
            obtain ⟨fix, pc, s1, out⟩ := res
            rw [hf] at h
            cases h
            exact hone

/-- Witness of `check_runlist_raises_once`: the run on the extent of clusters
10..12 with the clusters 10 and 12 claimed. -/
theorem check_runlist_raises_once_witness :
    ∃ r, ntfsck_check_runlist (fun l _ => l) vol_10_12 12
        (some { type := 128, rl := some [⟨0, 10, 3⟩, ⟨3, LCN_ENOENT, 0⟩] }) 1 none none []
        = some r ∧
      r.out.count (Ev.message PR_CLUSTER_DUPLICATION_FOUND) = if r.dup_rl.isSome then 1 else 0 := by
  obtain ⟨r, h, _⟩ := check_runlist_10_12_run
  exact ⟨r, h, check_runlist_raises_once _ _ _ _ _ _ _ _ r h⟩

/-- C27 (failing input): `ntfs_fsck_check_and_set_lcnbmp` is called with a
duplicate runlist that holds the entry `(vcn 0, lcn 10, length 1)` and with a
runlist entry of length 0 (the terminator at index 1), or of length -1: it
returns NULL, not a runlist that contains the entry passed in. -/
theorem check_and_set_drops_dup_on_bad_length :
    ntfs_fsck_check_and_set_lcnbmp vol_10_12
        (some { type := 128, rl := some [⟨0, 20, 4⟩, ⟨4, LCN_ENOENT, 0⟩] }) 1 1
        (some [⟨0, 10, 1⟩, ⟨1, LCN_ENOENT, 0⟩]) = some (Run.done (none, vol_10_12)) ∧
    ntfs_fsck_check_and_set_lcnbmp vol_10_12
        (some { type := 128, rl := some [⟨0, 20, -1⟩, ⟨0, LCN_ENOENT, 0⟩] }) 0 1
        (some [⟨0, 10, 1⟩, ⟨1, LCN_ENOENT, 0⟩]) = some (Run.done (none, vol_10_12)) ∧
    dup_entries (some [⟨0, 10, 1⟩, ⟨1, LCN_ENOENT, 0⟩]) = [⟨0, 10, 1⟩] ∧
    dup_entries none = [] := by
  refine ⟨rfl, rfl, rfl, rfl⟩

theorem nr_significant_eval (m : Nat) (hm : m < 2 ^ 63) :
    ∃ i : Nat, (if m ≥ 128 then nr_significant_loop 8 (m >>> 7) 1 else some 1) = some (i : Int) ∧
      1 ≤ i ∧ i ≤ 8 ∧ m < 2 ^ (8 * i - 1) ∧ (i = 1 ∨ 2 ^ (8 * (i - 1) - 1) ≤ m) := by
  have h : m < 2 ^ 7 ∨ (2 ^ 7 ≤ m ∧ m < 2 ^ 15) ∨ (2 ^ 15 ≤ m ∧ m < 2 ^ 23) ∨
      (2 ^ 23 ≤ m ∧ m < 2 ^ 31) ∨ (2 ^ 31 ≤ m ∧ m < 2 ^ 39) ∨ (2 ^ 39 ≤ m ∧ m < 2 ^ 47) ∨
      (2 ^ 47 ≤ m ∧ m < 2 ^ 55) ∨ (2 ^ 55 ≤ m ∧ m < 2 ^ 63) := by
    norm_num at hm ⊢
    omega
  norm_num at h
  simp only [nr_significant_loop, Nat.shiftRight_eq_div_pow]
  norm_num
  rcases h with h | h | h | h | h | h | h | h
  · refine ⟨1, ?_, by norm_num, by norm_num, by norm_num; omega, Or.inl rfl⟩
    rw [if_neg (by omega)]
    rfl
  · refine ⟨2, ?_, by norm_num, by norm_num, by norm_num; omega, Or.inr (by omega)⟩
    rw [if_pos (by omega)]
    repeat rw [if_pos (by omega)]
    rfl
  · refine ⟨3, ?_, by norm_num, by norm_num, by norm_num; omega, Or.inr (by norm_num; omega)⟩
    rw [if_pos (by omega)]
    repeat (first | rw [if_pos (by omega)] | rw [if_neg (by omega)])
    rfl
  · refine ⟨4, ?_, by norm_num, by norm_num, by norm_num; omega, Or.inr (by norm_num; omega)⟩
    rw [if_pos (by omega)]
    repeat (first | rw [if_pos (by omega)] | rw [if_neg (by omega)])
    rfl
  · refine ⟨5, ?_, by norm_num, by norm_num, by norm_num; omega, Or.inr (by norm_num; omega)⟩
    rw [if_pos (by omega)]
    repeat (first | rw [if_pos (by omega)] | rw [if_neg (by omega)])
    rfl
  · refine ⟨6, ?_, by norm_num, by norm_num, by norm_num; omega, Or.inr (by norm_num; omega)⟩
    rw [if_pos (by omega)]
    repeat (first | rw [if_pos (by omega)] | rw [if_neg (by omega)])
    rfl
  · refine ⟨7, ?_, by norm_num, by norm_num, by norm_num; omega, Or.inr (by norm_num; omega)⟩
    rw [if_pos (by omega)]
    repeat (first | rw [if_pos (by omega)] | rw [if_neg (by omega)])
    rfl
  · refine ⟨8, ?_, by norm_num, by norm_num, by norm_num; omega, Or.inr (by norm_num; omega)⟩
    rw [if_pos (by omega)]
    repeat (first | rw [if_pos (by omega)] | rw [if_neg (by omega)])
    rfl

/-- C24: for every signed 64-bit `n`, `ntfs_get_nr_significant_bytes(n)` returns
the least byte count `i` in `1..8` with `-2^(8i-1) <= n < 2^(8i-1)`. -/
theorem nr_significant_bytes_minimal (n : Int) (h1 : -(2 : Int) ^ 63 ≤ n)
    (h2 : n < (2 : Int) ^ 63) :
    ∃ i : Nat, ntfs_get_nr_significant_bytes n = some (i : Int) ∧ 1 ≤ i ∧ i ≤ 8 ∧
      -(2 : Int) ^ (8 * i - 1) ≤ n ∧ n < (2 : Int) ^ (8 * i - 1) ∧
      ∀ j : Nat, 1 ≤ j → j < i →
        ¬ (-(2 : Int) ^ (8 * j - 1) ≤ n ∧ n < (2 : Int) ^ (8 * j - 1)) := by
  have e63 : (2 : Int) ^ 63 = 9223372036854775808 := by norm_num
  have e64 : (2 : Int) ^ 64 = 18446744073709551616 := by norm_num
  rw [e63] at h1 h2
  obtain ⟨m, hm⟩ : ∃ m : Nat, (m : Int) = if n < 0 then -n - 1 else n := by
    refine ⟨(if n < 0 then -n - 1 else n).toNat, ?_⟩
    split_ifs <;> omega
  have hm63 : m < 2 ^ 63 := by
    have : (m : Int) < 9223372036854775808 := by rw [hm]; split_ifs <;> omega
    norm_num
    omega
  have hl : u64_of (if n < 0 then -n - 1 else n) = m := by
    rw [← hm]
    unfold u64_of
    rw [e64]
    have : (m : Int) < 9223372036854775808 := by rw [hm]; split_ifs <;> omega
    omega
  obtain ⟨i, hi, i1, i8, ilt, imin⟩ := nr_significant_eval m hm63
  refine ⟨i, ?_, i1, i8, ?_, ?_, ?_⟩
  · unfold ntfs_get_nr_significant_bytes
    simp only [hl]
    exact hi
  · have hc : (m : Int) < (2 : Int) ^ (8 * i - 1) := by exact_mod_cast ilt
    rw [hm] at hc
    split_ifs at hc <;> omega
  · have hc : (m : Int) < (2 : Int) ^ (8 * i - 1) := by exact_mod_cast ilt
    rw [hm] at hc
    have hp : (0 : Int) < (2 : Int) ^ (8 * i - 1) := by positivity
    split_ifs at hc <;> omega
  · intro j hj1 hji ⟨c1, c2⟩
    rcases imin with hi1 | hge
    · omega
    · have hle : 2 ^ (8 * j - 1) ≤ 2 ^ (8 * (i - 1) - 1) :=
        Nat.pow_le_pow_right (by norm_num) (by omega)
      have hc : ((2 : Int) ^ (8 * j - 1)) ≤ (m : Int) := by exact_mod_cast hle.trans hge
      rw [hm] at hc
      split_ifs at hc <;> omega

/-- Witness of `nr_significant_bytes_minimal`: `n = -129` needs two bytes. -/
theorem nr_significant_bytes_minimal_witness :
    ∃ i : Nat, ntfs_get_nr_significant_bytes (-129) = some (i : Int) ∧ 1 ≤ i ∧ i ≤ 8 ∧
      -(2 : Int) ^ (8 * i - 1) ≤ -129 ∧ (-129 : Int) < (2 : Int) ^ (8 * i - 1) ∧
      ∀ j : Nat, 1 ≤ j → j < i →
        ¬ (-(2 : Int) ^ (8 * j - 1) ≤ -129 ∧ (-129 : Int) < (2 : Int) ^ (8 * j - 1)) :=
  nr_significant_bytes_minimal (-129) (by norm_num) (by norm_num)

theorem rl_wf_cons (e : runlist_element) (rest : List runlist_element)
    (h : rl_wf (e :: rest) = true) (he : e.length ≠ 0) :
    0 < e.length ∧ (∃ n rest1, rest = n :: rest1 ∧ e.vcn + e.length = n.vcn) ∧
      rl_wf rest = true := by
  simp only [rl_wf, if_neg he, Bool.and_eq_true, decide_eq_true_eq] at h
  obtain ⟨⟨h1, h2⟩, h3⟩ := h
  refine ⟨h1, ?_, h3⟩
  cases rest with
  | nil => simp at h2
  | cons n rest1 => exact ⟨n, rest1, rfl, by simpa using h2⟩

/-- In a well-formed runlist the vcns do not decrease up to the terminator. -/
theorem rl_wf_mono (e : runlist_element) (post : List runlist_element) :
    ∀ (pre : List runlist_element), rl_wf (pre ++ e :: post) = true →
      (∀ x ∈ pre, x.length ≠ 0) →
      ∀ h, (pre ++ e :: post).head? = some h → h.vcn ≤ e.vcn := by
  intro pre
  induction pre with
  | nil => intro _ _ h hh; simp at hh; rw [← hh]
  | cons x pre ih =>
    intro hwf hpre h hh
    simp only [List.cons_append, List.head?_cons, Option.some.injEq] at hh
    rw [← hh]
    obtain ⟨h1, ⟨n, rest1, hn, hv⟩, h3⟩ :=
      rl_wf_cons x (pre ++ e :: post) hwf (hpre x (List.mem_cons_self _ _))
    have := ih h3 (fun y hy => hpre y (List.mem_cons_of_mem _ hy)) n (by rw [hn]; rfl)
    omega

/-- In a well-formed runlist every run in front of `e` has positive length and
ends at or below the vcn of `e`. -/
theorem rl_wf_pre_below (e : runlist_element) (post : List runlist_element) :
    ∀ (pre : List runlist_element), rl_wf (pre ++ e :: post) = true →
      (∀ x ∈ pre, x.length ≠ 0) → ∀ x ∈ pre, 0 < x.length ∧ x.vcn + x.length ≤ e.vcn := by
  intro pre
  induction pre with
  | nil => intro _ _ x hx; cases hx
  | cons y pre ih =>
    intro hwf hpre x hx
    obtain ⟨h1, ⟨n, rest1, hn, hv⟩, h3⟩ :=
      rl_wf_cons y (pre ++ e :: post) hwf (hpre y (List.mem_cons_self _ _))
    have hmono := rl_wf_mono e post pre h3 (fun z hz => hpre z (List.mem_cons_of_mem _ hz)) n
      (by rw [hn]; rfl)
    rcases List.mem_cons.mp hx with hxy | hxp
    · subst hxy
      exact ⟨h1, by omega⟩
    · exact ih h3 (fun z hz => hpre z (List.mem_cons_of_mem _ hz)) x hxp

/-- The cut `ntfs_rl_truncate` makes at the run `e` that is followed by `n`. -/
theorem rl_truncate_loop_cut (k : Int) (e n : runlist_element) (post : List runlist_element)
    (h1 : e.vcn ≤ k) (h2 : k < e.vcn + e.length) :
    ∀ (pre pre0 : List runlist_element), rl_wf (pre ++ e :: n :: post) = true →
      (∀ x ∈ pre, x.length ≠ 0) →
      rl_truncate_loop k pre0 (pre ++ e :: n :: post)
        = some (0, pre0 ++ pre ++
            (if k - e.vcn ≠ 0 then
              [{ e with length := k - e.vcn }, { vcn := k, lcn := LCN_ENOENT, length := 0 }]
                ++ post
             else { e with lcn := LCN_ENOENT, length := 0 } :: n :: post)) := by
  intro pre
  induction pre with
  | nil =>
    intro pre0 hwf _
    have he : e.length ≠ 0 := by omega
    obtain ⟨_, ⟨n1, rest1, hn, hv⟩, _⟩ := rl_wf_cons e (n :: post) hwf he
    cases hn
    simp only [List.nil_append, rl_truncate_loop, if_pos he, List.append_nil]
    rw [if_pos (by omega)]
    split_ifs <;> simp
  | cons x pre ih =>
    intro pre0 hwf hpre
    have hx : x.length ≠ 0 := hpre x (List.mem_cons_self _ _)
    obtain ⟨_, ⟨n1, rest1, hn, hv⟩, h3⟩ := rl_wf_cons x (pre ++ e :: n :: post) hwf hx
    have hmono := rl_wf_mono e (n :: post) pre h3
      (fun y hy => hpre y (List.mem_cons_of_mem _ hy)) n1 (by rw [hn]; rfl)
    have key : rl_truncate_loop k pre0 (x :: (pre ++ e :: n :: post))
        = rl_truncate_loop k (pre0 ++ [x]) (pre ++ e :: n :: post) := by
      rw [hn, rl_truncate_loop, if_pos hx]
      dsimp only
      rw [if_neg (by omega)]
    show rl_truncate_loop k pre0 (x :: (pre ++ e :: n :: post)) = _
    rw [key, ih (pre0 ++ [x]) h3 (fun y hy => hpre y (List.mem_cons_of_mem _ hy))]
    simp

/-- The lookups below the cut agree: the loop of `ntfs_rl_vcn_to_lcn` on the
truncated array and on the original one. -/
theorem rl_vcn_loop_cut (k vcn : Int) (e n : runlist_element) (post : List runlist_element)
    (hvk : vcn < k) (he : e.length ≠ 0) (hkn : k < n.vcn) :
    ∀ (pre : List runlist_element), (∀ x ∈ pre, x.length ≠ 0) →
      (∀ h, (pre ++ e :: n :: post).head? = some h → h.vcn ≤ vcn) →
      rl_vcn_loop vcn (pre ++
          (if k - e.vcn ≠ 0 then
            [{ e with length := k - e.vcn }, { vcn := k, lcn := LCN_ENOENT, length := 0 }]
              ++ post
           else { e with lcn := LCN_ENOENT, length := 0 } :: n :: post))
        = rl_vcn_loop vcn (pre ++ e :: n :: post) := by
  intro pre
  induction pre with
  | nil =>
    intro _ hhead
    have h0 : e.vcn ≤ vcn := hhead e rfl
    have hk : k - e.vcn ≠ 0 := by omega
    have hl : rl_vcn_loop vcn ({ e with length := k - e.vcn }
        :: { vcn := k, lcn := LCN_ENOENT, length := 0 } :: post)
        = some (if e.lcn ≥ 0 then e.lcn + (vcn - e.vcn) else e.lcn) := by
      rw [rl_vcn_loop, if_pos (show ({ e with length := k - e.vcn } : runlist_element).length ≠ 0
        from hk)]
      simp only [List.head?_cons]
      rw [if_pos hvk]
    have hr : rl_vcn_loop vcn (e :: n :: post)
        = some (if e.lcn ≥ 0 then e.lcn + (vcn - e.vcn) else e.lcn) := by
      rw [rl_vcn_loop, if_pos he]
      simp only [List.head?_cons]
      rw [if_pos (by omega)]
    rw [if_pos hk]
    show rl_vcn_loop vcn ({ e with length := k - e.vcn }
        :: { vcn := k, lcn := LCN_ENOENT, length := 0 } :: post) = rl_vcn_loop vcn (e :: n :: post)
    rw [hl, hr]
  | cons x pre ih =>
    intro hpre hhead
    have hx : x.length ≠ 0 := hpre x (List.mem_cons_self _ _)
    have hheads : ∀ (l1 l2 : List runlist_element) (a b : runlist_element), a.vcn = b.vcn →
        ((pre ++ a :: l1).head?.map (fun z => z.vcn))
          = ((pre ++ b :: l2).head?.map (fun z => z.vcn)) := by
      intro l1 l2 a b hab
      cases pre with
      | nil => simp [hab]
      | cons y ys => simp
    show rl_vcn_loop vcn (x :: (pre ++ _)) = rl_vcn_loop vcn (x :: (pre ++ e :: n :: post))
    rw [rl_vcn_loop, rl_vcn_loop, if_pos hx, if_pos hx]
    have hcut : ∃ a l1, (if k - e.vcn ≠ 0 then
            [{ e with length := k - e.vcn }, { vcn := k, lcn := LCN_ENOENT, length := 0 }]
              ++ post
           else { e with lcn := LCN_ENOENT, length := 0 } :: n :: post) = a :: l1 ∧
        a.vcn = e.vcn := by
      split_ifs
      · exact ⟨_, _, rfl, rfl⟩
      · exact ⟨_, _, rfl, rfl⟩
    obtain ⟨a, l1, hal, hav⟩ := hcut
    rw [hal] at ih ⊢
    have hh := hheads l1 (n :: post) a e hav
    cases h1 : (pre ++ a :: l1).head? with
    | none => cases pre <;> simp at h1
    | some m1 =>
      cases h2 : (pre ++ e :: n :: post).head? with
      | none => cases pre <;> simp at h2
      | some m2 =>
        rw [h1, h2] at hh
        have hm : m1.vcn = m2.vcn := by simpa using hh
        dsimp only
        rw [hm]
        by_cases hlt : vcn < m2.vcn
        · rw [if_pos hlt, if_pos hlt]
        · rw [if_neg hlt, if_neg hlt]
          exact ih (fun y hy => hpre y (List.mem_cons_of_mem _ hy))
            (fun h hh2 => by rw [h2] at hh2; cases hh2; omega)

/-- C20: `ntfs_rl_truncate` on a well-formed runlist at a `start_vcn = k` that
lies in the run `e` of it.  It returns 0; the runlist afterwards consists of the
runs in front of `e`, the part of `e` below `k` when that is not empty, and the
terminator `(k, LCN_ENOENT, 0)`; every kept entry has positive length and ends
at or below `k`; and `ntfs_rl_vcn_to_lcn` gives for every `vcn < k` what it gave
on the original runlist.  For `k` below the first vcn, and for a NULL runlist,
it returns `-EINVAL` and leaves the runlist as it is. -/
theorem rl_truncate_spec (rl pre : List runlist_element) (e : runlist_element)
    (post : List runlist_element) (k : Int)
    (hwf : rl_wf rl = true) (hrl : rl = pre ++ e :: post) (hpre : ∀ x ∈ pre, x.length ≠ 0)
    (h1 : e.vcn ≤ k) (h2 : k < e.vcn + e.length) :
    ∃ kept rest,
      ntfs_rl_truncate (some rl) k
        = some (0, some (kept ++ { vcn := k, lcn := LCN_ENOENT, length := 0 } :: rest)) ∧
      kept = pre ++ (if k = e.vcn then [] else [{ e with length := k - e.vcn }]) ∧
      (∀ x ∈ kept, 0 < x.length ∧ x.vcn + x.length ≤ k) ∧
      (∀ vcn, vcn < k →
        ntfs_rl_vcn_to_lcn
            (some (kept ++ { vcn := k, lcn := LCN_ENOENT, length := 0 } :: rest)) vcn
          = ntfs_rl_vcn_to_lcn (some rl) vcn) ∧
      (∀ k1 e0, rl.head? = some e0 → k1 < e0.vcn →
        ntfs_rl_truncate (some rl) k1 = some (-EINVAL, some rl)) ∧
      ntfs_rl_truncate none k = some (-EINVAL, none) := by
  subst hrl
  have he : e.length ≠ 0 := by omega
  have hwfe : rl_wf (e :: post) = true := by
    clear h1 h2
    induction pre with
    | nil => exact hwf
    | cons x pre ih =>
      exact ih (fun y hy => hpre y (List.mem_cons_of_mem _ hy))
        (rl_wf_cons x (pre ++ e :: post) hwf (hpre x (List.mem_cons_self _ _))).2.2
  obtain ⟨hpos, ⟨n, post1, hn, hv⟩, _⟩ := rl_wf_cons e post hwfe he
  subst hn
  obtain ⟨e0, h0⟩ : ∃ e0, (pre ++ e :: n :: post1).head? = some e0 := by
    cases pre <;> simp
  have hm := rl_wf_mono e (n :: post1) pre hwf hpre e0 h0
  have hcut := rl_truncate_loop_cut k e n post1 h1 h2 pre [] hwf hpre
  have hbelow := rl_wf_pre_below e (n :: post1) pre hwf hpre
  have hform : ∃ kept rest,
      pre ++ (if k - e.vcn ≠ 0 then
              [{ e with length := k - e.vcn }, { vcn := k, lcn := LCN_ENOENT, length := 0 }]
                ++ post1
             else { e with lcn := LCN_ENOENT, length := 0 } :: n :: post1)
        = kept ++ { vcn := k, lcn := LCN_ENOENT, length := 0 } :: rest ∧
      kept = pre ++ (if k = e.vcn then [] else [{ e with length := k - e.vcn }]) := by
    by_cases hk : k = e.vcn
    · refine ⟨pre, n :: post1, ?_, by simp [hk]⟩
      have : ¬ (k - e.vcn ≠ 0) := by omega
      rw [if_neg this, hk]
    · refine ⟨pre ++ [{ e with length := k - e.vcn }], post1, ?_, by simp [hk]⟩
      have : k - e.vcn ≠ 0 := by omega
      rw [if_pos this]
      simp
  obtain ⟨kept, rest, hkr, hkept⟩ := hform
  refine ⟨kept, rest, ?_, hkept, ?_, ?_, ?_, rfl⟩
  · simp only [ntfs_rl_truncate, h0]
    rw [if_neg (by omega), hcut, List.nil_append, hkr]
  · intro x hx
    rw [hkept] at hx
    rcases List.mem_append.mp hx with hxp | hxe
    · obtain ⟨b1, b2⟩ := hbelow x hxp
      exact ⟨b1, by omega⟩
    · split_ifs at hxe with hk
      · cases hxe
      · rw [List.mem_singleton] at hxe
        subst hxe
        dsimp only
        exact ⟨by omega, by omega⟩
  · intro vcn hvk
    rw [← hkr]
    by_cases hneg : vcn < 0
    · simp only [ntfs_rl_vcn_to_lcn, if_pos hneg]
    · have hcuthd : ∃ a l1, (if k - e.vcn ≠ 0 then
              [{ e with length := k - e.vcn }, { vcn := k, lcn := LCN_ENOENT, length := 0 }]
                ++ post1
             else { e with lcn := LCN_ENOENT, length := 0 } :: n :: post1) = a :: l1 ∧
          a.vcn = e.vcn := by
        split_ifs
        · exact ⟨_, _, rfl, rfl⟩
        · exact ⟨_, _, rfl, rfl⟩
      obtain ⟨a, l1, hal, hav⟩ := hcuthd
      have hloop := rl_vcn_loop_cut k vcn e n post1 hvk he (by omega) pre hpre
      rw [hal] at hloop ⊢
      obtain ⟨m1, hm1, hmv⟩ : ∃ m1, (pre ++ a :: l1).head? = some m1 ∧ m1.vcn = e0.vcn := by
        cases pre with
        | nil =>
          simp only [List.nil_append, List.head?_cons, Option.some.injEq] at h0 ⊢
          exact ⟨a, rfl, by rw [hav, h0]⟩
        | cons y ys =>
          simp only [List.cons_append, List.head?_cons, Option.some.injEq] at h0 ⊢
          exact ⟨y, rfl, by rw [h0]⟩
      simp only [ntfs_rl_vcn_to_lcn, if_neg hneg, hm1, h0, hmv]
      by_cases hlt : vcn < e0.vcn
      · rw [if_pos hlt, if_pos hlt]
      · rw [if_neg hlt, if_neg hlt]
        exact hloop (fun h hh => by rw [h0] at hh; cases hh; omega)
  · intro k1 e1 he1 hlt
    simp only [ntfs_rl_truncate, he1, if_pos hlt]

/-- Witness of `rl_truncate_spec`: the runlist of a run, a hole and the
terminator, cut at vcn 4 inside the hole. -/
theorem rl_truncate_spec_witness :
    ∃ kept rest,
      ntfs_rl_truncate (some rl_run_hole) 4
        = some (0, some (kept ++ { vcn := 4, lcn := LCN_ENOENT, length := 0 } :: rest)) ∧
      kept = [⟨0, 100, 3⟩] ++ (if (4 : Int) = (runlist_element.mk 3 LCN_HOLE 2).vcn then []
        else [{ (runlist_element.mk 3 LCN_HOLE 2) with
                length := 4 - (runlist_element.mk 3 LCN_HOLE 2).vcn }]) ∧
      (∀ x ∈ kept, 0 < x.length ∧ x.vcn + x.length ≤ 4) ∧
      (∀ vcn, vcn < 4 →
        ntfs_rl_vcn_to_lcn
            (some (kept ++ { vcn := 4, lcn := LCN_ENOENT, length := 0 } :: rest)) vcn
          = ntfs_rl_vcn_to_lcn (some rl_run_hole) vcn) ∧
      (∀ k1 e0, rl_run_hole.head? = some e0 → k1 < e0.vcn →
        ntfs_rl_truncate (some rl_run_hole) k1 = some (-EINVAL, some rl_run_hole)) ∧
      ntfs_rl_truncate none 4 = some (-EINVAL, none) :=
  rl_truncate_spec rl_run_hole [⟨0, 100, 3⟩] ⟨3, LCN_HOLE, 2⟩ [⟨5, LCN_ENOENT, 0⟩] 4
    (by decide) rfl (by decide) (by decide) (by decide)

/-- C21 (failing input): the runlist `rl` of one run of 4 clusters at lcn 100,
split at `k = 2`.  `ntfs_rl_truncate(rl, 2)` leaves the run of the first two
clusters; `ntfs_runlists_merge` of it with the slice of `rl` from vcn 2 on
returns the truncated runlist as it is, not `rl`: vcn 3 is no longer mapped. -/
theorem runlists_merge_drops_tail :
    ntfs_rl_truncate (some [⟨0, 100, 4⟩, ⟨4, LCN_ENOENT, 0⟩]) 2
      = some (0, some [⟨0, 100, 2⟩, ⟨2, LCN_ENOENT, 0⟩]) ∧
    ntfs_runlists_merge (some [⟨0, 100, 2⟩, ⟨2, LCN_ENOENT, 0⟩])
        (some [⟨2, 102, 2⟩, ⟨4, LCN_ENOENT, 0⟩])
      = some (some [⟨0, 100, 2⟩, ⟨2, LCN_ENOENT, 0⟩]) ∧
    ntfs_rl_vcn_to_lcn (some [⟨0, 100, 2⟩, ⟨2, LCN_ENOENT, 0⟩]) 3 = some LCN_ENOENT ∧
    ntfs_rl_vcn_to_lcn (some [⟨0, 100, 4⟩, ⟨4, LCN_ENOENT, 0⟩]) 3 = some 103 := by
  decide

/-- C22 (failing input): an attribute of 73 bytes whose last byte is the header
`0x01`, and one of 74 bytes that ends with the header `0x11` and one length
byte.  The byte announced by the header lies at the offset equal to the
attribute's length; the test `buf + b > attr_end` lets it pass, and the byte is
read.  One byte further (header `0x03`) the test refuses. -/
theorem mapping_pairs_reads_behind_attr :
    ntfs_mapping_pairs_decompress (some (List.replicate 72 0 ++ [0x01])) = DecodeResult.fault ∧
    ntfs_mapping_pairs_decompress (some (List.replicate 72 0 ++ [0x11, 0x05]))
      = DecodeResult.fault ∧
    ntfs_mapping_pairs_decompress (some (List.replicate 72 0 ++ [0x03, 0x05]))
      = DecodeResult.corrupt := by
  decide

/-- C23 (as stated, refuted): the mapping pair `11 00 05` has the length delta
0.  `ntfs_mapping_pairs_decompress` does not fail on it: the pair is skipped
and the runlist of the terminator alone is returned; and when the pair
`11 01 03` follows, its run starts at LCN `5 + 3 = 8`, so the LCN delta of the
skipped pair has been applied. -/
theorem mapping_pairs_zero_length_skipped :
    ntfs_mapping_pairs_decompress (some (List.replicate 72 0 ++ [0x11, 0x00, 0x05, 0x00]))
      = DecodeResult.ok [⟨0, LCN_ENOENT, 0⟩] ∧
    ntfs_mapping_pairs_decompress
        (some (List.replicate 72 0 ++ [0x11, 0x00, 0x05, 0x11, 0x01, 0x03, 0x00]))
      = DecodeResult.ok [⟨0, 8, 1⟩, ⟨1, LCN_ENOENT, 0⟩] := by
  decide

/-- C23 (amended): whenever the loop of `ntfs_mapping_pairs_decompress` stands
at a mapping pair (a header byte that is not 0, inside the attribute) whose
count of length bytes is 0, or whose length bytes lie inside the attribute and
give a negative length delta, the decoding fails with the error of an invalid
length.  A pair whose length delta is 0 is not rejected: the loop goes on
behind it with the elements entered so far, so the pair adds no element, and
with the LCN moved by the pair's LCN delta (a pair without LCN bytes leaves the
LCN as it is). -/
theorem mapping_pairs_length_delta (data : List Nat) (fuel p : Nat) (vcn lcn : Int)
    (acc : List runlist_element) (hb : Nat) (hp : p < data.length)
    (hhb : data.get? p = some hb) (hnz : hb ≠ 0) :
    (hb &&& 0xf = 0 → mp_loop data (fuel + 1) p vcn lcn acc = DecodeResult.invalid) ∧
    (∀ d, hb &&& 0xf ≠ 0 → p + (hb &&& 0xf) ≤ data.length →
      read_delta data p 0 (hb &&& 0xf) = some d → d < 0 →
      mp_loop data (fuel + 1) p vcn lcn acc = DecodeResult.invalid) ∧
    (hb &&& 0xf ≠ 0 → p + (hb &&& 0xf) ≤ data.length →
      read_delta data p 0 (hb &&& 0xf) = some 0 →
      (hb &&& 0xf0 = 0 →
        mp_loop data (fuel + 1) p vcn lcn acc
          = mp_loop data fuel (p + (hb &&& 0xf) + ((hb >>> 4) &&& 0xf) + 1)
              (s64_of (vcn + 0)) lcn acc) ∧
      (∀ d, hb &&& 0xf0 ≠ 0 → p + ((hb &&& 0xf) + ((hb >>> 4) &&& 0xf)) ≤ data.length →
        read_delta data p (hb &&& 0xf) ((hb &&& 0xf) + ((hb >>> 4) &&& 0xf)) = some d →
        ¬ s64_of (lcn + d) < -1 →
        mp_loop data (fuel + 1) p vcn lcn acc
          = mp_loop data fuel (p + (hb &&& 0xf) + ((hb >>> 4) &&& 0xf) + 1)
              (s64_of (vcn + 0)) (s64_of (lcn + d)) acc)) := by
  refine ⟨?_, ?_, ?_⟩
  · intro hb0
    simp only [mp_loop, if_pos hp, hhb, if_neg hnz, hb0, ne_eq, not_true_eq_false, false_and,
      if_false]
    rfl
  · intro d hb1 hin hd hneg
    have hnc : ¬ (hb &&& 0xf ≠ 0 ∧ p + (hb &&& 0xf) > data.length) := by
      intro hc; omega
    simp only [mp_loop, if_pos hp, hhb, if_neg hnz, if_neg hnc, if_pos hb1, hd, if_pos hneg]
  · intro hb1 hin hd
    have hnc : ¬ (hb &&& 0xf ≠ 0 ∧ p + (hb &&& 0xf) > data.length) := by
      intro hc; omega
    have h00 : ¬ ((0 : Int) < 0) := by decide
    constructor
    · intro hhole
      simp only [mp_loop, if_pos hp, hhb, if_neg hnz, if_neg hnc, if_pos hb1, hd, if_neg h00,
        if_pos hhole, ne_eq, not_true_eq_false, if_false]
    · intro d hlcn hin2 hd2 hok
      have hnc2 : ¬ (p + ((hb &&& 0xf) + ((hb >>> 4) &&& 0xf)) > data.length) := by omega
      simp only [mp_loop, if_pos hp, hhb, if_neg hnz, if_neg hnc, if_pos hb1, hd, if_neg h00,
        if_neg hlcn, if_neg hb1, if_neg hnc2, hd2, if_neg hok, ne_eq, not_true_eq_false,
        if_false]

/-- Witness of `mapping_pairs_length_delta`: the pair `01 ff` (length delta -1)
is refused, and behind the pair `11 00 05` (length delta 0, LCN delta 5) the
loop goes on with no element entered and the LCN 5. -/
theorem mapping_pairs_length_delta_witness :
    mp_loop (List.replicate 72 0 ++ [0x01, 0xff, 0x00]) (75 + 1) 72 0 0 []
      = DecodeResult.invalid ∧
    mp_loop (List.replicate 72 0 ++ [0x11, 0x00, 0x05, 0x00]) (76 + 1) 72 0 0 []
      = mp_loop (List.replicate 72 0 ++ [0x11, 0x00, 0x05, 0x00]) 76 75 (s64_of (0 + 0))
          (s64_of (0 + 5)) [] :=
  ⟨(mapping_pairs_length_delta (List.replicate 72 0 ++ [0x01, 0xff, 0x00]) 75 72 0 0 [] 0x01
      (by decide) (by decide) (by decide)).2.1 (-1) (by decide) (by decide) (by decide)
      (by decide),
   ((mapping_pairs_length_delta (List.replicate 72 0 ++ [0x11, 0x00, 0x05, 0x00]) 76 72 0 0 []
      0x11 (by decide) (by decide) (by decide)).2.2 (by decide) (by decide) (by decide)).2 5
      (by decide) (by decide) (by decide) (by decide)⟩

/-- The page loop of `ntfs_fsck_set_lcnbmp_range` ends when the range lies
inside the volume. -/
theorem set_lcnbmp_range_some (vol : Volume) (lcn length : Int) (bit : Nat)
    (h0 : 0 ≤ lcn) (hlen : 0 < length) (hin : lcn + length ≤ vol.nr_clusters)
    (hmax : (vol.max_flb_cnt : Int) =
      FB_ROUND_DOWN (asr (vol.nr_clusters - 1) NTFSCK_BYTE_TO_BITS) + 1)
    (hbit : bit ≤ 1) :
    ∃ vol', ntfs_fsck_set_lcnbmp_range vol lcn length bit = some (0, vol') ∧
      vol'.max_flb_cnt = vol.max_flb_cnt ∧ vol'.nr_clusters = vol.nr_clusters ∧
      vol'.option_flags = vol.option_flags ∧
      ∀ c : Nat, fcb_bit vol' c =
        if lcn ≤ (c : Int) ∧ (c : Int) < lcn + length then decide (bit = 1) else fcb_bit vol c := by
  unfold ntfs_fsck_set_lcnbmp_range
  have hnl : ¬ length ≤ 0 := by omega
  simp only [hnl, if_false, lcn_page_index]
  rw [lcn_page_index] at hmax
  obtain ⟨a, ha⟩ : ∃ a : Nat, (a : Int) = lcn := ⟨lcn.toNat, by omega⟩
  obtain ⟨r, hr⟩ : ∃ r : Nat, (r : Int) = length := ⟨length.toNat, by omega⟩
  subst ha hr
  obtain ⟨vol', h1, h2, h3, _, _, h6, h7⟩ := set_lcnbmp_pages_spec bit hbit
    (((a : Int) + (r : Int) - 1) / 65536 - (a : Int) / 65536 + 1).toNat a r
    ((a : Int) / 65536) (a : Int) (r : Int) vol
    (by omega) (by omega) rfl (Or.inl rfl)
    (by
      have : a / 65536 ≤ (a + r - 1) / 65536 := Nat.div_le_div_right (by omega)
      omega)
    (by omega)
  refine ⟨vol', h1, h2, h3, h6, ?_⟩
  intro c
  rw [h7 c]
  by_cases hc : a ≤ c ∧ c < a + r
  · rw [if_pos hc, if_pos (by omega)]
  · rw [if_neg hc, if_neg (by omega)]

/-- C25: with `max_flb_cnt` as `ntfs_fsck_mount` computes it, for
`nr_clusters >= 1` and a range with `lcn >= 0`, `length >= 1` and
`lcn + length <= nr_clusters`, `ntfs_fsck_set_lcnbmp_range` and
`ntfs_fsck_check_and_set_lcnbmp` run to their end.  In this embedding a read
of `fsck_lcn_bitmap[idx]` ends the run exactly when `idx` is not in
`0..max_flb_cnt-1`, and an access to a bit of a page exactly when its offset is
not below 65536; so every page index used is below `max_flb_cnt` and every bit
offset is below 65536. -/
theorem fcb_page_index_in_range (vol : Volume) (lcn length : Int) (bit : Nat)
    (_hn : 1 ≤ vol.nr_clusters)
    (hmax : (vol.max_flb_cnt : Int) =
      FB_ROUND_DOWN (asr (vol.nr_clusters - 1) NTFSCK_BYTE_TO_BITS) + 1)
    (h0 : 0 ≤ lcn) (h1 : 1 ≤ length) (h2 : lcn + length ≤ vol.nr_clusters) (hbit : bit ≤ 1) :
    (ntfs_fsck_set_lcnbmp_range vol lcn length bit).isSome = true ∧
    (∀ (na : ntfs_attr) (rl : List runlist_element) (rl_idx vcn : Int)
        (dup : Option (List runlist_element)),
      na.rl = some rl → 0 ≤ rl_idx →
      rl.get? rl_idx.toNat = some { vcn := vcn, lcn := lcn, length := length } →
      (ntfs_fsck_check_and_set_lcnbmp vol (some na) rl_idx bit dup).isSome = true) ∧
    (∀ idx : Int, (lcn_bitmap_at vol idx).isSome = true ↔
      (0 ≤ idx ∧ idx < (vol.max_flb_cnt : Int))) ∧
    (∀ (p : Page) (b : Nat), (ntfs_bit_get_and_set p b bit).isSome = true ↔ b < 65536) := by
  obtain ⟨vol', hs, _⟩ := set_lcnbmp_range_some vol lcn length bit h0 (by omega) h2 hmax hbit
  refine ⟨by rw [hs]; rfl, ?_, ?_, ?_⟩
  · intro na rl rl_idx vcn dup hrl hidx hget
    rw [lcn_page_index] at hmax
    exact check_and_set_total vol na rl rl_idx _ dup bit hbit hrl hidx hget
      (by dsimp only; omega) (by dsimp only; intro _; omega)
  · intro idx
    unfold lcn_bitmap_at
    split_ifs with h
    · simp [h]
    · simp [h]
  · intro p b
    unfold ntfs_bit_get_and_set NTFS_BUF_SIZE
    have hv : ¬ 1 < bit := by omega
    rw [if_neg hv, Nat.shiftRight_eq_div_pow]
    by_cases hlt : b / 2 ^ 3 < 8192
    · rw [if_pos hlt]
      have : b < 65536 := by norm_num at hlt; omega
      simp only [this, iff_true]
      split_ifs <;> rfl
    · rw [if_neg hlt]
      have : ¬ b < 65536 := by norm_num at hlt; omega
      simp [this]

/-- Witness of `fcb_page_index_in_range`: the last 20 clusters of a freshly
mounted volume of 200000 clusters. -/
theorem fcb_page_index_in_range_witness :
    (ntfs_fsck_set_lcnbmp_range (ntfs_fsck_mount 200000 1024 10 NTFS_MNT_NONE)
      199980 20 1).isSome = true ∧
    (∀ (na : ntfs_attr) (rl : List runlist_element) (rl_idx vcn : Int)
        (dup : Option (List runlist_element)),
      na.rl = some rl → 0 ≤ rl_idx →
      rl.get? rl_idx.toNat = some { vcn := vcn, lcn := 199980, length := 20 } →
      (ntfs_fsck_check_and_set_lcnbmp (ntfs_fsck_mount 200000 1024 10 NTFS_MNT_NONE)
        (some na) rl_idx 1 dup).isSome = true) ∧
    (∀ idx : Int, (lcn_bitmap_at (ntfs_fsck_mount 200000 1024 10 NTFS_MNT_NONE) idx).isSome = true ↔
      (0 ≤ idx ∧ idx < ((ntfs_fsck_mount 200000 1024 10 NTFS_MNT_NONE).max_flb_cnt : Int))) ∧
    (∀ (p : Page) (b : Nat), (ntfs_bit_get_and_set p b 1).isSome = true ↔ b < 65536) :=
  fcb_page_index_in_range (ntfs_fsck_mount 200000 1024 10 NTFS_MNT_NONE) 199980 20 1
    (by simp [ntfs_fsck_mount])
    (mount_max_flb_cnt 200000 1024 10 NTFS_MNT_NONE (by norm_num) (by norm_num))
    (by norm_num) (by norm_num) (by simp [ntfs_fsck_mount]) (by norm_num)

/-- C26 (failing input): a volume of 65536 clusters, a whole number of bitmap
pages; its last page has the index `(65536 - 1) / 65536 = 0`.
`ntfs_fsck_fill_unused_lcnbmp` computes `last_byte_offset = 8192` and stores to
`last_bm[8192]`, one byte behind the page. -/
theorem fill_unused_page_end_overrun :
    FB_ROUND_DOWN (asr ((ntfs_fsck_mount 65536 1024 10 NTFS_MNT_NONE).nr_clusters - 1)
      NTFSCK_BYTE_TO_BITS) = 0 ∧
    ntfs_fsck_fill_unused_lcnbmp (ntfs_fsck_mount 65536 1024 10 NTFS_MNT_NONE) 0 zero_page
      = none := by
  refine ⟨?_, fill_unused_far 65536 1024 10 NTFS_MNT_NONE (by norm_num)⟩
  rw [lcn_page_index]
  simp [ntfs_fsck_mount]

/-- The loop of `_ntfsck_check_attr_list_type` on a chain of entries of known
type and non-zero 8-aligned length that ends exactly at `al_end`: it ends with
`STATUS_OK` and `al_real_length` is the sum of the lengths modulo 65536. -/
theorem al_loop_exact (tail : List ATTR_LIST_ENTRY) (al_end : Nat) :
    ∀ (es : List ATTR_LIST_ENTRY) (off real : Nat), es ≠ [] →
      (∀ e ∈ es, al_known_type e.type = true ∧ e.length ≠ 0 ∧ e.length &&& 7 = 0) →
      off + (es.map (fun e => e.length)).sum = al_end →
      al_loop (es ++ tail) off al_end real
        = some (STATUS_OK, (real + (es.map (fun e => e.length)).sum) % 65536) := by
  intro es
  induction es with
  | nil => intro off real h; exact absurd rfl h
  | cons e rest ih =>
    intro off real _ hval hsum
    obtain ⟨h1, h2, h3⟩ := hval e (List.mem_cons_self _ _)
    have hc2 : ¬ (e.length = 0 ∨ e.length &&& 7 ≠ 0) := by
      intro hc
      rcases hc with hc | hc
      · exact h2 hc
      · exact hc h3
    simp only [List.map_cons, List.sum_cons] at hsum ⊢
    cases rest with
    | nil =>
      simp only [List.map_nil, List.sum_nil, Nat.add_zero] at hsum ⊢
      simp only [List.cons_append, List.nil_append, al_loop, h1, Bool.not_true,
        Bool.false_eq_true, if_false, if_neg hc2]
      rw [if_pos (by omega)]
    | cons n rest1 =>
      obtain ⟨n1, n2, n3⟩ := hval n (List.mem_cons_of_mem _ (List.mem_cons_self _ _))
      have hrec := ih (off + e.length) ((real + e.length) % 65536) (by simp)
        (fun x hx => hval x (List.mem_cons_of_mem _ hx)) (by rw [← hsum]; omega)
      simp only [List.map_cons, List.sum_cons] at hsum hrec ⊢
      have key : al_loop (e :: (n :: rest1 ++ tail)) off al_end real
          = al_loop (n :: rest1 ++ tail) (off + e.length) al_end ((real + e.length) % 65536) := by
        rw [al_loop]
        simp only [h1, Bool.not_true, Bool.false_eq_true, if_false, if_neg hc2, List.cons_append,
          List.head?_cons]
        rw [if_neg (by omega), if_neg (by omega)]
      show al_loop (e :: (n :: rest1 ++ tail)) off al_end real = _
      rw [key, hrec]
      congr 2
      omega

/-- C18 (failing input): an attribute list of 65536 bytes made of 2048 entries
of type `AT_DATA` and length 32, which end exactly at `attr_list_size`.  The
16-bit `al_real_length` wraps to 0, so `PR_ATTRLIST_LENGTH_CORRUPTED` is raised
and, the fix being granted (`ntfsck -y`), `attr_list_size` becomes 0. -/
theorem attr_list_size_wraps :
    ∃ r, _ntfsck_check_attr_list_type vol_10_12 false (List.replicate 2048 ⟨0x80, 32⟩) 65536 0
        ⟨0, 0⟩ [] = some r ∧
      r.ret = STATUS_OK ∧ r.raised = true ∧ r.attr_list_size = 0 := by
  have hsum : ((List.replicate 2048 (ATTR_LIST_ENTRY.mk 0x80 32)).map (fun e => e.length)).sum
      = 65536 := by
    rw [List.map_replicate, List.sum_replicate]
    rfl
  have hl := al_loop_exact [] 65536 (List.replicate 2048 ⟨0x80, 32⟩) 0 0
    (fun h => by
      have hlen := congrArg List.length h
      rw [List.length_replicate] at hlen
      exact absurd hlen (by decide))
    (by
      intro e he
      rw [List.eq_of_mem_replicate he]
      decide)
    (by rw [hsum])
  rw [List.append_nil, hsum] at hl
  refine ⟨{ ret := STATUS_OK, attr_list_size := 0,
            ctr := fsck_err_fixed (fsck_err_found ⟨0, 0⟩), stdin := [], raised := true },
    ?_, rfl, rfl, rfl⟩
  simp only [_ntfsck_check_attr_list_type, Bool.false_eq_true, if_false, hl]
  rfl

/-- C30 (failing input): an attribute list with `attr_list_size = 24` whose
first entry (type `AT_DATA`) carries the length 32.  The length of the first
entry is added without a test against the end of the list, so
`PR_ATTRLIST_LENGTH_CORRUPTED` is raised and, the fix being granted, the new
`attr_list_size` is 32, beyond the original 24. -/
theorem attr_list_size_grows :
    ∃ r, _ntfsck_check_attr_list_type vol_10_12 false [⟨0x80, 32⟩] 24 0 ⟨0, 0⟩ [] = some r ∧
      r.raised = true ∧ r.attr_list_size = 32 ∧ ¬ (r.attr_list_size ≤ 24) :=
  ⟨{ ret := STATUS_OK, attr_list_size := 32, ctr := fsck_err_fixed (fsck_err_found ⟨0, 0⟩),
     stdin := [], raised := true }, by rfl, rfl, rfl, by decide⟩

theorem fn_walk_push (env : OrphanEnv) (fmb : Nat → Bool) (oc : List Nat) (ino : Nat) :
    ∀ (todo kept : List Nat) (nlink p : Nat) (kept1 : List Nat),
      fn_walk env fmb oc ino todo kept nlink = FnWalk.push p kept1 → p ∈ oc := by
  intro todo
  induction todo with
  | nil => intro kept nlink p kept1 h; simp [fn_walk] at h
  | cons q todo ih =>
    intro kept nlink p kept1 h
    simp only [fn_walk] at h
    split_ifs at h with h1 h2 h3 h4
    · cases h; exact h2
    · exact ih _ _ _ _ h
    · exact ih _ _ _ _ h
    · split at h
      · exact ih _ _ _ _ h
      · exact ih _ _ _ _ h
      · exact ih _ _ _ _ h
    · split at h
      · exact ih _ _ _ _ h
      · exact ih _ _ _ _ h
      · exact ih _ _ _ _ h

/-- The traversal ends within `2 * |oc| + |ot| + 1` turns, with an empty stack,
and no candidate is moved to the stack more often than it stands in the
candidate list. -/
theorem orphan_loop_terminates (env : OrphanEnv) :
    ∀ (fuel : Nat) (st : OrphanState), 2 * st.oc.length + st.ot.length < fuel →
      ∃ st1, orphan_loop env fuel st = some st1 ∧ st1.ot = [] ∧
        ∀ x, st1.pushed.count x + st1.oc.count x = st.pushed.count x + st.oc.count x := by
  intro fuel
  induction fuel with
  | zero => intro st h; omega
  | succ fuel ih =>
    intro st h
    cases hot : st.ot with
    | nil =>
      refine ⟨st, ?_, hot, fun _ => rfl⟩
      simp only [orphan_loop, hot]
    | cons entry rest =>
      rw [hot] at h
      simp only [List.length_cons] at h
      simp only [orphan_loop, hot]
      split_ifs with ho hc
      · exact ih _ (by dsimp only; omega)
      · exact ih _ (by dsimp only; omega)
      · cases hw : fn_walk env st.fmb st.oc entry (st.fns entry) [] 0 with
        | push p kept =>
          have hp : p ∈ st.oc := fn_walk_push env st.fmb st.oc entry _ _ _ _ _ hw
          have hlen : (st.oc.erase p).length = st.oc.length - 1 := List.length_erase_of_mem hp
          have hpos : 0 < st.oc.length := List.length_pos_of_mem hp
          obtain ⟨st1, h1, h2, h3⟩ := ih
            ⟨st.oc.erase p, p :: entry :: rest, st.fmb, Function.update st.fns entry kept,
              st.pushed ++ [p]⟩
            (by dsimp only; rw [hlen]; simp only [List.length_cons]; omega)
          refine ⟨st1, h1, h2, ?_⟩
          intro x
          rw [h3 x]
          dsimp only
          rw [List.count_append, List.count_erase]
          by_cases hx : x = p
          · subst hx
            have hc1 : 0 < st.oc.count x := List.count_pos_iff.mpr hp
            simp
            omega
          · have hne : ¬ (p = x) := fun hc => hx hc.symm
            simp [hx, hne]
        | done nlink kept =>
          exact ih _ (by dsimp only; omega)

/-- C28: `ntfsck_add_index_entry_orphaned_file` returns for every candidate
list, every parent relation among the candidates (self-parents and cycles
included) and every answer of its helpers; the stack is empty at the end, and
every candidate is moved from the candidate list to the stack at most as often
as it stands in the list: once for a list without repetition. -/
theorem orphan_traversal_terminates (env : OrphanEnv) (e : Nat) (st : OrphanState)
    (he : e ∈ st.oc) :
    ∃ st1, ntfsck_add_index_entry_orphaned_file env (some e) st = some (STATUS_OK, st1) ∧
      st1.ot = [] ∧ ∀ x, st1.pushed.count x ≤ st.oc.count x := by
  have hlen : (st.oc.erase e).length = st.oc.length - 1 := List.length_erase_of_mem he
  have hpos : 0 < st.oc.length := List.length_pos_of_mem he
  obtain ⟨st1, h1, h2, h3⟩ := orphan_loop_terminates env (2 * st.oc.length + 2)
    ⟨st.oc.erase e, [e], st.fmb, st.fns, [e]⟩
    (by dsimp only; rw [hlen]; simp only [List.length_singleton]; omega)
  refine ⟨st1, ?_, h2, ?_⟩
  · simp only [ntfsck_add_index_entry_orphaned_file, h1]
  · intro x
    have := h3 x
    dsimp only at this
    rw [List.count_erase] at this
    by_cases hx : x = e
    · subst hx
      have hc1 : 0 < st.oc.count x := List.count_pos_iff.mpr he
      simp at this
      omega
    · have hne : ¬ (e = x) := fun hc => hx hc.symm
      simp [hx, hne] at this
      omega

/-- Witness of `orphan_traversal_terminates`: a cycle of two candidates and a
candidate that is its own parent. -/
theorem orphan_traversal_terminates_witness :
    ∃ st1, ntfsck_add_index_entry_orphaned_file orphan_env (some 30) orphan_cycle
        = some (STATUS_OK, st1) ∧
      st1.ot = [] ∧ ∀ x, st1.pushed.count x ≤ orphan_cycle.oc.count x :=
  orphan_traversal_terminates orphan_env 30 orphan_cycle (by decide)

/-- With a cluster size `2^k` below `2^32`, a `data_size` that is not negative
and not above an `allocated_size` that is a multiple of the cluster size,
`aligned_data_size` is not above `allocated_size`. -/
theorem aligned_data_size_le (k : Nat) (data alloc : Int) (hk : k < 32) (h0 : 0 ≤ data)
    (hle : data ≤ alloc) (hdvd : ((2 ^ k : Nat) : Int) ∣ alloc) (hmax : alloc < 2 ^ 63) :
    aligned_data_size data (2 ^ k) ≤ alloc := by
  have hpos : 0 < 2 ^ k := Nat.pow_pos (by decide)
  have hlt : 2 ^ k < 2 ^ 32 := Nat.pow_lt_pow_right (by decide) hk
  have hle32 : 2 ^ k ≤ 2 ^ 32 := le_of_lt hlt
  have h32 : (2 : Nat) ^ 32 = 4294967296 := by norm_num
  obtain ⟨j, hj⟩ := hdvd
  -- the sum as a natural number
  have hx0 : 0 ≤ data + ((2 ^ k : Nat) : Int) - 1 := by
    have : (1 : Int) ≤ ((2 ^ k : Nat) : Int) := by exact_mod_cast hpos
    omega
  have hxlt : data + ((2 ^ k : Nat) : Int) - 1 < 2 ^ 64 := by
    have : ((2 ^ k : Nat) : Int) < 4294967296 := by
      have := hlt
      rw [h32] at this
      exact_mod_cast this
    have e63 : (2 : Int) ^ 63 = 9223372036854775808 := by norm_num
    have e64 : (2 : Int) ^ 64 = 18446744073709551616 := by norm_num
    rw [e63] at hmax
    rw [e64]
    omega
  have hu64 : u64_of (data + ((2 ^ k : Nat) : Int) - 1)
      = (data + ((2 ^ k : Nat) : Int) - 1).toNat := by
    unfold u64_of
    rw [Int.emod_eq_of_lt hx0 hxlt]
  have hu32 : u32_of (((2 ^ k : Nat) : Int) - 1) = 2 ^ k - 1 := by
    unfold u32_of
    have h1 : (0 : Int) ≤ ((2 ^ k : Nat) : Int) - 1 := by
      have : (1 : Int) ≤ ((2 ^ k : Nat) : Int) := by exact_mod_cast hpos
      omega
    have h2 : ((2 ^ k : Nat) : Int) - 1 < 2 ^ 32 := by
      have : ((2 ^ k : Nat) : Int) < ((2 ^ 32 : Nat) : Int) := by exact_mod_cast hlt
      have e : (((2 : Nat) ^ 32 : Nat) : Int) = (2 : Int) ^ 32 := by norm_num
      rw [e] at this
      omega
    rw [Int.emod_eq_of_lt h1 h2]
    omega
  unfold aligned_data_size
  rw [hu64, hu32]
  generalize hn : (data + ((2 ^ k : Nat) : Int) - 1).toNat = n
  have hmask : 2 ^ 32 - 1 - (2 ^ k - 1) = 2 ^ 32 - 2 ^ k := by omega
  rw [hmask]
  -- the result is a multiple of the cluster size below the sum
  have hand_le : n &&& (2 ^ 32 - 2 ^ k) ≤ n := Nat.and_le_left
  have hmod : (n &&& (2 ^ 32 - 2 ^ k)) % 2 ^ k = 0 := by
    rw [← Nat.and_pow_two_sub_one_eq_mod, Nat.and_assoc, Nat.and_pow_two_sub_one_eq_mod]
    have : (2 ^ 32 - 2 ^ k) % 2 ^ k = 0 := by
      have hd : 2 ^ k ∣ 2 ^ 32 - 2 ^ k :=
        Nat.dvd_sub' (Nat.pow_dvd_pow 2 (le_of_lt hk)) (dvd_refl _)
      exact Nat.mod_eq_zero_of_dvd hd
    rw [this, Nat.and_zero]
  obtain ⟨q, hq⟩ := Nat.dvd_of_mod_eq_zero hmod
  rw [hq]
  rw [hq] at hand_le
  have hnval : (n : Int) = data + ((2 ^ k : Nat) : Int) - 1 := by
    rw [← hn]
    exact Int.toNat_of_nonneg hx0
  have hqn : ((2 ^ k * q : Nat) : Int) ≤ data + ((2 ^ k : Nat) : Int) - 1 := by
    rw [← hnval]
    exact_mod_cast hand_le
  push_cast at hqn ⊢
  rw [hj] at hle ⊢
  push_cast at hle
  have hc : (0 : Int) < 2 ^ k := by positivity
  have hqj : (q : Int) ≤ j := by
    by_contra hcon
    have hq1 : j + 1 ≤ (q : Int) := by omega
    have : (2 : Int) ^ k * (j + 1) ≤ 2 ^ k * (q : Int) := by
      exact mul_le_mul_of_nonneg_left hq1 (le_of_lt hc)
    nlinarith
  have := mul_le_mul_of_nonneg_left hqj (le_of_lt hc)
  push_cast
  exact this

/-- Where the runlist check has succeeded, the attribute is not a metadata
file's, `lowest_vcn` is 0, the cluster size is `2^k` below `2^32`,
`rls.alloc_size` is a multiple of it, and `data_size` is not negative:
`PR_ATTR_NON_RESIDENT_SIZES_MISMATCH` is raised exactly when
`allocated_size != rls.alloc_size` or `data_size > allocated_size`, and
`new_size` is then 0. -/
theorem nr_sizes_mismatch_nonneg (env : NrEnv) (vol : Volume) (a : InoAttr) (set_bit : Nat)
    (ctr : Counters) (stdin : List String) (r : NrResult) (q : AttrRunResult) (k : Nat)
    (hk : k < 32) (hcs : env.cluster_size = 2 ^ k) (hmeta : env.is_metadata = false)
    (hnr : a.non_resident = true)
    (hq : __ntfsck_check_non_resident_attr env vol a ⟨0, 0⟩ set_bit ctr stdin = some q)
    (hret : q.ret = STATUS_OK) (hlv : q.attr.lowest_vcn = 0) (h0 : 0 ≤ q.attr.data_size)
    (hdvd : ((2 ^ k : Nat) : Int) ∣ q.rls.alloc_size) (hmax : q.rls.alloc_size < 2 ^ 63)
    (h : ntfsck_check_non_resident_attr env vol a set_bit ctr stdin = some r) :
    (r.raised = true ↔
      (q.attr.allocated_size ≠ q.rls.alloc_size ∨ q.attr.data_size > q.attr.allocated_size)) ∧
    (r.raised = true → r.new_size = some 0) := by
  simp only [ntfsck_check_non_resident_attr, hnr, Bool.not_true, Bool.false_eq_true, if_false, hq,
    hret, ne_eq, not_true_eq_false, hmeta, hlv, hcs] at h
  by_cases hc : q.attr.allocated_size ≠ q.rls.alloc_size ∨ q.attr.data_size > q.attr.allocated_size
  · rw [if_pos hc] at h
    dsimp only at h
    cases hf : ntfs_fix_problem q.vol PR_ATTR_NON_RESIDENT_SIZES_MISMATCH (some ⟨0⟩) q.stdin with
    | none => rw [hf] at h; cases h
    | some res =>
      obtain ⟨fix, p1, s1, o1⟩ := res
      rw [hf] at h
      dsimp only at h
      cases fix with
      | false =>
        simp only [Bool.not_false, if_true] at h
        cases h
        exact ⟨⟨fun _ => hc, fun _ => rfl⟩, fun _ => rfl⟩
      | true =>
        simp only [Bool.not_true, Bool.false_eq_true, if_false] at h
        cases h
        exact ⟨⟨fun _ => hc, fun _ => rfl⟩, fun _ => rfl⟩
  · rw [if_neg hc] at h
    have hc1 : q.attr.allocated_size = q.rls.alloc_size := by
      by_contra hne
      exact hc (Or.inl hne)
    have hc2 : q.attr.data_size ≤ q.attr.allocated_size := by
      by_contra hgt
      exact hc (Or.inr (lt_of_not_le hgt))
    have hal : aligned_data_size q.attr.data_size (2 ^ k) ≤ q.attr.allocated_size :=
      aligned_data_size_le k _ _ hk h0 hc2 (hc1 ▸ hdvd) (hc1 ▸ hmax)
    rw [if_pos hal] at h
    dsimp only at h
    cases h
    refine ⟨⟨fun hr => ?_, fun hh => absurd hh hc⟩, fun hr => ?_⟩
    · exact absurd hr (by simp)
    · exact absurd hr (by simp)

/-- The run of `ntfsck_check_runlist` with `set_bit = 1` on the one free cluster
11 of `vol_10_12`: no duplicate, 4096 bytes allocated, cluster 11 set. -/
theorem check_runlist_11_run (need_fix : Bool) :
    ∃ vol1, ntfsck_check_runlist (fun l _ => l) vol_10_12 12
        (some { type := 128, rl := some [⟨0, 11, 1⟩, ⟨1, LCN_ENOENT, 0⟩] }) 1 (some ⟨0, 0⟩)
        (some need_fix) []
        = some { status := STATUS_OK, vol := vol1, rl := some [⟨0, 11, 1⟩, ⟨1, LCN_ENOENT, 0⟩],
                 rls := some ⟨4096, 4096⟩, need_fix := some need_fix, stdin := [], out := [],
                 dup_rl := none } ∧
      vol1.option_flags = vol_10_12.option_flags ∧
      vol1.nr_clusters = vol_10_12.nr_clusters ∧ vol1.max_flb_cnt = vol_10_12.max_flb_cnt ∧
      ∀ c : Nat, fcb_bit vol1 c = if c = 11 then true else fcb_bit vol_10_12 c := by
  obtain ⟨vol1, hcs, hbits⟩ := check_and_set_scan vol_10_12
    { type := 128, rl := some [⟨0, 11, 1⟩, ⟨1, LCN_ENOENT, 0⟩] }
    [⟨0, 11, 1⟩, ⟨1, LCN_ENOENT, 0⟩] 0 ⟨0, 11, 1⟩ none rfl (le_refl 0) rfl (by decide)
    (by decide) (by decide) (by norm_num) (by decide)
  have hscan : dup_scan 0 11 (fcb_bit vol_10_12) 1 11 ({ vcn := 0, lcn := -1, length := 0 }, none)
      = (⟨0, -1, 0⟩, none) := by
    decide
  have hcs' : ntfs_fsck_check_and_set_lcnbmp vol_10_12
      (some { type := 128, rl := some [⟨0, 11, 1⟩, ⟨1, LCN_ENOENT, 0⟩] }) 0 1 none
      = some (Run.done (none, vol1)) := by
    rw [hcs]
    have e1 : (runlist_element.mk 0 11 1).length.toNat = 1 := rfl
    have e2 : (runlist_element.mk 0 11 1).lcn.toNat = 11 := rfl
    rw [e1, e2]
    dsimp only
    rw [hscan]
    rfl
  obtain ⟨hnr, hmx, hfl, _, _⟩ := check_and_set_frame _ _ _ _ _ _ _ hcs'
  refine ⟨vol1, ?_, hfl, hnr, hmx, ?_⟩
  · have hwalk : check_runlist_walk 1 128 12 [] [⟨0, 11, 1⟩, ⟨1, LCN_ENOENT, 0⟩] vol_10_12 none
        0 0
        = some { vol := vol1, rl := [⟨0, 11, 1⟩, ⟨1, LCN_ENOENT, 0⟩], dup_rl := none,
                 rl_alloc_size := 4096, rl_data_size := 4096 } := by
      have c1 : ¬ (runlist_element.mk 0 11 1).length = 0 := by decide
      have c2 : (runlist_element.mk 0 11 1).lcn > LCN_HOLE := by decide
      have c3 : ¬ (runlist_element.mk 0 11 1).lcn ≥ vol_10_12.nr_clusters := by decide
      have c4 : ¬ s64_of ((runlist_element.mk 0 11 1).lcn + (runlist_element.mk 0 11 1).length)
          ≥ vol_10_12.nr_clusters := by decide
      simp only [check_runlist_walk, if_neg c1, if_pos c2, if_neg c3, if_neg c4, List.nil_append,
        List.length_nil, Nat.cast_zero, hcs']
      have c5 : (runlist_element.mk 1 LCN_ENOENT 0).length = 0 := rfl
      have c6 : s64_of (0 + s64_of (shl (runlist_element.mk 0 11 1).length 12)) = 4096 := by
        decide
      simp only [c5, if_true, c6]
      rfl
    simp only [ntfsck_check_runlist, hwalk]
    rfl
  · intro c
    rw [hbits c]
    by_cases hc : c = 11
    · rw [if_pos hc, if_pos (by subst hc; decide)]
    · rw [if_neg hc, if_neg (by dsimp only; omega)]

/-- C29 (failing input): a `$DATA` attribute of one cluster (cluster 11 of
`vol_10_12`, clusters of 4096 bytes) with `allocated_size = 4096`, the size of
its runlist, and the corrupt `data_size = -4096`.  Neither
`allocated_size != rls.alloc_size` nor `data_size > allocated_size` holds, but
`aligned_data_size` is `0xFFFFF000`, so `PR_ATTR_NON_RESIDENT_SIZES_MISMATCH`
is raised and `new_size` is `allocated_size`, not 0. -/
theorem nr_sizes_negative_data_size :
    ∃ r, ntfsck_check_non_resident_attr env_4096 vol_10_12 (data_attr 11 (-4096) 4096) 1 ⟨0, 0⟩ []
        = some r ∧
      r.ret = STATUS_OK ∧ r.rls.alloc_size = (data_attr 11 (-4096) 4096).allocated_size ∧
      (data_attr 11 (-4096) 4096).data_size ≤ (data_attr 11 (-4096) 4096).allocated_size ∧
      aligned_data_size (-4096) 4096 = 0xFFFFF000 ∧
      r.raised = true ∧ r.new_size = some 4096 := by
  obtain ⟨vol1, hrun, hfl, _, _, _⟩ := check_runlist_11_run false
  have hyes : mode_yes vol1.option_flags := by
    rw [hfl]; exact ⟨rfl, rfl, rfl, rfl, rfl, rfl⟩
  have hal : aligned_data_size (-4096) 4096 = 0xFFFFF000 := by decide
  have hrun1 : __ntfsck_check_non_resident_attr env_4096 vol_10_12 (data_attr 11 (-4096) 4096)
      ⟨0, 0⟩ 1 ⟨0, 0⟩ []
      = some { ret := STATUS_OK, vol := vol1, attr := data_attr 11 (-4096) 4096,
               rls := ⟨4096, 4096⟩, ctr := ⟨0, 0⟩, stdin := [] } := by
    have hd : (data_attr 11 (-4096) 4096).rl = some [⟨0, 11, 1⟩, ⟨1, LCN_ENOENT, 0⟩] := rfl
    have ht : (data_attr 11 (-4096) 4096).type = 128 := rfl
    have hn : (data_attr 11 (-4096) 4096).need_fix = false := rfl
    have he1 : env_4096.repair = fun l _ => l := rfl
    have he2 : env_4096.cluster_size_bits = 12 := rfl
    simp only [__ntfsck_check_non_resident_attr, ntfsck_check_attr_runlist, hd, ht, hn, he1, he2,
      hrun]
    rfl
  refine ⟨{ ret := STATUS_OK, vol := vol1, attr := data_attr 11 (-4096) 4096,
            rls := ⟨4096, 4096⟩, ctr := fsck_err_fixed (fsck_err_found ⟨0, 0⟩), stdin := [],
            raised := true, new_size := some 4096 }, ?_, rfl, rfl, by decide, hal, rfl, rfl⟩
  have hnr : (data_attr 11 (-4096) 4096).non_resident = true := rfl
  simp only [ntfsck_check_non_resident_attr, hnr, Bool.not_true, Bool.false_eq_true, if_false,
    hrun1]
  have hm : env_4096.is_metadata = false := rfl
  have hcs : env_4096.cluster_size = 4096 := rfl
  have hds : (data_attr 11 (-4096) 4096).data_size = -4096 := rfl
  have has : (data_attr 11 (-4096) 4096).allocated_size = 4096 := rfl
  have hlv : (data_attr 11 (-4096) 4096).lowest_vcn = 0 := rfl
  simp only [hm, hcs, hds, has, hlv, hal, ne_eq, not_true_eq_false, if_false,
    Bool.false_eq_true]
  rw [ntfs_fix_problem_yes vol1 PR_ATTR_NON_RESIDENT_SIZES_MISMATCH ⟨14, 0⟩ _ _ rfl hyes]
  rfl

/-- In No mode `ntfs_fix_problem` refuses and leaves standard input as it
is. -/
theorem ntfs_fix_problem_no (vol : Volume) (code : Nat) (pctx : Option problem_context)
    (stdin : List String) (h : mode_no vol.option_flags) :
    ∃ pctx1 out, ntfs_fix_problem vol code pctx stdin = some (false, pctx1, stdin, out) := by
  obtain ⟨hno, _, hpreen, _, _⟩ := h
  unfold ntfs_fix_problem
  cases find_problem code with
  | none => exact ⟨_, _, rfl⟩
  | some p =>
    simp only [hpreen, hno, Bool.false_eq_true, and_false, if_false, and_true]
    by_cases hf : p.flags &&& PR_NO_NOMSG ≠ 0
    · rw [if_pos hf]
      exact ⟨_, _, rfl⟩
    · rw [if_neg hf]
      simp only [ne_eq, not_true_eq_false, if_false, ntfs_ask_repair, NVolFsNoRepair, hno,
        Bool.true_or, if_true]
      exact ⟨_, _, rfl⟩

theorem engine_ok_mono (pages k k' : Nat) (lcn length : Int) (hk : k' ≤ k)
    (h : engine_ok pages k lcn length = true) : engine_ok pages k' lcn length = true := by
  unfold engine_ok at h ⊢
  simp only [decide_eq_true_eq] at h ⊢
  rcases h with h | ⟨h1, h2, h3⟩
  · exact Or.inl h
  · exact Or.inr ⟨h1, h2, by omega⟩

theorem get_at_pre_length (pre rest : List runlist_element) (x : runlist_element) :
    (pre ++ x :: rest).get? ((pre.length : Int)).toNat = some x := by
  rw [Int.toNat_natCast]
  induction pre with
  | nil => rfl
  | cons p ps ih => simpa using ih

/-- What the walk of `ntfsck_check_runlist` does to the FCB, for either bit:
where it comes to its end, the clusters of `walk_cover` have taken the bit and
the others have kept theirs; and it comes to its end under the condition
`walk_ok`. -/
theorem walk_fcb (bit type csb : Nat) (hbit : bit ≤ 1) :
    ∀ (rest pre : List runlist_element) (vol : Volume) (dup : Option (List runlist_element))
      (a d : Int) (k : Nat), dup_len dup ≤ k →
      (∃ st, check_runlist_walk bit type csb pre rest vol dup a d = some st ∧
        st.vol.nr_clusters = vol.nr_clusters ∧ st.vol.max_flb_cnt = vol.max_flb_cnt ∧
        st.vol.option_flags = vol.option_flags ∧
        ∀ c : Nat, fcb_bit st.vol c =
          if walk_cover vol.nr_clusters rest c = true then decide (bit = 1) else fcb_bit vol c) ∨
      (check_runlist_walk bit type csb pre rest vol dup a d = none ∧
        walk_ok vol.nr_clusters vol.max_flb_cnt k rest = false) := by
  intro rest
  induction rest with
  | nil =>
    intro pre vol dup a d k _
    right
    exact ⟨by simp only [check_runlist_walk], rfl⟩
  | cons e rest ih =>
    intro pre vol dup a d k hk
    simp only [check_runlist_walk, walk_ok]
    by_cases hl : e.length = 0
    · left
      rw [if_pos hl]
      refine ⟨_, rfl, rfl, rfl, rfl, ?_⟩
      intro c
      simp [walk_cover, hl]
    · rw [if_neg hl, if_neg hl]
      by_cases hh : e.lcn > LCN_HOLE
      · rw [if_pos hh, if_pos hh]
        by_cases hb : e.lcn ≥ vol.nr_clusters
        · left
          rw [if_pos hb]
          refine ⟨_, rfl, rfl, rfl, rfl, ?_⟩
          intro c
          simp [walk_cover, hl, hh, hb]
        · rw [if_neg hb, if_neg hb]
          have hlcn0 : 0 ≤ e.lcn := by unfold LCN_HOLE at hh; omega
          have hcl : (if s64_of (e.lcn + e.length) ≥ vol.nr_clusters then vol.nr_clusters - e.lcn
              else e.length)
              = (if s64_of (e.lcn + e.length) ≥ vol.nr_clusters then
                  ({ e with length := vol.nr_clusters - e.lcn } : runlist_element)
                else e).length := by
            split_ifs <;> rfl
          have hcc : (if s64_of (e.lcn + e.length) ≥ vol.nr_clusters then
                  ({ e with length := vol.nr_clusters - e.lcn } : runlist_element)
                else e).lcn = e.lcn := by
            split_ifs <;> rfl
          have hcov : ∀ c, walk_cover vol.nr_clusters (e :: rest) c =
              (engine_cover e.lcn (if s64_of (e.lcn + e.length) ≥ vol.nr_clusters then
                  ({ e with length := vol.nr_clusters - e.lcn } : runlist_element)
                else e).length c || walk_cover vol.nr_clusters rest c) := by
            intro c
            simp only [walk_cover, if_neg hl, if_pos hh, if_neg hb, hcl]
          rw [hcl]
          generalize (if s64_of (e.lcn + e.length) ≥ vol.nr_clusters then
                  ({ e with length := vol.nr_clusters - e.lcn } : runlist_element)
                else e) = e1 at hcc hcov ⊢
          have hget := get_at_pre_length pre rest e1
          have hidx : (0 : Int) ≤ (pre.length : Int) := Int.natCast_nonneg _
          have hfail : ¬ (∃ d1 v1, ntfs_fsck_check_and_set_lcnbmp vol
                (some { type := type, rl := some (pre ++ e1 :: rest) }) (pre.length : Int) bit dup
                = some (Run.done (d1, v1))) →
              (engine_ok vol.max_flb_cnt k e.lcn e1.length &&
                walk_ok vol.nr_clusters vol.max_flb_cnt (k + e1.length.toNat + 1) rest) = false := by
            intro hnd
            cases hok : engine_ok vol.max_flb_cnt k e.lcn e1.length with
            | false => rfl
            | true =>
              exfalso
              obtain ⟨d1, v1, hd, _⟩ := check_and_set_done vol
                { type := type, rl := some (pre ++ e1 :: rest) } (pre ++ e1 :: rest)
                (pre.length : Int) e1 dup bit hbit rfl hidx hget (by omega)
                (engine_ok_mono _ _ _ _ _ hk (by rw [hcc]; exact hok))
              exact hnd ⟨d1, v1, hd⟩
          cases hE : ntfs_fsck_check_and_set_lcnbmp vol
              (some { type := type, rl := some (pre ++ e1 :: rest) }) (pre.length : Int) bit dup with
          | none =>
            right
            refine ⟨rfl, hfail ?_⟩
            rintro ⟨d1, v1, hd⟩
            rw [hE] at hd
            cases hd
          | some x =>
            cases x with
            | dup_overrun =>
              right
              refine ⟨rfl, hfail ?_⟩
              rintro ⟨d1, v1, hd⟩
              rw [hE] at hd
              cases hd
            | done y =>
              obtain ⟨d1, v1⟩ := y
              dsimp only
              obtain ⟨hn, hm, hf, hbits⟩ := check_and_set_cover vol
                { type := type, rl := some (pre ++ e1 :: rest) } (pre ++ e1 :: rest)
                (pre.length : Int) e1 dup d1 bit v1 hbit rfl hidx hget (by omega) hE
              obtain ⟨k1, hk1, hk2⟩ : ∃ k1 : Nat, dup_len d1 ≤ k1 ∧
                  (walk_ok vol.nr_clusters vol.max_flb_cnt k1 rest = false →
                    (engine_ok vol.max_flb_cnt k e.lcn e1.length &&
                      walk_ok vol.nr_clusters vol.max_flb_cnt (k + e1.length.toNat + 1) rest)
                      = false) := by
                cases hok : engine_ok vol.max_flb_cnt k e.lcn e1.length with
                | false => exact ⟨dup_len d1, le_refl _, fun _ => rfl⟩
                | true =>
                  obtain ⟨d2, v2, hd, hgrow⟩ := check_and_set_done vol
                    { type := type, rl := some (pre ++ e1 :: rest) } (pre ++ e1 :: rest)
                    (pre.length : Int) e1 dup bit hbit rfl hidx hget (by omega)
                    (engine_ok_mono _ _ _ _ _ hk (by rw [hcc]; exact hok))
                  rw [hE] at hd
                  cases hd
                  refine ⟨k + e1.length.toNat + 1, by omega, fun h => ?_⟩
                  rw [h, Bool.and_false]
              rcases ih (pre ++ [e1]) v1 d1 (s64_of (a + s64_of (shl e1.length csb)))
                  (s64_of (d + s64_of (shl e1.length csb))) k1 hk1
                with ⟨st, hst, g1, g2, g3, g4⟩ | ⟨hnone, hends⟩
              · left
                refine ⟨st, hst, g1.trans hn, g2.trans hm, g3.trans hf, ?_⟩
                intro c
                rw [g4 c, hbits c, hn, hcov c, hcc]
                by_cases hc1 : walk_cover vol.nr_clusters rest c = true
                · simp [hc1]
                · have hc1f : walk_cover vol.nr_clusters rest c = false := by
                    cases hw : walk_cover vol.nr_clusters rest c
                    · rfl
                    · exact absurd hw hc1
                  rw [if_neg hc1]
                  simp only [hc1f, Bool.or_false]
              · right
                rw [hn, hm] at hends
                exact ⟨hnone, hk2 hends⟩
      · rw [if_neg hh, if_neg hh]
        by_cases hhole : e.lcn = LCN_HOLE
        · rw [if_pos hhole, if_pos hhole]
          rcases ih (pre ++ [e]) vol dup (s64_of (a + s64_of (shl e.length csb))) d k hk
            with ⟨st, hst, g1, g2, g3, g4⟩ | ⟨hnone, hends⟩
          · left
            refine ⟨st, hst, g1, g2, g3, ?_⟩
            intro c
            have hcov : walk_cover vol.nr_clusters (e :: rest) c
                = walk_cover vol.nr_clusters rest c := by
              simp only [walk_cover, if_neg hl, if_neg hh, if_pos hhole]
            rw [g4 c, hcov]
          · right
            exact ⟨hnone, hends⟩
        · left
          rw [if_neg hhole]
          refine ⟨_, rfl, rfl, rfl, rfl, ?_⟩
          intro c
          simp [walk_cover, hl, hh, hhole]
/-- In No mode `ntfsck_check_runlist` repairs nothing: it returns `STATUS_OK`,
leaves standard input, and the FCB is what the walk has made of it; or the
condition `walk_ok` fails. -/
theorem check_runlist_fcb
    (repair : List runlist_element → List runlist_element → List runlist_element)
    (vol : Volume) (csb type : Nat) (rl : List runlist_element) (bit : Nat) (hbit : bit ≤ 1)
    (rls : rl_size) (nf : Bool) (stdin : List String)
    (hno : mode_no vol.option_flags) :
    (∃ r, ntfsck_check_runlist repair vol csb (some { type := type, rl := some rl }) bit
          (some rls) (some nf) stdin = some r ∧
        r.status = STATUS_OK ∧ r.stdin = stdin ∧ r.vol.nr_clusters = vol.nr_clusters ∧
        r.vol.max_flb_cnt = vol.max_flb_cnt ∧ r.vol.option_flags = vol.option_flags ∧
        ∀ c : Nat, fcb_bit r.vol c =
          if walk_cover vol.nr_clusters rl c = true then decide (bit = 1) else fcb_bit vol c) ∨
    (ntfsck_check_runlist repair vol csb (some { type := type, rl := some rl }) bit
          (some rls) (some nf) stdin = none ∧
      walk_ok vol.nr_clusters vol.max_flb_cnt 0 rl = false) := by
  rcases walk_fcb bit type csb hbit rl [] vol none 0 0 0 (le_refl _)
    with ⟨st, hst, g1, g2, g3, g4⟩ | ⟨hnone, hends⟩
  · left
    simp only [ntfsck_check_runlist, hst]
    cases hd : st.dup_rl with
    | none => exact ⟨_, rfl, rfl, rfl, g1, g2, g3, g4⟩
    | some dup =>
      obtain ⟨p, out, hfix⟩ := ntfs_fix_problem_no st.vol PR_CLUSTER_DUPLICATION_FOUND
        (some ⟨0⟩) stdin (by rw [g3]; exact hno)
      simp only [hfix]
      exact ⟨_, rfl, rfl, rfl, g1, g2, g3, g4⟩
  · right
    simp only [ntfsck_check_runlist, hnone]
    exact ⟨trivial, hends⟩

/-- In No mode `ntfsck_check_non_resident_attr` returns `STATUS_OK`, leaves the
attribute record and standard input, and the FCB is what the walk of the
runlist has made of it; or the condition `walk_ok` fails for the runlist. -/
theorem check_nr_attr_fcb (env : NrEnv) (vol : Volume) (a : InoAttr) (bit : Nat) (hbit : bit ≤ 1)
    (ctr : Counters) (stdin : List String)
    (hno : mode_no vol.option_flags) (hnr : a.non_resident = true) :
    (∃ r, ntfsck_check_non_resident_attr env vol a bit ctr stdin = some r ∧
        r.ret = STATUS_OK ∧ r.attr = a ∧ r.stdin = stdin ∧ r.vol.nr_clusters = vol.nr_clusters ∧
        r.vol.max_flb_cnt = vol.max_flb_cnt ∧ r.vol.option_flags = vol.option_flags ∧
        ∀ c : Nat, fcb_bit r.vol c =
          if (match a.rl with
              | none => false
              | some rl => walk_cover vol.nr_clusters rl c) = true then decide (bit = 1)
          else fcb_bit vol c) ∨
    (ntfsck_check_non_resident_attr env vol a bit ctr stdin = none ∧
      (match a.rl with
       | none => true
       | some rl => walk_ok vol.nr_clusters vol.max_flb_cnt 0 rl) = false) := by
  have hne : STATUS_ERROR ≠ STATUS_OK := by decide
  -- the runlist stage
  have hstage : (∃ q, __ntfsck_check_non_resident_attr env vol a ⟨0, 0⟩ bit ctr stdin = some q ∧
        q.attr = a ∧ q.stdin = stdin ∧ q.vol.nr_clusters = vol.nr_clusters ∧
        q.vol.max_flb_cnt = vol.max_flb_cnt ∧ q.vol.option_flags = vol.option_flags ∧
        ∀ c : Nat, fcb_bit q.vol c =
          if (match a.rl with
              | none => false
              | some rl => walk_cover vol.nr_clusters rl c) = true then decide (bit = 1)
          else fcb_bit vol c) ∨
      (__ntfsck_check_non_resident_attr env vol a ⟨0, 0⟩ bit ctr stdin = none ∧
        (match a.rl with
         | none => true
         | some rl => walk_ok vol.nr_clusters vol.max_flb_cnt 0 rl) = false) := by
    cases hrl : a.rl with
    | none =>
      left
      simp only [__ntfsck_check_non_resident_attr, ntfsck_check_attr_runlist, hrl, ne_eq, hne,
        not_false_eq_true, if_true]
      refine ⟨_, rfl, rfl, rfl, rfl, rfl, rfl, ?_⟩
      intro c
      simp
    | some rl =>
      rcases check_runlist_fcb env.repair vol env.cluster_size_bits a.type rl bit hbit ⟨0, 0⟩
          a.need_fix stdin hno with ⟨r, hr, k1, k2, k3, k4, k5, k6⟩ | ⟨hnone, hends⟩
      · left
        simp only [__ntfsck_check_non_resident_attr, ntfsck_check_attr_runlist, hrl, hr, k1, ne_eq,
          not_true_eq_false, if_false]
        by_cases hnf : r.need_fix = some true
        · rw [if_pos hnf]
          obtain ⟨p, out, hfix⟩ := ntfs_fix_problem_no r.vol PR_LOG_APPLY_RUNLIST_TO_DISK
            (some ⟨0⟩) r.stdin (by rw [k5]; exact hno)
          simp only [hfix, Bool.false_eq_true, if_false]
          exact ⟨_, rfl, rfl, k2, k3, k4, k5, k6⟩
        · rw [if_neg hnf]
          exact ⟨_, rfl, rfl, k2, k3, k4, k5, k6⟩
      · right
        simp only [__ntfsck_check_non_resident_attr, ntfsck_check_attr_runlist, hrl, hnone]
        exact ⟨trivial, hends⟩
  rcases hstage with ⟨q, hq, q1, q2, q3, q4, q5, q6⟩ | ⟨hnone, hends⟩
  · left
    simp only [ntfsck_check_non_resident_attr, hnr, Bool.not_true, Bool.false_eq_true, if_false,
      hq]
    by_cases c1 : q.ret ≠ STATUS_OK
    · rw [if_pos c1]
      exact ⟨_, rfl, rfl, q1, q2, q3, q4, q5, q6⟩
    · rw [if_neg c1]
      by_cases c2 : env.is_metadata = true
      · rw [if_pos c2]
        exact ⟨_, rfl, rfl, q1, q2, q3, q4, q5, q6⟩
      · rw [if_neg c2]
        by_cases c3 : q.attr.lowest_vcn ≠ 0
        · rw [if_pos c3]
          exact ⟨_, rfl, rfl, q1, q2, q3, q4, q5, q6⟩
        · rw [if_neg c3]
          generalize (if q.attr.allocated_size ≠ q.rls.alloc_size ∨
              q.attr.data_size > q.attr.allocated_size then some (0 : Int)
            else if aligned_data_size q.attr.data_size env.cluster_size ≤ q.attr.allocated_size
              then none
            else some q.attr.allocated_size) = ns
          cases ns with
          | none => exact ⟨_, rfl, rfl, q1, q2, q3, q4, q5, q6⟩
          | some n =>
            obtain ⟨p, out, hfix⟩ := ntfs_fix_problem_no q.vol PR_ATTR_NON_RESIDENT_SIZES_MISMATCH
              (some ⟨0⟩) q.stdin (by rw [q5]; exact hno)
            simp only [hfix, Bool.not_false, if_true]
            exact ⟨_, rfl, rfl, q1, q2, q3, q4, q5, q6⟩
  · right
    simp only [ntfsck_check_non_resident_attr, hnr, Bool.not_true, Bool.false_eq_true, if_false,
      hnone]
    exact ⟨trivial, hends⟩

/-- In No mode the walk of `ntfsck_check_inode_non_resident` leaves the
attribute records and standard input, and the clusters of `inode_cover` have
taken the bit while the others have kept theirs; or the condition `inode_ok`
fails for the records. -/
theorem inr_walk_fcb (env : NrEnv) (bit : Nat) (hbit : bit ≤ 1) :
    ∀ (attrs seen : List InoAttr) (vol : Volume) (ctr : Counters) (stdin : List String),
      mode_no vol.option_flags →
      (∃ r, inr_walk env bit attrs seen vol ctr stdin = some r ∧
        r.attrs = seen ++ attrs ∧ r.stdin = stdin ∧ r.vol.nr_clusters = vol.nr_clusters ∧
        r.vol.max_flb_cnt = vol.max_flb_cnt ∧ r.vol.option_flags = vol.option_flags ∧
        ∀ c : Nat, fcb_bit r.vol c =
          if inode_cover vol.nr_clusters attrs c = true then decide (bit = 1)
          else fcb_bit vol c) ∨
      (inr_walk env bit attrs seen vol ctr stdin = none ∧
        inode_ok vol.nr_clusters vol.max_flb_cnt attrs = false) := by
  intro attrs
  induction attrs with
  | nil =>
    intro seen vol ctr stdin _
    left
    refine ⟨_, rfl, (List.append_nil seen).symm, rfl, rfl, rfl, rfl, ?_⟩
    intro c
    simp [inode_cover]
  | cons a rest ih =>
    intro seen vol ctr stdin hno
    have happ : seen ++ [a] ++ rest = seen ++ a :: rest := by simp
    simp only [inr_walk]
    by_cases c1 : a.non_resident = false
    · have hcov : ∀ c, inode_cover vol.nr_clusters (a :: rest) c
          = inode_cover vol.nr_clusters rest c := by
        intro c; simp [inode_cover, c1]
      have hend : inode_ok vol.nr_clusters vol.max_flb_cnt (a :: rest) = inode_ok vol.nr_clusters vol.max_flb_cnt rest := by
        simp [inode_ok, c1]
      simp only [c1, Bool.not_false, if_true]
      rcases ih (seen ++ [a]) vol ctr stdin hno
        with ⟨r, hr, k1, k2, k3, k4, k5, k6⟩ | ⟨hnone, hends⟩
      · left
        refine ⟨r, hr, k1.trans happ, k2, k3, k4, k5, ?_⟩
        intro c
        rw [k6 c, hcov c]
      · right
        exact ⟨hnone, hend.trans hends⟩
    · have c1t : a.non_resident = true := by
        cases h : a.non_resident
        · exact absurd h c1
        · rfl
      simp only [c1t, Bool.not_true, Bool.false_eq_true, if_false]
      by_cases c2 : a.type ≥ AT_FIRST_USER_DEFINED_ATTRIBUTE
      · have hcov : ∀ c, inode_cover vol.nr_clusters (a :: rest) c
            = inode_cover vol.nr_clusters rest c := by
          intro c; simp [inode_cover, c1t, c2]
        have hend : inode_ok vol.nr_clusters vol.max_flb_cnt (a :: rest) = inode_ok vol.nr_clusters vol.max_flb_cnt rest := by
          simp [inode_ok, c1t, c2]
        rw [if_pos c2]
        rcases ih (seen ++ [a]) vol ctr stdin hno
          with ⟨r, hr, k1, k2, k3, k4, k5, k6⟩ | ⟨hnone, hends⟩
        · left
          refine ⟨r, hr, k1.trans happ, k2, k3, k4, k5, ?_⟩
          intro c
          rw [k6 c, hcov c]
        · right
          exact ⟨hnone, hend.trans hends⟩
      · rw [if_neg c2]
        by_cases c3 : a.lowest_vcn ≠ 0
        · have hcov : ∀ c, inode_cover vol.nr_clusters (a :: rest) c
              = inode_cover vol.nr_clusters rest c := by
            intro c; simp [inode_cover, c1t, c2, c3]
          have hend : inode_ok vol.nr_clusters vol.max_flb_cnt (a :: rest)
              = inode_ok vol.nr_clusters vol.max_flb_cnt rest := by
            simp [inode_ok, c1t, c2, c3]
          rw [if_pos c3]
          rcases ih (seen ++ [a]) vol ctr stdin hno
            with ⟨r, hr, k1, k2, k3, k4, k5, k6⟩ | ⟨hnone, hends⟩
          · left
            refine ⟨r, hr, k1.trans happ, k2, k3, k4, k5, ?_⟩
            intro c
            rw [k6 c, hcov c]
          · right
            exact ⟨hnone, hend.trans hends⟩
        · rw [if_neg c3]
          have c3e : a.lowest_vcn = 0 := not_not.mp c3
          by_cases c4 : a.opens = false
          · left
            simp only [c4, Bool.not_false, if_true]
            refine ⟨_, rfl, rfl, rfl, rfl, rfl, rfl, ?_⟩
            intro c
            simp [inode_cover, c1t, c2, c3e, c4]
          · have c4t : a.opens = true := by
              cases h : a.opens
              · exact absurd h c4
              · rfl
            simp only [c4t, Bool.not_true, Bool.false_eq_true, if_false]
            have hcov : ∀ c, inode_cover vol.nr_clusters (a :: rest) c
                = ((match a.rl with
                    | none => false
                    | some rl => walk_cover vol.nr_clusters rl c)
                  || inode_cover vol.nr_clusters rest c) := by
              intro c; simp [inode_cover, c1t, c2, c3e, c4t]
            have hend : inode_ok vol.nr_clusters vol.max_flb_cnt (a :: rest)
                = ((match a.rl with
                    | none => true
                    | some rl => walk_ok vol.nr_clusters vol.max_flb_cnt 0 rl)
                  && inode_ok vol.nr_clusters vol.max_flb_cnt rest) := by
              simp [inode_ok, c1t, c2, c3e, c4t]
            rcases check_nr_attr_fcb env vol a bit hbit ctr stdin hno c1t
              with ⟨q, hq, q1, q2, q3, q4, q5, q6, q7⟩ | ⟨hnone, hends⟩
            · rw [hq]
              dsimp only
              have hq0 : ¬ (q.ret ≠ 0) := by
                rw [q1]; decide
              rw [if_neg hq0]
              rcases ih (seen ++ [q.attr]) q.vol q.ctr q.stdin (by rw [q6]; exact hno)
                with ⟨r, hr, k1, k2, k3, k4, k5, k6⟩ | ⟨hnone, hends⟩
              · left
                refine ⟨r, hr, ?_, k2.trans q3, k3.trans q4, k4.trans q5, k5.trans q6, ?_⟩
                · rw [k1, q2]; exact happ
                · intro c
                  rw [k6 c, q7 c, q4, hcov c]
                  by_cases hc1 : inode_cover vol.nr_clusters rest c = true
                  · simp [hc1]
                  · have hc1f : inode_cover vol.nr_clusters rest c = false := by
                      cases hw : inode_cover vol.nr_clusters rest c
                      · rfl
                      · exact absurd hw hc1
                    rw [if_neg hc1]
                    simp [hc1f]
              · right
                rw [q4, q5] at hends
                refine ⟨hnone, ?_⟩
                rw [hend, hends, Bool.and_false]
            · right
              rw [hnone]
              refine ⟨rfl, ?_⟩
              rw [hend, hends, Bool.false_and]

/-- One pass of `ntfsck_check_inode_non_resident` in No mode, for either
bit. -/
theorem check_inode_non_resident_fcb (env : NrEnv) (bit : Nat) (hbit : bit ≤ 1)
    (attrs : List InoAttr) (vol : Volume) (ctr : Counters) (stdin : List String)
    (hno : mode_no vol.option_flags) :
    (∃ r, ntfsck_check_inode_non_resident env vol attrs bit ctr stdin = some r ∧
      r.attrs = attrs ∧ r.stdin = stdin ∧ r.vol.nr_clusters = vol.nr_clusters ∧
      r.vol.max_flb_cnt = vol.max_flb_cnt ∧ r.vol.option_flags = vol.option_flags ∧
      ∀ c : Nat, fcb_bit r.vol c =
        if (env.ctx_ok && inode_cover vol.nr_clusters attrs c) = true then decide (bit = 1)
        else fcb_bit vol c) ∨
    (ntfsck_check_inode_non_resident env vol attrs bit ctr stdin = none ∧
      inode_ok vol.nr_clusters vol.max_flb_cnt attrs = false) := by
  unfold ntfsck_check_inode_non_resident
  cases hctx : env.ctx_ok with
  | false =>
    left
    simp only [Bool.not_false, if_true]
    refine ⟨_, rfl, rfl, rfl, rfl, rfl, rfl, ?_⟩
    intro c
    simp
  | true =>
    simp only [Bool.not_true, Bool.false_eq_true, if_false, Bool.true_and]
    rcases inr_walk_fcb env bit hbit attrs [] vol ctr stdin hno
      with ⟨r, hr, k1, k2, k3, k4, k5, k6⟩ | ⟨hnone, hends⟩
    · left
      exact ⟨r, hr, by rw [k1]; rfl, k2, k3, k4, k5, k6⟩
    · right
      exact ⟨hnone, hends⟩

/-- The label `err_out` of `ntfsck_check_inode` in No mode, after a first pass
that has set the clusters of the inode: the rollback pass clears every one of
them. -/
theorem check_inode_err_out_fcb (env : NrEnv) (attrs : List InoAttr) (vol vol1 : Volume)
    (ctr : Counters) (stdin : List String)
    (hno : mode_no vol1.option_flags) (hnr : vol1.nr_clusters = vol.nr_clusters)
    (hmx : vol1.max_flb_cnt = vol.max_flb_cnt)
    (h1 : ∀ c : Nat, fcb_bit vol1 c =
      if (env.ctx_ok && inode_cover vol.nr_clusters attrs c) = true then true
      else fcb_bit vol c) :
    (∃ r, check_inode_err_out env vol1 attrs ctr stdin = some r ∧ r.ret = STATUS_ERROR ∧
      ∀ c : Nat, fcb_bit r.vol c =
        if (env.ctx_ok && inode_cover vol.nr_clusters attrs c) = true then false
        else fcb_bit vol c) ∨
    (check_inode_err_out env vol1 attrs ctr stdin = none ∧
      inode_ok vol.nr_clusters vol.max_flb_cnt attrs = false) := by
  unfold check_inode_err_out
  rcases check_inode_non_resident_fcb env 0 (by decide) attrs vol1 ctr stdin hno
    with ⟨r, hr, _, _, _, _, _, k6⟩ | ⟨hnone, hends⟩
  · left
    rw [hr]
    refine ⟨_, rfl, rfl, ?_⟩
    intro c
    show fcb_bit r.vol c = _
    rw [k6 c, hnr, h1 c]
    split_ifs <;> simp_all
  · right
    rw [hnone]
    rw [hnr, hmx] at hends
    exact ⟨rfl, hends⟩

/-- The whole of `ntfsck_check_inode` in No mode, where the later checks, when
they fail, leave the volume and the attribute records as they are: the call
returns `STATUS_OK` after later checks that succeeded, or `STATUS_ERROR` with
an FCB in which every cluster of the inode is clear and every other cluster is
as before the call; or the condition `inode_ok` fails for the records. -/
theorem check_inode_fcb (env : NrEnv) (attrs : List InoAttr) (vol : Volume) (ctr : Counters)
    (stdin : List String)
    (hno : mode_no vol.option_flags)
    (hl : ∀ v c s, (env.later v attrs c s).ok = false →
      (env.later v attrs c s).vol = v ∧ (env.later v attrs c s).attrs = attrs) :
    (∃ r, ntfsck_check_inode env vol attrs ctr stdin = some r ∧
      ((r.ret = STATUS_OK ∧ ∃ v c s, (env.later v attrs c s).ok = true) ∨
       (r.ret = STATUS_ERROR ∧
        ∀ c : Nat, fcb_bit r.vol c =
          if (env.ctx_ok && inode_cover vol.nr_clusters attrs c) = true then false
          else fcb_bit vol c))) ∨
    (ntfsck_check_inode env vol attrs ctr stdin = none ∧
      inode_ok vol.nr_clusters vol.max_flb_cnt attrs = false) := by
  unfold ntfsck_check_inode
  rcases check_inode_non_resident_fcb env 1 (by decide) attrs vol ctr stdin hno
    with ⟨r1, hr1, k1, k2, k3, k4, k5, k6⟩ | ⟨hnone, hends⟩
  · rw [hr1]
    dsimp only
    have hno1 : mode_no r1.vol.option_flags := by rw [k5]; exact hno
    have hset : ∀ c : Nat, fcb_bit r1.vol c =
        if (env.ctx_ok && inode_cover vol.nr_clusters attrs c) = true then true
        else fcb_bit vol c := by
      intro c
      rw [k6 c]
      simp
    by_cases hret : r1.ret ≠ 0
    · rw [if_pos hret, k1]
      rcases check_inode_err_out_fcb env attrs vol r1.vol r1.ctr r1.stdin hno1 k3 k4 hset
        with ⟨r, hr, g1, g2⟩ | ⟨hnone, hends⟩
      · left
        exact ⟨r, hr, Or.inr ⟨g1, g2⟩⟩
      · right
        exact ⟨hnone, hends⟩
    · rw [if_neg hret, k1]
      cases hok : (env.later r1.vol attrs r1.ctr r1.stdin).ok with
      | true =>
        left
        simp only [if_true]
        exact ⟨_, rfl, Or.inl ⟨rfl, _, _, _, hok⟩⟩
      | false =>
        simp only [Bool.false_eq_true, if_false]
        obtain ⟨l1, l2⟩ := hl r1.vol r1.ctr r1.stdin hok
        rw [l1, l2]
        rcases check_inode_err_out_fcb env attrs vol r1.vol
            (env.later r1.vol attrs r1.ctr r1.stdin).ctr
            (env.later r1.vol attrs r1.ctr r1.stdin).stdin hno1 k3 k4 hset
          with ⟨r, hr, g1, g2⟩ | ⟨hnone, hends⟩
        · left
          exact ⟨r, hr, Or.inr ⟨g1, g2⟩⟩
        · right
          exact ⟨hnone, hends⟩
  · right
    rw [hnone]
    exact ⟨rfl, hends⟩

/-- The clusters of an inode with the one attribute `a`, whose runlist is the one
cluster `lcn` inside the volume. -/
theorem inode_cover_one_cluster (nr lcn : Int) (a : InoAttr) (c : Nat) (h0 : 0 ≤ lcn)
    (h1 : lcn + 1 < nr) (h2 : nr ≤ 2 ^ 63) (hnr : a.non_resident = true)
    (hty : ¬ a.type ≥ AT_FIRST_USER_DEFINED_ATTRIBUTE) (hlv : a.lowest_vcn = 0)
    (hop : a.opens = true) (hrl : a.rl = some [⟨0, lcn, 1⟩, ⟨1, LCN_ENOENT, 0⟩]) :
    inode_cover nr [a] c = decide ((c : Int) = lcn) := by
  have hs : s64_of (lcn + 1) = lcn + 1 :=
    s64_of_id _ (by have : (0 : Int) < 2 ^ 63 := by norm_num
                    omega) (by omega)
  have c1 : ¬ (runlist_element.mk 0 lcn 1).length = 0 := by
    show ¬ ((1 : Int) = 0)
    decide
  have c2 : (runlist_element.mk 0 lcn 1).lcn > LCN_HOLE := by
    show lcn > -1
    omega
  have c3 : ¬ (runlist_element.mk 0 lcn 1).lcn ≥ nr := by
    show ¬ lcn ≥ nr
    omega
  have c4 : ¬ s64_of ((runlist_element.mk 0 lcn 1).lcn + (runlist_element.mk 0 lcn 1).length)
      ≥ nr := by
    show ¬ s64_of (lcn + 1) ≥ nr
    rw [hs]
    omega
  have c5 : (runlist_element.mk 1 LCN_ENOENT 0).length = 0 := rfl
  simp only [inode_cover, hnr, Bool.not_true, Bool.false_eq_true, if_false, if_neg hty, hlv, ne_eq,
    not_true_eq_false, hop, hrl, walk_cover, if_neg c1, if_pos c2, if_neg c3, if_neg c4, c5,
    if_true, Bool.or_false]
  rw [engine_cover_plain lcn 1 c h0 (by omega)]
  simp only [decide_eq_decide]
  omega

theorem mode_no_flags_n : mode_no flags_n := ⟨rfl, rfl, rfl, rfl, rfl⟩

/-- The label `err_out` of `ntfsck_check_inode` returns what the rollback pass
returns, with the value STATUS_ERROR. -/
theorem check_inode_err_out_some (env : NrEnv) (vol : Volume) (attrs : List InoAttr)
    (ctr : Counters) (stdin : List String) (r : InodeResult)
    (h : ntfsck_check_inode_non_resident env vol attrs 0 ctr stdin = some r) :
    check_inode_err_out env vol attrs ctr stdin = some { r with ret := STATUS_ERROR } := by
  unfold check_inode_err_out
  rw [h]

/-- `ntfsck_check_inode_non_resident` on an inode with one attribute record that
the loop hands to `ntfsck_check_non_resident_attr`, which returns 0. -/
theorem check_inode_non_resident_single (env : NrEnv) (vol : Volume) (a : InoAttr)
    (set_bit : Nat) (ctr : Counters) (stdin : List String) (r : NrResult)
    (hc : env.ctx_ok = true) (hw : env.walk_enoent = true) (ha1 : a.non_resident = true)
    (ha2 : ¬ a.type ≥ AT_FIRST_USER_DEFINED_ATTRIBUTE) (ha3 : a.lowest_vcn = 0)
    (ha4 : a.opens = true)
    (h : ntfsck_check_non_resident_attr env vol a set_bit ctr stdin = some r)
    (hret : r.ret = 0) :
    ntfsck_check_inode_non_resident env vol [a] set_bit ctr stdin
      = some { ret := STATUS_OK, vol := r.vol, attrs := [r.attr], ctr := r.ctr,
               stdin := r.stdin } := by
  have hr : ¬ (r.ret ≠ 0) := by
    rw [hret]; decide
  simp only [ntfsck_check_inode_non_resident, hc, Bool.not_true, Bool.false_eq_true, if_false,
    inr_walk, ha1, if_neg ha2, ha3, ne_eq, not_true_eq_false, ha4, h, hw, if_true]
  rw [if_neg hr]
  rfl

/-- C17 (as stated, refuted), three runs of `ntfsck_check_inode` that return
`STATUS_ERROR` with an FCB that differs from the FCB before the call.  (1)
`ntfsck -n`, the cluster 10 claimed in the FCB by another attribute, an inode
whose `$DATA` attribute has the one cluster 10, and later checks that fail:
cluster 10, set before the call, is clear after it.  (2) `ntfsck -y`, an inode
whose `$DATA` attribute has the one free cluster 11 and `allocated_size = 8192`:
the first pass sets cluster 11 and, the fix of the sizes being granted, shrinks
the attribute to the size 0; the rollback pass walks the empty runlist, and
cluster 11, clear before the call, is set after it.  (3) `ntfsck -n`, a
directory with a `$BITMAP` attribute of the one free cluster 11 and no
`$INDEX_ALLOCATION`: the first pass sets cluster 11, `ntfsck_check_directory`
removes the `$BITMAP` record, a later check fails, and the rollback pass finds
no record to walk: cluster 11, clear before the call, is set after it. -/
theorem check_inode_rollback_not_restoring :
    (∃ r, ntfsck_check_inode env_4096 vol_10_12_n [data_attr 10 4096 4096] ⟨0, 0⟩ [] = some r ∧
      r.ret = STATUS_ERROR ∧ fcb_bit vol_10_12_n 10 = true ∧ fcb_bit r.vol 10 = false) ∧
    (∃ r, ntfsck_check_inode env_shrink vol_10_12 [data_attr 11 4096 8192] ⟨0, 0⟩ [] = some r ∧
      r.ret = STATUS_ERROR ∧ fcb_bit vol_10_12 11 = false ∧ fcb_bit r.vol 11 = true) ∧
    (∃ r, ntfsck_check_inode env_rm_bitmap vol_10_12_n [bitmap_attr 11] ⟨0, 0⟩ [] = some r ∧
      r.ret = STATUS_ERROR ∧ fcb_bit vol_10_12_n 11 = false ∧ fcb_bit r.vol 11 = true) := by
  refine ⟨?_, ?_, ?_⟩
  · rcases check_inode_fcb env_4096 [data_attr 10 4096 4096] vol_10_12_n ⟨0, 0⟩ []
        mode_no_flags_n (fun _ _ _ _ => ⟨rfl, rfl⟩)
      with ⟨r, hr, hcase⟩ | ⟨_, hends⟩
    · rcases hcase with ⟨_, _, _, _, hok⟩ | ⟨hret, hfcb⟩
      · exact absurd hok (by simp [env_4096])
      · refine ⟨r, hr, hret, by decide, ?_⟩
        rw [hfcb 10, inode_cover_one_cluster vol_10_12_n.nr_clusters 10 (data_attr 10 4096 4096)
          10 (by decide) (by decide) (by show (1000 : Int) ≤ 2 ^ 63; norm_num) rfl (by decide)
          rfl rfl rfl]
        rfl
    · exact absurd hends (by decide)
  · obtain ⟨vol1, hrun, hfl, _, _, hbits⟩ := check_runlist_11_run false
    have hyes : mode_yes vol1.option_flags := by
      rw [hfl]; exact ⟨rfl, rfl, rfl, rfl, rfl, rfl⟩
    have hrun1 : __ntfsck_check_non_resident_attr env_shrink vol_10_12 (data_attr 11 4096 8192)
        ⟨0, 0⟩ 1 ⟨0, 0⟩ []
        = some { ret := STATUS_OK, vol := vol1, attr := data_attr 11 4096 8192,
                 rls := ⟨4096, 4096⟩, ctr := ⟨0, 0⟩, stdin := [] } := by
      have hd : (data_attr 11 4096 8192).rl = some [⟨0, 11, 1⟩, ⟨1, LCN_ENOENT, 0⟩] := rfl
      have ht : (data_attr 11 4096 8192).type = 128 := rfl
      have hn : (data_attr 11 4096 8192).need_fix = false := rfl
      have he1 : env_shrink.repair = fun l _ => l := rfl
      have he2 : env_shrink.cluster_size_bits = 12 := rfl
      simp only [__ntfsck_check_non_resident_attr, ntfsck_check_attr_runlist, hd, ht, hn, he1, he2,
        hrun]
      rfl
    have hattr : ntfsck_check_non_resident_attr env_shrink vol_10_12 (data_attr 11 4096 8192) 1
        ⟨0, 0⟩ []
        = some { ret := STATUS_OK, vol := vol1, attr := shrunk_attr,
                 rls := ⟨4096, 4096⟩, ctr := fsck_err_fixed (fsck_err_found ⟨0, 0⟩), stdin := [],
                 raised := true, new_size := some 0 } := by
      have hnr : (data_attr 11 4096 8192).non_resident = true := rfl
      simp only [ntfsck_check_non_resident_attr, hnr, Bool.not_true, Bool.false_eq_true, if_false,
        hrun1]
      have hm : env_shrink.is_metadata = false := rfl
      have hds : (data_attr 11 4096 8192).data_size = 4096 := rfl
      have has : (data_attr 11 4096 8192).allocated_size = 8192 := rfl
      have hlv : (data_attr 11 4096 8192).lowest_vcn = 0 := rfl
      have hne : (8192 : Int) ≠ 4096 ∨ (4096 : Int) > 8192 := Or.inl (by decide)
      simp only [hm, hds, has, hlv, ne_eq, not_true_eq_false, if_false, Bool.false_eq_true,
        if_pos hne]
      rw [ntfs_fix_problem_yes vol1 PR_ATTR_NON_RESIDENT_SIZES_MISMATCH ⟨14, 0⟩ _ _ rfl hyes]
      rfl
    have hc : env_shrink.ctx_ok = true := rfl
    have hpass1 : ntfsck_check_inode_non_resident env_shrink vol_10_12 [data_attr 11 4096 8192] 1
        ⟨0, 0⟩ []
        = some { ret := STATUS_OK, vol := vol1, attrs := [shrunk_attr],
                 ctr := fsck_err_fixed (fsck_err_found ⟨0, 0⟩), stdin := [] } := by
      have ha1 : (data_attr 11 4096 8192).non_resident = true := rfl
      have ha2 : ¬ (data_attr 11 4096 8192).type ≥ AT_FIRST_USER_DEFINED_ATTRIBUTE := by decide
      have ha3 : (data_attr 11 4096 8192).lowest_vcn = 0 := rfl
      have ha4 : (data_attr 11 4096 8192).opens = true := rfl
      simp only [ntfsck_check_inode_non_resident, hc, Bool.not_true, Bool.false_eq_true, if_false,
        inr_walk, ha1, if_neg ha2, ha3, ne_eq, not_true_eq_false, ha4, hattr]
      rfl
    have hwalk0 : check_runlist_walk 0 128 12 [] [⟨0, LCN_ENOENT, 0⟩] vol1 none 0 0
        = some { vol := vol1, rl := [⟨0, LCN_ENOENT, 0⟩], dup_rl := none, rl_alloc_size := 0,
                 rl_data_size := 0 } := by
      have c5 : (runlist_element.mk 0 LCN_ENOENT 0).length = 0 := rfl
      simp only [check_runlist_walk, c5, if_true]
      rfl
    have hal : aligned_data_size 0 4096 = 0 := by decide
    have hattr0 : ntfsck_check_non_resident_attr env_shrink vol1 shrunk_attr 0
        (fsck_err_fixed (fsck_err_found ⟨0, 0⟩)) []
        = some { ret := STATUS_OK, vol := vol1, attr := shrunk_attr, rls := ⟨0, 0⟩,
                 ctr := fsck_err_fixed (fsck_err_found ⟨0, 0⟩), stdin := [], raised := false,
                 new_size := none } := by
      have hnr : shrunk_attr.non_resident = true := rfl
      have hd : shrunk_attr.rl = some [⟨0, LCN_ENOENT, 0⟩] := rfl
      have ht : shrunk_attr.type = 128 := rfl
      have hn : shrunk_attr.need_fix = false := rfl
      have he1 : env_shrink.repair = fun l _ => l := rfl
      have he2 : env_shrink.cluster_size_bits = 12 := rfl
      have hm : env_shrink.is_metadata = false := rfl
      have hcs : env_shrink.cluster_size = 4096 := rfl
      have hds : shrunk_attr.data_size = 0 := rfl
      have has : shrunk_attr.allocated_size = 0 := rfl
      have hlv : shrunk_attr.lowest_vcn = 0 := rfl
      have hne : ¬ ((0 : Int) ≠ 0 ∨ (0 : Int) > 0) := by decide
      have hrun0 : __ntfsck_check_non_resident_attr env_shrink vol1 shrunk_attr ⟨0, 0⟩ 0
          (fsck_err_fixed (fsck_err_found ⟨0, 0⟩)) []
          = some { ret := STATUS_OK, vol := vol1, attr := shrunk_attr, rls := ⟨0, 0⟩,
                   ctr := fsck_err_fixed (fsck_err_found ⟨0, 0⟩), stdin := [] } := by
        simp only [__ntfsck_check_non_resident_attr, ntfsck_check_attr_runlist, hd, ht, hn, he1,
          he2, ntfsck_check_runlist, hwalk0]
        rfl
      simp only [ntfsck_check_non_resident_attr, hnr, Bool.not_true, Bool.false_eq_true, if_false,
        hrun0, ne_eq, not_true_eq_false, hm, hlv, hds, has, hcs, hal, le_refl, if_true, false_or,
        gt_iff_lt, lt_self_iff_false]
    have hroll : check_inode_err_out env_shrink vol1 [shrunk_attr]
        (fsck_err_fixed (fsck_err_found ⟨0, 0⟩)) []
        = some { ret := STATUS_ERROR, vol := vol1, attrs := [shrunk_attr],
                 ctr := fsck_err_fixed (fsck_err_found ⟨0, 0⟩), stdin := [] } :=
      check_inode_err_out_some _ _ _ _ _ _
        (check_inode_non_resident_single env_shrink vol1 shrunk_attr 0 _ _ _ rfl rfl rfl
          (by decide) rfl rfl hattr0 rfl)
    refine ⟨{ ret := STATUS_ERROR, vol := vol1, attrs := [shrunk_attr],
              ctr := fsck_err_fixed (fsck_err_found ⟨0, 0⟩), stdin := [] }, ?_, rfl, by decide, ?_⟩
    · have h0 : ¬ (STATUS_OK ≠ 0) := by decide
      have hlater : env_shrink.later vol1 [shrunk_attr] (fsck_err_fixed (fsck_err_found ⟨0, 0⟩)) []
          = { ok := false, vol := vol1, attrs := [shrunk_attr],
              ctr := fsck_err_fixed (fsck_err_found ⟨0, 0⟩), stdin := [] } := rfl
      simp only [ntfsck_check_inode, hpass1, if_neg h0, hlater, Bool.false_eq_true, if_false,
        hroll]
    · show fcb_bit vol1 11 = true
      rw [hbits 11]
      rfl
  · rcases check_nr_attr_fcb env_rm_bitmap vol_10_12_n (bitmap_attr 11) 1 (by decide) ⟨0, 0⟩ []
        mode_no_flags_n rfl
      with ⟨q, hq, q1, q2, q3, _, _, _, q7⟩ | ⟨_, hends⟩
    · refine ⟨{ ret := STATUS_ERROR, vol := q.vol, attrs := [], ctr := q.ctr, stdin := q.stdin },
        ?_, rfl, by decide, ?_⟩
      · have hc : env_rm_bitmap.ctx_ok = true := rfl
        have ha1 : (bitmap_attr 11).non_resident = true := rfl
        have ha2 : ¬ (bitmap_attr 11).type ≥ AT_FIRST_USER_DEFINED_ATTRIBUTE := by decide
        have ha3 : (bitmap_attr 11).lowest_vcn = 0 := rfl
        have ha4 : (bitmap_attr 11).opens = true := rfl
        have hq0 : ¬ (q.ret ≠ 0) := by
          rw [q1]; decide
        simp only [ntfsck_check_inode, ntfsck_check_inode_non_resident, hc, Bool.not_true,
          Bool.false_eq_true, if_false, inr_walk, ha1, if_neg ha2, ha3, ne_eq, not_true_eq_false,
          ha4, hq]
        rw [if_neg hq0, q2]
        rfl
      · show fcb_bit q.vol 11 = true
        have hcov := inode_cover_one_cluster 1000 11 (bitmap_attr 11) 11 (by decide)
          (by decide) (by norm_num) rfl (by decide) rfl rfl rfl
        have hw : walk_cover vol_10_12_n.nr_clusters [⟨0, 11, 1⟩, ⟨1, LCN_ENOENT, 0⟩] 11 = true := by
          have : inode_cover 1000 [bitmap_attr 11] 11 = true := by
            rw [hcov]; rfl
          simpa [inode_cover, bitmap_attr, AT_BITMAP, AT_FIRST_USER_DEFINED_ATTRIBUTE] using this
        have h7 := q7 11
        have hrl : (bitmap_attr 11).rl = some [⟨0, 11, 1⟩, ⟨1, LCN_ENOENT, 0⟩] := rfl
        rw [hrl] at h7
        dsimp only at h7
        rw [h7, if_pos hw]
        rfl
    · exact absurd hends (by decide)

/-- C17 (amended): `ntfsck_check_inode` in No mode (no repair is granted), with
checks between the two passes that, when they fail, leave the volume and the
attribute records as they are.  The call returns when `inode_ok` holds for the
records.  When the call fails, the rollback pass, which calls the bitmap engine
with the opposite bit, has cleared in the FCB every cluster of the runlists the
passes hand to the bitmap engine (`inode_cover`) and has left every other
cluster as it was before the call.  Hence the FCB after the failed call equals
the FCB before the call if and only if none of these clusters was set before
the call. -/
theorem check_inode_rollback (env : NrEnv) (attrs : List InoAttr) (vol : Volume) (ctr : Counters)
    (stdin : List String)
    (hno : mode_no vol.option_flags)
    (hl : ∀ v c s, (env.later v attrs c s).ok = false →
      (env.later v attrs c s).vol = v ∧ (env.later v attrs c s).attrs = attrs) :
    (inode_ok vol.nr_clusters vol.max_flb_cnt attrs = true →
      ∃ r, ntfsck_check_inode env vol attrs ctr stdin = some r) ∧
    ∀ r, ntfsck_check_inode env vol attrs ctr stdin = some r → r.ret = STATUS_ERROR →
      (∀ c : Nat, fcb_bit r.vol c =
        if (env.ctx_ok && inode_cover vol.nr_clusters attrs c) = true then false
        else fcb_bit vol c) ∧
      ((∀ c : Nat, fcb_bit r.vol c = fcb_bit vol c) ↔
        (∀ c : Nat, (env.ctx_ok && inode_cover vol.nr_clusters attrs c) = true →
          fcb_bit vol c = false)) := by
  have hne : STATUS_ERROR ≠ STATUS_OK := by decide
  rcases check_inode_fcb env attrs vol ctr stdin hno hl with ⟨r1, hr1, hcase⟩ | ⟨hnone, hends⟩
  · refine ⟨fun _ => ⟨r1, hr1⟩, fun r h hret => ?_⟩
    rw [h] at hr1
    cases hr1
    rcases hcase with ⟨hok, _⟩ | ⟨_, hfcb⟩
    · rw [hret] at hok
      exact absurd hok hne
    · refine ⟨hfcb, ⟨fun heq c hc => ?_, fun hfree c => ?_⟩⟩
      · rw [← heq c, hfcb c, if_pos hc]
      · rw [hfcb c]
        by_cases hc : (env.ctx_ok && inode_cover vol.nr_clusters attrs c) = true
        · rw [if_pos hc, hfree c hc]
        · rw [if_neg hc]
  · refine ⟨fun hok => ?_, fun r h _ => ?_⟩
    · rw [hok] at hends
      cases hends
    · rw [h] at hnone
      cases hnone

/-- Witness of `check_inode_rollback`: `ntfsck -n`, the clusters 10 and 12
claimed, and an inode whose `$DATA` attribute has the one free cluster 11; the
later checks fail, and the FCB after the call is the FCB before it. -/
theorem check_inode_rollback_witness :
    ∃ r, ntfsck_check_inode env_4096 vol_10_12_n [data_attr 11 4096 4096] ⟨0, 0⟩ [] = some r ∧
      r.ret = STATUS_ERROR ∧ ∀ c : Nat, fcb_bit r.vol c = fcb_bit vol_10_12_n c := by
  have hfree : ∀ c : Nat,
      (env_4096.ctx_ok && inode_cover vol_10_12_n.nr_clusters [data_attr 11 4096 4096] c) = true →
      fcb_bit vol_10_12_n c = false := by
    intro c hc
    have hcov := inode_cover_one_cluster 1000 11 (data_attr 11 4096 4096) c (by decide)
      (by decide) (by norm_num) rfl (by decide) rfl rfl rfl
    have h11 : c = 11 := by
      have hc' : inode_cover 1000 [data_attr 11 4096 4096] c = true := by
        simpa [env_4096] using hc
      rw [hcov] at hc'
      simp only [decide_eq_true_eq] at hc'
      omega
    rw [h11]
    decide
  rcases check_inode_fcb env_4096 [data_attr 11 4096 4096] vol_10_12_n ⟨0, 0⟩ []
      mode_no_flags_n (fun _ _ _ _ => ⟨rfl, rfl⟩)
    with ⟨r, hr, hcase⟩ | ⟨_, hends⟩
  · rcases hcase with ⟨_, _, _, _, hok⟩ | ⟨hret, _⟩
    · exact absurd hok (by simp [env_4096])
    · exact ⟨r, hr, hret,
        ((check_inode_rollback env_4096 [data_attr 11 4096 4096] vol_10_12_n ⟨0, 0⟩ []
          mode_no_flags_n (fun _ _ _ _ => ⟨rfl, rfl⟩)).2 r hr hret).2.2 hfree⟩
  · exact absurd hends (by decide)

end NTFSKFC
